import Mathlib

/-!
# MiniVSFS: image initializer (`mkfs_builder_completed.c`) and file insertion
(`mkfs_adder_completed.c`)

An image is the list of its bytes (`List Nat`, every byte below 256).  Packed C
structs are Lean structures together with their little-endian byte layout.
Machine integers are naturals with explicit wrap-around where the C arithmetic
can overflow; a C `int` result is an `Int`.
-/

namespace MiniVSFS

/-! ## Constants -/

/-- Block size `BS`. -/
def BS : Nat := 4096

/-- Size of one inode record `INODE_SIZE`. -/
def INODE_SIZE : Nat := 128

/-- Inode number of the root directory `ROOT_INO`. -/
def ROOT_INO : Nat := 1

/-- Number of direct pointers `DIRECT_MAX`. -/
def DIRECT_MAX : Nat := 12

/-- The magic constant stored in the superblock. -/
def MAGIC : Nat := 0x4D565346

/-! ## Little-endian integers and fixed-size arrays -/

/-- The `n` little-endian bytes of `v` (the value is taken modulo `256 ^ n`). -/
def le_bytes : Nat → Nat → List Nat
  | 0, _ => []
  | n + 1, v => (v % 256) :: le_bytes n (v / 256)

/-- The value of a little-endian byte string. -/
def le_val : List Nat → Nat
  | [] => 0
  | b :: bs => b + 256 * le_val bs

/-- The bytes `[off, off + n)` of a buffer (shorter if the buffer ends before). -/
def slice (buf : List Nat) (off n : Nat) : List Nat :=
  (buf.drop off).take n

/-- A list cut or zero-padded to exactly `n` elements: the contents of a C array of `n`
elements. -/
def fixN (n : Nat) (l : List Nat) : List Nat :=
  (l ++ List.replicate n 0).take n

/-- Conversion of an unsigned value to a 32-bit C `int` (two's complement truncation). -/
def to_int32 (v : Nat) : Int :=
  if v % 2 ^ 32 < 2 ^ 31 then ((v % 2 ^ 32 : Nat) : Int) else ((v % 2 ^ 32 : Nat) : Int) - 2 ^ 32

/-- Conversion of a C `int` to `uint64_t`. -/
def to_u64 (v : Int) : Nat :=
  (v % 2 ^ 64).toNat

/-- Conversion of a C `int` to `uint32_t`. -/
def to_u32 (v : Int) : Nat :=
  (v % 2 ^ 32).toNat

/-! ## CRC-32 -/

/-- One round of the inner loop of `crc32_init`:
`c = (c&1) ? (0xEDB88320u ^ (c>>1)) : (c>>1)`. -/
def crc32_round (c : Nat) : Nat :=
  if c &&& 1 ≠ 0 then 0xEDB88320 ^^^ (c >>> 1) else c >>> 1

/-- The table `CRC32_TAB` as filled by `crc32_init`: entry `i` is `i` after eight rounds. -/
def crc32_init : List Nat :=
  (List.range 256).map fun i => crc32_round^[8] i

/-- The global table `CRC32_TAB` after `crc32_init()` (both `main`s call it first). -/
def CRC32_TAB : List Nat := crc32_init

/-- The loop body of `crc32`: `c = CRC32_TAB[(c^p[i])&0xFF] ^ (c>>8)`. -/
def crc32_update (c b : Nat) : Nat :=
  CRC32_TAB.getD ((c ^^^ b) &&& 0xFF) 0 ^^^ (c >>> 8)

/-- The function `crc32(data, n)` on the `n` bytes `data`. -/
def crc32 (data : List Nat) : Nat :=
  data.foldl crc32_update 0xFFFFFFFF ^^^ 0xFFFFFFFF

/-! ## The packed records -/

/-- The record `superblock_t` (116 bytes, packed). -/
structure superblock_t where
  magic : Nat
  version : Nat
  block_size : Nat
  total_blocks : Nat
  inode_count : Nat
  inode_bitmap_start : Nat
  inode_bitmap_blocks : Nat
  data_bitmap_start : Nat
  data_bitmap_blocks : Nat
  inode_table_start : Nat
  inode_table_blocks : Nat
  data_region_start : Nat
  data_region_blocks : Nat
  root_inode : Nat
  mtime_epoch : Nat
  flags : Nat
  checksum : Nat
deriving DecidableEq

/-- The 116 bytes of a `superblock_t` in memory and on disk. -/
def superblock_t.bytes (sb : superblock_t) : List Nat :=
  le_bytes 4 sb.magic ++ le_bytes 4 sb.version ++ le_bytes 4 sb.block_size ++
  le_bytes 8 sb.total_blocks ++ le_bytes 8 sb.inode_count ++
  le_bytes 8 sb.inode_bitmap_start ++ le_bytes 8 sb.inode_bitmap_blocks ++
  le_bytes 8 sb.data_bitmap_start ++ le_bytes 8 sb.data_bitmap_blocks ++
  le_bytes 8 sb.inode_table_start ++ le_bytes 8 sb.inode_table_blocks ++
  le_bytes 8 sb.data_region_start ++ le_bytes 8 sb.data_region_blocks ++
  le_bytes 8 sb.root_inode ++ le_bytes 8 sb.mtime_epoch ++
  le_bytes 4 sb.flags ++ le_bytes 4 sb.checksum

/-- The `superblock_t` held by 116 bytes (`fread(&sb, sizeof(superblock_t), 1, fp)`). -/
def superblock_parse (b : List Nat) : superblock_t where
  magic := le_val (slice b 0 4)
  version := le_val (slice b 4 4)
  block_size := le_val (slice b 8 4)
  total_blocks := le_val (slice b 12 8)
  inode_count := le_val (slice b 20 8)
  inode_bitmap_start := le_val (slice b 28 8)
  inode_bitmap_blocks := le_val (slice b 36 8)
  data_bitmap_start := le_val (slice b 44 8)
  data_bitmap_blocks := le_val (slice b 52 8)
  inode_table_start := le_val (slice b 60 8)
  inode_table_blocks := le_val (slice b 68 8)
  data_region_start := le_val (slice b 76 8)
  data_region_blocks := le_val (slice b 84 8)
  root_inode := le_val (slice b 92 8)
  mtime_epoch := le_val (slice b 100 8)
  flags := le_val (slice b 108 4)
  checksum := le_val (slice b 112 4)

/-- The record `inode_t` (128 bytes, packed); `direct` is the array of 12 pointers. -/
structure inode_t where
  mode : Nat
  links : Nat
  uid : Nat
  gid : Nat
  size_bytes : Nat
  atime : Nat
  mtime : Nat
  ctime : Nat
  direct : List Nat
  reserved_0 : Nat
  reserved_1 : Nat
  reserved_2 : Nat
  proj_id : Nat
  uid16_gid16 : Nat
  xattr_ptr : Nat
  inode_crc : Nat
deriving DecidableEq

/-- The 128 bytes of an `inode_t`. -/
def inode_t.bytes (ino : inode_t) : List Nat :=
  le_bytes 2 ino.mode ++ le_bytes 2 ino.links ++ le_bytes 4 ino.uid ++ le_bytes 4 ino.gid ++
  le_bytes 8 ino.size_bytes ++ le_bytes 8 ino.atime ++ le_bytes 8 ino.mtime ++
  le_bytes 8 ino.ctime ++
  ((fixN 12 ino.direct).map (le_bytes 4)).flatten ++
  le_bytes 4 ino.reserved_0 ++ le_bytes 4 ino.reserved_1 ++ le_bytes 4 ino.reserved_2 ++
  le_bytes 4 ino.proj_id ++ le_bytes 4 ino.uid16_gid16 ++ le_bytes 8 ino.xattr_ptr ++
  le_bytes 8 ino.inode_crc

/-- The `inode_t` held by 128 bytes. -/
def inode_parse (b : List Nat) : inode_t where
  mode := le_val (slice b 0 2)
  links := le_val (slice b 2 2)
  uid := le_val (slice b 4 4)
  gid := le_val (slice b 8 4)
  size_bytes := le_val (slice b 12 8)
  atime := le_val (slice b 20 8)
  mtime := le_val (slice b 28 8)
  ctime := le_val (slice b 36 8)
  direct := (List.range 12).map fun i => le_val (slice b (44 + 4 * i) 4)
  reserved_0 := le_val (slice b 92 4)
  reserved_1 := le_val (slice b 96 4)
  reserved_2 := le_val (slice b 100 4)
  proj_id := le_val (slice b 104 4)
  uid16_gid16 := le_val (slice b 108 4)
  xattr_ptr := le_val (slice b 112 8)
  inode_crc := le_val (slice b 120 8)

/-- The record `dirent64_t` (64 bytes, packed); `typ` is the field `type`, `name` the
58-byte array. -/
structure dirent64_t where
  inode_no : Nat
  typ : Nat
  name : List Nat
  checksum : Nat
deriving DecidableEq

/-- The 64 bytes of a `dirent64_t`. -/
def dirent64_t.bytes (de : dirent64_t) : List Nat :=
  le_bytes 4 de.inode_no ++ le_bytes 1 de.typ ++ (fixN 58 de.name).map (· % 256) ++
  le_bytes 1 de.checksum

/-- The `dirent64_t` held by 64 bytes. -/
def dirent_parse (b : List Nat) : dirent64_t where
  inode_no := le_val (slice b 0 4)
  typ := le_val (slice b 4 1)
  name := slice b 5 58
  checksum := le_val (slice b 63 1)

/-! ## Checksum finalizers -/

/-- The function `superblock_crc_finalize`.  The C code passes the address of the 116-byte
record to `crc32` with length `BS - 4`, so the CRC runs over the record (checksum zeroed)
followed by the `BS - 4 - 116` bytes that lie behind it in memory; `mem` is that memory. -/
def superblock_crc_finalize (sb : superblock_t) (mem : List Nat) : superblock_t :=
  let sb0 := { sb with checksum := 0 }
  let s := crc32 ((sb0.bytes ++ mem).take (BS - 4))
  { sb0 with checksum := s }

/-- The function `inode_crc_finalize`: copy to `tmp`, zero `tmp[120..128)`, CRC over
`tmp[0..120)`, store as a 64-bit value. -/
def inode_crc_finalize (ino : inode_t) : inode_t :=
  let tmp := ino.bytes.take 120 ++ List.replicate 8 0
  let c := crc32 (tmp.take 120)
  { ino with inode_crc := c }

/-- The function `dirent_checksum_finalize`: XOR of the bytes 0..62. -/
def dirent_checksum_finalize (de : dirent64_t) : dirent64_t :=
  let x := (de.bytes.take 63).foldl (fun x b => x ^^^ b) 0
  { de with checksum := x }

/-! ## Files as byte lists -/

/-- The effect of `fseek(fp, off, SEEK_SET)` followed by `fread(buf, n, 1, fp)`: the `n`
bytes at `off`, or failure when the file ends before `off + n`. -/
def read_at (img : List Nat) (off n : Nat) : Option (List Nat) :=
  if off + n ≤ img.length then some (slice img off n) else none

/-- The effect of `fseek(fp, off, SEEK_SET)` followed by `fwrite(data, ..)` (also `memcpy`
into a buffer): the bytes at `off` are replaced; a write behind the end first fills the gap
with zero bytes. -/
def write_at (img : List Nat) (off : Nat) (data : List Nat) : List Nat :=
  img.take off ++ List.replicate (off - img.length) 0 ++ data ++ img.drop (off + data.length)

/-- The helper `read_block`: the offset `block_num * BS` is computed in 64 bits and `fseek`
rejects it when it is negative as an `off_t`. -/
def read_block (img : List Nat) (block_num : Nat) : Option (List Nat) :=
  let off := (block_num * BS) % 2 ^ 64
  if off < 2 ^ 63 then read_at img off BS else none

/-- The helper `write_block`. -/
def write_block (img : List Nat) (block_num : Nat) (buffer : List Nat) : Option (List Nat) :=
  let off := (block_num * BS) % 2 ^ 64
  if off < 2 ^ 63 then some (write_at img off buffer) else none

/-! ## The image initializer (`mkfs_builder_completed.c`, `main`) -/

/-- The ways the initializer exits with status 1 after its arguments are parsed. -/
inductive BuildErr where
  | no_image_file
  | size_range
  | inodes_range
  | size_multiple
  | insufficient_space
deriving DecidableEq

/-- Line 194: `uint64_t total_blocks = (size_kib * 1024) / BS` (the division is unsigned). -/
def builder_total_blocks (size_kib : Int) : Nat :=
  to_u32 (size_kib * 1024) / BS

/-- Line 200: `uint64_t inode_table_blocks = (inodes * INODE_SIZE + BS - 1) / BS`, computed
in `unsigned int`. -/
def builder_inode_table_blocks (inodes : Int) : Nat :=
  ((to_u32 inodes * INODE_SIZE + BS - 1) % 2 ^ 32) / BS

/-- Line 201: `data_region_start = inode_table_start + inode_table_blocks`. -/
def builder_data_region_start (inodes : Int) : Nat :=
  (3 + builder_inode_table_blocks inodes) % 2 ^ 64

/-- Line 202: `data_region_blocks = total_blocks - data_region_start` in `uint64_t`. -/
def builder_data_region_blocks (size_kib inodes : Int) : Nat :=
  (builder_total_blocks size_kib + 2 ^ 64 - builder_data_region_start inodes) % 2 ^ 64

/-- Lines 220-236: the superblock before its checksum is computed. -/
def builder_superblock (size_kib inodes : Int) (now : Nat) : superblock_t where
  magic := 0x4D565346
  version := 1
  block_size := BS
  total_blocks := builder_total_blocks size_kib
  inode_count := to_u64 inodes
  inode_bitmap_start := 1
  inode_bitmap_blocks := 1
  data_bitmap_start := 2
  data_bitmap_blocks := 1
  inode_table_start := 3
  inode_table_blocks := builder_inode_table_blocks inodes
  data_region_start := builder_data_region_start inodes
  data_region_blocks := builder_data_region_blocks size_kib inodes
  root_inode := ROOT_INO
  mtime_epoch := now
  flags := 0
  checksum := 0

/-- Lines 278-298: the root directory inode, checksum finalized. -/
def builder_root_inode (data_region_start now : Nat) : inode_t :=
  inode_crc_finalize
    { mode := 0o40755, links := 2, uid := 0, gid := 0, size_bytes := 2 * 64,
      atime := now, mtime := now, ctime := now,
      direct := (data_region_start % 2 ^ 32) :: List.replicate 11 0,
      reserved_0 := 0, reserved_1 := 0, reserved_2 := 0, proj_id := 2, uid16_gid16 := 0,
      xattr_ptr := 0, inode_crc := 0 }

/-- Lines 274-309: block `block` of the inode table. -/
def builder_inode_block (data_region_start now block : Nat) : List Nat :=
  if block = 0 then
    write_at (List.replicate BS 0) 0 (builder_root_inode data_region_start now).bytes
  else List.replicate BS 0

/-- Lines 315-319: the entry ".". -/
def dot_entry : dirent64_t :=
  dirent_checksum_finalize { inode_no := ROOT_INO, typ := 2, name := [0x2E], checksum := 0 }

/-- Lines 322-326: the entry "..". -/
def dotdot_entry : dirent64_t :=
  dirent_checksum_finalize
    { inode_no := ROOT_INO, typ := 2, name := [0x2E, 0x2E], checksum := 0 }

/-- Lines 312-330: the root directory block. -/
def root_dir_block : List Nat :=
  write_at (write_at (List.replicate BS 0) 0 dot_entry.bytes) 64 dotdot_entry.bytes

/-- Lines 241-346: the bytes written to the image file, in order. -/
def builder_image (size_kib inodes : Int) (now : Nat) (mem : List Nat) : List Nat :=
  let superblock := superblock_crc_finalize (builder_superblock size_kib inodes now) mem
  let inode_bitmap := (List.replicate BS 0).set 0 0x01
  let data_bitmap := (List.replicate BS 0).set 0 0x01
  superblock.bytes ++ List.replicate (BS - 116) 0 ++ inode_bitmap ++ data_bitmap ++
  ((List.range (builder_inode_table_blocks inodes)).map
    (builder_inode_block (builder_data_region_start inodes) now)).flatten ++
  root_dir_block ++
  (List.replicate (builder_data_region_blocks size_kib inodes - 1)
    (List.replicate BS 0)).flatten

/-- The function `main` of the initializer from line 174 on: `image_given` says whether
`--image` was passed, `now` is the result of `time(NULL)`, `mem` the memory behind the
local `superblock` (see `superblock_crc_finalize`).  Writes to the file never fail here. -/
def mkfs_builder (image_given : Bool) (size_kib inodes : Int) (now : Nat) (mem : List Nat) :
    Except BuildErr (List Nat) :=
  if !image_given then .error .no_image_file
  else if size_kib < 180 ∨ size_kib > 4096 then .error .size_range
  else if inodes < 128 ∨ inodes > 512 then .error .inodes_range
  else if size_kib % 4 ≠ 0 then .error .size_multiple
  else if builder_data_region_start inodes ≥ builder_total_blocks size_kib then
    .error .insufficient_space
  else .ok (builder_image size_kib inodes now mem)

/-! ## Allocator (`mkfs_adder_completed.c`) -/

/-- The scanning loop shared by `find_free_inode` and `find_free_data_block`:
`for (i = start; i < start + fuel; i++) if (!(bitmap[i/8] & (1 << (i%8)))) return i`.
The outer `none` is a read behind the end of the buffer `bitmap` (undefined in C), the
inner `none` a scan that found every bit set. -/
def first_clear_bit (bitmap : List Nat) : Nat → Nat → Option (Option Nat)
  | 0, _ => some none
  | fuel + 1, i =>
    match bitmap.get? (i / 8) with
    | none => none
    | some b =>
      if b &&& (1 <<< (i % 8)) = 0 then some (some i)
      else first_clear_bit bitmap fuel (i + 1)

/-- The function `find_free_inode`: the C `int` it returns (`-1` for an unreadable bitmap
block or no free inode), or `none` when the scan leaves the bitmap buffer. -/
def find_free_inode (img : List Nat) (sb : superblock_t) : Option Int :=
  match read_block img sb.inode_bitmap_start with
  | none => some (-1)
  | some bitmap =>
    match first_clear_bit bitmap sb.inode_count 0 with
    | none => none
    | some none => some (-1)
    | some (some i) => some (to_int32 (i + 1))

/-- The function `find_free_data_block`. -/
def find_free_data_block (img : List Nat) (sb : superblock_t) : Option Int :=
  match read_block img sb.data_bitmap_start with
  | none => some (-1)
  | some bitmap =>
    match first_clear_bit bitmap sb.data_region_blocks 0 with
    | none => none
    | some none => some (-1)
    | some (some i) => some (to_int32 (sb.data_region_start + i))

/-- The function `set_bit`; `none` when `bit_num / 8` lies behind the buffer. -/
def set_bit (bitmap : List Nat) (bit_num : Nat) : Option (List Nat) :=
  match bitmap.get? (bit_num / 8) with
  | none => none
  | some b => some (bitmap.set (bit_num / 8) ((b ||| (1 <<< (bit_num % 8))) % 256))

/-! ## Name lookup -/

/-- The C string that starts a buffer: the bytes before the first NUL. -/
def c_str (buf : List Nat) : List Nat :=
  buf.takeWhile (· ≠ 0)

/-- The test of `file_exists` on entry `j` of a directory block:
`entry->inode_no != 0 && strcmp(entry->name, filename) == 0`.  `strcmp` reads the stored
name up to its first NUL, which for a name field without NUL lies behind the field. -/
def entry_matches (block_data : List Nat) (filename : List Nat) (j : Nat) : Bool :=
  le_val (slice block_data (j * 64) 4) ≠ 0 ∧
    c_str (block_data.drop (j * 64 + 5)) = c_str filename

/-- The loop of `file_exists` over the direct pointers of the root inode. -/
def file_exists_blocks (img : List Nat) (filename : List Nat) : List Nat → Int
  | [] => 0
  | d :: ds =>
    if d = 0 then 0
    else
      match read_block img d with
      | none => -1
      | some block_data =>
        if (List.range (BS / 64)).any (entry_matches block_data filename) then 1
        else file_exists_blocks img filename ds

/-- Lines 179 and 429: the offset of the root inode,
`(sb->inode_table_start * BS) + ((ROOT_INO - 1) * INODE_SIZE)`. -/
def root_inode_offset (sb : superblock_t) : Nat :=
  (sb.inode_table_start * BS + (ROOT_INO - 1) * INODE_SIZE) % 2 ^ 64

/-- The function `file_exists`: `1` found, `0` not found, `-1` read error. -/
def file_exists (img : List Nat) (sb : superblock_t) (filename : List Nat) : Int :=
  if root_inode_offset sb < 2 ^ 63 then
    match read_at img (root_inode_offset sb) 128 with
    | none => -1
    | some b => file_exists_blocks img filename (inode_parse b).direct
  else -1

/-! ## File insertion (`mkfs_adder_completed.c`, `main`) -/

/-- The ways the insertion exits with status 1 once the input image is open; `undefined`
stands for an access behind a buffer, which C leaves undefined. -/
inductive AddErr where
  | cannot_read_superblock
  | invalid_magic
  | cannot_check_exists
  | already_exists
  | too_many_blocks
  | no_free_inode
  | no_free_data_block
  | io_error
  | directory_full
  | undefined
deriving DecidableEq

/-- What a successful insertion leaves: the output image and the values of the locals
`new_inode_num` and `file_blocks[0 .. blocks_needed)`. -/
structure AddSuccess where
  image : List Nat
  new_inode_num : Int
  file_blocks : List Nat
deriving DecidableEq

/-- A step of the insertion either fails, leaving the output image as it then is, or goes
on. -/
abbrev Step (α : Type) : Type := Except (AddErr × List Nat) α

/-- Line 306: `blocks_needed = (file_stat.st_size + BS - 1) / BS`. -/
def blocks_needed (st_size : Nat) : Nat :=
  (st_size + BS - 1) / BS

/-- Lines 322-331: `n` calls of `find_free_data_block` on the output image, which is not
written in between.  Inner `none`: a call returned `-1`. -/
def alloc_file_blocks (out : List Nat) (sb : superblock_t) : Nat → Option (Option (List Nat))
  | 0 => some (some [])
  | n + 1 =>
    match find_free_data_block out sb with
    | none => none
    | some block_num =>
      if block_num = -1 then some none
      else
        match alloc_file_blocks out sb n with
        | none => none
        | some none => some none
        | some (some rest) => some (some (to_u32 block_num :: rest))

/-- Lines 313-331: the choice of the inode number and of the data blocks. -/
def adder_allocate (out : List Nat) (sb : superblock_t) (n : Nat) : Step (Int × List Nat) :=
  match find_free_inode out sb with
  | none => .error (.undefined, out)
  | some new_inode_num =>
    if new_inode_num = -1 then .error (.no_free_inode, out)
    else
      match alloc_file_blocks out sb n with
      | none => .error (.undefined, out)
      | some none => .error (.no_free_data_block, out)
      | some (some file_blocks) => .ok (new_inode_num, file_blocks)

/-- Lines 356-358: `set_bit(data_bitmap, file_blocks[i] - sb.data_region_start)` for each
block. -/
def set_data_bits (data_region_start : Nat) : List Nat → List Nat → Option (List Nat)
  | bitmap, [] => some bitmap
  | bitmap, fb :: rest =>
    match set_bit bitmap ((fb + 2 ^ 64 - data_region_start) % 2 ^ 64) with
    | none => none
    | some bitmap2 => set_data_bits data_region_start bitmap2 rest

/-- Lines 333-363: both bitmaps are read, updated and written back. -/
def adder_mark_bitmaps (out : List Nat) (sb : superblock_t) (new_inode_num : Int)
    (file_blocks : List Nat) : Step (List Nat) :=
  match read_block out sb.inode_bitmap_start with
  | none => .error (.io_error, out)
  | some inode_bitmap =>
    match set_bit inode_bitmap (to_u64 (new_inode_num - 1)) with
    | none => .error (.undefined, out)
    | some inode_bitmap2 =>
      match write_block out sb.inode_bitmap_start inode_bitmap2 with
      | none => .error (.io_error, out)
      | some out1 =>
        match read_block out1 sb.data_bitmap_start with
        | none => .error (.io_error, out1)
        | some data_bitmap =>
          match set_data_bits sb.data_region_start data_bitmap file_blocks with
          | none => .error (.undefined, out1)
          | some data_bitmap2 =>
            match write_block out1 sb.data_bitmap_start data_bitmap2 with
            | none => .error (.io_error, out1)
            | some out2 => .ok out2

/-- Lines 366-380: the inode of the new file. -/
def new_inode (st_size now : Nat) (file_blocks : List Nat) : inode_t :=
  inode_crc_finalize
    { mode := 0o100000, links := 1, uid := 0, gid := 0, size_bytes := st_size,
      atime := now, mtime := now, ctime := now, direct := file_blocks,
      reserved_0 := 0, reserved_1 := 0, reserved_2 := 0, proj_id := 2, uid16_gid16 := 0,
      xattr_ptr := 0, inode_crc := 0 }

/-- Line 383: `(sb.inode_table_start * BS) + ((new_inode_num - 1) * INODE_SIZE)`, the second
product in `unsigned int`. -/
def inode_offset (sb : superblock_t) (new_inode_num : Int) : Nat :=
  (sb.inode_table_start * BS + (to_u32 (new_inode_num - 1) * INODE_SIZE) % 2 ^ 32) % 2 ^ 64

/-- Lines 382-393: the new inode is written to its slot. -/
def adder_write_inode (out : List Nat) (sb : superblock_t) (new_inode_num : Int)
    (ino : inode_t) : Step (List Nat) :=
  if inode_offset sb new_inode_num < 2 ^ 63 then
    .ok (write_at out (inode_offset sb new_inode_num) ino.bytes)
  else .error (.io_error, out)

/-- Lines 403-424: block `i` of the file goes to `file_blocks[i]`, the last one zero-padded;
the list argument is `file_blocks[i ..]`. -/
def copy_file_data (content : List Nat) : List Nat → Nat → List Nat → Step (List Nat)
  | out, _, [] => .ok out
  | out, i, fb :: rest =>
    let bytes_to_read :=
      if i = blocks_needed content.length - 1 then content.length - i * BS else BS
    let block_data := fixN BS (slice content (i * BS) bytes_to_read)
    match write_block out fb block_data with
    | none => .error (.io_error, out)
    | some out2 => copy_file_data content out2 (i + 1) rest

/-- The effect of `strncpy(dst, src, n)` on `dst[0 .. n)`. -/
def strncpy (src : List Nat) (n : Nat) : List Nat :=
  fixN n (c_str src)

/-- Lines 456-460: the entry found free is filled in and its checksum finalized. -/
def fill_entry (entry : dirent64_t) (new_inode_num : Int) (file_to_add : List Nat) :
    dirent64_t :=
  dirent_checksum_finalize
    { entry with
      inode_no := to_u32 new_inode_num, typ := 1, name := strncpy file_to_add 57 ++ [0] }

/-- Lines 452-470: the first entry of the block with `inode_no == 0`, if any. -/
def find_free_entry (block_data : List Nat) : Option Nat :=
  (List.range (BS / 64)).find? fun j => le_val (slice block_data (j * 64) 4) = 0

/-- Lines 443-471: the loop over the direct pointers of the root inode; the result is the
image with the entry added, or `none` when no block had a free entry. -/
def add_dirent (out : List Nat) (new_inode_num : Int) (file_to_add : List Nat) :
    List Nat → Step (Option (List Nat))
  | [] => .ok none
  | d :: ds =>
    if d = 0 then .ok none
    else
      match read_block out d with
      | none => .error (.io_error, out)
      | some block_data =>
        match find_free_entry block_data with
        | some j =>
          let entry := fill_entry (dirent_parse (slice block_data (j * 64) 64))
            new_inode_num file_to_add
          match write_block out d (write_at block_data (j * 64) entry.bytes) with
          | none => .error (.io_error, out)
          | some out1 => .ok (some out1)
        | none => add_dirent out new_inode_num file_to_add ds

/-- Lines 427-506: the root directory gets the new entry, then the root inode and the
superblock are updated, finalized and written. -/
def adder_link (out : List Nat) (sb : superblock_t) (new_inode_num : Int)
    (file_to_add : List Nat) (now : Nat) (mem : List Nat) : Step (List Nat) :=
  if root_inode_offset sb < 2 ^ 63 then
    match read_at out (root_inode_offset sb) 128 with
    | none => .error (.io_error, out)
    | some b =>
      let root_inode := inode_parse b
      match add_dirent out new_inode_num file_to_add root_inode.direct with
      | .error e => .error e
      | .ok none => .error (.directory_full, out)
      | .ok (some out1) =>
        let root_inode2 := inode_crc_finalize { root_inode with mtime := now, ctime := now }
        let out2 := write_at out1 (root_inode_offset sb) root_inode2.bytes
        let sb2 := superblock_crc_finalize { sb with mtime_epoch := now } mem
        .ok (write_at out2 0 sb2.bytes)
  else .error (.io_error, out)

/-- Lines 333-506: the writes to the output image once inode and blocks are chosen. -/
def adder_write (out : List Nat) (sb : superblock_t) (new_inode_num : Int)
    (file_blocks : List Nat) (file_to_add content : List Nat) (now : Nat) (mem : List Nat) :
    Step (List Nat) :=
  match adder_mark_bitmaps out sb new_inode_num file_blocks with
  | .error e => .error e
  | .ok out1 =>
    match adder_write_inode out1 sb new_inode_num
        (new_inode content.length now file_blocks) with
    | .error e => .error e
    | .ok out2 =>
      match copy_file_data content out2 0 file_blocks with
      | .error e => .error e
      | .ok out3 => adder_link out3 sb new_inode_num file_to_add now mem

/-- Lines 298-506: the work on the output image, a copy of the input image. -/
def adder_update (out : List Nat) (file_to_add content : List Nat) (now : Nat)
    (mem : List Nat) : Step AddSuccess :=
  match read_at out 0 116 with
  | none => .error (.cannot_read_superblock, out)
  | some b =>
    let sb := superblock_parse b
    if blocks_needed content.length > DIRECT_MAX then .error (.too_many_blocks, out)
    else
      match adder_allocate out sb (blocks_needed content.length) with
      | .error e => .error e
      | .ok (new_inode_num, file_blocks) =>
        match adder_write out sb new_inode_num file_blocks file_to_add content now mem with
        | .error e => .error e
        | .ok out4 => .ok ⟨out4, new_inode_num, file_blocks⟩

/-- The function `main` of the insertion from line 248 on.  `input` is the input image,
`file_to_add` the name given with `--file` and `content` the bytes of that (regular) host
file, `now` the result of `time(NULL)`, `mem` the memory behind the local `sb`.  The error
carries the output image when one was created. -/
def mkfs_adder (input : List Nat) (file_to_add content : List Nat) (now : Nat)
    (mem : List Nat) : Except (AddErr × Option (List Nat)) AddSuccess :=
  match read_at input 0 116 with
  | none => .error (.cannot_read_superblock, none)
  | some b =>
    let sb := superblock_parse b
    if sb.magic ≠ 0x4D565346 then .error (.invalid_magic, none)
    else if file_exists input sb file_to_add = -1 then .error (.cannot_check_exists, none)
    else if file_exists input sb file_to_add = 1 then .error (.already_exists, none)
    else
      match adder_update input file_to_add content now mem with
      | .ok r => .ok r
      | .error (e, out) => .error (e, some out)

/-! ## CRC-32 bit by bit (the reference the table-driven `crc32` is compared with) -/

/-- One bit of the reflected CRC-32 division: shift right by one bit and, when the bit
shifted out is 1, add (XOR) the polynomial 0xEDB88320. -/
def crc_bit_step (c : Nat) : Nat :=
  if c % 2 = 1 then (c / 2) ^^^ 0xEDB88320 else c / 2

/-- One byte of the bit-by-bit CRC-32: the byte is added to the low bits of the register,
then eight bit steps follow. -/
def crc_byte_step (c b : Nat) : Nat :=
  crc_bit_step^[8] (c ^^^ b)

/-- The standard reflected CRC-32, bit by bit: the register starts at 0xFFFFFFFF, takes the
bytes in order and is complemented (as a 32-bit word) at the end. -/
def crc32_bitwise (data : List Nat) : Nat :=
  0xFFFFFFFF - data.foldl crc_byte_step 0xFFFFFFFF

/-! ## Parts of records and accepted parameters -/

/-- The first 120 bytes of an inode record: every field but the checksum. -/
def inode_t.head (ino : inode_t) : List Nat :=
  le_bytes 2 ino.mode ++ le_bytes 2 ino.links ++ le_bytes 4 ino.uid ++ le_bytes 4 ino.gid ++
  le_bytes 8 ino.size_bytes ++ le_bytes 8 ino.atime ++ le_bytes 8 ino.mtime ++
  le_bytes 8 ino.ctime ++
  ((fixN 12 ino.direct).map (le_bytes 4)).flatten ++
  le_bytes 4 ino.reserved_0 ++ le_bytes 4 ino.reserved_1 ++ le_bytes 4 ino.reserved_2 ++
  le_bytes 4 ino.proj_id ++ le_bytes 4 ino.uid16_gid16 ++ le_bytes 8 ino.xattr_ptr

/-- The parameters the initializer accepts. -/
def valid_params (size_kib inodes : Int) : Prop :=
  180 ≤ size_kib ∧ size_kib ≤ 4096 ∧ size_kib % 4 = 0 ∧ 128 ≤ inodes ∧ inodes ≤ 512

instance (size_kib inodes : Int) : Decidable (valid_params size_kib inodes) := by
  unfold valid_params
  infer_instance

/-- The first 112 bytes of a superblock record: every field but the checksum. -/
def superblock_t.head (sb : superblock_t) : List Nat :=
  le_bytes 4 sb.magic ++ le_bytes 4 sb.version ++ le_bytes 4 sb.block_size ++
  le_bytes 8 sb.total_blocks ++ le_bytes 8 sb.inode_count ++
  le_bytes 8 sb.inode_bitmap_start ++ le_bytes 8 sb.inode_bitmap_blocks ++
  le_bytes 8 sb.data_bitmap_start ++ le_bytes 8 sb.data_bitmap_blocks ++
  le_bytes 8 sb.inode_table_start ++ le_bytes 8 sb.inode_table_blocks ++
  le_bytes 8 sb.data_region_start ++ le_bytes 8 sb.data_region_blocks ++
  le_bytes 8 sb.root_inode ++ le_bytes 8 sb.mtime_epoch ++
  le_bytes 4 sb.flags

/-! ## Notions used to state properties of images -/

/-- Bit `i` of a bitmap block is set (bytes behind the end count as zero). -/
def bit_set (bitmap : List Nat) (i : Nat) : Bool :=
  (bitmap.getD (i / 8) 0).testBit (i % 8)

/-- The number of set bits of a bitmap block. -/
def popcount (bitmap : List Nat) : Nat :=
  (List.range (8 * bitmap.length)).countP (bit_set bitmap)

/-- The layout numbers an image is checked against: number of inodes, first block and
number of blocks of the data region.  The inode table (from block 3) holds all inodes, the
bitmaps fit their blocks and the image is at most 4 GiB. -/
def geometry_ok (ic drs drb : Nat) : Prop :=
  ic ≤ 32768 ∧ ic * 128 ≤ (drs - 3) * 4096 ∧ 4 ≤ drs ∧ 1 ≤ drb ∧ drb ≤ 32768 ∧
    drs + drb ≤ 2 ^ 20

/-- The superblock fields the insertion reads have the values of the layout. -/
def superblock_ok (sb : superblock_t) (ic drs drb : Nat) : Prop :=
  sb.magic = 0x4D565346 ∧ sb.inode_count = ic ∧ sb.inode_bitmap_start = 1 ∧
    sb.data_bitmap_start = 2 ∧ sb.inode_table_start = 3 ∧ sb.data_region_start = drs ∧
    sb.data_region_blocks = drb

/-- The state of an image after `k` insertions into a fresh image of the given layout:
inodes `1 .. k+1` are marked in the inode bitmap, the root directory block is marked in the
data bitmap, the root inode points to the first data block only, and exactly the first
`k + 2` entries of the root directory block are in use. -/
structure image_inv (ic drs drb k : Nat) (img : List Nat) : Prop where
  length_eq : img.length = (drs + drb) * 4096
  superblock : superblock_ok (superblock_parse (slice img 0 116)) ic drs drb
  inode_bits : ∀ i, bit_set (slice img 4096 4096) i = true ↔ i ≤ k
  root_block_bit : bit_set (slice img 8192 4096) 0 = true
  root_direct : (inode_parse (slice img 12288 128)).direct = drs :: List.replicate 11 0
  entries : ∀ j, j < 64 → (le_val (slice img (drs * 4096 + j * 64) 4) = 0 ↔ k + 2 ≤ j)

/-- One run of the insertion program: the name and content of the host file, the time of
the run and the memory behind the local superblock. -/
structure host_file where
  name : List Nat
  content : List Nat
  now : Nat
  mem : List Nat

/-- The insertions of the files of a list one after another, each on the output image of the
one before; the result is the last image with the inode numbers the files got, in order, or
`none` when one of the insertions fails. -/
def insert_all (img : List Nat) : List host_file → Option (List Nat × List Int)
  | [] => some (img, [])
  | f :: fs =>
    match mkfs_adder img f.name f.content f.now f.mem with
    | .error _ => none
    | .ok r =>
      match insert_all r.image fs with
      | none => none
      | some (out, nums) => some (out, r.new_inode_num :: nums)

/-! ## The scenario: a file of 5000 bytes inserted into a fresh image -/

/-- The memory behind the local superblock in the runs of the scenario: 3976 zero bytes. -/
def scenario_mem : List Nat := List.replicate 3976 0

/-- The name "a.txt". -/
def scenario_name : List Nat := [0x61, 0x2E, 0x74, 0x78, 0x74]

/-- A file content of 5000 bytes. -/
def scenario_content : List Nat := List.replicate 5000 0x41

/-- The host file of the scenario, inserted at time 1. -/
def scenario_file : host_file := ⟨scenario_name, scenario_content, 1, scenario_mem⟩

/-! ## Inputs used to evaluate the allocator -/

/-- A superblock record whose data region is the one block `2^32 - 1`; the data bitmap is
block 2. -/
def wrap_sb : superblock_t :=
  { magic := 0x4D565346, version := 1, block_size := 4096, total_blocks := 4294967296,
    inode_count := 128, inode_bitmap_start := 1, inode_bitmap_blocks := 1,
    data_bitmap_start := 2, data_bitmap_blocks := 1, inode_table_start := 3,
    inode_table_blocks := 4, data_region_start := 4294967295, data_region_blocks := 1,
    root_inode := 1, mtime_epoch := 0, flags := 0, checksum := 0 }

/-! ## Reading the structures of an image -/

/-- The superblock record at the start of an image. -/
def image_sb (img : List Nat) : superblock_t :=
  superblock_parse (slice img 0 116)

/-- The record of inode number `a` (counted from 1) in the inode table of an image. -/
def inode_record (img : List Nat) (a : Nat) : inode_t :=
  inode_parse
    (slice img ((image_sb img).inode_table_start * BS + (a - 1) * INODE_SIZE) INODE_SIZE)

/-- Bit `i` of the inode bitmap of an image. -/
def inode_bit (img : List Nat) (i : Nat) : Bool :=
  bit_set (slice img ((image_sb img).inode_bitmap_start * BS) BS) i

/-- Bit `i` of the data bitmap of an image. -/
def data_bit (img : List Nat) (i : Nat) : Bool :=
  bit_set (slice img ((image_sb img).data_bitmap_start * BS) BS) i

/-- Inode number `a` is allocated: bit `a - 1` of the inode bitmap is set. -/
def inode_allocated (img : List Nat) (a : Nat) : Prop :=
  1 ≤ a ∧ inode_bit img (a - 1) = true

instance (img : List Nat) (a : Nat) : Decidable (inode_allocated img a) := by
  unfold inode_allocated
  infer_instance

/-- Entry `j` of the root directory block, the block `direct[0]` of the root inode. -/
def root_entry (img : List Nat) (j : Nat) : dirent64_t :=
  dirent_parse (slice img ((inode_record img ROOT_INO).direct.getD 0 0 * BS + j * 64) 64)

/-- The NUL-terminated name held by a directory entry. -/
def entry_name (de : dirent64_t) : List Nat :=
  c_str de.name

/-- The concatenation of the data blocks `direct[0 .. n)` of inode `a`. -/
def file_data (img : List Nat) (a n : Nat) : List Nat :=
  (((inode_record img a).direct.take n).map fun b => slice img (b * BS) BS).flatten

/-- The number of clear bits of the data bitmap in `[0, data_region_blocks)`. -/
def free_data_blocks (img : List Nat) : Nat :=
  (List.range (image_sb img).data_region_blocks).countP fun i => !data_bit img i

/-! ## The effect of a successful insertion -/

/-- The bytes of the image `out` after a successful insertion into `img`, an image in the
state for `k` files with data region at block `drs`, of a file whose blocks are all block
`drs + f`: the superblock and root inode records are rewritten with the time `now`, slot
`k + 1` of the inode table holds the new inode, entry `k + 2` of the root directory block
holds the new entry, block `drs + f` holds the last chunk of the file, and every other byte
outside the two bitmap blocks is as in `img`. -/
structure insert_effect (drs k f : Nat) (img name content : List Nat) (now : Nat)
    (mem : List Nat) (out : List Nat) : Prop where
  sb_bytes : slice out 0 116 =
    (superblock_crc_finalize { image_sb img with mtime_epoch := now } mem).bytes
  block0_rest : ∀ o m, 116 ≤ o → o + m ≤ 4096 → slice out o m = slice img o m
  root_bytes : slice out 12288 128 = (inode_crc_finalize
    { inode_parse (slice img 12288 128) with mtime := now, ctime := now }).bytes
  table_rest : ∀ o m, 12416 ≤ o → o + m ≤ drs * 4096 →
    (o + m ≤ 12288 + (k + 1) * 128 ∨ 12288 + (k + 2) * 128 ≤ o) →
    slice out o m = slice img o m
  inode_bytes : slice out (12288 + (k + 1) * 128) 128 = (new_inode content.length now
    (List.replicate (blocks_needed content.length) (drs + f))).bytes
  dir_rest : ∀ o m, (o + m ≤ (k + 2) * 64 ∨ (k + 3) * 64 ≤ o) → o + m ≤ 4096 →
    slice out (drs * 4096 + o) m = slice img (drs * 4096 + o) m
  entry_bytes : slice out (drs * 4096 + (k + 2) * 64) 64 =
    (fill_entry (dirent_parse (slice img (drs * 4096 + (k + 2) * 64) 64))
      ((k + 2 : Nat) : Int) name).bytes
  data_rest : ∀ b, drs + 1 ≤ b → (blocks_needed content.length = 0 ∨ b ≠ drs + f) →
    ∀ o m, o + m ≤ 4096 → slice out (b * 4096 + o) m = slice img (b * 4096 + o) m
  data_block : 0 < blocks_needed content.length → slice out ((drs + f) * 4096) 4096 =
    fixN 4096 (slice content ((blocks_needed content.length - 1) * 4096)
      (content.length - (blocks_needed content.length - 1) * 4096))

/-- The part of the state after `k` insertions that concerns references: directory entries
0 and 1 name inode 1 and entry `j` with `2 <= j < k + 2` names inode `j`; every non-zero
direct pointer of an allocated inode is a block of the data region whose bit is set; every
set bit of the data bitmap is the block of a direct pointer of an allocated inode; and no
block is a non-zero direct pointer of two different allocated inodes. -/
structure files_inv (drs k : Nat) (img : List Nat) : Prop where
  entry_inodes : ∀ j, j < 64 → le_val (slice img (drs * 4096 + j * 64) 4) =
    if j < 2 then 1 else if j < k + 2 then j else 0
  ptr_bits : ∀ a, 1 ≤ a → a ≤ k + 1 →
    ∀ x ∈ (inode_parse (slice img (12288 + (a - 1) * 128) 128)).direct, x ≠ 0 →
      drs ≤ x ∧ bit_set (slice img 8192 4096) (x - drs) = true
  bit_ptrs : ∀ i, bit_set (slice img 8192 4096) i = true →
    ∃ a, 1 ≤ a ∧ a ≤ k + 1 ∧
      drs + i ∈ (inode_parse (slice img (12288 + (a - 1) * 128) 128)).direct
  disjoint : ∀ a b, 1 ≤ a → a ≤ k + 1 → 1 ≤ b → b ≤ k + 1 → a ≠ b → ∀ x, x ≠ 0 →
    x ∈ (inode_parse (slice img (12288 + (a - 1) * 128) 128)).direct →
    x ∉ (inode_parse (slice img (12288 + (b - 1) * 128) 128)).direct

/-! ## Names in the root directory -/

/-- The NUL-terminated name an insertion stores for the host name `file_to_add`: the name
field is `strncpy(.., 57)` followed by the terminator at index 57, bytes taken modulo 256. -/
def stored_name (file_to_add : List Nat) : List Nat :=
  c_str ((fixN 58 (strncpy file_to_add 57 ++ [0])).map (· % 256))

/-- Entry `j` of the directory block `b` of an image. -/
def dir_entry_at (img : List Nat) (b j : Nat) : dirent64_t :=
  dirent_parse (slice img (b * BS + j * 64) 64)

/-- The names of the root directory in the state after `k` insertions: the name field of
each of the first `k + 2` entries holds a NUL, and the names they hold are `names`, in
order. -/
structure names_inv (drs k : Nat) (img : List Nat) (names : List (List Nat)) : Prop where
  count : names.length = k + 2
  terminated : ∀ j, j < k + 2 → 0 ∈ slice img (drs * 4096 + (j * 64 + 5)) 58
  stored : ∀ j, j < k + 2 →
    c_str (slice img (drs * 4096 + (j * 64 + 5)) 58) = names.getD j []

/-- No file of the list has a name (as a C string) that is in the directory when its turn
comes; `names` are the names in the directory before the first file. -/
def names_fresh : List (List Nat) → List host_file → Bool
  | _, [] => true
  | names, f :: fs =>
    !(decide (c_str f.name ∈ names)) && names_fresh (names ++ [stored_name f.name]) fs

/-- The number of files of a list that need at least one data block. -/
def nonempty_count (files : List host_file) : Nat :=
  files.countP fun f => decide (0 < blocks_needed f.content.length)

/-! ## Inputs of further runs -/

/-- A name of 58 bytes: 57 times "a", then "1". -/
def long_name_a : List Nat := List.replicate 57 0x61 ++ [0x31]

/-- A name of 58 bytes: 57 times "a", then "2". -/
def long_name_b : List Nat := List.replicate 57 0x61 ++ [0x32]

/-- A host file of one byte with the name `long_name_a`. -/
def long_file_a : host_file := ⟨long_name_a, [0x41], 1, scenario_mem⟩

/-- A host file of one byte with the name `long_name_b`. -/
def long_file_b : host_file := ⟨long_name_b, [0x42], 2, scenario_mem⟩

/-- 36 host files of one byte each, named by the single bytes 0x30 .. 0x53. -/
def fill_files : List host_file :=
  (List.range 36).map fun i => ⟨[0x30 + i], [0x41], 1, scenario_mem⟩

/-- A host file of 5000 bytes named "big". -/
def big_file : host_file := ⟨[0x62, 0x69, 0x67], scenario_content, 2, scenario_mem⟩

/-- A file content of 12 * 4096 = 49152 bytes. -/
def full_content : List Nat := List.replicate 49152 0x41

/-- 62 empty host files, named by the single bytes 0x30 .. 0x6D: as many as the root
directory block has entries behind "." and "..". -/
def dir_fill_files : List host_file :=
  (List.range 62).map fun i => ⟨[0x30 + i], [], 1, scenario_mem⟩

/-! ## Sizes of inodes -/

/-- The sizes and direct pointers in the state after `k` insertions: the root inode has
size 128, and the inode of every inserted file has a size of at most 12 blocks and a direct
array whose first `ceil(size_bytes / 4096)` pointers are one non-zero block number and whose
other pointers are 0. -/
def sizes_ok (k : Nat) (img : List Nat) : Prop :=
  (inode_parse (slice img 12288 128)).size_bytes = 128 ∧
    ∀ a, 2 ≤ a → a ≤ k + 1 → ∃ n x, x ≠ 0 ∧ n ≤ 12 ∧
      (inode_parse (slice img (12288 + (a - 1) * 128) 128)).size_bytes ≤ 12 * 4096 ∧
      n = ((inode_parse (slice img (12288 + (a - 1) * 128) 128)).size_bytes + 4095) / 4096 ∧
      (inode_parse (slice img (12288 + (a - 1) * 128) 128)).direct =
        List.replicate n x ++ List.replicate (12 - n) 0


/-! ## Runs of the insertion program one after another, failed runs included -/

/-- The image file a run of the insertion program leaves for the next run: the output image
when the run created one (a run that fails after the output file is created leaves it in
place), else the input image. -/
def run_image (img : List Nat) (f : host_file) : List Nat :=
  match mkfs_adder img f.name f.content f.now f.mem with
  | .ok r => r.image
  | .error (_, some out) => out
  | .error (_, none) => img

/-- The runs of the insertion program for the files of a list one after another, successful
or not, each on the image the run before left. -/
def run_all (img : List Nat) (files : List host_file) : List Nat :=
  files.foldl run_image img

/-! # Theorems -/

/-! ## Layout and parameter validation -/

theorem to_u32_of_small (n : Nat) (h : n < 2 ^ 32) : to_u32 (n : Int) = n := by
  unfold to_u32
  omega

theorem to_u64_of_small (n : Nat) (h : n < 2 ^ 64) : to_u64 (n : Int) = n := by
  unfold to_u64
  omega

theorem builder_total_blocks_eq (n : Nat) (h : n ≤ 4096) :
    builder_total_blocks (n : Int) = n / 4 := by
  unfold builder_total_blocks
  have : ((n : Int) * 1024) = ((n * 1024 : Nat) : Int) := by push_cast; rfl
  rw [this, to_u32_of_small _ (by omega)]
  simp only [BS]
  omega

theorem builder_inode_table_blocks_eq (n : Nat) (h : n ≤ 512) :
    builder_inode_table_blocks (n : Int) = (n * 128 + 4095) / 4096 := by
  unfold builder_inode_table_blocks
  rw [to_u32_of_small _ (by omega)]
  simp only [BS, INODE_SIZE]
  omega

theorem builder_data_region_start_eq (n : Nat) (h : n ≤ 512) :
    builder_data_region_start (n : Int) = 3 + (n * 128 + 4095) / 4096 := by
  unfold builder_data_region_start
  rw [builder_inode_table_blocks_eq n h]
  omega

theorem builder_data_region_blocks_eq (s n : Nat) (hs : 180 ≤ s) (hs2 : s ≤ 4096)
    (h : n ≤ 512) :
    builder_data_region_blocks (s : Int) (n : Int) = s / 4 - (3 + (n * 128 + 4095) / 4096) := by
  unfold builder_data_region_blocks
  rw [builder_data_region_start_eq n h, builder_total_blocks_eq s hs2]
  omega

/-- C1: for validated parameters the layout computed by the initializer satisfies
`data_region_start + data_region_blocks = total_blocks` and
`data_region_start < total_blocks`, so the capacity-error branch is not taken. -/
theorem layout_invariant (size_kib inodes : Int) (now : Nat) (mem : List Nat)
    (h1 : 180 ≤ size_kib) (h2 : size_kib ≤ 4096) (h3 : size_kib % 4 = 0)
    (h4 : 128 ≤ inodes) (h5 : inodes ≤ 512) :
    (builder_superblock size_kib inodes now).data_region_start +
        (builder_superblock size_kib inodes now).data_region_blocks =
      (builder_superblock size_kib inodes now).total_blocks ∧
    (builder_superblock size_kib inodes now).data_region_start <
      (builder_superblock size_kib inodes now).total_blocks ∧
    mkfs_builder true size_kib inodes now mem ≠ .error .insufficient_space := by
  lift size_kib to ℕ using (by omega)
  lift inodes to ℕ using (by omega)
  have hs1 : 180 ≤ size_kib := by omega
  have hs2 : size_kib ≤ 4096 := by omega
  have hi2 : inodes ≤ 512 := by omega
  have hi1 : 128 ≤ inodes := by omega
  have e1 := builder_total_blocks_eq size_kib hs2
  have e2 := builder_data_region_start_eq inodes hi2
  have e3 := builder_data_region_blocks_eq size_kib inodes hs1 hs2 hi2
  refine ⟨?_, ?_, ?_⟩
  · simp only [builder_superblock, e1, e2, e3]
    omega
  · simp only [builder_superblock, e1, e2]
    omega
  · unfold mkfs_builder
    have hlt : ¬ (builder_data_region_start (inodes : Int) ≥
        builder_total_blocks (size_kib : Int)) := by
      rw [e1, e2]; omega
    simp [hlt]
    split_ifs <;> simp

/-- Witness of C1 at `size_kib = 180`, `inodes = 128`. -/
theorem layout_invariant_witness :
    (builder_superblock 180 128 0).data_region_start +
        (builder_superblock 180 128 0).data_region_blocks =
      (builder_superblock 180 128 0).total_blocks ∧
    (builder_superblock 180 128 0).data_region_start <
      (builder_superblock 180 128 0).total_blocks ∧
    mkfs_builder true 180 128 0 [] ≠ .error .insufficient_space :=
  layout_invariant 180 128 0 [] (by decide) (by decide) (by decide) (by decide) (by decide)

theorem ceil_div_4096 (n : Nat) :
    (((n * 128 + 4095) / 4096 : Nat) : Int) = ⌈((n : Int) : ℚ) * 128 / 4096⌉ := by
  symm
  rw [Int.ceil_eq_iff]
  obtain ⟨q, hq⟩ : ∃ q, q = (n * 128 + 4095) / 4096 := ⟨_, rfl⟩
  rw [← hq]
  have h1 : q * 4096 ≤ n * 128 + 4095 := by omega
  have h2 : n * 128 + 4095 < (q + 1) * 4096 := by omega
  have h3 : n * 128 ≤ q * 4096 := by omega
  have h4 : (q : Int) * 4096 < n * 128 + 4096 := by omega
  constructor
  · rw [lt_div_iff₀ (by norm_num)]
    have : (((q : Int) * 4096 : Int) : ℚ) < ((n * 128 + 4096 : Int) : ℚ) := by exact_mod_cast h4
    push_cast at this ⊢
    linarith
  · rw [div_le_iff₀ (by norm_num)]
    have : ((n * 128 : Nat) : ℚ) ≤ ((q * 4096 : Nat) : ℚ) := by exact_mod_cast h3
    push_cast at this ⊢
    linarith

/-- C2: for validated parameters the superblock the initializer writes has
`total_blocks = size_kib*1024/4096`, the bitmaps in blocks 1 and 2 (one block each), the
inode table from block 3 with `ceil(inodes*128/4096)` blocks, the data region right behind
it up to the end; `size_kib = 180`, `inodes = 128` gives 45, 4, 7 and 38. -/
theorem layout_formula (size_kib inodes : Int) (now : Nat) (mem : List Nat)
    (sb : superblock_t)
    (hsb : sb = superblock_crc_finalize (builder_superblock size_kib inodes now) mem)
    (h1 : 180 ≤ size_kib) (h2 : size_kib ≤ 4096) (h3 : size_kib % 4 = 0)
    (h4 : 128 ≤ inodes) (h5 : inodes ≤ 512) :
    ((sb.total_blocks : Int) = size_kib * 1024 / 4096 ∧
      sb.inode_bitmap_start = 1 ∧ sb.data_bitmap_start = 2 ∧
      sb.inode_bitmap_blocks = 1 ∧ sb.data_bitmap_blocks = 1 ∧
      sb.inode_table_start = 3 ∧
      (sb.inode_table_blocks : Int) = ⌈(inodes : ℚ) * 128 / 4096⌉ ∧
      sb.data_region_start = 3 + sb.inode_table_blocks ∧
      sb.data_region_blocks = sb.total_blocks - sb.data_region_start) ∧
    ((superblock_crc_finalize (builder_superblock 180 128 now) mem).total_blocks = 45 ∧
      (superblock_crc_finalize (builder_superblock 180 128 now) mem).inode_table_blocks = 4 ∧
      (superblock_crc_finalize (builder_superblock 180 128 now) mem).data_region_start = 7 ∧
      (superblock_crc_finalize (builder_superblock 180 128 now) mem).data_region_blocks
        = 38) := by
  lift size_kib to ℕ using (by omega)
  lift inodes to ℕ using (by omega)
  have hs1 : 180 ≤ size_kib := by omega
  have hs2 : size_kib ≤ 4096 := by omega
  have hi2 : inodes ≤ 512 := by omega
  have e1 := builder_total_blocks_eq size_kib hs2
  have e0 := builder_inode_table_blocks_eq inodes hi2
  have e2 := builder_data_region_start_eq inodes hi2
  have e3 := builder_data_region_blocks_eq size_kib inodes hs1 hs2 hi2
  subst hsb
  refine ⟨⟨?_, rfl, rfl, rfl, rfl, rfl, ?_, ?_, ?_⟩, ?_, ?_, ?_, ?_⟩
  · simp only [superblock_crc_finalize, builder_superblock, e1]
    omega
  · simp only [superblock_crc_finalize, builder_superblock, e0]
    exact ceil_div_4096 inodes
  · simp only [superblock_crc_finalize, builder_superblock, e0, e2]
  · simp only [superblock_crc_finalize, builder_superblock, e1, e2, e3]
  · exact (builder_total_blocks_eq 180 (by omega)).trans (by norm_num)
  · exact (builder_inode_table_blocks_eq 128 (by omega)).trans (by norm_num)
  · exact (builder_data_region_start_eq 128 (by omega)).trans (by norm_num)
  · exact (builder_data_region_blocks_eq 180 128 (by omega) (by omega) (by omega)).trans
      (by norm_num)

/-- Witness of C2 at `size_kib = 180`, `inodes = 128`. -/
theorem layout_formula_witness :
    (((superblock_crc_finalize (builder_superblock 180 128 0) []).total_blocks : Int)
        = 180 * 1024 / 4096 ∧
      (superblock_crc_finalize (builder_superblock 180 128 0) []).data_region_start
        = 3 + (superblock_crc_finalize (builder_superblock 180 128 0) []).inode_table_blocks) ∧
    (superblock_crc_finalize (builder_superblock 180 128 0) []).data_region_blocks = 38 :=
  have h := layout_formula 180 128 0 [] _ rfl (by decide) (by decide) (by decide) (by decide)
    (by decide)
  ⟨⟨h.1.1, h.1.2.2.2.2.2.2.2.1⟩, h.2.2.2.2⟩
theorem layout_invariant_aux (size_kib inodes : Int)
    (h1 : 180 ≤ size_kib) (h2 : size_kib ≤ 4096) (h4 : 128 ≤ inodes) (h5 : inodes ≤ 512) :
    builder_data_region_start inodes < builder_total_blocks size_kib := by
  lift size_kib to ℕ using (by omega)
  lift inodes to ℕ using (by omega)
  rw [builder_total_blocks_eq size_kib (by omega), builder_data_region_start_eq inodes (by omega)]
  omega
/-- C7: with an image path given, the initializer produces an image exactly for
`180 <= size_kib <= 4096`, `size_kib % 4 == 0`, `128 <= inodes <= 512`; for all other
parameters it exits with one of the three configuration errors and no image. -/
theorem builder_validation (size_kib inodes : Int) (now : Nat) (mem : List Nat) :
    ((∃ img, mkfs_builder true size_kib inodes now mem = .ok img) ↔
      (180 ≤ size_kib ∧ size_kib ≤ 4096 ∧ size_kib % 4 = 0 ∧ 128 ≤ inodes ∧ inodes ≤ 512)) ∧
    (¬ (180 ≤ size_kib ∧ size_kib ≤ 4096 ∧ size_kib % 4 = 0 ∧ 128 ≤ inodes ∧ inodes ≤ 512) →
      mkfs_builder true size_kib inodes now mem = .error .size_range ∨
      mkfs_builder true size_kib inodes now mem = .error .inodes_range ∨
      mkfs_builder true size_kib inodes now mem = .error .size_multiple) := by
  by_cases hs : size_kib < 180 ∨ size_kib > 4096
  · have e : mkfs_builder true size_kib inodes now mem = .error .size_range := by
      simp [mkfs_builder, hs]
    rw [e]
    refine ⟨⟨fun ⟨_, h⟩ => (by cases h), fun h => (by omega)⟩, fun _ => Or.inl rfl⟩
  by_cases hi : inodes < 128 ∨ inodes > 512
  · have e : mkfs_builder true size_kib inodes now mem = .error .inodes_range := by
      simp [mkfs_builder, hs, hi]
    rw [e]
    refine ⟨⟨fun ⟨_, h⟩ => (by cases h), fun h => (by omega)⟩, fun _ => Or.inr (Or.inl rfl)⟩
  by_cases hm : size_kib % 4 ≠ 0
  · have e : mkfs_builder true size_kib inodes now mem = .error .size_multiple := by
      simp [mkfs_builder, hs, hi, hm]
    rw [e]
    refine ⟨⟨fun ⟨_, h⟩ => (by cases h), fun h => (by omega)⟩, fun _ => Or.inr (Or.inr rfl)⟩
  have hv : 180 ≤ size_kib ∧ size_kib ≤ 4096 ∧ size_kib % 4 = 0 ∧ 128 ≤ inodes ∧
      inodes ≤ 512 := by omega
  have hc : ¬ (builder_data_region_start inodes ≥ builder_total_blocks size_kib) := by
    have := (layout_invariant_aux size_kib inodes hv.1 hv.2.1 hv.2.2.2.1 hv.2.2.2.2)
    omega
  have e : mkfs_builder true size_kib inodes now mem =
      .ok (builder_image size_kib inodes now mem) := by
    simp [mkfs_builder, hs, hi, hm, hc]
  rw [e]
  exact ⟨⟨fun _ => hv, fun _ => ⟨_, rfl⟩⟩, fun h => absurd hv h⟩

/-! ## Bytes and little-endian integers -/

theorem le_bytes_length (n v : Nat) : (le_bytes n v).length = n := by
  induction n generalizing v with
  | zero => rfl
  | succ n ih => simp [le_bytes, ih]

theorem le_bytes_lt (n v : Nat) : ∀ b ∈ le_bytes n v, b < 256 := by
  induction n generalizing v with
  | zero => intro b hb; simp [le_bytes] at hb
  | succ n ih =>
    intro b hb
    simp only [le_bytes, List.mem_cons] at hb
    rcases hb with rfl | hb
    · omega
    · exact ih _ b hb

theorem le_val_le_bytes (n v : Nat) : le_val (le_bytes n v) = v % 256 ^ n := by
  induction n generalizing v with
  | zero => simp [le_bytes, le_val, Nat.mod_one]
  | succ n ih =>
    simp only [le_bytes, le_val, ih]
    rw [pow_succ, Nat.mul_comm (256 ^ n) 256, Nat.mod_mul]

theorem le_val_le_bytes_of_lt (n v : Nat) (h : v < 256 ^ n) : le_val (le_bytes n v) = v := by
  rw [le_val_le_bytes, Nat.mod_eq_of_lt h]

theorem fixN_length (n : Nat) (l : List Nat) : (fixN n l).length = n := by
  simp [fixN]

theorem xor_fold_lt (l : List Nat) (a : Nat) (ha : a < 256) (hl : ∀ b ∈ l, b < 256) :
    l.foldl (fun x b => x ^^^ b) a < 256 := by
  induction l generalizing a with
  | nil => simpa using ha
  | cons b l ih =>
    simp only [List.foldl_cons]
    apply ih
    · exact Nat.xor_lt_two_pow (n := 8) ha (hl b (by simp))
    · intro c hc
      exact hl c (by simp [hc])

/-- The first 63 bytes of a directory entry: number, type and name. -/
theorem dirent_bytes_take (de : dirent64_t) :
    de.bytes.take 63 =
      le_bytes 4 de.inode_no ++ le_bytes 1 de.typ ++ (fixN 58 de.name).map (· % 256) := by
  unfold dirent64_t.bytes
  apply List.take_left'
  simp [le_bytes_length, fixN_length]

theorem dirent_bytes_take_lt (de : dirent64_t) : ∀ b ∈ de.bytes.take 63, b < 256 := by
  rw [dirent_bytes_take]
  intro b hb
  simp only [List.mem_append, List.mem_map] at hb
  rcases hb with (hb | hb) | ⟨c, _, rfl⟩
  · exact le_bytes_lt _ _ b hb
  · exact le_bytes_lt _ _ b hb
  · omega

theorem dirent_bytes_length (de : dirent64_t) : de.bytes.length = 64 := by
  simp [dirent64_t.bytes, le_bytes_length, fixN_length]

theorem le_bytes_one (x : Nat) (hx : x < 256) : le_bytes 1 x = [x] := by
  simp [le_bytes, Nat.mod_eq_of_lt hx]

theorem dirent_finalize_bytes (de : dirent64_t) :
    (dirent_checksum_finalize de).bytes =
      de.bytes.take 63 ++ [(de.bytes.take 63).foldl (fun x b => x ^^^ b) 0] := by
  have hx := xor_fold_lt (de.bytes.take 63) 0 (by norm_num) (dirent_bytes_take_lt de)
  have e : (dirent_checksum_finalize de).bytes =
      le_bytes 4 de.inode_no ++ le_bytes 1 de.typ ++ (fixN 58 de.name).map (· % 256) ++
        le_bytes 1 ((de.bytes.take 63).foldl (fun x b => x ^^^ b) 0) := rfl
  rw [e, le_bytes_one _ hx, ← dirent_bytes_take]

theorem xor_fold_append_self (l : List Nat) :
    (l ++ [l.foldl (fun x b => x ^^^ b) 0]).foldl (fun x b => x ^^^ b) 0 = 0 := by
  simp [List.foldl_append]

/-! ## Reading and writing byte ranges -/

theorem slice_getElem? (buf : List Nat) (off n i : Nat) :
    (slice buf off n)[i]? = if i < n then buf[off + i]? else none := by
  unfold slice
  rw [List.getElem?_take]
  split_ifs with h
  · rw [List.getElem?_drop]
  · rfl

theorem slice_length (buf : List Nat) (off n : Nat) (h : off + n ≤ buf.length) :
    (slice buf off n).length = n := by
  unfold slice
  simp
  omega

theorem write_at_length (img : List Nat) (off : Nat) (data : List Nat)
    (h : off + data.length ≤ img.length) : (write_at img off data).length = img.length := by
  unfold write_at
  simp
  omega

theorem write_at_getElem? (img : List Nat) (off : Nat) (data : List Nat)
    (h : off + data.length ≤ img.length) (i : Nat) :
    (write_at img off data)[i]? =
      if off ≤ i ∧ i < off + data.length then data[i - off]? else img[i]? := by
  unfold write_at
  have h0 : off - img.length = 0 := by omega
  rw [h0]
  simp only [List.replicate_zero, List.append_nil]
  by_cases h1 : i < off
  · rw [List.append_assoc, List.getElem?_append_left (by simp; omega)]
    rw [List.getElem?_take_of_lt h1]
    simp [show ¬ (off ≤ i) by omega]
  · have hl : (List.take off img).length = off := by simp; omega
    rw [List.append_assoc, List.getElem?_append_right (by omega), hl]
    by_cases h2 : i < off + data.length
    · rw [List.getElem?_append_left (by omega)]
      simp [show off ≤ i by omega, h2]
    · rw [List.getElem?_append_right (by omega), List.getElem?_drop]
      simp only [show ¬ (off ≤ i ∧ i < off + data.length) by omega, if_false]
      congr 1
      omega

theorem slice_write_at_same (img : List Nat) (off : Nat) (data : List Nat)
    (h : off + data.length ≤ img.length) :
    slice (write_at img off data) off data.length = data := by
  apply List.ext_getElem?
  intro i
  rw [slice_getElem?, write_at_getElem? _ _ _ h]
  by_cases hi : i < data.length
  · simp [hi]
  · simp only [hi, if_false]
    rw [List.getElem?_eq_none (by omega)]

theorem slice_write_at_disjoint (img : List Nat) (off : Nat) (data : List Nat)
    (h : off + data.length ≤ img.length) (o n : Nat)
    (hd : o + n ≤ off ∨ off + data.length ≤ o) :
    slice (write_at img off data) o n = slice img o n := by
  apply List.ext_getElem?
  intro i
  rw [slice_getElem?, slice_getElem?, write_at_getElem? _ _ _ h]
  by_cases hi : i < n
  · simp only [hi, if_true]
    rw [if_neg (by omega)]
  · simp [hi]

theorem read_at_eq_some (img : List Nat) (off n : Nat) (h : off + n ≤ img.length) :
    read_at img off n = some (slice img off n) := by
  simp [read_at, h]

theorem slice_slice (buf : List Nat) (off n o m : Nat) (h : o + m ≤ n) :
    slice (slice buf off n) o m = slice buf (off + o) m := by
  apply List.ext_getElem?
  intro i
  simp only [slice_getElem?]
  by_cases hi : i < m
  · simp only [hi, if_true]
    rw [if_pos (by omega), Nat.add_assoc]
  · simp [hi]

theorem slice_eq_of_getElem? (a b : List Nat) (o n : Nat)
    (h : ∀ i, i < n → a[o + i]? = b[o + i]?) : slice a o n = slice b o n := by
  apply List.ext_getElem?
  intro i
  simp only [slice_getElem?]
  by_cases hi : i < n
  · simp [hi, h i hi]
  · simp [hi]
/-- C5: after `dirent_checksum_finalize` byte 63 of the 64-byte entry is the XOR of its bytes
0..62, so the XOR of all 64 bytes is 0; the entries "." and ".." of a fresh image carry the
checksums 0x2D and 0x03. -/
theorem dirent_checksum_xor (de : dirent64_t) :
    ((dirent_checksum_finalize de).bytes.length = 64 ∧
      (dirent_checksum_finalize de).bytes.getD 63 0 =
        ((dirent_checksum_finalize de).bytes.take 63).foldl (fun x b => x ^^^ b) 0 ∧
      (dirent_checksum_finalize de).bytes.foldl (fun x b => x ^^^ b) 0 = 0) ∧
    (dot_entry.bytes.getD 63 0 = 0x2D ∧ dotdot_entry.bytes.getD 63 0 = 0x03 ∧
      root_dir_block.getD 63 0 = 0x2D ∧ root_dir_block.getD 127 0 = 0x03) := by
  have hlen : (de.bytes.take 63).length = 63 := by
    simp [dirent_bytes_length]
  refine ⟨⟨dirent_bytes_length _, ?_, ?_⟩, ?_⟩
  · rw [dirent_finalize_bytes, List.take_left' hlen]
    rw [List.getD_eq_getElem?_getD, List.getElem?_append_right (by omega)]
    simp [hlen]
  · rw [dirent_finalize_bytes]
    exact xor_fold_append_self _
  · have hz : (List.replicate BS 0).length = 4096 := List.length_replicate _ _
    have h1 : (write_at (List.replicate BS 0) 0 dot_entry.bytes).length = 4096 := by
      rw [write_at_length _ _ _ (by rw [dirent_bytes_length, hz]; omega), hz]
    have d1 : dot_entry.bytes.getD 63 0 = 0x2D := by decide
    have d2 : dotdot_entry.bytes.getD 63 0 = 0x03 := by decide
    refine ⟨d1, d2, ?_, ?_⟩
    · rw [List.getD_eq_getElem?_getD] at d1 ⊢
      rw [root_dir_block, write_at_getElem? _ _ _ (by rw [dirent_bytes_length, h1]; omega),
        if_neg (by omega),
        write_at_getElem? _ _ _ (by rw [dirent_bytes_length, hz]; omega),
        if_pos (by rw [dirent_bytes_length]; omega)]
      exact d1
    · rw [List.getD_eq_getElem?_getD] at d2 ⊢
      rw [root_dir_block, write_at_getElem? _ _ _ (by rw [dirent_bytes_length, h1]; omega),
        if_pos (by rw [dirent_bytes_length]; omega)]
      exact d2

/-! ## CRC-32: the table-driven code against the bit-by-bit definition -/

theorem crc32_round_eq (c : Nat) : crc32_round c = crc_bit_step c := by
  unfold crc32_round crc_bit_step
  rw [Nat.and_one_is_mod, Nat.shiftRight_eq_div_pow, Nat.xor_comm]
  have : c % 2 = 0 ∨ c % 2 = 1 := by omega
  rcases this with h | h <;> simp [h]

theorem crc32_round_testBit (x i : Nat) :
    (crc32_round x).testBit i =
      xor (x.testBit (i + 1)) (x.testBit 0 && (0xEDB88320 : Nat).testBit i) := by
  unfold crc32_round
  rw [Nat.and_one_is_mod]
  have h0 : x.testBit 0 = decide (x % 2 = 1) := Nat.testBit_zero x
  by_cases h : x % 2 = 1
  · rw [if_pos (by omega), Nat.testBit_xor, Nat.testBit_shiftRight, h0]
    simp [h, Bool.xor_comm, Nat.add_comm]
  · rw [if_neg (by omega), Nat.testBit_shiftRight, h0]
    simp [h, Nat.add_comm]

theorem crc32_round_xor (x y : Nat) :
    crc32_round (x ^^^ y) = crc32_round x ^^^ crc32_round y := by
  apply Nat.eq_of_testBit_eq
  intro i
  simp only [crc32_round_testBit, Nat.testBit_xor]
  cases x.testBit (i + 1) <;> cases y.testBit (i + 1) <;> cases x.testBit 0 <;>
    cases y.testBit 0 <;> cases (0xEDB88320 : Nat).testBit i <;> rfl

theorem crc32_round_iter_xor (k x y : Nat) :
    crc32_round^[k] (x ^^^ y) = crc32_round^[k] x ^^^ crc32_round^[k] y := by
  induction k generalizing x y with
  | zero => rfl
  | succ k ih =>
    simp only [Function.iterate_succ_apply]
    rw [crc32_round_xor, ih]

theorem crc32_round_double (z : Nat) : crc32_round (2 * z) = z := by
  unfold crc32_round
  rw [Nat.and_one_is_mod, if_neg (by omega), Nat.shiftRight_eq_div_pow]
  omega

theorem crc32_round_iter_shift (k z : Nat) : crc32_round^[k] (2 ^ k * z) = z := by
  induction k generalizing z with
  | zero => simp
  | succ k ih =>
    rw [Function.iterate_succ_apply, pow_succ, Nat.mul_comm (2 ^ k) 2, Nat.mul_assoc,
      crc32_round_double, ih]

theorem split_low_byte (x : Nat) : x = (x % 256) ^^^ (2 ^ 8 * (x / 256)) := by
  apply Nat.eq_of_testBit_eq
  intro i
  rw [Nat.testBit_xor, show (256 : Nat) = 2 ^ 8 by norm_num, Nat.testBit_mod_two_pow,
    Nat.testBit_mul_pow_two, ← Nat.shiftRight_eq_div_pow, Nat.testBit_shiftRight]
  by_cases h : i < 8
  · simp [h, show ¬ (8 ≤ i) by omega]
  · have : 8 + (i - 8) = i := by omega
    simp [h, show 8 ≤ i by omega, this]

theorem crc32_round_iter8 (x : Nat) :
    crc32_round^[8] x = crc32_round^[8] (x % 256) ^^^ (x / 256) := by
  conv_lhs => rw [split_low_byte x]
  rw [crc32_round_iter_xor, crc32_round_iter_shift]

theorem crc32_tab_getD (i : Nat) (h : i < 256) : CRC32_TAB.getD i 0 = crc32_round^[8] i := by
  unfold CRC32_TAB crc32_init
  rw [List.getD_eq_getElem?_getD, List.getElem?_map, List.getElem?_range h]
  rfl

theorem xor_byte_div (c b : Nat) (hb : b < 256) : (c ^^^ b) / 256 = c / 256 := by
  rw [show (256 : Nat) = 2 ^ 8 by norm_num]
  apply Nat.eq_of_testBit_eq
  intro i
  rw [← Nat.shiftRight_eq_div_pow, ← Nat.shiftRight_eq_div_pow, Nat.testBit_shiftRight,
    Nat.testBit_shiftRight, Nat.testBit_xor]
  have : b.testBit (8 + i) = false := by
    apply Nat.testBit_lt_two_pow
    calc b < 2 ^ 8 := by omega
      _ ≤ 2 ^ (8 + i) := Nat.pow_le_pow_right (by norm_num) (by omega)
  simp [this]

theorem crc32_update_eq (c b : Nat) (hb : b < 256) : crc32_update c b = crc_byte_step c b := by
  unfold crc32_update crc_byte_step
  have hfun : crc_bit_step = crc32_round := by
    funext x; exact (crc32_round_eq x).symm
  rw [hfun, crc32_round_iter8 (c ^^^ b), xor_byte_div c b hb]
  have hand : (c ^^^ b) &&& 0xFF = (c ^^^ b) % 256 :=
    Nat.and_pow_two_sub_one_eq_mod (c ^^^ b) 8
  rw [hand, crc32_tab_getD _ (Nat.mod_lt _ (by norm_num)), Nat.shiftRight_eq_div_pow]

theorem crc32_fold_eq (data : List Nat) (c : Nat) (h : ∀ b ∈ data, b < 256) :
    data.foldl crc32_update c = data.foldl crc_byte_step c := by
  induction data generalizing c with
  | nil => rfl
  | cons b bs ih =>
    simp only [List.foldl_cons]
    rw [crc32_update_eq c b (h b (by simp))]
    exact ih _ (fun x hx => h x (by simp [hx]))

theorem crc32_round_lt (c : Nat) (h : c < 2 ^ 32) : crc32_round c < 2 ^ 32 := by
  unfold crc32_round
  have h1 : c >>> 1 < 2 ^ 32 := by
    rw [Nat.shiftRight_eq_div_pow]; omega
  split_ifs
  · exact Nat.xor_lt_two_pow (by norm_num) h1
  · exact h1

theorem crc32_round_iter_lt (k c : Nat) (h : c < 2 ^ 32) : crc32_round^[k] c < 2 ^ 32 := by
  induction k generalizing c with
  | zero => simpa using h
  | succ k ih =>
    rw [Function.iterate_succ_apply]
    exact ih _ (crc32_round_lt c h)

theorem crc32_tab_lt (i : Nat) : CRC32_TAB.getD i 0 < 2 ^ 32 := by
  by_cases h : i < 256
  · rw [crc32_tab_getD i h]
    exact crc32_round_iter_lt 8 i (by omega)
  · rw [List.getD_eq_getElem?_getD, List.getElem?_eq_none (by
      simp [CRC32_TAB, crc32_init]; omega)]
    simp

theorem crc32_update_lt (c b : Nat) (h : c < 2 ^ 32) : crc32_update c b < 2 ^ 32 := by
  unfold crc32_update
  apply Nat.xor_lt_two_pow (crc32_tab_lt _)
  rw [Nat.shiftRight_eq_div_pow]
  omega

theorem crc32_fold_lt (data : List Nat) (c : Nat) (h : c < 2 ^ 32) :
    data.foldl crc32_update c < 2 ^ 32 := by
  induction data generalizing c with
  | nil => simpa using h
  | cons b bs ih => exact ih _ (crc32_update_lt c b h)

theorem xor_ones_eq_sub (x : Nat) (h : x < 2 ^ 32) : x ^^^ 0xFFFFFFFF = 0xFFFFFFFF - x := by
  have e : (0xFFFFFFFF : Nat) - x = 2 ^ 32 - (x + 1) := by omega
  rw [e]
  apply Nat.eq_of_testBit_eq
  intro i
  rw [Nat.testBit_xor, Nat.testBit_two_pow_sub_succ h,
    show (0xFFFFFFFF : Nat) = 2 ^ 32 - 1 by norm_num, Nat.testBit_two_pow_sub_one]
  by_cases hi : i < 32
  · simp [hi]
  · have : x.testBit i = false := by
      apply Nat.testBit_lt_two_pow
      calc x < 2 ^ 32 := h
        _ ≤ 2 ^ i := Nat.pow_le_pow_right (by norm_num) (by omega)
    simp [hi, this]

theorem crc32_lt (data : List Nat) : crc32 data < 2 ^ 32 := by
  unfold crc32
  exact Nat.xor_lt_two_pow (crc32_fold_lt data _ (by norm_num)) (by norm_num)

/-- C6: on every sequence of bytes the table-driven `crc32` (table filled by `crc32_init`)
equals the reflected CRC-32 computed bit by bit with polynomial 0xEDB88320, start value
0xFFFFFFFF and final complement; the empty sequence gives 0 and "123456789" gives
0xCBF43926. -/
theorem crc32_table_eq_bitwise (data : List Nat) (h : ∀ b ∈ data, b < 256) :
    crc32 data = crc32_bitwise data ∧ crc32 [] = 0 ∧
      crc32 [0x31, 0x32, 0x33, 0x34, 0x35, 0x36, 0x37, 0x38, 0x39] = 0xCBF43926 := by
  refine ⟨?_, by decide, by decide⟩
  unfold crc32 crc32_bitwise
  rw [← crc32_fold_eq data _ h]
  exact xor_ones_eq_sub _ (crc32_fold_lt data _ (by norm_num))

/-- Witness of C6 on the bytes of "a". -/
theorem crc32_table_eq_bitwise_witness :
    crc32 [0x61] = crc32_bitwise [0x61] ∧ crc32 [] = 0 ∧
      crc32 [0x31, 0x32, 0x33, 0x34, 0x35, 0x36, 0x37, 0x38, 0x39] = 0xCBF43926 :=
  crc32_table_eq_bitwise [0x61] (by decide)

/-! ## Inode records -/

theorem le_bytes_append (m n v : Nat) :
    le_bytes (m + n) v = le_bytes m v ++ le_bytes n (v / 256 ^ m) := by
  induction m generalizing v with
  | zero => simp [le_bytes]
  | succ m ih =>
    rw [show m + 1 + n = (m + n) + 1 by omega]
    simp only [le_bytes, List.cons_append, ih]
    rw [Nat.div_div_eq_div_mul, pow_succ, Nat.mul_comm]

theorem le_bytes8_of_lt (c : Nat) (h : c < 2 ^ 32) :
    le_bytes 8 c = le_bytes 4 c ++ [0, 0, 0, 0] := by
  rw [show (8 : Nat) = 4 + 4 by rfl, le_bytes_append]
  have : c / 256 ^ 4 = 0 := Nat.div_eq_of_lt (by norm_num at h ⊢; exact h)
  rw [this]
  rfl

theorem direct_bytes_length (l : List Nat) :
    ((fixN 12 l).map (le_bytes 4)).flatten.length = 48 := by
  have h : ∀ (xs : List Nat), ((xs.map (le_bytes 4)).flatten).length = 4 * xs.length := by
    intro xs
    induction xs with
    | nil => rfl
    | cons x xs ih =>
      simp only [List.map_cons, List.flatten_cons, List.length_append, le_bytes_length, ih,
        List.length_cons]
      omega
  rw [h, fixN_length]

theorem inode_head_length (ino : inode_t) : ino.head.length = 120 := by
  simp only [inode_t.head, List.length_append, le_bytes_length, direct_bytes_length]

theorem inode_bytes_eq (ino : inode_t) : ino.bytes = ino.head ++ le_bytes 8 ino.inode_crc :=
  rfl

theorem inode_bytes_length (ino : inode_t) : ino.bytes.length = 128 := by
  rw [inode_bytes_eq, List.length_append, inode_head_length, le_bytes_length]

theorem inode_bytes_take (ino : inode_t) : ino.bytes.take 120 = ino.head := by
  rw [inode_bytes_eq]
  exact List.take_left' (inode_head_length ino)

theorem inode_finalize_bytes (ino : inode_t) :
    (inode_crc_finalize ino).bytes =
      ino.head ++ (le_bytes 4 (crc32 ino.head) ++ [0, 0, 0, 0]) := by
  have e : (inode_crc_finalize ino).bytes =
      ino.head ++ le_bytes 8 (crc32 ((ino.bytes.take 120 ++ List.replicate 8 0).take 120)) :=
    rfl
  rw [e, inode_bytes_take, List.take_left' (inode_head_length ino),
    le_bytes8_of_lt _ (crc32_lt _)]

theorem slice_append_left (a b : List Nat) (o n : Nat) (h : o + n ≤ a.length) :
    slice (a ++ b) o n = slice a o n := by
  apply List.ext_getElem?
  intro i
  simp only [slice_getElem?]
  by_cases hi : i < n
  · simp only [hi, if_true]
    rw [List.getElem?_append_left (by omega)]
  · simp [hi]

theorem slice_append_right (a b : List Nat) (k o n : Nat) (hk : a.length = k) :
    slice (a ++ b) (k + o) n = slice b o n := by
  subst hk
  unfold slice
  rw [List.drop_append]

theorem slice_all (a : List Nat) (n : Nat) (h : a.length = n) : slice a 0 n = a := by
  unfold slice
  rw [List.drop_zero, List.take_of_length_le (by omega)]

/-- A finalized inode record verifies: bytes 120..123 hold the CRC-32 of bytes 0..119 and
bytes 124..127 are zero. -/
theorem inode_record_verifies (ino : inode_t) :
    le_val (slice (inode_crc_finalize ino).bytes 120 4) =
        crc32 ((inode_crc_finalize ino).bytes.take 120) ∧
      slice (inode_crc_finalize ino).bytes 124 4 = [0, 0, 0, 0] := by
  have hl := inode_head_length ino
  have h4 : (le_bytes 4 (crc32 ino.head)).length = 4 := le_bytes_length _ _
  rw [inode_finalize_bytes]
  refine ⟨?_, ?_⟩
  · rw [List.take_left' hl, show (120 : Nat) = 120 + 0 by rfl,
      slice_append_right _ _ 120 0 4 hl, slice_append_left _ _ 0 4 (by omega),
      slice_all _ 4 h4, le_val_le_bytes_of_lt _ _ (by have := crc32_lt ino.head; norm_num at this ⊢; exact this)]
  · rw [show (124 : Nat) = 120 + 4 by rfl, slice_append_right _ _ 120 4 4 hl,
      show (4 : Nat) = 4 + 0 by rfl, slice_append_right _ _ 4 0 (4 + 0) h4]
    rfl
/-! ## The bytes of a fresh image -/

theorem flatten_replicate_zeros (k n : Nat) :
    (List.replicate k (List.replicate n 0)).flatten = List.replicate (k * n) (0 : Nat) := by
  induction k with
  | zero => simp
  | succ k ih =>
    rw [List.replicate_succ, List.flatten_cons, ih, ← List.replicate_add]
    congr 1
    rw [Nat.succ_mul, Nat.add_comm]

theorem write_at_zeros (n : Nat) (data : List Nat) :
    write_at (List.replicate n 0) 0 data = data ++ List.replicate (n - data.length) 0 := by
  unfold write_at
  simp

theorem inode_table_eq (drs now k : Nat) :
    ((List.range (k + 1)).map (builder_inode_block drs now)).flatten =
      (builder_root_inode drs now).bytes ++ List.replicate (BS - 128) 0 ++
        List.replicate (k * BS) 0 := by
  rw [List.range_succ_eq_map, List.map_cons, List.flatten_cons, List.map_map]
  have h0 : builder_inode_block drs now 0 =
      (builder_root_inode drs now).bytes ++ List.replicate (BS - 128) 0 := by
    unfold builder_inode_block
    rw [if_pos rfl, write_at_zeros, inode_bytes_length]
  have h1 : List.map (builder_inode_block drs now ∘ Nat.succ) (List.range k) =
      List.replicate k (List.replicate BS 0) := by
    apply List.ext_getElem
    · simp
    · intro j hj1 hj2
      simp [builder_inode_block]
  rw [h0, h1, flatten_replicate_zeros]

theorem bitmap_block_init : (List.replicate BS 0).set 0 0x01 = 1 :: List.replicate 4095 0 :=
  rfl

theorem superblock_bytes_length (sb : superblock_t) : sb.bytes.length = 116 := by
  simp only [superblock_t.bytes, List.length_append, le_bytes_length]

theorem root_dir_block_length : root_dir_block.length = 4096 := by
  have hz : (List.replicate BS 0).length = 4096 := List.length_replicate _ _
  have h1 : (write_at (List.replicate BS 0) 0 dot_entry.bytes).length = 4096 := by
    rw [write_at_length _ _ _ (by rw [dirent_bytes_length, hz]; omega), hz]
  rw [root_dir_block, write_at_length _ _ _ (by rw [dirent_bytes_length, h1]; omega), h1]

/-- The image of the initializer, region by region. -/
theorem builder_image_eq (size_kib inodes : Int) (now : Nat) (mem : List Nat)
    (h : 1 ≤ builder_inode_table_blocks inodes) :
    builder_image size_kib inodes now mem =
      (superblock_crc_finalize (builder_superblock size_kib inodes now) mem).bytes ++
        List.replicate 3980 0 ++ (1 :: List.replicate 4095 0) ++ (1 :: List.replicate 4095 0) ++
        ((builder_root_inode (builder_data_region_start inodes) now).bytes ++
          List.replicate 3968 0 ++
          List.replicate ((builder_inode_table_blocks inodes - 1) * 4096) 0) ++
        root_dir_block ++
        List.replicate ((builder_data_region_blocks size_kib inodes - 1) * 4096) 0 := by
  obtain ⟨k, hk⟩ : ∃ k, builder_inode_table_blocks inodes = k + 1 :=
    ⟨builder_inode_table_blocks inodes - 1, (by omega)⟩
  simp only [builder_image]
  rw [hk, inode_table_eq, flatten_replicate_zeros, bitmap_block_init]
  rfl
/-- The numbers of the layout for accepted parameters. -/
theorem fresh_layout (size_kib inodes : Int) (hv : valid_params size_kib inodes) :
    4 ≤ builder_inode_table_blocks inodes ∧ builder_inode_table_blocks inodes ≤ 16 ∧
    builder_data_region_start inodes = 3 + builder_inode_table_blocks inodes ∧
    builder_data_region_start inodes + builder_data_region_blocks size_kib inodes =
      builder_total_blocks size_kib ∧
    1 ≤ builder_data_region_blocks size_kib inodes ∧
    builder_total_blocks size_kib ≤ 1024 ∧
    128 ≤ to_u64 inodes ∧ to_u64 inodes ≤ 512 ∧
    to_u64 inodes * 128 ≤ builder_inode_table_blocks inodes * 4096 := by
  obtain ⟨h1, h2, h3, h4, h5⟩ := hv
  lift size_kib to ℕ using (by omega)
  lift inodes to ℕ using (by omega)
  rw [builder_total_blocks_eq size_kib (by omega),
    builder_data_region_start_eq inodes (by omega),
    builder_inode_table_blocks_eq inodes (by omega),
    builder_data_region_blocks_eq size_kib inodes (by omega) (by omega) (by omega),
    to_u64_of_small inodes (by omega)]
  omega

theorem builder_image_length (size_kib inodes : Int) (now : Nat) (mem : List Nat)
    (hv : valid_params size_kib inodes) :
    (builder_image size_kib inodes now mem).length = builder_total_blocks size_kib * 4096 := by
  obtain ⟨l1, l2, l3, l4, l5, l6, -⟩ := fresh_layout size_kib inodes hv
  rw [builder_image_eq _ _ _ _ (by omega)]
  simp only [List.length_append, List.length_replicate, List.length_cons,
    superblock_bytes_length, inode_bytes_length, root_dir_block_length]
  omega

/-- The regions of a fresh image: superblock record, the two bitmap blocks, the root inode
record and the root directory block. -/
theorem builder_image_slices (size_kib inodes : Int) (now : Nat) (mem : List Nat)
    (hv : valid_params size_kib inodes) :
    slice (builder_image size_kib inodes now mem) 0 116 =
      (superblock_crc_finalize (builder_superblock size_kib inodes now) mem).bytes ∧
    slice (builder_image size_kib inodes now mem) 116 3980 = List.replicate 3980 0 ∧
    slice (builder_image size_kib inodes now mem) 4096 4096 = 1 :: List.replicate 4095 0 ∧
    slice (builder_image size_kib inodes now mem) 8192 4096 = 1 :: List.replicate 4095 0 ∧
    slice (builder_image size_kib inodes now mem) 12288 128 =
      (builder_root_inode (builder_data_region_start inodes) now).bytes ∧
    slice (builder_image size_kib inodes now mem)
      (builder_data_region_start inodes * 4096) 4096 = root_dir_block := by
  obtain ⟨l1, l2, l3, l4, l5, l6, -⟩ := fresh_layout size_kib inodes hv
  rw [builder_image_eq _ _ _ _ (by omega)]
  have hS := superblock_bytes_length
    (superblock_crc_finalize (builder_superblock size_kib inodes now) mem)
  have hR := inode_bytes_length (builder_root_inode (builder_data_region_start inodes) now)
  have hD := root_dir_block_length
  refine ⟨?_, ?_, ?_, ?_, ?_, ?_⟩
  · iterate 6 rw [slice_append_left _ _ _ _ (by
      simp only [List.length_append, List.length_replicate, List.length_cons, hS, hR, hD]
      omega)]
    exact slice_all _ _ hS
  · iterate 5 rw [slice_append_left _ _ _ _ (by
      simp only [List.length_append, List.length_replicate, List.length_cons, hS, hR, hD]
      omega)]
    rw [show (116 : Nat) = 116 + 0 by rfl, slice_append_right _ _ 116 0 _ hS]
    exact slice_all _ _ (List.length_replicate _ _)
  · iterate 4 rw [slice_append_left _ _ _ _ (by
      simp only [List.length_append, List.length_replicate, List.length_cons, hS, hR, hD]
      omega)]
    rw [show (4096 : Nat) = 4096 + 0 by rfl, slice_append_right _ _ 4096 0 _ (by
      simp only [List.length_append, List.length_replicate, hS])]
    exact slice_all _ _ (by simp only [List.length_cons, List.length_replicate])
  · iterate 3 rw [slice_append_left _ _ _ _ (by
      simp only [List.length_append, List.length_replicate, List.length_cons, hS, hR, hD]
      omega)]
    rw [show (8192 : Nat) = 8192 + 0 by rfl, slice_append_right _ _ 8192 0 _ (by
      simp only [List.length_append, List.length_replicate, List.length_cons, hS])]
    exact slice_all _ _ (by simp only [List.length_cons, List.length_replicate])
  · iterate 2 rw [slice_append_left _ _ _ _ (by
      simp only [List.length_append, List.length_replicate, List.length_cons, hS, hR, hD]
      omega)]
    rw [show (12288 : Nat) = 12288 + 0 by rfl, slice_append_right _ _ 12288 0 _ (by
      simp only [List.length_append, List.length_replicate, List.length_cons, hS])]
    iterate 2 rw [slice_append_left _ _ _ _ (by
      simp only [List.length_append, List.length_replicate, List.length_cons, hS, hR, hD]
      omega)]
    exact slice_all _ _ hR
  · rw [slice_append_left _ _ _ _ (by
      simp only [List.length_append, List.length_replicate, List.length_cons, hS, hR, hD]
      omega)]
    rw [← Nat.add_zero (builder_data_region_start inodes * 4096),
      slice_append_right _ _ _ 0 _ (by
      simp only [List.length_append, List.length_replicate, List.length_cons, hS, hR]
      omega)]
    exact slice_all _ _ hD
/-! ## Checksums stored in a fresh image -/

theorem mkfs_builder_ok (size_kib inodes : Int) (now : Nat) (mem : List Nat)
    (hv : valid_params size_kib inodes) :
    mkfs_builder true size_kib inodes now mem = .ok (builder_image size_kib inodes now mem) := by
  obtain ⟨l1, l2, l3, l4, l5, l6, -⟩ := fresh_layout size_kib inodes hv
  obtain ⟨h1, h2, h3, h4, h5⟩ := hv
  have hc : ¬ (builder_data_region_start inodes ≥ builder_total_blocks size_kib) := by omega
  have hs : ¬ (size_kib < 180 ∨ size_kib > 4096) := by omega
  have hi : ¬ (inodes < 128 ∨ inodes > 512) := by omega
  have hm : ¬ (size_kib % 4 ≠ 0) := by omega
  simp [mkfs_builder, hs, hi, hm, hc]

theorem slice_zero_eq_take (a : List Nat) (n : Nat) : slice a 0 n = a.take n := rfl

theorem slice_add (a : List Nat) (o n m : Nat) :
    slice a o (n + m) = slice a o n ++ slice a (o + n) m := by
  unfold slice
  rw [List.take_add, List.drop_drop]

/-- C4: after `inode_crc_finalize` the low four bytes of the checksum field of the 128-byte
record hold the CRC-32 of its bytes 0..119 and the upper four bytes are 0; the root inode in
slot 0 of the inode table of a fresh image verifies in this way. -/
theorem inode_crc_roundtrip (ino : inode_t) (size_kib inodes : Int) (now : Nat)
    (mem : List Nat) (hv : valid_params size_kib inodes) :
    ((inode_crc_finalize ino).bytes.length = 128 ∧
      le_val (slice (inode_crc_finalize ino).bytes 120 4) =
        crc32 ((inode_crc_finalize ino).bytes.take 120) ∧
      slice (inode_crc_finalize ino).bytes 124 4 = [0, 0, 0, 0]) ∧
    (∃ img, mkfs_builder true size_kib inodes now mem = .ok img ∧
      le_val (slice img (3 * 4096 + 120) 4) = crc32 (slice img (3 * 4096) 120) ∧
      slice img (3 * 4096 + 124) 4 = [0, 0, 0, 0]) := by
  refine ⟨⟨inode_bytes_length _, (inode_record_verifies ino).1, (inode_record_verifies ino).2⟩,
    builder_image size_kib inodes now mem, mkfs_builder_ok _ _ _ _ hv, ?_, ?_⟩
  · have hs := (builder_image_slices size_kib inodes now mem hv).2.2.2.2.1
    have e1 := slice_slice (builder_image size_kib inodes now mem) 12288 128 120 4 (by omega)
    have e2 := slice_slice (builder_image size_kib inodes now mem) 12288 128 0 120 (by omega)
    rw [hs] at e1 e2
    rw [show 3 * 4096 + 120 = 12288 + 120 by rfl, show 3 * 4096 = 12288 + 0 by rfl, ← e1, ← e2,
      slice_zero_eq_take]
    exact (inode_record_verifies _).1
  · have hs := (builder_image_slices size_kib inodes now mem hv).2.2.2.2.1
    have e1 := slice_slice (builder_image size_kib inodes now mem) 12288 128 124 4 (by omega)
    rw [hs] at e1
    rw [show 3 * 4096 + 124 = 12288 + 124 by rfl, ← e1]
    exact (inode_record_verifies _).2

/-- Witness of C4 on the root inode of the image with `size_kib = 180`, `inodes = 128`. -/
theorem inode_crc_roundtrip_witness :
    ∃ img, mkfs_builder true 180 128 0 [] = .ok img ∧
      le_val (slice img (3 * 4096 + 120) 4) = crc32 (slice img (3 * 4096) 120) ∧
      slice img (3 * 4096 + 124) 4 = [0, 0, 0, 0] :=
  (inode_crc_roundtrip (builder_root_inode 7 0) 180 128 0 [] (by decide)).2

theorem superblock_bytes_eq (sb : superblock_t) : sb.bytes = sb.head ++ le_bytes 4 sb.checksum :=
  rfl

theorem superblock_head_length (sb : superblock_t) : sb.head.length = 112 := by
  simp only [superblock_t.head, List.length_append, le_bytes_length]

theorem superblock_zeroed_head (sb : superblock_t) :
    ({ sb with checksum := 0 } : superblock_t).head = sb.head :=
  rfl

theorem superblock_zeroed_bytes (sb : superblock_t) :
    ({ sb with checksum := 0 } : superblock_t).bytes = sb.head ++ [0, 0, 0, 0] := by
  have t1 : le_bytes 4 0 = [0, 0, 0, 0] := rfl
  have t2 : ({ sb with checksum := 0 } : superblock_t).checksum = 0 := rfl
  rw [superblock_bytes_eq, superblock_zeroed_head, t2, t1]

theorem superblock_finalize_checksum (sb : superblock_t) (mem : List Nat) :
    (superblock_crc_finalize sb mem).checksum =
      crc32 ((sb.head ++ [0, 0, 0, 0] ++ mem).take 4092) := by
  rw [← superblock_zeroed_bytes]
  rfl

theorem superblock_finalize_head (sb : superblock_t) (mem : List Nat) :
    (superblock_crc_finalize sb mem).head = sb.head :=
  rfl

/-- The checksum field stored by the initializer: the CRC-32 of the record with zeroed
checksum followed by the memory behind it. -/
theorem fresh_checksum_stored (size_kib inodes : Int) (now : Nat) (mem : List Nat)
    (hv : valid_params size_kib inodes) :
    le_val (slice (builder_image size_kib inodes now mem) 112 4) =
      crc32 (((builder_superblock size_kib inodes now).head ++ [0, 0, 0, 0] ++ mem).take
        4092) := by
  have hs := (builder_image_slices size_kib inodes now mem hv).1
  have e1 := slice_slice (builder_image size_kib inodes now mem) 0 116 112 4 (by omega)
  rw [hs, Nat.zero_add] at e1
  rw [← e1, superblock_bytes_eq, show (112 : Nat) = 112 + 0 by rfl,
    slice_append_right _ _ 112 0 4 (superblock_head_length _),
    slice_all _ 4 (le_bytes_length _ _)]
  rw [superblock_finalize_checksum, le_val_le_bytes_of_lt]
  have := crc32_lt (((builder_superblock size_kib inodes now).head ++ [0, 0, 0, 0] ++ mem).take
        4092)
  norm_num at this ⊢
  exact this

/-- The first 4092 bytes of block 0 of a fresh image with the checksum field zeroed: the
record with zeroed checksum and the zero padding. -/
theorem fresh_block0_zeroed (size_kib inodes : Int) (now : Nat) (mem : List Nat)
    (hv : valid_params size_kib inodes) :
    slice (write_at (builder_image size_kib inodes now mem) 112 [0, 0, 0, 0]) 0 4092 =
      (builder_superblock size_kib inodes now).head ++ [0, 0, 0, 0] ++
        List.replicate 3976 0 := by
  obtain ⟨l1, l2, l3, l4, l5, l6, -⟩ := fresh_layout size_kib inodes hv
  have hlen := builder_image_length size_kib inodes now mem hv
  have hb : 112 + ([0, 0, 0, 0] : List Nat).length ≤
      (builder_image size_kib inodes now mem).length := by
    rw [hlen]; simp only [List.length_cons, List.length_nil]; omega
  have hs := (builder_image_slices size_kib inodes now mem hv).1
  have hp := (builder_image_slices size_kib inodes now mem hv).2.1
  rw [show (4092 : Nat) = 112 + 4 + 3976 by rfl, slice_add, slice_add]
  rw [slice_write_at_disjoint _ _ _ hb 0 112 (Or.inl (by omega)),
    slice_write_at_disjoint _ _ _ hb (0 + (112 + 4)) 3976 (Or.inr (by
      simp only [List.length_cons, List.length_nil]; omega))]
  have e0 : slice (write_at (builder_image size_kib inodes now mem) 112 [0, 0, 0, 0])
      (0 + 112) 4 = [0, 0, 0, 0] := slice_write_at_same _ 112 [0, 0, 0, 0] hb
  rw [e0]
  have e1 := slice_slice (builder_image size_kib inodes now mem) 0 116 0 112 (by omega)
  rw [hs, superblock_bytes_eq, slice_append_left _ _ 0 112 (by
    rw [superblock_head_length]), slice_all _ 112 (superblock_head_length _)] at e1
  have e2 := slice_slice (builder_image size_kib inodes now mem) 116 3980 0 3976 (by omega)
  rw [hp] at e2
  rw [← e1, show 0 + (112 + 4) = 116 + 0 by rfl, ← e2, slice_zero_eq_take,
    List.take_replicate]
  rfl

theorem crc32_update_round (c b : Nat) (hb : b < 256) :
    crc32_update c b = crc32_round^[8] (c ^^^ b) := by
  have hfun : crc_bit_step = crc32_round := by
    funext x; exact (crc32_round_eq x).symm
  rw [crc32_update_eq c b hb, crc_byte_step, hfun]

/-- Two inputs that differ only in a last byte 0 or 1 have different CRC-32 values. -/
theorem crc32_last_byte_ne (p : List Nat) : crc32 (p ++ [1]) ≠ crc32 (p ++ [0]) := by
  unfold crc32
  rw [List.foldl_append, List.foldl_append]
  simp only [List.foldl_cons, List.foldl_nil]
  intro h
  have h1 := Nat.xor_left_inj.mp h
  rw [crc32_update_round _ 1 (by norm_num), crc32_update_round _ 0 (by norm_num),
    crc32_round_iter_xor, Nat.xor_zero] at h1
  have h2 : crc32_round^[8] 1 = 0 := by
    apply Nat.xor_right_inj.mp
    rw [h1, Nat.xor_zero]
  revert h2
  decide

/-- When the memory behind the local `superblock` is zero, the checksum stored in a fresh
image is the CRC-32 of the first 4092 bytes of block 0 with the checksum field zeroed. -/
theorem fresh_checksum_of_zero_mem (size_kib inodes : Int) (now : Nat)
    (hv : valid_params size_kib inodes) :
    le_val (slice (builder_image size_kib inodes now (List.replicate 3976 0)) 112 4) =
      crc32 (slice (write_at (builder_image size_kib inodes now (List.replicate 3976 0)) 112
        [0, 0, 0, 0]) 0 4092) := by
  rw [fresh_checksum_stored _ _ _ _ hv, fresh_block0_zeroed _ _ _ _ hv,
    List.take_of_length_le (by
      simp only [List.length_append, superblock_head_length, List.length_replicate,
        List.length_cons, List.length_nil]
      omega)]

/-- C3 fails on the code: with a nonzero byte in the memory behind the local `superblock`
(here the last of the 3976 bytes `crc32` reads behind the record) the checksum stored in the
image for `size_kib = 180`, `inodes = 128` differs from the CRC-32 of the first 4092 bytes
of block 0 taken with the checksum field zeroed. -/
theorem superblock_checksum_mismatch :
    ∃ img, mkfs_builder true 180 128 0 (List.replicate 3975 0 ++ [1]) = .ok img ∧
      le_val (slice img 112 4) ≠ crc32 (slice (write_at img 112 [0, 0, 0, 0]) 0 4092) := by
  have hv : valid_params 180 128 := by decide
  refine ⟨_, mkfs_builder_ok 180 128 0 _ hv, ?_⟩
  rw [fresh_checksum_stored _ _ _ _ hv, fresh_block0_zeroed _ _ _ _ hv,
    List.take_of_length_le (by
      simp only [List.length_append, superblock_head_length, List.length_replicate,
        List.length_cons, List.length_nil]
      omega)]
  generalize (builder_superblock 180 128 0).head = H
  have eL : H ++ [0, 0, 0, 0] ++ (List.replicate 3975 0 ++ [1]) =
      (H ++ [0, 0, 0, 0] ++ List.replicate 3975 0) ++ [1] := (List.append_assoc _ _ _).symm
  have eR : H ++ [0, 0, 0, 0] ++ List.replicate 3976 0 =
      (H ++ [0, 0, 0, 0] ++ List.replicate 3975 0) ++ [0] := by
    rw [List.append_assoc _ _ [0], ← List.replicate_succ']
  rw [eL, eR]
  exact crc32_last_byte_ne _

/-! ## Records read back from their bytes -/

theorem slice_le_bytes_skip (w v : Nat) (rest : List Nat) (o n : Nat) :
    slice (le_bytes w v ++ rest) (w + o) n = slice rest o n :=
  slice_append_right _ _ w o n (le_bytes_length w v)

theorem slice_le_bytes_hit (w v : Nat) (rest : List Nat) :
    slice (le_bytes w v ++ rest) 0 w = le_bytes w v := by
  rw [slice_append_left _ _ 0 w (by rw [le_bytes_length]; omega),
    slice_all _ _ (le_bytes_length _ _)]

theorem superblock_bytes_chain (sb : superblock_t) :
    sb.bytes =
      le_bytes 4 sb.magic ++
      (le_bytes 4 sb.version ++
      (le_bytes 4 sb.block_size ++
      (le_bytes 8 sb.total_blocks ++
      (le_bytes 8 sb.inode_count ++
      (le_bytes 8 sb.inode_bitmap_start ++
      (le_bytes 8 sb.inode_bitmap_blocks ++
      (le_bytes 8 sb.data_bitmap_start ++
      (le_bytes 8 sb.data_bitmap_blocks ++
      (le_bytes 8 sb.inode_table_start ++
      (le_bytes 8 sb.inode_table_blocks ++
      (le_bytes 8 sb.data_region_start ++
      (le_bytes 8 sb.data_region_blocks ++
      (le_bytes 8 sb.root_inode ++
      (le_bytes 8 sb.mtime_epoch ++
      (le_bytes 4 sb.flags ++
      (le_bytes 4 sb.checksum ++ [])))))))))))))))) := by
  simp only [superblock_t.bytes, List.append_assoc, List.append_nil]

/-- Reading a superblock record back from its bytes gives every field reduced to its width. -/
theorem superblock_parse_bytes (sb : superblock_t) :
    superblock_parse sb.bytes =
      { magic := sb.magic % 256 ^ 4,
        version := sb.version % 256 ^ 4,
        block_size := sb.block_size % 256 ^ 4,
        total_blocks := sb.total_blocks % 256 ^ 8,
        inode_count := sb.inode_count % 256 ^ 8,
        inode_bitmap_start := sb.inode_bitmap_start % 256 ^ 8,
        inode_bitmap_blocks := sb.inode_bitmap_blocks % 256 ^ 8,
        data_bitmap_start := sb.data_bitmap_start % 256 ^ 8,
        data_bitmap_blocks := sb.data_bitmap_blocks % 256 ^ 8,
        inode_table_start := sb.inode_table_start % 256 ^ 8,
        inode_table_blocks := sb.inode_table_blocks % 256 ^ 8,
        data_region_start := sb.data_region_start % 256 ^ 8,
        data_region_blocks := sb.data_region_blocks % 256 ^ 8,
        root_inode := sb.root_inode % 256 ^ 8,
        mtime_epoch := sb.mtime_epoch % 256 ^ 8,
        flags := sb.flags % 256 ^ 4,
        checksum := sb.checksum % 256 ^ 4 } := by
  unfold superblock_parse
  rw [superblock_bytes_chain]
  rw [(slice_le_bytes_hit 4 _ _), le_val_le_bytes]
  rw [((slice_le_bytes_skip 4 _ _ 0 4).trans (slice_le_bytes_hit 4 _ _)), le_val_le_bytes]
  rw [((slice_le_bytes_skip 4 _ _ 4 4).trans ((slice_le_bytes_skip 4 _ _ 0 4).trans (slice_le_bytes_hit 4 _ _))), le_val_le_bytes]
  rw [((slice_le_bytes_skip 4 _ _ 8 8).trans ((slice_le_bytes_skip 4 _ _ 4 8).trans ((slice_le_bytes_skip 4 _ _ 0 8).trans (slice_le_bytes_hit 8 _ _)))), le_val_le_bytes]
  rw [((slice_le_bytes_skip 4 _ _ 16 8).trans ((slice_le_bytes_skip 4 _ _ 12 8).trans ((slice_le_bytes_skip 4 _ _ 8 8).trans ((slice_le_bytes_skip 8 _ _ 0 8).trans (slice_le_bytes_hit 8 _ _))))), le_val_le_bytes]
  rw [((slice_le_bytes_skip 4 _ _ 24 8).trans ((slice_le_bytes_skip 4 _ _ 20 8).trans ((slice_le_bytes_skip 4 _ _ 16 8).trans ((slice_le_bytes_skip 8 _ _ 8 8).trans ((slice_le_bytes_skip 8 _ _ 0 8).trans (slice_le_bytes_hit 8 _ _)))))), le_val_le_bytes]
  rw [((slice_le_bytes_skip 4 _ _ 32 8).trans ((slice_le_bytes_skip 4 _ _ 28 8).trans ((slice_le_bytes_skip 4 _ _ 24 8).trans ((slice_le_bytes_skip 8 _ _ 16 8).trans ((slice_le_bytes_skip 8 _ _ 8 8).trans ((slice_le_bytes_skip 8 _ _ 0 8).trans (slice_le_bytes_hit 8 _ _))))))), le_val_le_bytes]
  rw [((slice_le_bytes_skip 4 _ _ 40 8).trans ((slice_le_bytes_skip 4 _ _ 36 8).trans ((slice_le_bytes_skip 4 _ _ 32 8).trans ((slice_le_bytes_skip 8 _ _ 24 8).trans ((slice_le_bytes_skip 8 _ _ 16 8).trans ((slice_le_bytes_skip 8 _ _ 8 8).trans ((slice_le_bytes_skip 8 _ _ 0 8).trans (slice_le_bytes_hit 8 _ _)))))))), le_val_le_bytes]
  rw [((slice_le_bytes_skip 4 _ _ 48 8).trans ((slice_le_bytes_skip 4 _ _ 44 8).trans ((slice_le_bytes_skip 4 _ _ 40 8).trans ((slice_le_bytes_skip 8 _ _ 32 8).trans ((slice_le_bytes_skip 8 _ _ 24 8).trans ((slice_le_bytes_skip 8 _ _ 16 8).trans ((slice_le_bytes_skip 8 _ _ 8 8).trans ((slice_le_bytes_skip 8 _ _ 0 8).trans (slice_le_bytes_hit 8 _ _))))))))), le_val_le_bytes]
  rw [((slice_le_bytes_skip 4 _ _ 56 8).trans ((slice_le_bytes_skip 4 _ _ 52 8).trans ((slice_le_bytes_skip 4 _ _ 48 8).trans ((slice_le_bytes_skip 8 _ _ 40 8).trans ((slice_le_bytes_skip 8 _ _ 32 8).trans ((slice_le_bytes_skip 8 _ _ 24 8).trans ((slice_le_bytes_skip 8 _ _ 16 8).trans ((slice_le_bytes_skip 8 _ _ 8 8).trans ((slice_le_bytes_skip 8 _ _ 0 8).trans (slice_le_bytes_hit 8 _ _)))))))))), le_val_le_bytes]
  rw [((slice_le_bytes_skip 4 _ _ 64 8).trans ((slice_le_bytes_skip 4 _ _ 60 8).trans ((slice_le_bytes_skip 4 _ _ 56 8).trans ((slice_le_bytes_skip 8 _ _ 48 8).trans ((slice_le_bytes_skip 8 _ _ 40 8).trans ((slice_le_bytes_skip 8 _ _ 32 8).trans ((slice_le_bytes_skip 8 _ _ 24 8).trans ((slice_le_bytes_skip 8 _ _ 16 8).trans ((slice_le_bytes_skip 8 _ _ 8 8).trans ((slice_le_bytes_skip 8 _ _ 0 8).trans (slice_le_bytes_hit 8 _ _))))))))))), le_val_le_bytes]
  rw [((slice_le_bytes_skip 4 _ _ 72 8).trans ((slice_le_bytes_skip 4 _ _ 68 8).trans ((slice_le_bytes_skip 4 _ _ 64 8).trans ((slice_le_bytes_skip 8 _ _ 56 8).trans ((slice_le_bytes_skip 8 _ _ 48 8).trans ((slice_le_bytes_skip 8 _ _ 40 8).trans ((slice_le_bytes_skip 8 _ _ 32 8).trans ((slice_le_bytes_skip 8 _ _ 24 8).trans ((slice_le_bytes_skip 8 _ _ 16 8).trans ((slice_le_bytes_skip 8 _ _ 8 8).trans ((slice_le_bytes_skip 8 _ _ 0 8).trans (slice_le_bytes_hit 8 _ _)))))))))))), le_val_le_bytes]
  rw [((slice_le_bytes_skip 4 _ _ 80 8).trans ((slice_le_bytes_skip 4 _ _ 76 8).trans ((slice_le_bytes_skip 4 _ _ 72 8).trans ((slice_le_bytes_skip 8 _ _ 64 8).trans ((slice_le_bytes_skip 8 _ _ 56 8).trans ((slice_le_bytes_skip 8 _ _ 48 8).trans ((slice_le_bytes_skip 8 _ _ 40 8).trans ((slice_le_bytes_skip 8 _ _ 32 8).trans ((slice_le_bytes_skip 8 _ _ 24 8).trans ((slice_le_bytes_skip 8 _ _ 16 8).trans ((slice_le_bytes_skip 8 _ _ 8 8).trans ((slice_le_bytes_skip 8 _ _ 0 8).trans (slice_le_bytes_hit 8 _ _))))))))))))), le_val_le_bytes]
  rw [((slice_le_bytes_skip 4 _ _ 88 8).trans ((slice_le_bytes_skip 4 _ _ 84 8).trans ((slice_le_bytes_skip 4 _ _ 80 8).trans ((slice_le_bytes_skip 8 _ _ 72 8).trans ((slice_le_bytes_skip 8 _ _ 64 8).trans ((slice_le_bytes_skip 8 _ _ 56 8).trans ((slice_le_bytes_skip 8 _ _ 48 8).trans ((slice_le_bytes_skip 8 _ _ 40 8).trans ((slice_le_bytes_skip 8 _ _ 32 8).trans ((slice_le_bytes_skip 8 _ _ 24 8).trans ((slice_le_bytes_skip 8 _ _ 16 8).trans ((slice_le_bytes_skip 8 _ _ 8 8).trans ((slice_le_bytes_skip 8 _ _ 0 8).trans (slice_le_bytes_hit 8 _ _)))))))))))))), le_val_le_bytes]
  rw [((slice_le_bytes_skip 4 _ _ 96 8).trans ((slice_le_bytes_skip 4 _ _ 92 8).trans ((slice_le_bytes_skip 4 _ _ 88 8).trans ((slice_le_bytes_skip 8 _ _ 80 8).trans ((slice_le_bytes_skip 8 _ _ 72 8).trans ((slice_le_bytes_skip 8 _ _ 64 8).trans ((slice_le_bytes_skip 8 _ _ 56 8).trans ((slice_le_bytes_skip 8 _ _ 48 8).trans ((slice_le_bytes_skip 8 _ _ 40 8).trans ((slice_le_bytes_skip 8 _ _ 32 8).trans ((slice_le_bytes_skip 8 _ _ 24 8).trans ((slice_le_bytes_skip 8 _ _ 16 8).trans ((slice_le_bytes_skip 8 _ _ 8 8).trans ((slice_le_bytes_skip 8 _ _ 0 8).trans (slice_le_bytes_hit 8 _ _))))))))))))))), le_val_le_bytes]
  rw [((slice_le_bytes_skip 4 _ _ 104 4).trans ((slice_le_bytes_skip 4 _ _ 100 4).trans ((slice_le_bytes_skip 4 _ _ 96 4).trans ((slice_le_bytes_skip 8 _ _ 88 4).trans ((slice_le_bytes_skip 8 _ _ 80 4).trans ((slice_le_bytes_skip 8 _ _ 72 4).trans ((slice_le_bytes_skip 8 _ _ 64 4).trans ((slice_le_bytes_skip 8 _ _ 56 4).trans ((slice_le_bytes_skip 8 _ _ 48 4).trans ((slice_le_bytes_skip 8 _ _ 40 4).trans ((slice_le_bytes_skip 8 _ _ 32 4).trans ((slice_le_bytes_skip 8 _ _ 24 4).trans ((slice_le_bytes_skip 8 _ _ 16 4).trans ((slice_le_bytes_skip 8 _ _ 8 4).trans ((slice_le_bytes_skip 8 _ _ 0 4).trans (slice_le_bytes_hit 4 _ _)))))))))))))))), le_val_le_bytes]
  rw [((slice_le_bytes_skip 4 _ _ 108 4).trans ((slice_le_bytes_skip 4 _ _ 104 4).trans ((slice_le_bytes_skip 4 _ _ 100 4).trans ((slice_le_bytes_skip 8 _ _ 92 4).trans ((slice_le_bytes_skip 8 _ _ 84 4).trans ((slice_le_bytes_skip 8 _ _ 76 4).trans ((slice_le_bytes_skip 8 _ _ 68 4).trans ((slice_le_bytes_skip 8 _ _ 60 4).trans ((slice_le_bytes_skip 8 _ _ 52 4).trans ((slice_le_bytes_skip 8 _ _ 44 4).trans ((slice_le_bytes_skip 8 _ _ 36 4).trans ((slice_le_bytes_skip 8 _ _ 28 4).trans ((slice_le_bytes_skip 8 _ _ 20 4).trans ((slice_le_bytes_skip 8 _ _ 12 4).trans ((slice_le_bytes_skip 8 _ _ 4 4).trans ((slice_le_bytes_skip 4 _ _ 0 4).trans (slice_le_bytes_hit 4 _ _))))))))))))))))), le_val_le_bytes]

theorem slice_direct_bytes (xs : List Nat) (i : Nat) (h : i < xs.length) :
    slice ((xs.map (le_bytes 4)).flatten) (4 * i) 4 = le_bytes 4 (xs.getD i 0) := by
  induction xs generalizing i with
  | nil => simp at h
  | cons x xs ih =>
    rw [List.map_cons, List.flatten_cons]
    cases i with
    | zero => exact slice_le_bytes_hit 4 x _
    | succ j =>
      rw [show 4 * (j + 1) = 4 + 4 * j by omega, slice_le_bytes_skip,
        ih j (by simpa using h)]
      simp

theorem inode_bytes_chain (ino : inode_t) :
    ino.bytes =
      le_bytes 2 ino.mode ++
      (le_bytes 2 ino.links ++
      (le_bytes 4 ino.uid ++
      (le_bytes 4 ino.gid ++
      (le_bytes 8 ino.size_bytes ++
      (le_bytes 8 ino.atime ++
      (le_bytes 8 ino.mtime ++
      (le_bytes 8 ino.ctime ++
      (((fixN 12 ino.direct).map (le_bytes 4)).flatten ++
      (le_bytes 4 ino.reserved_0 ++
      (le_bytes 4 ino.reserved_1 ++
      (le_bytes 4 ino.reserved_2 ++
      (le_bytes 4 ino.proj_id ++
      (le_bytes 4 ino.uid16_gid16 ++
      (le_bytes 8 ino.xattr_ptr ++
      (le_bytes 8 ino.inode_crc ++ []))))))))))))))) := by
  simp only [inode_t.bytes, List.append_assoc, List.append_nil]

theorem inode_parse_direct (ino : inode_t) :
    (inode_parse ino.bytes).direct = (fixN 12 ino.direct).map (· % 256 ^ 4) := by
  unfold inode_parse
  simp only
  apply List.ext_getElem
  · simp [fixN_length]
  · intro i h1 h2
    have hi : i < 12 := by simpa using h1
    rw [List.getElem_map, List.getElem_map, List.getElem_range, inode_bytes_chain,
      show 44 + 4 * i = 2 + (2 + (4 + (4 + (8 + (8 + (8 + (8 + (4 * i)))))))) by omega]
    rw [slice_le_bytes_skip 2 _ _, slice_le_bytes_skip 2 _ _, slice_le_bytes_skip 4 _ _, slice_le_bytes_skip 4 _ _, slice_le_bytes_skip 8 _ _, slice_le_bytes_skip 8 _ _, slice_le_bytes_skip 8 _ _, slice_le_bytes_skip 8 _ _, slice_append_left _ _ _ _ (by rw [direct_bytes_length]; omega),
      slice_direct_bytes _ i (by rw [fixN_length]; exact hi), le_val_le_bytes]
    congr 1
    rw [List.getD_eq_getElem?_getD, List.getElem?_eq_getElem (by rw [fixN_length]; exact hi)]
    rfl

/-- Reading an inode record back from its bytes gives every field reduced to its width. -/
theorem inode_parse_bytes (ino : inode_t) :
    inode_parse ino.bytes =
      { mode := ino.mode % 256 ^ 2,
        links := ino.links % 256 ^ 2,
        uid := ino.uid % 256 ^ 4,
        gid := ino.gid % 256 ^ 4,
        size_bytes := ino.size_bytes % 256 ^ 8,
        atime := ino.atime % 256 ^ 8,
        mtime := ino.mtime % 256 ^ 8,
        ctime := ino.ctime % 256 ^ 8,
        direct := (fixN 12 ino.direct).map (· % 256 ^ 4),
        reserved_0 := ino.reserved_0 % 256 ^ 4,
        reserved_1 := ino.reserved_1 % 256 ^ 4,
        reserved_2 := ino.reserved_2 % 256 ^ 4,
        proj_id := ino.proj_id % 256 ^ 4,
        uid16_gid16 := ino.uid16_gid16 % 256 ^ 4,
        xattr_ptr := ino.xattr_ptr % 256 ^ 8,
        inode_crc := ino.inode_crc % 256 ^ 8 } := by
  have hd := inode_parse_direct ino
  unfold inode_parse at hd ⊢
  simp only at hd
  rw [hd, inode_bytes_chain]
  rw [(slice_le_bytes_hit 2 _ _), le_val_le_bytes]
  rw [((slice_le_bytes_skip 2 _ _ 0 2).trans (slice_le_bytes_hit 2 _ _)), le_val_le_bytes]
  rw [((slice_le_bytes_skip 2 _ _ 2 4).trans ((slice_le_bytes_skip 2 _ _ 0 4).trans (slice_le_bytes_hit 4 _ _))), le_val_le_bytes]
  rw [((slice_le_bytes_skip 2 _ _ 6 4).trans ((slice_le_bytes_skip 2 _ _ 4 4).trans ((slice_le_bytes_skip 4 _ _ 0 4).trans (slice_le_bytes_hit 4 _ _)))), le_val_le_bytes]
  rw [((slice_le_bytes_skip 2 _ _ 10 8).trans ((slice_le_bytes_skip 2 _ _ 8 8).trans ((slice_le_bytes_skip 4 _ _ 4 8).trans ((slice_le_bytes_skip 4 _ _ 0 8).trans (slice_le_bytes_hit 8 _ _))))), le_val_le_bytes]
  rw [((slice_le_bytes_skip 2 _ _ 18 8).trans ((slice_le_bytes_skip 2 _ _ 16 8).trans ((slice_le_bytes_skip 4 _ _ 12 8).trans ((slice_le_bytes_skip 4 _ _ 8 8).trans ((slice_le_bytes_skip 8 _ _ 0 8).trans (slice_le_bytes_hit 8 _ _)))))), le_val_le_bytes]
  rw [((slice_le_bytes_skip 2 _ _ 26 8).trans ((slice_le_bytes_skip 2 _ _ 24 8).trans ((slice_le_bytes_skip 4 _ _ 20 8).trans ((slice_le_bytes_skip 4 _ _ 16 8).trans ((slice_le_bytes_skip 8 _ _ 8 8).trans ((slice_le_bytes_skip 8 _ _ 0 8).trans (slice_le_bytes_hit 8 _ _))))))), le_val_le_bytes]
  rw [((slice_le_bytes_skip 2 _ _ 34 8).trans ((slice_le_bytes_skip 2 _ _ 32 8).trans ((slice_le_bytes_skip 4 _ _ 28 8).trans ((slice_le_bytes_skip 4 _ _ 24 8).trans ((slice_le_bytes_skip 8 _ _ 16 8).trans ((slice_le_bytes_skip 8 _ _ 8 8).trans ((slice_le_bytes_skip 8 _ _ 0 8).trans (slice_le_bytes_hit 8 _ _)))))))), le_val_le_bytes]
  rw [((slice_le_bytes_skip 2 _ _ 90 4).trans ((slice_le_bytes_skip 2 _ _ 88 4).trans ((slice_le_bytes_skip 4 _ _ 84 4).trans ((slice_le_bytes_skip 4 _ _ 80 4).trans ((slice_le_bytes_skip 8 _ _ 72 4).trans ((slice_le_bytes_skip 8 _ _ 64 4).trans ((slice_le_bytes_skip 8 _ _ 56 4).trans ((slice_le_bytes_skip 8 _ _ 48 4).trans ((slice_append_right _ _ 48 0 4 (direct_bytes_length _)).trans (slice_le_bytes_hit 4 _ _)))))))))), le_val_le_bytes]
  rw [((slice_le_bytes_skip 2 _ _ 94 4).trans ((slice_le_bytes_skip 2 _ _ 92 4).trans ((slice_le_bytes_skip 4 _ _ 88 4).trans ((slice_le_bytes_skip 4 _ _ 84 4).trans ((slice_le_bytes_skip 8 _ _ 76 4).trans ((slice_le_bytes_skip 8 _ _ 68 4).trans ((slice_le_bytes_skip 8 _ _ 60 4).trans ((slice_le_bytes_skip 8 _ _ 52 4).trans ((slice_append_right _ _ 48 4 4 (direct_bytes_length _)).trans ((slice_le_bytes_skip 4 _ _ 0 4).trans (slice_le_bytes_hit 4 _ _))))))))))), le_val_le_bytes]
  rw [((slice_le_bytes_skip 2 _ _ 98 4).trans ((slice_le_bytes_skip 2 _ _ 96 4).trans ((slice_le_bytes_skip 4 _ _ 92 4).trans ((slice_le_bytes_skip 4 _ _ 88 4).trans ((slice_le_bytes_skip 8 _ _ 80 4).trans ((slice_le_bytes_skip 8 _ _ 72 4).trans ((slice_le_bytes_skip 8 _ _ 64 4).trans ((slice_le_bytes_skip 8 _ _ 56 4).trans ((slice_append_right _ _ 48 8 4 (direct_bytes_length _)).trans ((slice_le_bytes_skip 4 _ _ 4 4).trans ((slice_le_bytes_skip 4 _ _ 0 4).trans (slice_le_bytes_hit 4 _ _)))))))))))), le_val_le_bytes]
  rw [((slice_le_bytes_skip 2 _ _ 102 4).trans ((slice_le_bytes_skip 2 _ _ 100 4).trans ((slice_le_bytes_skip 4 _ _ 96 4).trans ((slice_le_bytes_skip 4 _ _ 92 4).trans ((slice_le_bytes_skip 8 _ _ 84 4).trans ((slice_le_bytes_skip 8 _ _ 76 4).trans ((slice_le_bytes_skip 8 _ _ 68 4).trans ((slice_le_bytes_skip 8 _ _ 60 4).trans ((slice_append_right _ _ 48 12 4 (direct_bytes_length _)).trans ((slice_le_bytes_skip 4 _ _ 8 4).trans ((slice_le_bytes_skip 4 _ _ 4 4).trans ((slice_le_bytes_skip 4 _ _ 0 4).trans (slice_le_bytes_hit 4 _ _))))))))))))), le_val_le_bytes]
  rw [((slice_le_bytes_skip 2 _ _ 106 4).trans ((slice_le_bytes_skip 2 _ _ 104 4).trans ((slice_le_bytes_skip 4 _ _ 100 4).trans ((slice_le_bytes_skip 4 _ _ 96 4).trans ((slice_le_bytes_skip 8 _ _ 88 4).trans ((slice_le_bytes_skip 8 _ _ 80 4).trans ((slice_le_bytes_skip 8 _ _ 72 4).trans ((slice_le_bytes_skip 8 _ _ 64 4).trans ((slice_append_right _ _ 48 16 4 (direct_bytes_length _)).trans ((slice_le_bytes_skip 4 _ _ 12 4).trans ((slice_le_bytes_skip 4 _ _ 8 4).trans ((slice_le_bytes_skip 4 _ _ 4 4).trans ((slice_le_bytes_skip 4 _ _ 0 4).trans (slice_le_bytes_hit 4 _ _)))))))))))))), le_val_le_bytes]
  rw [((slice_le_bytes_skip 2 _ _ 110 8).trans ((slice_le_bytes_skip 2 _ _ 108 8).trans ((slice_le_bytes_skip 4 _ _ 104 8).trans ((slice_le_bytes_skip 4 _ _ 100 8).trans ((slice_le_bytes_skip 8 _ _ 92 8).trans ((slice_le_bytes_skip 8 _ _ 84 8).trans ((slice_le_bytes_skip 8 _ _ 76 8).trans ((slice_le_bytes_skip 8 _ _ 68 8).trans ((slice_append_right _ _ 48 20 8 (direct_bytes_length _)).trans ((slice_le_bytes_skip 4 _ _ 16 8).trans ((slice_le_bytes_skip 4 _ _ 12 8).trans ((slice_le_bytes_skip 4 _ _ 8 8).trans ((slice_le_bytes_skip 4 _ _ 4 8).trans ((slice_le_bytes_skip 4 _ _ 0 8).trans (slice_le_bytes_hit 8 _ _))))))))))))))), le_val_le_bytes]
  rw [((slice_le_bytes_skip 2 _ _ 118 8).trans ((slice_le_bytes_skip 2 _ _ 116 8).trans ((slice_le_bytes_skip 4 _ _ 112 8).trans ((slice_le_bytes_skip 4 _ _ 108 8).trans ((slice_le_bytes_skip 8 _ _ 100 8).trans ((slice_le_bytes_skip 8 _ _ 92 8).trans ((slice_le_bytes_skip 8 _ _ 84 8).trans ((slice_le_bytes_skip 8 _ _ 76 8).trans ((slice_append_right _ _ 48 28 8 (direct_bytes_length _)).trans ((slice_le_bytes_skip 4 _ _ 24 8).trans ((slice_le_bytes_skip 4 _ _ 20 8).trans ((slice_le_bytes_skip 4 _ _ 16 8).trans ((slice_le_bytes_skip 4 _ _ 12 8).trans ((slice_le_bytes_skip 4 _ _ 8 8).trans ((slice_le_bytes_skip 8 _ _ 0 8).trans (slice_le_bytes_hit 8 _ _)))))))))))))))), le_val_le_bytes]

theorem dirent_parse_inode_no (de : dirent64_t) :
    le_val (slice de.bytes 0 4) = de.inode_no % 256 ^ 4 := by
  unfold dirent64_t.bytes
  rw [List.append_assoc, List.append_assoc, slice_le_bytes_hit, le_val_le_bytes]

/-! ## Bitmaps -/

theorem and_one_shift_eq_zero (b j : Nat) : b &&& (1 <<< j) = 0 ↔ b.testBit j = false := by
  rw [Nat.one_shiftLeft]
  constructor
  · intro h
    have := congrArg (fun x => x.testBit j) h
    simpa [Nat.testBit_and, Nat.testBit_two_pow_self] using this
  · intro h
    apply Nat.eq_of_testBit_eq
    intro i
    rw [Nat.testBit_and, Nat.testBit_two_pow, Nat.zero_testBit]
    by_cases hji : j = i
    · subst hji; simp [h]
    · simp [hji]

theorem first_clear_bit_found (bm : List Nat) (fuel i f : Nat)
    (hlen : i + fuel ≤ 8 * bm.length)
    (h1 : ∀ j, i ≤ j → j < f → bit_set bm j = true) (h2 : bit_set bm f = false)
    (h3 : i ≤ f) (h4 : f < i + fuel) :
    first_clear_bit bm fuel i = some (some f) := by
  induction fuel generalizing i with
  | zero => omega
  | succ fuel ih =>
    unfold first_clear_bit
    have hi : i / 8 < bm.length := by omega
    rw [List.get?_eq_getElem?, List.getElem?_eq_getElem hi]
    simp only
    have hb : bm.getD (i / 8) 0 = bm[i / 8] := by
      rw [List.getD_eq_getElem?_getD, List.getElem?_eq_getElem hi]; rfl
    by_cases hif : i = f
    · subst hif
      have : bm[i / 8] &&& (1 <<< (i % 8)) = 0 := by
        rw [and_one_shift_eq_zero, ← hb]; exact h2
      rw [if_pos this]
    · have hs := h1 i (le_refl _) (by omega)
      have : ¬ (bm[i / 8] &&& (1 <<< (i % 8)) = 0) := by
        rw [and_one_shift_eq_zero, ← hb]
        unfold bit_set at hs
        rw [hs]
        decide
      rw [if_neg this]
      exact ih (i + 1) (by omega) (fun j hj1 hj2 => h1 j (by omega) hj2) (by omega) (by omega)

theorem first_clear_bit_full (bm : List Nat) (fuel i : Nat)
    (hlen : i + fuel ≤ 8 * bm.length)
    (h1 : ∀ j, i ≤ j → j < i + fuel → bit_set bm j = true) :
    first_clear_bit bm fuel i = some none := by
  induction fuel generalizing i with
  | zero => rfl
  | succ fuel ih =>
    unfold first_clear_bit
    have hi : i / 8 < bm.length := by omega
    rw [List.get?_eq_getElem?, List.getElem?_eq_getElem hi]
    simp only
    have hb : bm.getD (i / 8) 0 = bm[i / 8] := by
      rw [List.getD_eq_getElem?_getD, List.getElem?_eq_getElem hi]; rfl
    have hs := h1 i (le_refl _) (by omega)
    have : ¬ (bm[i / 8] &&& (1 <<< (i % 8)) = 0) := by
      rw [and_one_shift_eq_zero, ← hb]
      unfold bit_set at hs
      rw [hs]
      decide
    rw [if_neg this]
    exact ih (i + 1) (by omega) (fun j hj1 hj2 => h1 j (by omega) (by omega))

/-- A scan that stays inside the bitmap finds the lowest clear bit or none. -/
theorem first_clear_bit_cases (bm : List Nat) (fuel : Nat) (hlen : fuel ≤ 8 * bm.length) :
    (∃ f, f < fuel ∧ bit_set bm f = false ∧ (∀ j, j < f → bit_set bm j = true) ∧
        first_clear_bit bm fuel 0 = some (some f)) ∨
      ((∀ j, j < fuel → bit_set bm j = true) ∧ first_clear_bit bm fuel 0 = some none) := by
  by_cases h : ∃ f, f < fuel ∧ bit_set bm f = false
  · left
    classical
    refine ⟨Nat.find h, (Nat.find_spec h).1, (Nat.find_spec h).2, ?_, ?_⟩
    · intro j hj
      have := Nat.find_min h hj
      simp only [not_and] at this
      have h2 := this (lt_trans hj (Nat.find_spec h).1)
      simpa using h2
    · apply first_clear_bit_found bm fuel 0 _ (by omega)
      · intro j _ hj
        have := Nat.find_min h hj
        simp only [not_and] at this
        have h2 := this (lt_trans hj (Nat.find_spec h).1)
        simpa using h2
      · exact (Nat.find_spec h).2
      · omega
      · have := (Nat.find_spec h).1; omega
  · right
    have hall : ∀ j, j < fuel → bit_set bm j = true := by
      intro j hj
      by_contra hc
      exact h ⟨j, hj, by simpa using hc⟩
    exact ⟨hall, first_clear_bit_full bm fuel 0 (by omega) (fun j _ hj => hall j (by omega))⟩

theorem set_bit_eq (bm : List Nat) (n : Nat) (h : n / 8 < bm.length) :
    set_bit bm n =
      some (bm.set (n / 8) ((bm.getD (n / 8) 0 ||| (1 <<< (n % 8))) % 256)) := by
  unfold set_bit
  rw [List.get?_eq_getElem?, List.getElem?_eq_getElem h]
  simp only
  rw [List.getD_eq_getElem?_getD, List.getElem?_eq_getElem h]
  rfl

theorem bit_set_set (bm : List Nat) (n i : Nat) (h : n / 8 < bm.length) :
    bit_set (bm.set (n / 8) ((bm.getD (n / 8) 0 ||| (1 <<< (n % 8))) % 256)) i =
      (bit_set bm i || decide (i = n)) := by
  unfold bit_set
  by_cases hb : i / 8 = n / 8
  · rw [hb, List.getD_eq_getElem?_getD, List.getElem?_set_self h]
    simp only [Option.getD_some]
    rw [show (256 : Nat) = 2 ^ 8 by norm_num, Nat.testBit_mod_two_pow, Nat.testBit_or,
      Nat.one_shiftLeft, Nat.testBit_two_pow]
    have h8 : i % 8 < 8 := Nat.mod_lt _ (by norm_num)
    have hd : decide (n % 8 = i % 8) = decide (i = n) := by
      by_cases hin : i = n
      · subst hin; simp
      · have : n % 8 ≠ i % 8 := by omega
        simp [hin, this]
    rw [hd, List.getD_eq_getElem?_getD]
    simp [h8]
  · have hin : i ≠ n := by
      intro h'; subst h'; exact hb rfl
    rw [List.getD_eq_getElem?_getD, List.getElem?_set_ne (by omega),
      ← List.getD_eq_getElem?_getD]
    simp [hin]

/-! ## The steps of an insertion on an image in the state `image_inv` -/

theorem read_block_eq (img : List Nat) (b : Nat) (hb : b < 2 ^ 20)
    (h : (b + 1) * 4096 ≤ img.length) :
    read_block img b = some (slice img (b * 4096) 4096) := by
  unfold read_block
  simp only [BS]
  have e : b * 4096 % 2 ^ 64 = b * 4096 := Nat.mod_eq_of_lt (by omega)
  rw [e, if_pos (by omega), read_at_eq_some _ _ _ (by omega)]

theorem write_block_eq (img : List Nat) (b : Nat) (buf : List Nat) (hb : b < 2 ^ 20) :
    write_block img b buf = some (write_at img (b * 4096) buf) := by
  unfold write_block
  simp only [BS]
  have e : b * 4096 % 2 ^ 64 = b * 4096 := Nat.mod_eq_of_lt (by omega)
  rw [e, if_pos (by omega)]

theorem to_int32_of_small (n : Nat) (h : n < 2 ^ 31) : to_int32 n = (n : Int) := by
  unfold to_int32
  have e : n % 2 ^ 32 = n := Nat.mod_eq_of_lt (by omega)
  rw [e, if_pos h]

/-- The inode chosen in the state `image_inv`: number `k + 2`, or none when all `ic` inodes
are in use. -/
theorem find_free_inode_inv (ic drs drb k : Nat) (img : List Nat) (sb : superblock_t)
    (hg : geometry_ok ic drs drb) (hi : image_inv ic drs drb k img)
    (hsb : superblock_ok sb ic drs drb) :
    find_free_inode img sb = some (if k + 1 < ic then ((k + 2 : Nat) : Int) else -1) := by
  obtain ⟨g1, g2, g3, g4, g5, g6⟩ := hg
  obtain ⟨-, s2, s3, -, -, -, -⟩ := hsb
  have hlen := hi.length_eq
  unfold find_free_inode
  rw [s3, read_block_eq img 1 (by norm_num) (by omega)]
  simp only [s2]
  have hsl : (slice img (1 * 4096) 4096).length = 4096 := slice_length _ _ _ (by omega)
  by_cases hk : k + 1 < ic
  · rw [first_clear_bit_found _ ic 0 (k + 1) (by rw [hsl]; omega)
      (fun j _ hj => (hi.inode_bits j).mpr (by omega))
      (by
        have := hi.inode_bits (k + 1)
        cases hb : bit_set (slice img 4096 4096) (k + 1)
        · rfl
        · have := this.mp hb; omega)
      (by omega) (by omega)]
    simp only [if_pos hk]
    rw [to_int32_of_small _ (by omega)]
  · rw [first_clear_bit_full _ ic 0 (by rw [hsl]; omega)
      (fun j _ hj => (hi.inode_bits j).mpr (by omega))]
    simp only [if_neg hk]
/-- The data block chosen in the state `image_inv`: the first block behind the root
directory block whose bit is clear, or none. -/
theorem find_free_data_block_inv (ic drs drb k : Nat) (img : List Nat) (sb : superblock_t)
    (hg : geometry_ok ic drs drb) (hi : image_inv ic drs drb k img)
    (hsb : superblock_ok sb ic drs drb) :
    (∃ f, 1 ≤ f ∧ f < drb ∧ bit_set (slice img 8192 4096) f = false ∧
        (∀ j, j < f → bit_set (slice img 8192 4096) j = true) ∧
        find_free_data_block img sb = some ((drs + f : Nat) : Int)) ∨
      ((∀ j, j < drb → bit_set (slice img 8192 4096) j = true) ∧
        find_free_data_block img sb = some (-1)) := by
  obtain ⟨g1, g2, g3, g4, g5, g6⟩ := hg
  obtain ⟨-, -, -, s4, -, s6, s7⟩ := hsb
  have hlen := hi.length_eq
  have hsl : (slice img 8192 4096).length = 4096 := slice_length _ _ _ (by omega)
  have hrd : read_block img 2 = some (slice img 8192 4096) :=
    read_block_eq img 2 (by norm_num) (by omega)
  unfold find_free_data_block
  rw [s4, hrd, s7, s6]
  simp only
  rcases first_clear_bit_cases (slice img 8192 4096) drb (by rw [hsl]; omega) with
    ⟨f, hf1, hf2, hf3, hf4⟩ | ⟨hall, hn⟩
  · left
    refine ⟨f, ?_, hf1, hf2, hf3, ?_⟩
    · by_contra hc
      have : f = 0 := by omega
      subst this
      rw [hi.root_block_bit] at hf2
      exact Bool.noConfusion hf2
    · rw [hf4]
      simp only
      rw [to_int32_of_small _ (by omega)]
  · right
    refine ⟨hall, ?_⟩
    rw [hn]

theorem alloc_file_blocks_found (img : List Nat) (sb : superblock_t) (b : Nat)
    (hb : b < 2 ^ 31) (h : find_free_data_block img sb = some (b : Int)) (n : Nat) :
    alloc_file_blocks img sb n = some (some (List.replicate n b)) := by
  induction n with
  | zero => rfl
  | succ n ih =>
    unfold alloc_file_blocks
    rw [h]
    simp only
    rw [if_neg (by omega), ih]
    simp only
    rw [to_u32_of_small b (by omega), List.replicate_succ]

theorem alloc_file_blocks_full (img : List Nat) (sb : superblock_t)
    (h : find_free_data_block img sb = some (-1)) (n : Nat) (hn : 0 < n) :
    alloc_file_blocks img sb n = some none := by
  obtain ⟨m, rfl⟩ : ∃ m, n = m + 1 := ⟨n - 1, by omega⟩
  unfold alloc_file_blocks
  rw [h]
  simp

/-- The choice of inode and data blocks in the state `image_inv`: it succeeds exactly when
an inode is free and, for a nonempty file, a data block is free; every block of the file is
then the same first free block `drs + f`. -/
theorem adder_allocate_inv (ic drs drb k : Nat) (img : List Nat) (sb : superblock_t)
    (hg : geometry_ok ic drs drb) (hi : image_inv ic drs drb k img)
    (hsb : superblock_ok sb ic drs drb) (n : Nat) :
    (k + 1 < ic ∧ n = 0 ∧ adder_allocate img sb n = .ok (((k + 2 : Nat) : Int), [])) ∨
    (k + 1 < ic ∧ 0 < n ∧ ∃ f, 1 ≤ f ∧ f < drb ∧ bit_set (slice img 8192 4096) f = false ∧
        (∀ j, j < f → bit_set (slice img 8192 4096) j = true) ∧
        adder_allocate img sb n = .ok (((k + 2 : Nat) : Int), List.replicate n (drs + f))) ∨
    ((ic ≤ k + 1 ∨ (0 < n ∧ ∀ j, j < drb → bit_set (slice img 8192 4096) j = true)) ∧
      ∃ e, adder_allocate img sb n = .error e) := by
  have g := hg
  obtain ⟨g1, g2, g3, g4, g5, g6⟩ := g
  unfold adder_allocate
  rw [find_free_inode_inv ic drs drb k img sb hg hi hsb]
  simp only
  by_cases hk : k + 1 < ic
  · rw [if_pos hk, if_neg (by omega)]
    by_cases hn : n = 0
    · subst hn
      left
      exact ⟨hk, rfl, rfl⟩
    · right
      rcases find_free_data_block_inv ic drs drb k img sb hg hi hsb with
        ⟨f, hf1, hf2, hf3, hf4, hf5⟩ | ⟨hall, hfull⟩
      · left
        refine ⟨hk, by omega, f, hf1, hf2, hf3, hf4, ?_⟩
        rw [alloc_file_blocks_found img sb (drs + f) (by omega) hf5 n]
      · right
        rw [alloc_file_blocks_full img sb hfull n (by omega)]
        exact ⟨Or.inr ⟨by omega, hall⟩, _, rfl⟩
  · right; right
    rw [if_neg hk, if_pos rfl]
    exact ⟨Or.inl (by omega), _, rfl⟩
theorem set_bit_spec (bm : List Nat) (n : Nat) (h : n / 8 < bm.length) :
    ∃ bm2, set_bit bm n = some bm2 ∧ bm2.length = bm.length ∧
      ∀ i, bit_set bm2 i = (bit_set bm i || decide (i = n)) :=
  ⟨_, set_bit_eq bm n h, List.length_set _ _ _, fun i => bit_set_set bm n i h⟩

theorem set_data_bits_spec (drs : Nat) (fb bm : List Nat)
    (h : ∀ b ∈ fb, drs ≤ b ∧ (b - drs) / 8 < bm.length ∧ b < 2 ^ 64) :
    ∃ bm2, set_data_bits drs bm fb = some bm2 ∧ bm2.length = bm.length ∧
      ∀ i, bit_set bm2 i = (bit_set bm i || decide (drs + i ∈ fb)) := by
  induction fb generalizing bm with
  | nil => exact ⟨bm, rfl, rfl, fun i => by simp⟩
  | cons b fb ih =>
    obtain ⟨hb1, hb2, hb3⟩ := h b (by simp)
    have e : (b + 2 ^ 64 - drs) % 2 ^ 64 = b - drs := by omega
    obtain ⟨bm1, h1, l1, p1⟩ := set_bit_spec bm (b - drs) hb2
    obtain ⟨bm2, h2, l2, p2⟩ := ih bm1 (fun c hc => by
      have := h c (by simp [hc])
      rw [l1]; exact this)
    refine ⟨bm2, ?_, by rw [l2, l1], ?_⟩
    · unfold set_data_bits
      rw [e, h1]
      exact h2
    · intro i
      rw [p2 i, p1 i]
      have : decide (drs + i ∈ b :: fb) = (decide (i = b - drs) || decide (drs + i ∈ fb)) := by
        by_cases hc : i = b - drs
        · subst hc
          have : drs + (b - drs) = b := by omega
          simp [this]
        · have : drs + i ≠ b := by omega
          simp [hc, this]
      rw [this, Bool.or_assoc]

theorem to_u64_pred (k : Nat) (h : k < 2 ^ 32) : to_u64 (((k + 2 : Nat) : Int) - 1) = k + 1 := by
  unfold to_u64
  omega

theorem to_u32_pred (k : Nat) (h : k < 2 ^ 20) : to_u32 (((k + 2 : Nat) : Int) - 1) = k + 1 := by
  unfold to_u32
  omega

/-- The bitmap update in the state `image_inv`: bit `k + 1` of the inode bitmap and the bits
of the chosen blocks in the data bitmap become set, nothing else changes. -/
theorem adder_mark_bitmaps_inv (ic drs drb k : Nat) (img : List Nat) (sb : superblock_t)
    (hg : geometry_ok ic drs drb) (hi : image_inv ic drs drb k img)
    (hsb : superblock_ok sb ic drs drb) (hk : k + 1 < ic) (fb : List Nat)
    (hfb : ∀ b ∈ fb, drs ≤ b ∧ b < drs + drb) :
    ∃ out, adder_mark_bitmaps img sb ((k + 2 : Nat) : Int) fb = .ok out ∧
      out.length = img.length ∧
      (∀ o m, o + m ≤ 4096 ∨ 12288 ≤ o → slice out o m = slice img o m) ∧
      (∀ i, bit_set (slice out 4096 4096) i =
        (bit_set (slice img 4096 4096) i || decide (i = k + 1))) ∧
      (∀ i, bit_set (slice out 8192 4096) i =
        (bit_set (slice img 8192 4096) i || decide (drs + i ∈ fb))) := by
  obtain ⟨g1, g2, g3, g4, g5, g6⟩ := hg
  obtain ⟨-, -, s3, s4, -, s6, -⟩ := hsb
  have hlen := hi.length_eq
  have hl1 : (slice img 4096 4096).length = 4096 := slice_length _ _ _ (by omega)
  have hl2 : (slice img 8192 4096).length = 4096 := slice_length _ _ _ (by omega)
  obtain ⟨ibm2, hs1, hl3, hp1⟩ := set_bit_spec (slice img 4096 4096) (k + 1)
    (by rw [hl1]; omega)
  have hw1 : 4096 + ibm2.length ≤ img.length := by rw [hl3, hl1]; omega
  have hlo1 : (write_at img 4096 ibm2).length = img.length := write_at_length _ _ _ hw1
  have hd1 : slice (write_at img 4096 ibm2) 8192 4096 = slice img 8192 4096 :=
    slice_write_at_disjoint _ _ _ hw1 _ _ (Or.inr (by rw [hl3, hl1]))
  obtain ⟨dbm2, hs2, hl4, hp2⟩ := set_data_bits_spec drs fb (slice img 8192 4096) (fun b hb => by
    have := hfb b hb
    rw [hl2]; omega)
  have hw2 : 8192 + dbm2.length ≤ (write_at img 4096 ibm2).length := by
    rw [hl4, hl2, hlo1]; omega
  refine ⟨write_at (write_at img 4096 ibm2) 8192 dbm2, ?_, ?_, ?_, ?_, ?_⟩
  · unfold adder_mark_bitmaps
    rw [s3, s4, s6, read_block_eq img 1 (by norm_num) (by omega)]
    simp only
    rw [to_u64_pred k (by omega), hs1]
    simp only
    rw [write_block_eq _ 1 _ (by norm_num)]
    simp only
    rw [read_block_eq _ 2 (by norm_num) (by rw [hlo1]; omega), hd1]
    simp only
    rw [hs2]
    simp only
    rw [write_block_eq _ 2 _ (by norm_num)]
  · rw [write_at_length _ _ _ hw2, hlo1]
  · intro o m hom
    rw [slice_write_at_disjoint _ _ _ hw2 _ _ (by rw [hl4, hl2]; omega),
      slice_write_at_disjoint _ _ _ hw1 _ _ (by rw [hl3, hl1]; omega)]
  · intro i
    rw [slice_write_at_disjoint _ _ _ hw2 _ _ (Or.inl (by omega)), ← hp1 i]
    have := slice_write_at_same img 4096 ibm2 hw1
    rw [hl3, hl1] at this
    rw [this]
  · intro i
    have := slice_write_at_same (write_at img 4096 ibm2) 8192 dbm2 hw2
    rw [hl4, hl2] at this
    rw [this, hp2 i]

theorem inode_offset_inv (ic drs drb k : Nat) (sb : superblock_t)
    (hsb : superblock_ok sb ic drs drb) (hk : k < 2 ^ 20) :
    inode_offset sb ((k + 2 : Nat) : Int) = 12288 + (k + 1) * 128 := by
  obtain ⟨-, -, -, -, s5, -, -⟩ := hsb
  unfold inode_offset
  rw [s5, to_u32_pred k hk]
  simp only [BS, INODE_SIZE]
  omega

theorem adder_write_inode_inv (ic drs drb k : Nat) (out : List Nat) (sb : superblock_t)
    (hsb : superblock_ok sb ic drs drb) (hk : k < 2 ^ 20) (ino : inode_t) :
    adder_write_inode out sb ((k + 2 : Nat) : Int) ino =
      .ok (write_at out (12288 + (k + 1) * 128) ino.bytes) := by
  unfold adder_write_inode
  rw [inode_offset_inv ic drs drb k sb hsb hk, if_pos (by omega)]

/-- The copy of the file data writes whole blocks with numbers in `[lo, hi)` and nothing
else. -/
theorem copy_file_data_spec (content : List Nat) (lo hi : Nat) (hhi : hi ≤ 2 ^ 20)
    (fb : List Nat) (out : List Nat) (i : Nat)
    (hfb : ∀ b ∈ fb, lo ≤ b ∧ b < hi) (hlen : hi * 4096 ≤ out.length) :
    ∃ out2, copy_file_data content out i fb = .ok out2 ∧ out2.length = out.length ∧
      ∀ o m, o + m ≤ lo * 4096 → slice out2 o m = slice out o m := by
  induction fb generalizing out i with
  | nil => exact ⟨out, rfl, rfl, fun _ _ _ => rfl⟩
  | cons b fb ih =>
    obtain ⟨hb1, hb2⟩ := hfb b (by simp)
    unfold copy_file_data
    simp only
    rw [write_block_eq _ b _ (by omega)]
    simp only
    have hbl : ∀ x, (fixN BS x).length = 4096 := fun x => fixN_length _ _
    have hw : ∀ x, b * 4096 + (fixN BS x).length ≤ out.length := by
      intro x; rw [hbl]; omega
    obtain ⟨out2, h2, l2, p2⟩ := ih (write_at out (b * 4096) (fixN BS (slice content (i * BS)
      (if i = blocks_needed content.length - 1 then content.length - i * BS else BS))))
      (i + 1) (fun c hc => hfb c (by simp [hc])) (by rw [write_at_length _ _ _ (hw _)]; exact hlen)
    refine ⟨out2, h2, by rw [l2, write_at_length _ _ _ (hw _)], ?_⟩
    intro o m hom
    rw [p2 o m hom, slice_write_at_disjoint _ _ _ (hw _) _ _ (Or.inl (by
      have : lo * 4096 ≤ b * 4096 := Nat.mul_le_mul_right _ hb1
      omega))]

theorem slice_write_at_inside (img : List Nat) (off : Nat) (data : List Nat)
    (h : off + data.length ≤ img.length) (o n : Nat) (hon : o + n ≤ data.length) :
    slice (write_at img off data) (off + o) n = slice data o n := by
  have := slice_slice (write_at img off data) off data.length o n hon
  rw [slice_write_at_same _ _ _ h] at this
  exact this.symm

theorem find_range_some (p : Nat → Bool) (n f : Nat) (hf : f < n)
    (h1 : ∀ j, j < f → p j = false) (h2 : p f = true) :
    (List.range n).find? p = some f := by
  obtain ⟨m, rfl⟩ : ∃ m, n = f + (m + 1) := ⟨n - f - 1, by omega⟩
  rw [List.range_add, List.find?_append]
  have e1 : (List.range f).find? p = none := by
    rw [List.find?_eq_none]
    intro x hx
    rw [List.mem_range] at hx
    simp [h1 x hx]
  rw [e1, List.range_succ_eq_map, List.map_cons, List.find?_cons]
  simp [h2]

theorem find_range_none (p : Nat → Bool) (n : Nat) (h1 : ∀ j, j < n → p j = false) :
    (List.range n).find? p = none := by
  rw [List.find?_eq_none]
  intro x hx
  rw [List.mem_range] at hx
  simp [h1 x hx]

theorem root_inode_offset_inv (ic drs drb : Nat) (sb : superblock_t)
    (hsb : superblock_ok sb ic drs drb) : root_inode_offset sb = 12288 := by
  obtain ⟨-, -, -, -, s5, -, -⟩ := hsb
  unfold root_inode_offset
  rw [s5]
  rfl

theorem fixN_direct (d : Nat) (hd : d < 2 ^ 32) :
    (fixN 12 (d :: List.replicate 11 0)).map (· % 256 ^ 4) = d :: List.replicate 11 0 := by
  have e : fixN 12 (d :: List.replicate 11 0) = d :: List.replicate 11 0 := rfl
  rw [e, List.map_cons, List.map_replicate]
  congr 1
  exact Nat.mod_eq_of_lt (by norm_num at hd ⊢; exact hd)

/-- The search for a free entry in a directory block whose first `e` entries are in use. -/
theorem find_free_entry_inv (blk : List Nat) (e : Nat)
    (h : ∀ j, j < 64 → (le_val (slice blk (j * 64) 4) = 0 ↔ e ≤ j)) :
    find_free_entry blk = if e < 64 then some e else none := by
  unfold find_free_entry
  have h64 : BS / 64 = 64 := rfl
  rw [h64]
  by_cases he : e < 64
  · rw [if_pos he]
    apply find_range_some _ 64 e he
    · intro j hj
      have := h j (by omega)
      simp only [decide_eq_false_iff_not]
      intro hc
      have := this.mp hc
      omega
    · simp only [decide_eq_true_eq]
      exact (h e he).mpr (le_refl _)
  · rw [if_neg he]
    apply find_range_none
    intro j hj
    simp only [decide_eq_false_iff_not]
    intro hc
    have := (h j hj).mp hc
    omega
theorem fill_entry_inode_no (entry : dirent64_t) (n : Int) (name : List Nat) :
    (fill_entry entry n name).inode_no = to_u32 n :=
  rfl

/-- The directory update on an image whose root inode points to block `drs` only and whose
first `e` directory entries are in use: entry `e` is written, or the directory is full. -/
theorem add_dirent_inv (drs drb e : Nat) (out : List Nat) (n : Int) (name : List Nat)
    (hd1 : 4 ≤ drs) (hd2 : 1 ≤ drb) (hd3 : drs + drb ≤ 2 ^ 20)
    (hlen : out.length = (drs + drb) * 4096)
    (hent : ∀ j, j < 64 → (le_val (slice out (drs * 4096 + j * 64) 4) = 0 ↔ e ≤ j)) :
    (e < 64 ∧ ∃ entry : dirent64_t, entry.inode_no = to_u32 n ∧
      add_dirent out n name (drs :: List.replicate 11 0) =
        .ok (some (write_at out (drs * 4096)
          (write_at (slice out (drs * 4096) 4096) (e * 64) entry.bytes)))) ∨
    (64 ≤ e ∧ add_dirent out n name (drs :: List.replicate 11 0) = .ok none) := by
  have hblk : ∀ j, j < 64 → slice (slice out (drs * 4096) 4096) (j * 64) 4 =
      slice out (drs * 4096 + j * 64) 4 := fun j hj => slice_slice _ _ _ _ _ (by omega)
  have hfind := find_free_entry_inv (slice out (drs * 4096) 4096) e (fun j hj => by
    rw [hblk j hj]; exact hent j hj)
  have hread : read_block out drs = some (slice out (drs * 4096) 4096) :=
    read_block_eq out drs (by omega) (by rw [hlen]; nlinarith)
  unfold add_dirent
  rw [if_neg (by omega), hread]
  simp only
  rw [hfind]
  by_cases he : e < 64
  · left
    refine ⟨he, fill_entry (dirent_parse (slice (slice out (drs * 4096) 4096) (e * 64) 64)) n
      name, rfl, ?_⟩
    rw [if_pos he]
    simp only
    rw [write_block_eq _ drs _ (by omega)]
  · right
    refine ⟨by omega, ?_⟩
    rw [if_neg he]
    simp only
    rw [show List.replicate 11 (0 : Nat) = 0 :: List.replicate 10 0 by rfl]
    unfold add_dirent
    rw [if_pos rfl]
/-- The three writes that end an insertion: directory block, root inode, superblock. -/
theorem link_writes (out blk R S : List Nat) (drs drb : Nat)
    (hd1 : 4 ≤ drs) (hd2 : 1 ≤ drb) (hlen : out.length = (drs + drb) * 4096)
    (hblk : blk.length = 4096) (hR : R.length = 128) (hS : S.length = 116) :
    (write_at (write_at (write_at out (drs * 4096) blk) 12288 R) 0 S).length = out.length ∧
    (∀ o m, (116 ≤ o ∧ o + m ≤ 12288) ∨ (12416 ≤ o ∧ o + m ≤ drs * 4096) ∨
        (drs + 1) * 4096 ≤ o →
      slice (write_at (write_at (write_at out (drs * 4096) blk) 12288 R) 0 S) o m =
        slice out o m) ∧
    slice (write_at (write_at (write_at out (drs * 4096) blk) 12288 R) 0 S) 0 116 = S ∧
    slice (write_at (write_at (write_at out (drs * 4096) blk) 12288 R) 0 S) 12288 128 = R ∧
    (∀ o n, o + n ≤ 4096 →
      slice (write_at (write_at (write_at out (drs * 4096) blk) 12288 R) 0 S)
        (drs * 4096 + o) n = slice blk o n) := by
  have hw1 : drs * 4096 + blk.length ≤ out.length := by rw [hblk, hlen]; omega
  have hl1 : (write_at out (drs * 4096) blk).length = out.length := write_at_length _ _ _ hw1
  have hw2 : 12288 + R.length ≤ (write_at out (drs * 4096) blk).length := by
    rw [hR, hl1, hlen]; omega
  have hl2 : (write_at (write_at out (drs * 4096) blk) 12288 R).length = out.length := by
    rw [write_at_length _ _ _ hw2, hl1]
  have hw3 : 0 + S.length ≤ (write_at (write_at out (drs * 4096) blk) 12288 R).length := by
    rw [hS, hl2, hlen]; omega
  refine ⟨by rw [write_at_length _ _ _ hw3, hl2], ?_, ?_, ?_, ?_⟩
  · intro o m h
    rw [slice_write_at_disjoint _ _ _ hw3 _ _ (Or.inr (by rw [hS]; omega)),
      slice_write_at_disjoint _ _ _ hw2 _ _ (by rw [hR]; omega),
      slice_write_at_disjoint _ _ _ hw1 _ _ (by rw [hblk]; omega)]
  · have := slice_write_at_same _ 0 S hw3
    rw [hS] at this
    exact this
  · rw [slice_write_at_disjoint _ _ _ hw3 _ _ (Or.inr (by rw [hS]; omega))]
    have := slice_write_at_same _ 12288 R hw2
    rw [hR] at this
    exact this
  · intro o n hon
    rw [slice_write_at_disjoint _ _ _ hw3 _ _ (Or.inr (by rw [hS]; omega)),
      slice_write_at_disjoint _ _ _ hw2 _ _ (Or.inr (by rw [hR]; omega)),
      slice_write_at_inside _ _ _ hw1 _ _ (by rw [hblk]; exact hon)]

theorem link_sb_ok (ic drs drb : Nat) (sb : superblock_t) (hg : geometry_ok ic drs drb)
    (hsb : superblock_ok sb ic drs drb) (now : Nat) (mem : List Nat) :
    superblock_ok
      (superblock_parse (superblock_crc_finalize { sb with mtime_epoch := now } mem).bytes)
      ic drs drb := by
  obtain ⟨g1, g2, g3, g4, g5, g6⟩ := hg
  obtain ⟨s1, s2, s3, s4, s5, s6, s7⟩ := hsb
  rw [superblock_parse_bytes]
  unfold superblock_ok
  simp only [superblock_crc_finalize]
  rw [s1, s2, s3, s4, s5, s6, s7]
  refine ⟨by norm_num, ?_, by norm_num, by norm_num, by norm_num, ?_, ?_⟩ <;>
    exact Nat.mod_eq_of_lt (by norm_num at g6 ⊢; omega)

theorem link_root_direct (drs : Nat) (root : inode_t) (hd : drs < 2 ^ 32)
    (hroot : root.direct = drs :: List.replicate 11 0) (now : Nat) :
    (inode_parse (inode_crc_finalize { root with mtime := now, ctime := now }).bytes).direct =
      drs :: List.replicate 11 0 := by
  rw [inode_parse_direct]
  have e : (inode_crc_finalize { root with mtime := now, ctime := now }).direct = root.direct :=
    rfl
  rw [e, hroot, fixN_direct drs hd]

theorem to_u32_num (k : Nat) (h : k < 2 ^ 20) : to_u32 ((k + 2 : Nat) : Int) = k + 2 := by
  unfold to_u32
  omega

/-- The last step of an insertion on an image whose first `k + 2` directory entries are in
use: entry `k + 2` is written and root inode and superblock are rewritten, or the directory
is full and the image stays as it is. -/
theorem adder_link_inv (ic drs drb k : Nat) (out : List Nat) (sb : superblock_t)
    (hg : geometry_ok ic drs drb) (hsb : superblock_ok sb ic drs drb)
    (hlen : out.length = (drs + drb) * 4096)
    (hroot : (inode_parse (slice out 12288 128)).direct = drs :: List.replicate 11 0)
    (hent : ∀ j, j < 64 → (le_val (slice out (drs * 4096 + j * 64) 4) = 0 ↔ k + 2 ≤ j))
    (name : List Nat) (now : Nat) (mem : List Nat) :
    (k + 2 < 64 ∧ ∃ out2, adder_link out sb ((k + 2 : Nat) : Int) name now mem = .ok out2 ∧
      out2.length = out.length ∧
      (∀ o m, (116 ≤ o ∧ o + m ≤ 12288) ∨ (12416 ≤ o ∧ o + m ≤ drs * 4096) ∨
          (drs + 1) * 4096 ≤ o → slice out2 o m = slice out o m) ∧
      superblock_ok (superblock_parse (slice out2 0 116)) ic drs drb ∧
      (inode_parse (slice out2 12288 128)).direct = drs :: List.replicate 11 0 ∧
      (∀ j, j < 64 → (le_val (slice out2 (drs * 4096 + j * 64) 4) = 0 ↔ k + 3 ≤ j))) ∨
    (64 ≤ k + 2 ∧
      adder_link out sb ((k + 2 : Nat) : Int) name now mem = .error (.directory_full, out)) := by
  have g := hg
  obtain ⟨g1, g2, g3, g4, g5, g6⟩ := g
  have hoff := root_inode_offset_inv ic drs drb sb hsb
  have hrd : read_at out 12288 128 = some (slice out 12288 128) :=
    read_at_eq_some _ _ _ (by rw [hlen]; omega)
  have hsbo := link_sb_ok ic drs drb sb hg hsb now mem
  have hrdo := link_root_direct drs (inode_parse (slice out 12288 128)) (by omega) hroot now
  have hSl := superblock_bytes_length (superblock_crc_finalize { sb with mtime_epoch := now } mem)
  have hRl := inode_bytes_length (inode_crc_finalize
    { inode_parse (slice out 12288 128) with mtime := now, ctime := now })
  rcases add_dirent_inv drs drb (k + 2) out ((k + 2 : Nat) : Int) name g3 g4 g6 hlen hent with
    ⟨he, entry, hno, hadd⟩ | ⟨he, hadd⟩
  · left
    refine ⟨he, ?_⟩
    have hEl := dirent_bytes_length entry
    have hEn : le_val (slice entry.bytes 0 4) = k + 2 := by
      rw [dirent_parse_inode_no, hno, to_u32_num k (by omega)]
      exact Nat.mod_eq_of_lt (by omega)
    have hbl : (slice out (drs * 4096) 4096).length = 4096 :=
      slice_length _ _ _ (by rw [hlen]; omega)
    have hwe : (k + 2) * 64 + entry.bytes.length ≤ (slice out (drs * 4096) 4096).length := by
      rw [hEl, hbl]; omega
    have hbl2 : (write_at (slice out (drs * 4096) 4096) ((k + 2) * 64) entry.bytes).length =
        4096 := by rw [write_at_length _ _ _ hwe, hbl]
    obtain ⟨w1, w2, w3, w4, w5⟩ := link_writes out
      (write_at (slice out (drs * 4096) 4096) ((k + 2) * 64) entry.bytes)
      (inode_crc_finalize
        { inode_parse (slice out 12288 128) with mtime := now, ctime := now }).bytes
      (superblock_crc_finalize { sb with mtime_epoch := now } mem).bytes
      drs drb g3 g4 hlen hbl2 hRl hSl
    refine ⟨_, ?_, w1, w2, ?_, ?_, ?_⟩
    · unfold adder_link
      rw [hoff, if_pos (by norm_num), hrd]
      simp only
      rw [hroot, hadd]
    · rw [w3]; exact hsbo
    · rw [w4]; exact hrdo
    · intro j hj
      rw [w5 (j * 64) 4 (by omega)]
      by_cases hjk : j = k + 2
      · subst hjk
        have : slice (write_at (slice out (drs * 4096) 4096) ((k + 2) * 64) entry.bytes)
            ((k + 2) * 64) 4 = slice entry.bytes 0 4 :=
          slice_write_at_inside (slice out (drs * 4096) 4096) ((k + 2) * 64) entry.bytes
            hwe 0 4 (by rw [hEl]; omega)
        rw [this, hEn]
        constructor
        · intro h; omega
        · intro h; omega
      · rw [slice_write_at_disjoint _ _ _ hwe _ _ (by rw [hEl]; omega),
          slice_slice _ _ _ _ _ (by omega), hent j hj]
        omega
  · right
    refine ⟨he, ?_⟩
    unfold adder_link
    rw [hoff, if_pos (by norm_num), hrd]
    simp only
    rw [hroot, hadd]
/-- The writes of an insertion in the state `image_inv`, for inode `k + 2` and any blocks
behind the root directory block: they lead to the state for `k + 1` files, or stop at a full
directory. -/
theorem adder_write_inv (ic drs drb k : Nat) (img : List Nat) (sb : superblock_t)
    (hg : geometry_ok ic drs drb) (hi : image_inv ic drs drb k img)
    (hsb : superblock_ok sb ic drs drb) (hk : k + 1 < ic) (fb : List Nat)
    (hfb : ∀ b ∈ fb, drs + 1 ≤ b ∧ b < drs + drb)
    (name content : List Nat) (now : Nat) (mem : List Nat) :
    (k + 2 < 64 ∧ ∃ out,
      adder_write img sb ((k + 2 : Nat) : Int) fb name content now mem = .ok out ∧
      image_inv ic drs drb (k + 1) out ∧
      (∀ i, bit_set (slice out 8192 4096) i =
        (bit_set (slice img 8192 4096) i || decide (drs + i ∈ fb)))) ∨
    (64 ≤ k + 2 ∧
      ∃ e, adder_write img sb ((k + 2 : Nat) : Int) fb name content now mem = .error e) := by
  have g := hg
  obtain ⟨g1, g2, g3, g4, g5, g6⟩ := g
  have hlen := hi.length_eq
  obtain ⟨out1, h1, l1, f1, ib1, db1⟩ := adder_mark_bitmaps_inv ic drs drb k img sb hg hi hsb hk
    fb (fun b hb => by have := hfb b hb; omega)
  have h2 := adder_write_inode_inv ic drs drb k out1 sb hsb (by omega)
    (new_inode content.length now fb)
  have hIl := inode_bytes_length (new_inode content.length now fb)
  have hslot : 12288 + (k + 2) * 128 ≤ drs * 4096 := by
    have : (k + 2) * 128 ≤ ic * 128 := Nat.mul_le_mul_right _ (by omega)
    omega
  have hw2 : 12288 + (k + 1) * 128 + (new_inode content.length now fb).bytes.length ≤
      out1.length := by
    rw [hIl, l1, hlen]; omega
  have l2 := write_at_length _ _ _ hw2
  obtain ⟨out3, h3, l3, f3⟩ := copy_file_data_spec content (drs + 1) (drs + drb) g6 fb
    (write_at out1 (12288 + (k + 1) * 128) (new_inode content.length now fb).bytes) 0 hfb
    (by rw [l2, l1, hlen])
  have hlen3 : out3.length = (drs + drb) * 4096 := by rw [l3, l2, l1, hlen]
  have fr : ∀ o m, (o + m ≤ 4096 ∨ 12288 ≤ o) →
      (o + m ≤ 12288 + (k + 1) * 128 ∨ 12288 + (k + 2) * 128 ≤ o) →
      o + m ≤ (drs + 1) * 4096 → slice out3 o m = slice img o m := by
    intro o m c1 c2 c3
    rw [f3 o m c3, slice_write_at_disjoint _ _ _ hw2 _ _ (by rw [hIl]; omega), f1 o m c1]
  have hroot3 : (inode_parse (slice out3 12288 128)).direct = drs :: List.replicate 11 0 := by
    rw [fr 12288 128 (Or.inr (le_refl _)) (Or.inl (by omega)) (by omega)]
    exact hi.root_direct
  have hent3 : ∀ j, j < 64 →
      (le_val (slice out3 (drs * 4096 + j * 64) 4) = 0 ↔ k + 2 ≤ j) := by
    intro j hj
    rw [fr _ 4 (Or.inr (by omega)) (Or.inr (by omega)) (by omega)]
    exact hi.entries j hj
  have hb1 : slice out3 4096 4096 = slice out1 4096 4096 := by
    rw [f3 _ _ (by omega), slice_write_at_disjoint _ _ _ hw2 _ _ (Or.inl (by omega))]
  have hb2 : slice out3 8192 4096 = slice out1 8192 4096 := by
    rw [f3 _ _ (by omega), slice_write_at_disjoint _ _ _ hw2 _ _ (Or.inl (by omega))]
  rcases adder_link_inv ic drs drb k out3 sb hg hsb hlen3 hroot3 hent3 name now mem with
    ⟨hk2, out4, h4, l4, f4, sb4, rd4, en4⟩ | ⟨hk2, h4⟩
  · left
    refine ⟨hk2, out4, ?_, ?_, ?_⟩
    · unfold adder_write
      rw [h1]
      simp only
      rw [h2]
      simp only
      rw [h3]
      simp only
      exact h4
    · refine ⟨by rw [l4, hlen3], sb4, ?_, ?_, rd4, en4⟩
      · intro i
        rw [f4 4096 4096 (Or.inl (by omega)), hb1, ib1 i, Bool.or_eq_true, hi.inode_bits i,
          decide_eq_true_eq]
        omega
      · rw [f4 8192 4096 (Or.inl (by omega)), hb2, db1 0, hi.root_block_bit]
        rfl
    · intro i
      rw [f4 8192 4096 (Or.inl (by omega)), hb2, db1 i]
  · right
    refine ⟨hk2, (.directory_full, out3), ?_⟩
    unfold adder_write
    rw [h1]
    simp only
    rw [h2]
    simp only
    rw [h3]
    simp only
    exact h4

/-- The insertion in the state `image_inv`, after the name check: either it succeeds with
inode `k + 2`, every block of the file being the first free block `drs + f`, and leads to
the state for `k + 1` files with bit `f` of the data bitmap set if the file is nonempty; or
it fails, because the file needs more than 12 blocks, no inode is free, no data block is
free, or the directory is full. -/
theorem adder_update_inv (ic drs drb k : Nat) (img : List Nat)
    (hg : geometry_ok ic drs drb) (hi : image_inv ic drs drb k img)
    (name content : List Nat) (now : Nat) (mem : List Nat) :
    (∃ r f, adder_update img name content now mem = .ok r ∧
      blocks_needed content.length ≤ 12 ∧ k + 1 < ic ∧ k + 2 < 64 ∧
      r.new_inode_num = ((k + 2 : Nat) : Int) ∧
      r.file_blocks = List.replicate (blocks_needed content.length) (drs + f) ∧
      (0 < blocks_needed content.length → 1 ≤ f ∧ f < drb ∧
        bit_set (slice img 8192 4096) f = false ∧
        ∀ j, j < f → bit_set (slice img 8192 4096) j = true) ∧
      image_inv ic drs drb (k + 1) r.image ∧
      (∀ i, bit_set (slice r.image 8192 4096) i =
        (bit_set (slice img 8192 4096) i ||
          decide (0 < blocks_needed content.length ∧ i = f)))) ∨
    ((12 < blocks_needed content.length ∨ ic ≤ k + 1 ∨
        (0 < blocks_needed content.length ∧
          ∀ j, j < drb → bit_set (slice img 8192 4096) j = true) ∨ 64 ≤ k + 2) ∧
      ∃ e, adder_update img name content now mem = .error e) := by
  have g := hg
  obtain ⟨g1, g2, g3, g4, g5, g6⟩ := g
  have hlen := hi.length_eq
  have hsb := hi.superblock
  have hrd : read_at img 0 116 = some (slice img 0 116) :=
    read_at_eq_some _ _ _ (by rw [hlen]; omega)
  unfold adder_update
  rw [hrd]
  simp only [DIRECT_MAX]
  by_cases hn : blocks_needed content.length > 12
  · right
    rw [if_pos hn]
    exact ⟨Or.inl hn, _, rfl⟩
  rw [if_neg hn]
  rcases adder_allocate_inv ic drs drb k img _ hg hi hsb (blocks_needed content.length) with
    ⟨hk, hn0, ha⟩ | ⟨hk, hn0, f, hf1, hf2, hf3, hf4, ha⟩ | ⟨hr, e, ha⟩
  · rw [ha]
    simp only
    rcases adder_write_inv ic drs drb k img _ hg hi hsb hk [] (fun b hb => by simp at hb)
      name content now mem with ⟨hk2, out, hw, hinv, hbits⟩ | ⟨hk2, e, hw⟩
    · left
      refine ⟨⟨out, ((k + 2 : Nat) : Int), []⟩, 0, ?_, by omega, hk, hk2, rfl, ?_, ?_, hinv, ?_⟩
      · rw [hw]
      · rw [hn0]; rfl
      · intro h; omega
      · intro i
        rw [hbits i]
        simp [hn0]
    · right
      rw [hw]
      exact ⟨Or.inr (Or.inr (Or.inr hk2)), _, rfl⟩
  · rw [ha]
    simp only
    rcases adder_write_inv ic drs drb k img _ hg hi hsb hk
      (List.replicate (blocks_needed content.length) (drs + f)) (fun b hb => by
        have := List.eq_of_mem_replicate hb
        omega)
      name content now mem with ⟨hk2, out, hw, hinv, hbits⟩ | ⟨hk2, e, hw⟩
    · left
      refine ⟨⟨out, ((k + 2 : Nat) : Int), _⟩, f, ?_, by omega, hk, hk2, rfl, rfl,
        fun _ => ⟨hf1, hf2, hf3, hf4⟩, hinv, ?_⟩
      · rw [hw]
      · intro i
        rw [hbits i]
        congr 1
        rw [decide_eq_decide, List.mem_replicate]
        constructor
        · rintro ⟨h1, h2⟩; exact ⟨hn0, by omega⟩
        · rintro ⟨h1, h2⟩; exact ⟨by omega, by omega⟩
    · right
      rw [hw]
      exact ⟨Or.inr (Or.inr (Or.inr hk2)), _, rfl⟩
  · right
    rw [ha]
    refine ⟨?_, _, rfl⟩
    rcases hr with h | h
    · exact Or.inr (Or.inl h)
    · exact Or.inr (Or.inr (Or.inl h))

/-! ## A fresh image is in the state `image_inv` for 0 files -/

theorem le_val_zeros (n : Nat) : le_val (List.replicate n 0) = 0 := by
  induction n with
  | zero => rfl
  | succ n ih => rw [List.replicate_succ, le_val, ih]

theorem bit_set_fresh (i : Nat) : bit_set (1 :: List.replicate 4095 0) i = true ↔ i ≤ 0 := by
  unfold bit_set
  by_cases h : i / 8 = 0
  · rw [h]
    have e : (1 :: List.replicate 4095 (0 : Nat)).getD 0 0 = 1 := rfl
    rw [e]
    have h8 : i % 8 < 8 := Nat.mod_lt _ (by norm_num)
    have hi : i = i % 8 := by omega
    constructor
    · intro ht
      have : i % 8 = 0 ∨ i % 8 = 1 ∨ i % 8 = 2 ∨ i % 8 = 3 ∨ i % 8 = 4 ∨ i % 8 = 5 ∨
          i % 8 = 6 ∨ i % 8 = 7 := by omega
      rcases this with h0 | h0 | h0 | h0 | h0 | h0 | h0 | h0 <;> rw [h0] at ht <;>
        first | omega | exact absurd ht (by decide)
    · intro hle
      have : i % 8 = 0 := by omega
      rw [this]
      rfl
  · have e : (1 :: List.replicate 4095 (0 : Nat)).getD (i / 8) 0 = 0 := by
      obtain ⟨m, hm⟩ : ∃ m, i / 8 = m + 1 := ⟨i / 8 - 1, by omega⟩
      rw [hm, List.getD_cons_succ, List.getD_eq_getElem?_getD, List.getElem?_replicate]
      split_ifs <;> rfl
    rw [e, Nat.zero_testBit]
    constructor
    · intro hc; exact absurd hc (by decide)
    · intro hle; omega

theorem fresh_geometry (size_kib inodes : Int) (hv : valid_params size_kib inodes) :
    geometry_ok (to_u64 inodes) (builder_data_region_start inodes)
      (builder_data_region_blocks size_kib inodes) := by
  obtain ⟨l1, l2, l3, l4, l5, l6, l7, l8, l9⟩ := fresh_layout size_kib inodes hv
  unfold geometry_ok
  refine ⟨by omega, ?_, by omega, l5, by omega, by omega⟩
  have : builder_data_region_start inodes - 3 = builder_inode_table_blocks inodes := by omega
  rw [this]
  exact l9

theorem fresh_superblock_ok (size_kib inodes : Int) (now : Nat) (mem : List Nat)
    (hv : valid_params size_kib inodes) :
    superblock_ok
      (superblock_parse (superblock_crc_finalize (builder_superblock size_kib inodes now)
        mem).bytes)
      (to_u64 inodes) (builder_data_region_start inodes)
      (builder_data_region_blocks size_kib inodes) := by
  obtain ⟨l1, l2, l3, l4, l5, l6, l7, l8, l9⟩ := fresh_layout size_kib inodes hv
  rw [superblock_parse_bytes]
  unfold superblock_ok
  simp only [superblock_crc_finalize, builder_superblock]
  refine ⟨by norm_num, ?_, by norm_num, by norm_num, by norm_num, ?_, ?_⟩ <;>
    exact Nat.mod_eq_of_lt (by omega)

theorem root_dir_block_entries (j : Nat) (hj : j < 64) :
    le_val (slice root_dir_block (j * 64) 4) = 0 ↔ 2 ≤ j := by
  have hz : (List.replicate BS 0).length = 4096 := List.length_replicate _ _
  have hw1 : 0 + dot_entry.bytes.length ≤ (List.replicate BS 0).length := by
    rw [dirent_bytes_length, hz]; omega
  have h1 : (write_at (List.replicate BS 0) 0 dot_entry.bytes).length = 4096 := by
    rw [write_at_length _ _ _ hw1, hz]
  have hw2 : 64 + dotdot_entry.bytes.length ≤
      (write_at (List.replicate BS 0) 0 dot_entry.bytes).length := by
    rw [dirent_bytes_length, h1]; omega
  have hd1 : le_val (slice dot_entry.bytes 0 4) = 1 := by
    rw [dirent_parse_inode_no]; rfl
  have hd2 : le_val (slice dotdot_entry.bytes 0 4) = 1 := by
    rw [dirent_parse_inode_no]; rfl
  unfold root_dir_block
  by_cases h0 : j = 0
  · subst h0
    rw [slice_write_at_disjoint _ _ _ hw2 _ _ (Or.inl (by omega))]
    have := slice_write_at_inside _ 0 dot_entry.bytes hw1 0 4 (by rw [dirent_bytes_length]; omega)
    rw [Nat.zero_mul, this, hd1]
    omega
  by_cases h1' : j = 1
  · subst h1'
    have := slice_write_at_inside _ 64 dotdot_entry.bytes hw2 0 4
      (by rw [dirent_bytes_length]; omega)
    rw [Nat.one_mul, this, hd2]
    omega
  · rw [slice_write_at_disjoint _ _ _ hw2 _ _ (Or.inr (by rw [dirent_bytes_length]; omega)),
      slice_write_at_disjoint _ _ _ hw1 _ _ (Or.inr (by rw [dirent_bytes_length]; omega))]
    unfold slice
    rw [List.drop_replicate, List.take_replicate, le_val_zeros]
    omega

/-- A fresh image is in the state `image_inv` with no file inserted. -/
theorem fresh_image_inv (size_kib inodes : Int) (now : Nat) (mem : List Nat)
    (hv : valid_params size_kib inodes) :
    image_inv (to_u64 inodes) (builder_data_region_start inodes)
      (builder_data_region_blocks size_kib inodes) 0
      (builder_image size_kib inodes now mem) := by
  obtain ⟨l1, l2, l3, l4, l5, l6, l7, l8, l9⟩ := fresh_layout size_kib inodes hv
  obtain ⟨s1, s2, s3, s4, s5, s6⟩ := builder_image_slices size_kib inodes now mem hv
  refine ⟨?_, ?_, ?_, ?_, ?_, ?_⟩
  · rw [builder_image_length _ _ _ _ hv, l4]
  · rw [s1]
    exact fresh_superblock_ok size_kib inodes now mem hv
  · intro i
    rw [s3]
    exact bit_set_fresh i
  · rw [s4]
    rfl
  · rw [s5, inode_parse_direct]
    have e : (builder_root_inode (builder_data_region_start inodes) now).direct =
        (builder_data_region_start inodes % 2 ^ 32) :: List.replicate 11 0 := rfl
    rw [e, Nat.mod_eq_of_lt (by omega), fixN_direct _ (by omega)]
  · intro j hj
    have := slice_slice (builder_image size_kib inodes now mem)
      (builder_data_region_start inodes * 4096) 4096 (j * 64) 4 (by omega)
    rw [s6] at this
    rw [← this]
    exact root_dir_block_entries j hj

/-! ## Insertions into images in the state `image_inv` -/

/-- A successful insertion in the state `image_inv`: the file gets inode `k + 2`, every block
of the file is the first free block `drs + f`, the image is in the state for `k + 1` files
and bit `f` of the data bitmap is the only new bit (none for an empty file). -/
theorem mkfs_adder_inv (ic drs drb k : Nat) (img : List Nat)
    (hg : geometry_ok ic drs drb) (hi : image_inv ic drs drb k img)
    (name content : List Nat) (now : Nat) (mem : List Nat) (r : AddSuccess)
    (h : mkfs_adder img name content now mem = .ok r) :
    ∃ f, blocks_needed content.length ≤ 12 ∧ k + 1 < ic ∧ k + 2 < 64 ∧
      r.new_inode_num = ((k + 2 : Nat) : Int) ∧
      r.file_blocks = List.replicate (blocks_needed content.length) (drs + f) ∧
      (0 < blocks_needed content.length → 1 ≤ f ∧ f < drb ∧
        bit_set (slice img 8192 4096) f = false ∧
        ∀ j, j < f → bit_set (slice img 8192 4096) j = true) ∧
      image_inv ic drs drb (k + 1) r.image ∧
      (∀ i, bit_set (slice r.image 8192 4096) i =
        (bit_set (slice img 8192 4096) i ||
          decide (0 < blocks_needed content.length ∧ i = f))) := by
  obtain ⟨g1, g2, g3, g4, g5, g6⟩ := hg
  have hlen := hi.length_eq
  have hrd : read_at img 0 116 = some (slice img 0 116) :=
    read_at_eq_some _ _ _ (by rw [hlen]; omega)
  unfold mkfs_adder at h
  rw [hrd] at h
  simp only at h
  split_ifs at h
  rcases adder_update_inv ic drs drb k img ⟨g1, g2, g3, g4, g5, g6⟩ hi name content now mem with
    ⟨r2, f, hu, p⟩ | ⟨_, e, hu⟩
  · rw [hu] at h
    simp only [Except.ok.injEq] at h
    subst h
    exact ⟨f, p⟩
  · rw [hu] at h
    cases h

/-- An insertion in the state `image_inv` succeeds when the name is not in the directory, the
file needs at most 12 blocks, an inode and a directory entry are free and, for a nonempty
file, a data block is free. -/
theorem mkfs_adder_succeeds (ic drs drb k : Nat) (img : List Nat)
    (hg : geometry_ok ic drs drb) (hi : image_inv ic drs drb k img)
    (name content : List Nat) (now : Nat) (mem : List Nat)
    (hex : file_exists img (superblock_parse (slice img 0 116)) name = 0)
    (hn : blocks_needed content.length ≤ 12) (hk : k + 1 < ic) (hk2 : k + 2 < 64)
    (hfree : blocks_needed content.length = 0 ∨
      ∃ j, j < drb ∧ bit_set (slice img 8192 4096) j = false) :
    ∃ r, mkfs_adder img name content now mem = .ok r := by
  have g := hg
  obtain ⟨g1, g2, g3, g4, g5, g6⟩ := g
  have hlen := hi.length_eq
  have hrd : read_at img 0 116 = some (slice img 0 116) :=
    read_at_eq_some _ _ _ (by rw [hlen]; omega)
  unfold mkfs_adder
  rw [hrd]
  simp only
  rw [if_neg (by rw [hi.superblock.1]; decide), hex, if_neg (by decide), if_neg (by decide)]
  rcases adder_update_inv ic drs drb k img hg hi name content now mem with
    ⟨r2, f, hu, p⟩ | ⟨hbad, e, hu⟩
  · rw [hu]
    exact ⟨r2, rfl⟩
  · exfalso
    rcases hbad with h | h | ⟨h1, h2⟩ | h
    · omega
    · omega
    · rcases hfree with h0 | ⟨j, hj1, hj2⟩
      · omega
      · rw [h2 j hj1] at hj2
        exact Bool.noConfusion hj2
    · omega

/-- A sequence of successful insertions from the state for `k` files leads to the state for
`k + n` files and gives the inode numbers `k + 2, k + 3, ...`. -/
theorem insert_all_inv (ic drs drb : Nat) (hg : geometry_ok ic drs drb) (files : List host_file)
    (k : Nat) (img : List Nat) (hi : image_inv ic drs drb k img)
    (out : List Nat) (nums : List Int) (h : insert_all img files = some (out, nums)) :
    image_inv ic drs drb (k + files.length) out ∧
      nums = (List.range files.length).map (fun i => ((k + i + 2 : Nat) : Int)) ∧
      (files ≠ [] → k + files.length + 1 < 64) := by
  induction files generalizing k img nums with
  | nil =>
    simp only [insert_all, Option.some.injEq, Prod.mk.injEq] at h
    obtain ⟨rfl, rfl⟩ := h
    exact ⟨hi, rfl, fun hc => absurd rfl hc⟩
  | cons f fs ih =>
    unfold insert_all at h
    cases hm : mkfs_adder img f.name f.content f.now f.mem with
    | error e => rw [hm] at h; cases h
    | ok r =>
      rw [hm] at h
      simp only at h
      obtain ⟨_, _, _, hk2, hnum, _, _, hinv, _⟩ :=
        mkfs_adder_inv ic drs drb k img hg hi f.name f.content f.now f.mem r hm
      cases hr : insert_all r.image fs with
      | none => rw [hr] at h; cases h
      | some p =>
        obtain ⟨out2, nums2⟩ := p
        rw [hr] at h
        simp only [Option.some.injEq, Prod.mk.injEq] at h
        obtain ⟨rfl, rfl⟩ := h
        obtain ⟨i1, i2, i3⟩ := ih (k + 1) r.image hinv nums2 hr
        refine ⟨?_, ?_, ?_⟩
        · rw [List.length_cons, show k + (fs.length + 1) = k + 1 + fs.length by omega]
          exact i1
        · rw [List.length_cons, List.range_succ_eq_map, List.map_cons, List.map_map, hnum, i2]
          congr 1
          apply List.map_congr_left
          intro a _
          simp only [Function.comp, Nat.succ_eq_add_one]
          congr 1
          omega
        · intro _
          rw [List.length_cons]
          by_cases hfs : fs = []
          · subst hfs
            simp only [List.length_nil]
            omega
          · have := i3 hfs
            omega

theorem countP_range_le (p : Nat → Bool) (k n : Nat) (hk : k < n)
    (h : ∀ i, p i = true ↔ i ≤ k) : (List.range n).countP p = k + 1 := by
  obtain ⟨m, rfl⟩ : ∃ m, n = (k + 1) + m := ⟨n - (k + 1), by omega⟩
  rw [List.range_add, List.countP_append]
  have e1 : (List.range (k + 1)).countP p = k + 1 := by
    rw [List.countP_eq_length.mpr, List.length_range]
    intro a ha
    rw [List.mem_range] at ha
    exact (h a).mpr (by omega)
  have e2 : ((List.range m).map (fun x => k + 1 + x)).countP p = 0 := by
    rw [List.countP_eq_zero]
    intro a ha
    rw [List.mem_map] at ha
    obtain ⟨x, _, rfl⟩ := ha
    intro hc
    have := (h _).mp hc
    omega
  rw [e1, e2]

/-- A bitmap whose set bits are exactly the bits `0 .. k` has `k + 1` set bits. -/
theorem popcount_prefix (bm : List Nat) (k : Nat) (hk : k < 8 * bm.length)
    (h : ∀ i, bit_set bm i = true ↔ i ≤ k) : popcount bm = k + 1 :=
  countP_range_le _ k _ hk h

theorem builder_ok_valid (size_kib inodes : Int) (now : Nat) (mem img : List Nat)
    (h : mkfs_builder true size_kib inodes now mem = .ok img) :
    valid_params size_kib inodes ∧ img = builder_image size_kib inodes now mem := by
  have hv : valid_params size_kib inodes := by
    by_contra hn
    unfold valid_params at hn
    by_cases hs : size_kib < 180 ∨ size_kib > 4096
    · simp [mkfs_builder, hs] at h
    by_cases hi : inodes < 128 ∨ inodes > 512
    · simp [mkfs_builder, hs, hi] at h
    by_cases hm : size_kib % 4 ≠ 0
    · simp [mkfs_builder, hs, hi, hm] at h
    omega
  rw [mkfs_builder_ok _ _ _ _ hv] at h
  simp only [Except.ok.injEq] at h
  exact ⟨hv, h.symm⟩

/-- C10: after the files of a list are inserted successfully one after another into a fresh
image, the set bits of the inode bitmap are exactly the bits `0 .. k` for the number `k` of
files (so `k + 1` bits are set), and the file at position `i` (from 0) got inode number
`i + 2`. -/
theorem inode_allocation_monotone (size_kib inodes : Int) (now : Nat) (mem : List Nat)
    (img0 : List Nat) (files : List host_file) (out : List Nat) (nums : List Int)
    (h0 : mkfs_builder true size_kib inodes now mem = .ok img0)
    (h : insert_all img0 files = some (out, nums)) :
    (∀ i, bit_set (slice out 4096 4096) i = true ↔ i ≤ files.length) ∧
      popcount (slice out 4096 4096) = files.length + 1 ∧
      nums = (List.range files.length).map (fun i => ((i + 2 : Nat) : Int)) := by
  obtain ⟨hv, he⟩ := builder_ok_valid _ _ _ _ _ h0
  have hg := fresh_geometry size_kib inodes hv
  have hfi := fresh_image_inv size_kib inodes now mem hv
  rw [← he] at hfi
  obtain ⟨i1, i2, i3⟩ := insert_all_inv _ _ _ hg files 0 img0 hfi out nums h
  rw [Nat.zero_add] at i1
  have hbits := i1.inode_bits
  have hlen := i1.length_eq
  obtain ⟨g1, g2, g3, g4, g5, g6⟩ := hg
  have hl : (slice out 4096 4096).length = 4096 := slice_length _ _ _ (by rw [hlen]; omega)
  refine ⟨hbits, ?_, ?_⟩
  · apply popcount_prefix _ _ _ hbits
    rw [hl]
    by_cases hf : files = []
    · subst hf; simp
    · have := i3 hf; omega
  · rw [i2]
    apply List.map_congr_left
    intro a _
    simp only [Nat.zero_add]

theorem c_str_of_take (l p : List Nat) (hp : ∀ b ∈ p, b ≠ 0)
    (h : l.take (p.length + 1) = p ++ [0]) : c_str l = p := by
  have e : l = (p ++ [0]) ++ l.drop (p.length + 1) := by
    rw [← h, List.take_append_drop]
  rw [e]
  unfold c_str
  rw [List.append_assoc, List.takeWhile_append_of_pos (by
    intro b hb
    simpa using hp b hb)]
  simp

theorem root_dir_block_names :
    c_str (root_dir_block.drop (0 * 64 + 5)) = [0x2E] ∧
      c_str (root_dir_block.drop (1 * 64 + 5)) = [0x2E, 0x2E] := by
  have hz : (List.replicate BS 0).length = 4096 := List.length_replicate _ _
  have hw1 : 0 + dot_entry.bytes.length ≤ (List.replicate BS 0).length := by
    rw [dirent_bytes_length, hz]; omega
  have h1 : (write_at (List.replicate BS 0) 0 dot_entry.bytes).length = 4096 := by
    rw [write_at_length _ _ _ hw1, hz]
  have hw2 : 64 + dotdot_entry.bytes.length ≤
      (write_at (List.replicate BS 0) 0 dot_entry.bytes).length := by
    rw [dirent_bytes_length, h1]; omega
  have d1 : slice dot_entry.bytes 5 2 = [0x2E, 0] := by decide
  have d2 : slice dotdot_entry.bytes 5 3 = [0x2E, 0x2E, 0] := by decide
  constructor
  · apply c_str_of_take _ [0x2E] (by decide)
    show slice root_dir_block 5 2 = _
    unfold root_dir_block
    rw [slice_write_at_disjoint _ _ _ hw2 _ _ (Or.inl (by omega))]
    have := slice_write_at_inside _ 0 dot_entry.bytes hw1 5 2
      (by rw [dirent_bytes_length]; omega)
    rw [Nat.zero_add] at this
    rw [this, d1]
    rfl
  · apply c_str_of_take _ [0x2E, 0x2E] (by decide)
    show slice root_dir_block 69 3 = _
    unfold root_dir_block
    have := slice_write_at_inside _ 64 dotdot_entry.bytes hw2 5 3
      (by rw [dirent_bytes_length]; omega)
    rw [this, d2]
    rfl

/-- A name other than "." and ".." is not found in the root directory of a fresh image. -/
theorem file_exists_fresh (size_kib inodes : Int) (now : Nat) (mem : List Nat)
    (hv : valid_params size_kib inodes) (name : List Nat)
    (h1 : c_str name ≠ [0x2E]) (h2 : c_str name ≠ [0x2E, 0x2E]) :
    file_exists (builder_image size_kib inodes now mem)
      (superblock_parse (slice (builder_image size_kib inodes now mem) 0 116)) name = 0 := by
  have hg := fresh_geometry size_kib inodes hv
  have hi := fresh_image_inv size_kib inodes now mem hv
  obtain ⟨g1, g2, g3, g4, g5, g6⟩ := hg
  have hlen := hi.length_eq
  have hblk := (builder_image_slices size_kib inodes now mem hv).2.2.2.2.2
  unfold file_exists
  rw [root_inode_offset_inv _ _ _ _ hi.superblock, if_pos (by norm_num),
    read_at_eq_some _ _ _ (by rw [hlen]; omega)]
  simp only
  rw [hi.root_direct]
  unfold file_exists_blocks
  rw [if_neg (by omega), read_block_eq _ _ (by omega) (by rw [hlen]; nlinarith), hblk]
  simp only
  have hany : (List.range (BS / 64)).any (entry_matches root_dir_block name) = false := by
    rw [List.any_eq_false]
    intro j hj
    rw [List.mem_range] at hj
    have hj64 : j < 64 := hj
    unfold entry_matches
    simp only [decide_eq_true_eq, not_and]
    intro hne heq
    have h2j : ¬ (2 ≤ j) := fun hc => hne ((root_dir_block_entries j hj64).mpr hc)
    have : j = 0 ∨ j = 1 := by omega
    rcases this with rfl | rfl
    · rw [root_dir_block_names.1] at heq
      exact h1 heq.symm
    · rw [root_dir_block_names.2] at heq
      exact h2 heq.symm
  rw [hany]
  simp only [Bool.false_eq_true, if_false]
  rw [show List.replicate 11 (0 : Nat) = 0 :: List.replicate 10 0 by rfl]
  unfold file_exists_blocks
  rw [if_pos rfl]

/-! ## The scenario: a 5000-byte file inserted into the fresh image for 180 KiB, 128 inodes -/

theorem insert_all_single (img : List Nat) (f : host_file) (r : AddSuccess)
    (h : mkfs_adder img f.name f.content f.now f.mem = .ok r) :
    insert_all img [f] = some (r.image, [r.new_inode_num]) := by
  unfold insert_all
  rw [h]
  rfl

/-- The run of the scenario: the insertion succeeds with inode 2, both blocks of the file
are block 8, and the data bitmap has exactly the bits 0 and 1 set afterwards. -/
theorem scenario_run :
    ∃ r, mkfs_adder (builder_image 180 128 0 scenario_mem) scenario_file.name
        scenario_file.content scenario_file.now scenario_file.mem = .ok r ∧
      r.new_inode_num = 2 ∧ r.file_blocks = [8, 8] ∧
      (∀ i, bit_set (slice r.image 8192 4096) i = true ↔ i ≤ 1) ∧
      (slice r.image 8192 4096).length = 4096 := by
  have hv : valid_params 180 128 := by decide
  have hg := fresh_geometry 180 128 hv
  have hi := fresh_image_inv 180 128 0 scenario_mem hv
  have hdb := (builder_image_slices 180 128 0 scenario_mem hv).2.2.2.1
  have hic : to_u64 128 = 128 := to_u64_of_small 128 (by norm_num)
  have hdrs : builder_data_region_start 128 = 7 :=
    (builder_data_region_start_eq 128 (by omega)).trans (by norm_num)
  have hdrb : builder_data_region_blocks 180 128 = 38 :=
    (builder_data_region_blocks_eq 180 128 (by omega) (by omega) (by omega)).trans (by norm_num)
  have hn : blocks_needed scenario_file.content.length = 2 := by
    show blocks_needed scenario_content.length = 2
    rw [scenario_content, List.length_replicate]; rfl
  have hb1 : bit_set (slice (builder_image 180 128 0 scenario_mem) 8192 4096) 1 = false := by
    rw [hdb]
    cases hc : bit_set (1 :: List.replicate 4095 0) 1
    · rfl
    · have := (bit_set_fresh 1).mp hc; omega
  have hex := file_exists_fresh 180 128 0 scenario_mem hv scenario_file.name (by decide)
    (by decide)
  obtain ⟨r, hr⟩ := mkfs_adder_succeeds _ _ _ 0 _ hg hi scenario_file.name
    scenario_file.content scenario_file.now scenario_file.mem hex (by rw [hn]; omega) (by rw [hic]; omega) (by omega)
    (Or.inr ⟨1, by rw [hdrb]; omega, hb1⟩)
  obtain ⟨f, -, -, -, hnum, hfb, hf, hinv, hbits⟩ :=
    mkfs_adder_inv _ _ _ 0 _ hg hi scenario_file.name scenario_file.content
      scenario_file.now scenario_file.mem r hr
  obtain ⟨hf1, hf2, hf3, hf4⟩ := hf (by rw [hn]; omega)
  have hf : f = 1 := by
    by_contra hc
    have := hf4 1 (by omega)
    rw [hb1] at this
    exact Bool.noConfusion this
  subst hf
  have hlen := hinv.length_eq
  refine ⟨r, hr, hnum, ?_, ?_, ?_⟩
  · rw [hfb, hn, hdrs]
    rfl
  · intro i
    rw [hbits i, hdb, Bool.or_eq_true, bit_set_fresh i, decide_eq_true_eq, hn]
    omega
  · exact slice_length _ _ _ (by rw [hlen, hdrs, hdrb]; omega)

/-- C8 fails on the code: in the scenario (5000-byte file into the fresh image for
`size_kib = 180`, `inodes = 128`) the insertion succeeds with `blocks_needed = 2` and inode
number 2, but both blocks of the file are block 8 and only one data-bitmap bit that was
clear before (bit 1) is set afterwards, not two. -/
theorem scenario_sets_one_bit :
    ∃ img0 r, mkfs_builder true 180 128 0 scenario_mem = .ok img0 ∧
      mkfs_adder img0 scenario_file.name scenario_file.content scenario_file.now
        scenario_file.mem = .ok r ∧
      blocks_needed scenario_file.content.length = 2 ∧ r.new_inode_num = 2 ∧
      r.file_blocks = [8, 8] ∧
      (∀ i, bit_set (slice img0 8192 4096) i = true ↔ i = 0) ∧
      (∀ i, bit_set (slice r.image 8192 4096) i = true ↔ i = 0 ∨ i = 1) := by
  have hv : valid_params 180 128 := by decide
  obtain ⟨r, hr, h1, h2, h3, -⟩ := scenario_run
  have hdb := (builder_image_slices 180 128 0 scenario_mem hv).2.2.2.1
  refine ⟨_, r, mkfs_builder_ok 180 128 0 scenario_mem hv, hr, ?_, h1, h2, ?_, ?_⟩
  · show blocks_needed scenario_content.length = 2
    rw [scenario_content, List.length_replicate]; rfl
  · intro i
    rw [hdb, bit_set_fresh i]
    omega
  · intro i
    rw [h3 i]
    omega

/-- C9 fails on the code: after the one 5000-byte file of the scenario is inserted
successfully into the fresh image, the data bitmap has 2 set bits, while 1 plus the sum of
`ceil(file_size / 4096)` is 3. -/
theorem scenario_data_popcount :
    ∃ img0 out nums, mkfs_builder true 180 128 0 scenario_mem = .ok img0 ∧
      insert_all img0 [scenario_file] = some (out, nums) ∧
      popcount (slice out 8192 4096) = 2 ∧
      1 + ([scenario_file].map fun f => blocks_needed f.content.length).sum = 3 := by
  have hv : valid_params 180 128 := by decide
  obtain ⟨r, hr, h1, h2, h3, h4⟩ := scenario_run
  refine ⟨_, r.image, [r.new_inode_num], mkfs_builder_ok 180 128 0 scenario_mem hv,
    insert_all_single _ _ r hr, ?_, ?_⟩
  · exact popcount_prefix _ 1 (by rw [h4]; omega) h3
  · have hn : blocks_needed scenario_file.content.length = 2 := by
      show blocks_needed scenario_content.length = 2
      rw [scenario_content, List.length_replicate]; rfl
    rw [List.map_cons, List.map_nil, List.sum_cons, List.sum_nil, hn]
    rfl

/-- Witness of C10 on the scenario: one file inserted into the fresh image. -/
theorem inode_allocation_monotone_witness :
    ∃ out nums, insert_all (builder_image 180 128 0 scenario_mem) [scenario_file] =
        some (out, nums) ∧
      (∀ i, bit_set (slice out 4096 4096) i = true ↔ i ≤ 1) ∧
      popcount (slice out 4096 4096) = 2 ∧ nums = [2] := by
  obtain ⟨r, hr, h1, -⟩ := scenario_run
  have hins : insert_all (builder_image 180 128 0 scenario_mem) [scenario_file] =
      some (r.image, [r.new_inode_num]) := insert_all_single _ _ r hr
  have := inode_allocation_monotone 180 128 0 scenario_mem _ [scenario_file] r.image
    [r.new_inode_num] (mkfs_builder_ok 180 128 0 scenario_mem (by decide)) hins
  exact ⟨r.image, [r.new_inode_num], hins, this.1, this.2.1, by rw [h1]⟩

/-! ## The two allocator functions on any bitmap block -/

theorem read_block_some (img : List Nat) (b : Nat) (bitmap : List Nat)
    (h : read_block img b = some bitmap) : bitmap.length = 4096 := by
  unfold read_block at h
  simp only [BS] at h
  split_ifs at h with h1
  unfold read_at at h
  split_ifs at h with h2
  simp only [Option.some.injEq] at h
  rw [← h]
  exact slice_length _ _ _ h2

theorem first_clear_unique (bm : List Nat) (a b : Nat)
    (ha : bit_set bm a = false) (ha2 : ∀ j, j < a → bit_set bm j = true)
    (hb : bit_set bm b = false) (hb2 : ∀ j, j < b → bit_set bm j = true) : a = b := by
  rcases Nat.lt_trichotomy a b with h | h | h
  · rw [hb2 a h] at ha
    exact Bool.noConfusion ha
  · exact h
  · rw [ha2 b h] at hb
    exact Bool.noConfusion hb

/-- C18: on a readable inode bitmap block and with `inode_count <= 32768`,
`find_free_inode` returns `n >= 1` exactly when `n <= inode_count`, bit `n - 1` is clear and
the bits `0 .. n-2` are all set; it returns `-1` exactly when every bit in
`[0, inode_count)` is set; and it always returns one of the two. -/
theorem find_free_inode_correct (img : List Nat) (sb : superblock_t) (bitmap : List Nat)
    (hr : read_block img sb.inode_bitmap_start = some bitmap)
    (hc : sb.inode_count ≤ 32768) :
    (∀ n : Nat, 1 ≤ n → (find_free_inode img sb = some (n : Int) ↔
      (n ≤ sb.inode_count ∧ bit_set bitmap (n - 1) = false ∧
        ∀ j, j < n - 1 → bit_set bitmap j = true))) ∧
    (find_free_inode img sb = some (-1) ↔
      ∀ j, j < sb.inode_count → bit_set bitmap j = true) ∧
    (∃ v : Int, find_free_inode img sb = some v ∧ (v = -1 ∨ 1 ≤ v)) := by
  have hl := read_block_some img _ bitmap hr
  rcases first_clear_bit_cases bitmap sb.inode_count (by rw [hl]; omega) with
    ⟨f, hf1, hf2, hf3, hf4⟩ | ⟨hall, hn⟩
  · have hfind : find_free_inode img sb = some ((f + 1 : Nat) : Int) := by
      unfold find_free_inode
      rw [hr]
      simp only
      rw [hf4]
      simp only
      rw [to_int32_of_small _ (by omega)]
    rw [hfind]
    refine ⟨?_, ?_, _, rfl, Or.inr (by omega)⟩
    · intro n hn
      constructor
      · intro h
        simp only [Option.some.injEq] at h
        have e : n = f + 1 := by omega
        subst e
        exact ⟨by omega, hf2, hf3⟩
      · rintro ⟨h1, h2, h3⟩
        have e := first_clear_unique bitmap f (n - 1) hf2 hf3 h2 h3
        have e2 : f + 1 = n := by omega
        rw [e2]
    · constructor
      · intro h
        simp only [Option.some.injEq] at h
        omega
      · intro h
        rw [h f hf1] at hf2
        exact Bool.noConfusion hf2
  · have hfind : find_free_inode img sb = some (-1) := by
      unfold find_free_inode
      rw [hr]
      simp only
      rw [hn]
    rw [hfind]
    refine ⟨?_, ?_, _, rfl, Or.inl rfl⟩
    · intro n hn1
      constructor
      · intro h
        simp only [Option.some.injEq] at h
        omega
      · rintro ⟨h1, h2, h3⟩
        rw [hall (n - 1) (by omega)] at h2
        exact Bool.noConfusion h2
    · exact ⟨fun _ => hall, fun _ => rfl⟩

/-- Witness of C18 on the fresh image for 180 KiB and 128 inodes: the call returns 2 exactly
when bit 1 of its inode bitmap is clear and bit 0 is set. -/
theorem find_free_inode_correct_witness :
    find_free_inode (builder_image 180 128 0 []) (builder_superblock 180 128 0) =
        some ((2 : Nat) : Int) ↔
      (2 ≤ (builder_superblock 180 128 0).inode_count ∧
        bit_set (1 :: List.replicate 4095 0) (2 - 1) = false ∧
        ∀ j, j < 2 - 1 → bit_set (1 :: List.replicate 4095 0) j = true) :=
  (find_free_inode_correct (builder_image 180 128 0 []) (builder_superblock 180 128 0)
    (1 :: List.replicate 4095 0)
    (by
      have hv : valid_params 180 128 := by decide
      have hlen := builder_image_length 180 128 0 [] hv
      have ht : builder_total_blocks 180 = 45 := by decide
      rw [ht] at hlen
      have e : (builder_superblock 180 128 0).inode_bitmap_start = 1 := rfl
      rw [e, read_block_eq _ 1 (by norm_num) (by rw [hlen]; norm_num),
        (builder_image_slices 180 128 0 [] hv).2.2.1])
    (by decide)).1 2 (by decide)

/-- C19 (amended with the bound that makes every block number fit the `int` result): on a
readable data bitmap block, with `data_region_blocks <= 32768` and
`data_region_start + data_region_blocks <= 2^31`, `find_free_data_block` returns
`data_region_start + i` exactly when `i < data_region_blocks`, bit `i` is clear and all lower
bits are set; it returns `-1` exactly when every bit in `[0, data_region_blocks)` is set; it
always returns one of the two; and a returned block number `b` satisfies
`data_region_start <= b < total_blocks` when
`data_region_start + data_region_blocks = total_blocks`. -/
theorem find_free_data_block_correct (img : List Nat) (sb : superblock_t) (bitmap : List Nat)
    (hr : read_block img sb.data_bitmap_start = some bitmap)
    (hc : sb.data_region_blocks ≤ 32768)
    (hint : sb.data_region_start + sb.data_region_blocks ≤ 2 ^ 31) :
    (∀ i : Nat, (find_free_data_block img sb = some ((sb.data_region_start + i : Nat) : Int) ↔
      (i < sb.data_region_blocks ∧ bit_set bitmap i = false ∧
        ∀ j, j < i → bit_set bitmap j = true))) ∧
    (find_free_data_block img sb = some (-1) ↔
      ∀ j, j < sb.data_region_blocks → bit_set bitmap j = true) ∧
    (∃ v : Int, find_free_data_block img sb = some v ∧
      (v = -1 ∨ ∃ i, i < sb.data_region_blocks ∧ v = ((sb.data_region_start + i : Nat) : Int))) ∧
    (∀ b : Int, find_free_data_block img sb = some b → b ≠ -1 →
      sb.data_region_start + sb.data_region_blocks = sb.total_blocks →
      (sb.data_region_start : Int) ≤ b ∧ b < (sb.total_blocks : Int)) := by
  have hl := read_block_some img _ bitmap hr
  rcases first_clear_bit_cases bitmap sb.data_region_blocks (by rw [hl]; omega) with
    ⟨f, hf1, hf2, hf3, hf4⟩ | ⟨hall, hn⟩
  · have hfind : find_free_data_block img sb =
        some ((sb.data_region_start + f : Nat) : Int) := by
      unfold find_free_data_block
      rw [hr]
      simp only
      rw [hf4]
      simp only
      rw [to_int32_of_small _ (by omega)]
    rw [hfind]
    refine ⟨?_, ?_, ⟨_, rfl, Or.inr ⟨f, hf1, rfl⟩⟩, ?_⟩
    · intro i
      constructor
      · intro h
        simp only [Option.some.injEq] at h
        have e : i = f := by omega
        subst e
        exact ⟨hf1, hf2, hf3⟩
      · rintro ⟨h1, h2, h3⟩
        rw [first_clear_unique bitmap f i hf2 hf3 h2 h3]
    · constructor
      · intro h
        simp only [Option.some.injEq] at h
        omega
      · intro h
        rw [h f hf1] at hf2
        exact Bool.noConfusion hf2
    · intro b hb _ htot
      simp only [Option.some.injEq] at hb
      omega
  · have hfind : find_free_data_block img sb = some (-1) := by
      unfold find_free_data_block
      rw [hr]
      simp only
      rw [hn]
    rw [hfind]
    refine ⟨?_, ⟨fun _ => hall, fun _ => rfl⟩, ⟨_, rfl, Or.inl rfl⟩, ?_⟩
    · intro i
      constructor
      · intro h
        simp only [Option.some.injEq] at h
        omega
      · rintro ⟨h1, h2, h3⟩
        rw [hall i h1] at h2
        exact Bool.noConfusion h2
    · intro b hb hb1 _
      simp only [Option.some.injEq] at hb
      exact absurd hb.symm hb1

/-- Witness of C19 (amended) on the fresh image for 180 KiB and 128 inodes: the call returns
block 8 = 7 + 1 exactly when bit 1 of its data bitmap is clear and bit 0 is set. -/
theorem find_free_data_block_correct_witness :
    find_free_data_block (builder_image 180 128 0 []) (builder_superblock 180 128 0) =
        some (((builder_superblock 180 128 0).data_region_start + 1 : Nat) : Int) ↔
      (1 < (builder_superblock 180 128 0).data_region_blocks ∧
        bit_set (1 :: List.replicate 4095 0) 1 = false ∧
        ∀ j, j < 1 → bit_set (1 :: List.replicate 4095 0) j = true) :=
  (find_free_data_block_correct (builder_image 180 128 0 []) (builder_superblock 180 128 0)
    (1 :: List.replicate 4095 0)
    (by
      have hv : valid_params 180 128 := by decide
      have hlen := builder_image_length 180 128 0 [] hv
      have ht : builder_total_blocks 180 = 45 := by decide
      rw [ht] at hlen
      have e : (builder_superblock 180 128 0).data_bitmap_start = 2 := rfl
      rw [e, read_block_eq _ 2 (by norm_num) (by rw [hlen]; norm_num),
        (builder_image_slices 180 128 0 [] hv).2.2.2.1])
    (by decide) (by decide)).1 1

/-- C19 as stated fails: for a superblock with `data_region_blocks = 1 <= 32768` and
`data_region_start = 2^32 - 1` and an all-zero data bitmap block, bit 0 is clear, yet
`find_free_data_block` returns `-1` (the block number `2^32 - 1` converted to `int`), not
`data_region_start + 0`. -/
theorem find_free_data_block_wraps :
    read_block (List.replicate 12288 0) wrap_sb.data_bitmap_start =
        some (List.replicate 4096 0) ∧
      wrap_sb.data_region_blocks ≤ 32768 ∧
      (0 < wrap_sb.data_region_blocks ∧ bit_set (List.replicate 4096 0) 0 = false) ∧
      find_free_data_block (List.replicate 12288 0) wrap_sb = some (-1) ∧
      find_free_data_block (List.replicate 12288 0) wrap_sb ≠
        some ((wrap_sb.data_region_start + 0 : Nat) : Int) := by
  have hr : read_block (List.replicate 12288 0) wrap_sb.data_bitmap_start =
      some (List.replicate 4096 0) := by
    have e : wrap_sb.data_bitmap_start = 2 := rfl
    rw [e, read_block_eq _ 2 (by norm_num) (by rw [List.length_replicate])]
    unfold slice
    rw [List.drop_replicate, List.take_replicate]
    rfl
  have hf : find_free_data_block (List.replicate 12288 0) wrap_sb = some (-1) := by
    unfold find_free_data_block
    rw [hr]
    simp only
    have e : wrap_sb.data_region_blocks = 1 := rfl
    rw [e]
    unfold first_clear_bit
    have hg : (List.replicate 4096 0).get? (0 / 8) = some 0 := rfl
    rw [hg]
    simp only
    rw [if_pos (by decide)]
    simp only
    have e2 : to_int32 (wrap_sb.data_region_start + 0) = -1 := by decide
    rw [e2]
  refine ⟨hr, by decide, ⟨by decide, rfl⟩, hf, ?_⟩
  rw [hf]
  decide

/-! ## What a successful insertion writes, byte by byte -/

/-- The copy of a file all of whose blocks are the same block `b`: only block `b` changes,
and it ends up holding the last chunk written. -/
theorem copy_file_data_same (content : List Nat) (b n : Nat) (out : List Nat) (i : Nat)
    (hb : 0 < n → b < 2 ^ 20 ∧ (b + 1) * 4096 ≤ out.length) :
    ∃ out2, copy_file_data content out i (List.replicate n b) = .ok out2 ∧
      out2.length = out.length ∧ (n = 0 → out2 = out) ∧
      (∀ o m, o + m ≤ b * 4096 ∨ (b + 1) * 4096 ≤ o → slice out2 o m = slice out o m) ∧
      (0 < n → slice out2 (b * 4096) 4096 =
        fixN BS (slice content ((i + n - 1) * BS)
          (if i + n - 1 = blocks_needed content.length - 1
            then content.length - (i + n - 1) * BS else BS))) := by
  induction n generalizing out i with
  | zero => exact ⟨out, rfl, rfl, fun _ => rfl, fun _ _ _ => rfl, fun h => absurd h (by omega)⟩
  | succ n ih =>
    obtain ⟨hb1, hb2⟩ := hb (by omega)
    rw [List.replicate_succ]
    unfold copy_file_data
    simp only
    rw [write_block_eq _ b _ hb1]
    simp only
    have hbl : ∀ x, (fixN BS x).length = 4096 := fun x => fixN_length _ _
    have hw : ∀ x, b * 4096 + (fixN BS x).length ≤ out.length := by
      intro x; rw [hbl]; omega
    obtain ⟨out2, h2, l2, z2, p2, q2⟩ := ih (write_at out (b * 4096) (fixN BS (slice content
      (i * BS) (if i = blocks_needed content.length - 1 then content.length - i * BS else BS))))
      (i + 1) (fun _ => ⟨hb1, by rw [write_at_length _ _ _ (hw _)]; exact hb2⟩)
    refine ⟨out2, h2, by rw [l2, write_at_length _ _ _ (hw _)], fun h => absurd h (by omega),
      ?_, ?_⟩
    · intro o m hom
      rw [p2 o m hom, slice_write_at_disjoint _ _ _ (hw _) _ _ (by rw [hbl]; omega)]
    · intro _
      rcases Nat.eq_zero_or_pos n with hn | hn
      · rw [z2 hn]
        have hs := slice_write_at_same out (b * 4096) (fixN BS (slice content (i * BS)
          (if i = blocks_needed content.length - 1 then content.length - i * BS else BS)))
          (hw _)
        rw [hbl] at hs
        have e : i + (n + 1) - 1 = i := by omega
        rw [hs, e]
      · have e : i + (n + 1) - 1 = i + 1 + n - 1 := by omega
        rw [e]
        exact q2 hn

theorem add_dirent_eq (drs drb e : Nat) (out : List Nat) (n : Int) (name : List Nat)
    (hd1 : 4 ≤ drs) (hd2 : 1 ≤ drb) (hd3 : drs + drb ≤ 2 ^ 20)
    (hlen : out.length = (drs + drb) * 4096)
    (hent : ∀ j, j < 64 → (le_val (slice out (drs * 4096 + j * 64) 4) = 0 ↔ e ≤ j))
    (he : e < 64) :
    add_dirent out n name (drs :: List.replicate 11 0) =
      .ok (some (write_at out (drs * 4096)
        (write_at (slice out (drs * 4096) 4096) (e * 64)
          (fill_entry (dirent_parse (slice out (drs * 4096 + e * 64) 64)) n name).bytes))) := by
  have hblk : ∀ j, j < 64 → slice (slice out (drs * 4096) 4096) (j * 64) 4 =
      slice out (drs * 4096 + j * 64) 4 := fun j hj => slice_slice _ _ _ _ _ (by omega)
  have hfind := find_free_entry_inv (slice out (drs * 4096) 4096) e (fun j hj => by
    rw [hblk j hj]; exact hent j hj)
  have hread : read_block out drs = some (slice out (drs * 4096) 4096) :=
    read_block_eq out drs (by omega) (by rw [hlen]; nlinarith)
  unfold add_dirent
  rw [if_neg (by omega), hread]
  simp only
  rw [hfind, if_pos he]
  simp only
  rw [write_block_eq _ drs _ (by omega), slice_slice _ _ _ _ _ (by omega)]

/-- The last step of a successful insertion, byte by byte: entry `k + 2` of the root
directory block, the root inode record and the superblock record are the only bytes that
change. -/
theorem adder_link_frame (ic drs drb k : Nat) (out : List Nat) (sb : superblock_t)
    (hg : geometry_ok ic drs drb) (hsb : superblock_ok sb ic drs drb)
    (hlen : out.length = (drs + drb) * 4096)
    (hroot : (inode_parse (slice out 12288 128)).direct = drs :: List.replicate 11 0)
    (hent : ∀ j, j < 64 → (le_val (slice out (drs * 4096 + j * 64) 4) = 0 ↔ k + 2 ≤ j))
    (hk2 : k + 2 < 64) (name : List Nat) (now : Nat) (mem : List Nat) :
    ∃ out2, adder_link out sb ((k + 2 : Nat) : Int) name now mem = .ok out2 ∧
      out2.length = out.length ∧
      (∀ o m, (116 ≤ o ∧ o + m ≤ 12288) ∨ (12416 ≤ o ∧ o + m ≤ drs * 4096) ∨
          (drs + 1) * 4096 ≤ o → slice out2 o m = slice out o m) ∧
      slice out2 0 116 = (superblock_crc_finalize { sb with mtime_epoch := now } mem).bytes ∧
      slice out2 12288 128 = (inode_crc_finalize
        { inode_parse (slice out 12288 128) with mtime := now, ctime := now }).bytes ∧
      (∀ o m, (o + m ≤ (k + 2) * 64 ∨ (k + 3) * 64 ≤ o) → o + m ≤ 4096 →
        slice out2 (drs * 4096 + o) m = slice out (drs * 4096 + o) m) ∧
      slice out2 (drs * 4096 + (k + 2) * 64) 64 =
        (fill_entry (dirent_parse (slice out (drs * 4096 + (k + 2) * 64) 64))
          ((k + 2 : Nat) : Int) name).bytes := by
  have g := hg
  obtain ⟨g1, g2, g3, g4, g5, g6⟩ := g
  have hoff := root_inode_offset_inv ic drs drb sb hsb
  have hrd : read_at out 12288 128 = some (slice out 12288 128) :=
    read_at_eq_some _ _ _ (by rw [hlen]; omega)
  have hSl := superblock_bytes_length (superblock_crc_finalize { sb with mtime_epoch := now } mem)
  have hRl := inode_bytes_length (inode_crc_finalize
    { inode_parse (slice out 12288 128) with mtime := now, ctime := now })
  have hadd := add_dirent_eq drs drb (k + 2) out ((k + 2 : Nat) : Int) name g3 g4 g6 hlen hent hk2
  have hEl := dirent_bytes_length (fill_entry (dirent_parse
    (slice out (drs * 4096 + (k + 2) * 64) 64)) ((k + 2 : Nat) : Int) name)
  have hbl : (slice out (drs * 4096) 4096).length = 4096 :=
    slice_length _ _ _ (by rw [hlen]; omega)
  have hwe : (k + 2) * 64 + (fill_entry (dirent_parse
      (slice out (drs * 4096 + (k + 2) * 64) 64)) ((k + 2 : Nat) : Int) name).bytes.length ≤
      (slice out (drs * 4096) 4096).length := by
    rw [hEl, hbl]; omega
  have hbl2 := write_at_length _ _ _ hwe
  rw [hbl] at hbl2
  obtain ⟨w1, w2, w3, w4, w5⟩ := link_writes out _
    (inode_crc_finalize
      { inode_parse (slice out 12288 128) with mtime := now, ctime := now }).bytes
    (superblock_crc_finalize { sb with mtime_epoch := now } mem).bytes
    drs drb g3 g4 hlen hbl2 hRl hSl
  refine ⟨_, ?_, w1, w2, w3, w4, ?_, ?_⟩
  · unfold adder_link
    rw [hoff, if_pos (by norm_num), hrd]
    simp only
    rw [hroot, hadd]
  · intro o m h1 h2
    rw [w5 o m h2, slice_write_at_disjoint _ _ _ hwe _ _ (by rw [hEl]; omega),
      slice_slice _ _ _ _ _ h2]
  · rw [w5 ((k + 2) * 64) 64 (by omega)]
    have := slice_write_at_same _ _ _ hwe
    rw [hEl] at this
    exact this
/-- The writes of a successful insertion in the state `image_inv`, byte by byte, for a file
all of whose blocks are block `drs + f`. -/
theorem adder_write_frame (ic drs drb k : Nat) (img : List Nat) (sb : superblock_t)
    (hg : geometry_ok ic drs drb) (hi : image_inv ic drs drb k img)
    (hsb : superblock_ok sb ic drs drb) (hk : k + 1 < ic) (hk2 : k + 2 < 64) (f : Nat)
    (name content : List Nat) (now : Nat) (mem : List Nat)
    (hf : 0 < blocks_needed content.length → 1 ≤ f ∧ f < drb) :
    ∃ out, adder_write img sb ((k + 2 : Nat) : Int)
        (List.replicate (blocks_needed content.length) (drs + f)) name content now mem =
        .ok out ∧
      slice out 0 116 = (superblock_crc_finalize { sb with mtime_epoch := now } mem).bytes ∧
      (∀ o m, 116 ≤ o → o + m ≤ 4096 → slice out o m = slice img o m) ∧
      slice out 12288 128 = (inode_crc_finalize
        { inode_parse (slice img 12288 128) with mtime := now, ctime := now }).bytes ∧
      (∀ o m, 12416 ≤ o → o + m ≤ drs * 4096 →
        (o + m ≤ 12288 + (k + 1) * 128 ∨ 12288 + (k + 2) * 128 ≤ o) →
        slice out o m = slice img o m) ∧
      slice out (12288 + (k + 1) * 128) 128 = (new_inode content.length now
        (List.replicate (blocks_needed content.length) (drs + f))).bytes ∧
      (∀ o m, (o + m ≤ (k + 2) * 64 ∨ (k + 3) * 64 ≤ o) → o + m ≤ 4096 →
        slice out (drs * 4096 + o) m = slice img (drs * 4096 + o) m) ∧
      slice out (drs * 4096 + (k + 2) * 64) 64 =
        (fill_entry (dirent_parse (slice img (drs * 4096 + (k + 2) * 64) 64))
          ((k + 2 : Nat) : Int) name).bytes ∧
      (∀ b, drs + 1 ≤ b → (blocks_needed content.length = 0 ∨ b ≠ drs + f) →
        ∀ o m, o + m ≤ 4096 → slice out (b * 4096 + o) m = slice img (b * 4096 + o) m) ∧
      (0 < blocks_needed content.length → slice out ((drs + f) * 4096) 4096 =
        fixN 4096 (slice content ((blocks_needed content.length - 1) * 4096)
          (content.length - (blocks_needed content.length - 1) * 4096))) := by
  have g := hg
  obtain ⟨g1, g2, g3, g4, g5, g6⟩ := g
  have hlen := hi.length_eq
  have hfb : ∀ b ∈ List.replicate (blocks_needed content.length) (drs + f),
      drs + 1 ≤ b ∧ b < drs + drb := by
    intro b hb
    rw [List.mem_replicate] at hb
    have := hf (by omega)
    omega
  obtain ⟨out1, h1, l1, f1, -, -⟩ := adder_mark_bitmaps_inv ic drs drb k img sb hg hi hsb hk
    _ (fun b hb => by have := hfb b hb; omega)
  have h2 := adder_write_inode_inv ic drs drb k out1 sb hsb (by omega)
    (new_inode content.length now (List.replicate (blocks_needed content.length) (drs + f)))
  have hIl := inode_bytes_length
    (new_inode content.length now (List.replicate (blocks_needed content.length) (drs + f)))
  have hslot : 12288 + (k + 2) * 128 ≤ drs * 4096 := by
    have : (k + 2) * 128 ≤ ic * 128 := Nat.mul_le_mul_right _ (by omega)
    omega
  have hw2 : 12288 + (k + 1) * 128 + (new_inode content.length now
      (List.replicate (blocks_needed content.length) (drs + f))).bytes.length ≤
      out1.length := by
    rw [hIl, l1, hlen]; omega
  have l2 := write_at_length _ _ _ hw2
  obtain ⟨out3, h3, l3, z3, p3, q3⟩ := copy_file_data_same content (drs + f)
    (blocks_needed content.length)
    (write_at out1 (12288 + (k + 1) * 128) (new_inode content.length now
      (List.replicate (blocks_needed content.length) (drs + f))).bytes) 0
    (fun h => by
      have := hf h
      rw [l2, l1, hlen]
      exact ⟨by omega, by nlinarith⟩)
  have hlen3 : out3.length = (drs + drb) * 4096 := by rw [l3, l2, l1, hlen]
  have f3 : ∀ o m, o + m ≤ (drs + 1) * 4096 → slice out3 o m =
      slice (write_at out1 (12288 + (k + 1) * 128) (new_inode content.length now
        (List.replicate (blocks_needed content.length) (drs + f))).bytes) o m := by
    intro o m hom
    rcases Nat.eq_zero_or_pos (blocks_needed content.length) with hn | hn
    · rw [z3 hn]
    · have := hf hn
      exact p3 o m (Or.inl (by nlinarith))
  have fr : ∀ o m, (o + m ≤ 4096 ∨ 12288 ≤ o) →
      (o + m ≤ 12288 + (k + 1) * 128 ∨ 12288 + (k + 2) * 128 ≤ o) →
      o + m ≤ (drs + 1) * 4096 → slice out3 o m = slice img o m := by
    intro o m c1 c2 c3
    rw [f3 o m c3, slice_write_at_disjoint _ _ _ hw2 _ _ (by rw [hIl]; omega), f1 o m c1]
  have hroot3 : (inode_parse (slice out3 12288 128)).direct = drs :: List.replicate 11 0 := by
    rw [fr 12288 128 (Or.inr (le_refl _)) (Or.inl (by omega)) (by omega)]
    exact hi.root_direct
  have hent3 : ∀ j, j < 64 →
      (le_val (slice out3 (drs * 4096 + j * 64) 4) = 0 ↔ k + 2 ≤ j) := by
    intro j hj
    rw [fr _ 4 (Or.inr (by omega)) (Or.inr (by omega)) (by omega)]
    exact hi.entries j hj
  obtain ⟨out4, h4, l4, f4, a4, c4, d4, e4⟩ :=
    adder_link_frame ic drs drb k out3 sb hg hsb hlen3 hroot3 hent3 hk2 name now mem
  refine ⟨out4, ?_, a4, ?_, ?_, ?_, ?_, ?_, ?_, ?_, ?_⟩
  · unfold adder_write
    rw [h1]
    simp only
    rw [h2]
    simp only
    rw [h3]
    simp only
    exact h4
  · intro o m ho hom
    rw [f4 o m (Or.inl ⟨ho, by omega⟩), fr o m (Or.inl hom) (Or.inl (by omega)) (by omega)]
  · rw [c4, fr 12288 128 (Or.inr (le_refl _)) (Or.inl (by omega)) (by omega)]
  · intro o m ho hom hsl
    rw [f4 o m (Or.inr (Or.inl ⟨ho, hom⟩)), fr o m (Or.inr (by omega)) hsl (by omega)]
  · rw [f4 _ _ (Or.inr (Or.inl ⟨by omega, by omega⟩)), f3 _ _ (by omega)]
    have := slice_write_at_same _ _ _ hw2
    rw [hIl] at this
    exact this
  · intro o m hsl hom
    rw [d4 o m hsl hom, fr _ _ (Or.inr (by omega)) (Or.inr (by omega)) (by omega)]
  · rw [e4, fr _ _ (Or.inr (by omega)) (Or.inr (by omega)) (by omega)]
  · intro b hb hne o m hom
    have e3 : slice out3 (b * 4096 + o) m =
        slice (write_at out1 (12288 + (k + 1) * 128) (new_inode content.length now
          (List.replicate (blocks_needed content.length) (drs + f))).bytes) (b * 4096 + o) m := by
      rcases hne with hn | hn
      · rw [z3 hn]
      · apply p3
        by_cases hlt : b < drs + f
        · left; omega
        · right; omega
    rw [f4 _ _ (Or.inr (Or.inr (by omega))), e3,
      slice_write_at_disjoint _ _ _ hw2 _ _ (Or.inr (by rw [hIl]; omega)),
      f1 _ _ (Or.inr (by omega))]
  · intro hn
    have := hf hn
    rw [f4 _ _ (Or.inr (Or.inr (by omega))), q3 hn]
    have e : 0 + blocks_needed content.length - 1 = blocks_needed content.length - 1 := by
      omega
    rw [e, if_pos rfl]
    rfl

theorem adder_update_ok (img name content : List Nat) (now : Nat) (mem : List Nat)
    (r : AddSuccess) (hlen : 116 ≤ img.length)
    (h : adder_update img name content now mem = .ok r) :
    adder_write img (superblock_parse (slice img 0 116)) r.new_inode_num r.file_blocks name
      content now mem = .ok r.image := by
  unfold adder_update at h
  rw [read_at_eq_some _ _ _ (by omega)] at h
  simp only at h
  split_ifs at h
  cases ha : adder_allocate img (superblock_parse (slice img 0 116))
      (blocks_needed content.length) with
  | error e => rw [ha] at h; cases h
  | ok p =>
    obtain ⟨a, b⟩ := p
    rw [ha] at h
    simp only at h
    cases hw : adder_write img (superblock_parse (slice img 0 116)) a b name content now mem with
    | error e => rw [hw] at h; cases h
    | ok out4 =>
      rw [hw] at h
      simp only [Except.ok.injEq] at h
      subst h
      exact hw

theorem mkfs_adder_ok (img name content : List Nat) (now : Nat) (mem : List Nat)
    (r : AddSuccess) (h : mkfs_adder img name content now mem = .ok r) :
    116 ≤ img.length ∧ adder_update img name content now mem = .ok r := by
  unfold mkfs_adder at h
  by_cases hl : 116 ≤ img.length
  · refine ⟨hl, ?_⟩
    rw [read_at_eq_some _ _ _ (by omega)] at h
    simp only at h
    split_ifs at h
    cases hu : adder_update img name content now mem with
    | error e =>
      rw [hu] at h
      cases h
    | ok r2 =>
      rw [hu] at h
      simp only [Except.ok.injEq] at h
      rw [h]
  · have e : read_at img 0 116 = none := by
      unfold read_at
      rw [if_neg (by omega)]
    rw [e] at h
    cases h
/-- A successful insertion in the state `image_inv`, with every byte it leaves (see
`insert_effect`) next to the facts of `mkfs_adder_inv`. -/
theorem mkfs_adder_effect (ic drs drb k : Nat) (img : List Nat)
    (hg : geometry_ok ic drs drb) (hi : image_inv ic drs drb k img)
    (name content : List Nat) (now : Nat) (mem : List Nat) (r : AddSuccess)
    (h : mkfs_adder img name content now mem = .ok r) :
    ∃ f, blocks_needed content.length ≤ 12 ∧ k + 1 < ic ∧ k + 2 < 64 ∧
      r.new_inode_num = ((k + 2 : Nat) : Int) ∧
      r.file_blocks = List.replicate (blocks_needed content.length) (drs + f) ∧
      (0 < blocks_needed content.length → 1 ≤ f ∧ f < drb ∧
        bit_set (slice img 8192 4096) f = false ∧
        ∀ j, j < f → bit_set (slice img 8192 4096) j = true) ∧
      image_inv ic drs drb (k + 1) r.image ∧
      (∀ i, bit_set (slice r.image 8192 4096) i =
        (bit_set (slice img 8192 4096) i ||
          decide (0 < blocks_needed content.length ∧ i = f))) ∧
      insert_effect drs k f img name content now mem r.image := by
  obtain ⟨f, p1, p2, p3, p4, p5, p6, p7, p8⟩ :=
    mkfs_adder_inv ic drs drb k img hg hi name content now mem r h
  refine ⟨f, p1, p2, p3, p4, p5, p6, p7, p8, ?_⟩
  obtain ⟨hl, hu⟩ := mkfs_adder_ok img name content now mem r h
  have hw := adder_update_ok img name content now mem r hl hu
  rw [p4, p5] at hw
  obtain ⟨out, ho, q1, q2, q3, q4, q5, q6, q7, q8, q9⟩ :=
    adder_write_frame ic drs drb k img _ hg hi hi.superblock p2 p3 f name content now mem
      (fun hn => ⟨(p6 hn).1, (p6 hn).2.1⟩)
  rw [ho] at hw
  simp only [Except.ok.injEq] at hw
  rw [← hw]
  exact ⟨q1, q2, q3, q4, q5, q6, q7, q8, q9⟩

/-! ## References between bitmaps, inodes and directory entries -/

theorem root_dir_block_inodes (j : Nat) (hj : j < 64) :
    le_val (slice root_dir_block (j * 64) 4) = if j < 2 then 1 else 0 := by
  have hz : (List.replicate BS 0).length = 4096 := List.length_replicate _ _
  have hw1 : 0 + dot_entry.bytes.length ≤ (List.replicate BS 0).length := by
    rw [dirent_bytes_length, hz]; omega
  have h1 : (write_at (List.replicate BS 0) 0 dot_entry.bytes).length = 4096 := by
    rw [write_at_length _ _ _ hw1, hz]
  have hw2 : 64 + dotdot_entry.bytes.length ≤
      (write_at (List.replicate BS 0) 0 dot_entry.bytes).length := by
    rw [dirent_bytes_length, h1]; omega
  have hd1 : le_val (slice dot_entry.bytes 0 4) = 1 := by
    rw [dirent_parse_inode_no]; rfl
  have hd2 : le_val (slice dotdot_entry.bytes 0 4) = 1 := by
    rw [dirent_parse_inode_no]; rfl
  unfold root_dir_block
  by_cases h0 : j = 0
  · subst h0
    rw [slice_write_at_disjoint _ _ _ hw2 _ _ (Or.inl (by omega))]
    have := slice_write_at_inside _ 0 dot_entry.bytes hw1 0 4 (by rw [dirent_bytes_length]; omega)
    rw [Nat.zero_mul, this, hd1]
    rfl
  by_cases h1' : j = 1
  · subst h1'
    have := slice_write_at_inside _ 64 dotdot_entry.bytes hw2 0 4
      (by rw [dirent_bytes_length]; omega)
    rw [Nat.one_mul, this, hd2]
    rfl
  · rw [slice_write_at_disjoint _ _ _ hw2 _ _ (Or.inr (by rw [dirent_bytes_length]; omega)),
      slice_write_at_disjoint _ _ _ hw1 _ _ (Or.inr (by rw [dirent_bytes_length]; omega))]
    unfold slice
    rw [List.drop_replicate, List.take_replicate, le_val_zeros, if_neg (by omega)]

theorem new_inode_direct (st_size now : Nat) (fb : List Nat) :
    (inode_parse (new_inode st_size now fb).bytes).direct = (fixN 12 fb).map (· % 256 ^ 4) := by
  rw [inode_parse_direct]
  rfl

theorem mem_fixN_replicate (n v x : Nat)
    (h : x ∈ (fixN 12 (List.replicate n v)).map (· % 256 ^ 4)) (hx : x ≠ 0) :
    0 < n ∧ x = v % 256 ^ 4 := by
  rw [List.mem_map] at h
  obtain ⟨y, hy, rfl⟩ := h
  unfold fixN at hy
  have hy2 := List.mem_of_mem_take hy
  rw [List.mem_append] at hy2
  rcases hy2 with hy2 | hy2
  · rw [List.mem_replicate] at hy2
    exact ⟨by omega, by rw [hy2.2]⟩
  · rw [List.mem_replicate] at hy2
    rw [hy2.2] at hx
    exact absurd rfl hx

theorem mem_fixN_replicate_self (n v : Nat) (hn : 0 < n) (hv : v < 256 ^ 4) :
    v ∈ (fixN 12 (List.replicate n v)).map (· % 256 ^ 4) := by
  obtain ⟨m, rfl⟩ : ∃ m, n = m + 1 := ⟨n - 1, by omega⟩
  rw [List.mem_map]
  refine ⟨v, ?_, Nat.mod_eq_of_lt hv⟩
  unfold fixN
  rw [List.replicate_succ, List.cons_append, List.take_succ_cons]
  exact List.mem_cons_self _ _

/-- A fresh image is in the state `files_inv` with no file inserted. -/
theorem fresh_files_inv (size_kib inodes : Int) (now : Nat) (mem : List Nat)
    (hv : valid_params size_kib inodes) :
    files_inv (builder_data_region_start inodes) 0 (builder_image size_kib inodes now mem) := by
  obtain ⟨l1, l2, l3, l4, l5, l6, l7, l8, l9⟩ := fresh_layout size_kib inodes hv
  obtain ⟨s1, s2, s3, s4, s5, s6⟩ := builder_image_slices size_kib inodes now mem hv
  have hi := fresh_image_inv size_kib inodes now mem hv
  have hroot : ∀ a, 1 ≤ a → a ≤ 0 + 1 →
      (inode_parse (slice (builder_image size_kib inodes now mem)
        (12288 + (a - 1) * 128) 128)).direct =
        builder_data_region_start inodes :: List.replicate 11 0 := by
    intro a ha1 ha2
    have e : 12288 + (a - 1) * 128 = 12288 := by omega
    rw [e]
    exact hi.root_direct
  refine ⟨?_, ?_, ?_, ?_⟩
  · intro j hj
    have := slice_slice (builder_image size_kib inodes now mem)
      (builder_data_region_start inodes * 4096) 4096 (j * 64) 4 (by omega)
    rw [s6] at this
    rw [← this, root_dir_block_inodes j hj]
    split_ifs <;> rfl
  · intro a ha1 ha2 x hx hx0
    rw [hroot a ha1 ha2, List.mem_cons, List.mem_replicate] at hx
    rcases hx with hx | hx
    · subst hx
      rw [Nat.sub_self]
      exact ⟨le_refl _, hi.root_block_bit⟩
    · exact absurd hx.2 hx0
  · intro i hbit
    rw [s4, bit_set_fresh] at hbit
    have e : i = 0 := by omega
    subst e
    refine ⟨1, le_refl _, le_refl _, ?_⟩
    rw [hroot 1 (le_refl _) (le_refl _)]
    exact List.mem_cons_self _ _
  · intro a b ha1 ha2 hb1 hb2 hab
    omega

/-- A successful insertion keeps the state `files_inv`. -/
theorem files_inv_step (ic drs drb k : Nat) (img : List Nat)
    (hg : geometry_ok ic drs drb) (hi : image_inv ic drs drb k img)
    (fi : files_inv drs k img)
    (name content : List Nat) (now : Nat) (mem : List Nat) (r : AddSuccess)
    (h : mkfs_adder img name content now mem = .ok r) :
    files_inv drs (k + 1) r.image := by
  obtain ⟨f, p1, p2, p3, p4, p5, p6, p7, p8, eff⟩ :=
    mkfs_adder_effect ic drs drb k img hg hi name content now mem r h
  obtain ⟨g1, g2, g3, g4, g5, g6⟩ := hg
  have hslot : 12288 + (k + 2) * 128 ≤ drs * 4096 := by
    have : (k + 2) * 128 ≤ ic * 128 := Nat.mul_le_mul_right _ (by omega)
    omega
  have hdir : ∀ a, 1 ≤ a → a ≤ k + 1 →
      (inode_parse (slice r.image (12288 + (a - 1) * 128) 128)).direct =
        (inode_parse (slice img (12288 + (a - 1) * 128) 128)).direct := by
    intro a ha1 ha2
    by_cases h1 : a = 1
    · subst h1
      have e : 12288 + (1 - 1) * 128 = 12288 := rfl
      rw [e, p7.root_direct, hi.root_direct]
    · rw [eff.table_rest _ _ (by omega) (by omega) (Or.inl (by omega))]
  have e2 : 12288 + (k + 1 + 1 - 1) * 128 = 12288 + (k + 1) * 128 := by omega
  have hnew : (inode_parse (slice r.image (12288 + (k + 1 + 1 - 1) * 128) 128)).direct =
      (fixN 12 (List.replicate (blocks_needed content.length) (drs + f))).map
        (· % 256 ^ 4) := by
    rw [e2, eff.inode_bytes, new_inode_direct]
  have hval : ∀ x, x ≠ 0 →
      x ∈ (inode_parse (slice r.image (12288 + (k + 1 + 1 - 1) * 128) 128)).direct →
      0 < blocks_needed content.length ∧ x = drs + f := by
    intro x hx0 hx
    rw [hnew] at hx
    obtain ⟨hn, hxv⟩ := mem_fixN_replicate _ _ _ hx hx0
    have := p6 hn
    rw [Nat.mod_eq_of_lt (by norm_num at g6 ⊢; omega)] at hxv
    exact ⟨hn, hxv⟩
  have hfresh : ∀ b, 1 ≤ b → b ≤ k + 1 → ∀ x, x ≠ 0 →
      x ∈ (inode_parse (slice r.image (12288 + (k + 1 + 1 - 1) * 128) 128)).direct →
      x ∈ (inode_parse (slice img (12288 + (b - 1) * 128) 128)).direct → False := by
    intro b hb1 hb2 x hx0 hxa hxb
    obtain ⟨hn, hxv⟩ := hval x hx0 hxa
    have hb := (fi.ptr_bits b hb1 hb2 x hxb hx0).2
    have hf := (p6 hn).2.2.1
    rw [hxv, show drs + f - drs = f by omega, hf] at hb
    exact Bool.noConfusion hb
  refine ⟨?_, ?_, ?_, ?_⟩
  · intro j hj
    by_cases hjk : j = k + 2
    · subst hjk
      have := slice_slice r.image (drs * 4096 + (k + 2) * 64) 64 0 4 (by omega)
      rw [Nat.add_zero (drs * 4096 + (k + 2) * 64)] at this
      rw [← this, eff.entry_bytes, dirent_parse_inode_no, fill_entry_inode_no,
        to_u32_num k (by omega), Nat.mod_eq_of_lt (by omega), if_neg (by omega),
        if_pos (by omega)]
    · rw [eff.dir_rest (j * 64) 4 (by omega) (by omega), fi.entry_inodes j hj]
      split_ifs <;> first | rfl | omega
  · intro a ha1 ha2 x hx hx0
    by_cases hak : a = k + 1 + 1
    · subst hak
      obtain ⟨hn, hxv⟩ := hval x hx0 hx
      refine ⟨by omega, ?_⟩
      rw [hxv, show drs + f - drs = f by omega, p8 f]
      simp [hn]
    · rw [hdir a ha1 (by omega)] at hx
      obtain ⟨h1, h2⟩ := fi.ptr_bits a ha1 (by omega) x hx hx0
      refine ⟨h1, ?_⟩
      rw [p8, h2]
      rfl
  · intro i hbit
    rw [p8 i, Bool.or_eq_true, decide_eq_true_eq] at hbit
    rcases hbit with hbit | ⟨hn, hif⟩
    · obtain ⟨a, ha1, ha2, ha3⟩ := fi.bit_ptrs i hbit
      exact ⟨a, ha1, by omega, by rw [hdir a ha1 ha2]; exact ha3⟩
    · subst hif
      have := p6 hn
      refine ⟨k + 1 + 1, by omega, le_refl _, ?_⟩
      rw [hnew]
      exact mem_fixN_replicate_self _ _ hn (by norm_num at g6 ⊢; omega)
  · intro a b ha1 ha2 hb1 hb2 hab x hx0 hxa hxb
    by_cases hak : a = k + 1 + 1
    · subst hak
      rw [hdir b hb1 (by omega)] at hxb
      exact hfresh b hb1 (by omega) x hx0 hxa hxb
    · by_cases hbk : b = k + 1 + 1
      · subst hbk
        rw [hdir a ha1 (by omega)] at hxa
        exact hfresh a ha1 (by omega) x hx0 hxb hxa
      · rw [hdir a ha1 (by omega)] at hxa
        rw [hdir b hb1 (by omega)] at hxb
        exact fi.disjoint a b ha1 (by omega) hb1 (by omega) hab x hx0 hxa hxb

/-- A sequence of successful insertions keeps the state `files_inv`. -/
theorem insert_all_files_inv (ic drs drb : Nat) (hg : geometry_ok ic drs drb)
    (files : List host_file) (k : Nat) (img : List Nat) (hi : image_inv ic drs drb k img)
    (fi : files_inv drs k img)
    (out : List Nat) (nums : List Int) (h : insert_all img files = some (out, nums)) :
    files_inv drs (k + files.length) out := by
  induction files generalizing k img nums with
  | nil =>
    simp only [insert_all, Option.some.injEq, Prod.mk.injEq] at h
    obtain ⟨rfl, rfl⟩ := h
    exact fi
  | cons f fs ih =>
    unfold insert_all at h
    cases hm : mkfs_adder img f.name f.content f.now f.mem with
    | error e => rw [hm] at h; cases h
    | ok r =>
      rw [hm] at h
      simp only at h
      obtain ⟨_, _, _, _, _, _, _, hinv, _⟩ :=
        mkfs_adder_inv ic drs drb k img hg hi f.name f.content f.now f.mem r hm
      have fi2 := files_inv_step ic drs drb k img hg hi fi f.name f.content f.now f.mem r hm
      cases hr : insert_all r.image fs with
      | none => rw [hr] at h; cases h
      | some p =>
        obtain ⟨out2, nums2⟩ := p
        rw [hr] at h
        simp only [Option.some.injEq, Prod.mk.injEq] at h
        obtain ⟨rfl, rfl⟩ := h
        have := ih (k + 1) r.image hinv fi2 nums2 hr
        rw [List.length_cons, show k + (fs.length + 1) = k + 1 + fs.length by omega]
        exact this
/-! ## Images reachable from a fresh image -/

/-- An image reached from a fresh image by the successful insertion of the files of a list
is in the states `image_inv` and `files_inv` for the number of files. -/
theorem reachable_inv (size_kib inodes : Int) (now : Nat) (mem : List Nat)
    (img0 : List Nat) (files : List host_file) (out : List Nat) (nums : List Int)
    (h0 : mkfs_builder true size_kib inodes now mem = .ok img0)
    (h : insert_all img0 files = some (out, nums)) :
    geometry_ok (to_u64 inodes) (builder_data_region_start inodes)
        (builder_data_region_blocks size_kib inodes) ∧
      image_inv (to_u64 inodes) (builder_data_region_start inodes)
        (builder_data_region_blocks size_kib inodes) files.length out ∧
      files_inv (builder_data_region_start inodes) files.length out ∧
      (files ≠ [] → files.length + 1 < 64) := by
  obtain ⟨hv, he⟩ := builder_ok_valid _ _ _ _ _ h0
  have hg := fresh_geometry size_kib inodes hv
  have hfi := fresh_image_inv size_kib inodes now mem hv
  have hff := fresh_files_inv size_kib inodes now mem hv
  rw [← he] at hfi hff
  obtain ⟨i1, i2, i3⟩ := insert_all_inv _ _ _ hg files 0 img0 hfi out nums h
  have j1 := insert_all_files_inv _ _ _ hg files 0 img0 hfi hff out nums h
  rw [Nat.zero_add] at i1 j1
  refine ⟨hg, i1, j1, ?_⟩
  intro hne
  have := i3 hne
  omega

theorem inode_record_inv (ic drs drb k : Nat) (img : List Nat)
    (hi : image_inv ic drs drb k img) (a : Nat) :
    inode_record img a = inode_parse (slice img (12288 + (a - 1) * 128) 128) := by
  obtain ⟨-, -, -, -, s5, -, -⟩ := hi.superblock
  unfold inode_record image_sb
  rw [s5]
  rfl

theorem inode_bit_inv (ic drs drb k : Nat) (img : List Nat)
    (hi : image_inv ic drs drb k img) (i : Nat) :
    inode_bit img i = bit_set (slice img 4096 4096) i := by
  obtain ⟨-, -, s3, -, -, -, -⟩ := hi.superblock
  unfold inode_bit image_sb
  rw [s3]
  rfl

theorem data_bit_inv (ic drs drb k : Nat) (img : List Nat)
    (hi : image_inv ic drs drb k img) (i : Nat) :
    data_bit img i = bit_set (slice img 8192 4096) i := by
  obtain ⟨-, -, -, s4, -, -, -⟩ := hi.superblock
  unfold data_bit image_sb
  rw [s4]
  rfl

theorem inode_allocated_inv (ic drs drb k : Nat) (img : List Nat)
    (hi : image_inv ic drs drb k img) (a : Nat) :
    inode_allocated img a ↔ 1 ≤ a ∧ a ≤ k + 1 := by
  unfold inode_allocated
  rw [inode_bit_inv ic drs drb k img hi, hi.inode_bits]
  omega

theorem root_entry_inv (ic drs drb k : Nat) (img : List Nat)
    (hi : image_inv ic drs drb k img) (j : Nat) :
    root_entry img j = dirent_parse (slice img (drs * 4096 + j * 64) 64) := by
  unfold root_entry
  rw [inode_record_inv ic drs drb k img hi]
  have e : 12288 + (ROOT_INO - 1) * 128 = 12288 := rfl
  rw [e, hi.root_direct]
  rfl

theorem root_entry_inode_no (ic drs drb k : Nat) (img : List Nat)
    (hi : image_inv ic drs drb k img) (fi : files_inv drs k img) (j : Nat) (hj : j < 64) :
    (root_entry img j).inode_no = if j < 2 then 1 else if j < k + 2 then j else 0 := by
  rw [root_entry_inv ic drs drb k img hi]
  have := slice_slice img (drs * 4096 + j * 64) 64 0 4 (by omega)
  rw [Nat.add_zero (drs * 4096 + j * 64)] at this
  show le_val (slice (slice img (drs * 4096 + j * 64) 64) 0 4) = _
  rw [this, fi.entry_inodes j hj]

/-- The run of the scenario with every byte it leaves: the file gets inode 2 and block 8. -/
theorem scenario_effect :
    ∃ r, mkfs_adder (builder_image 180 128 0 scenario_mem) scenario_file.name
        scenario_file.content scenario_file.now scenario_file.mem = .ok r ∧
      r.new_inode_num = 2 ∧ image_inv 128 7 38 1 r.image ∧ files_inv 7 1 r.image ∧
      insert_effect 7 0 1 (builder_image 180 128 0 scenario_mem) scenario_file.name
        scenario_file.content scenario_file.now scenario_file.mem r.image := by
  have hv : valid_params 180 128 := by decide
  have hg := fresh_geometry 180 128 hv
  have hi := fresh_image_inv 180 128 0 scenario_mem hv
  have hff := fresh_files_inv 180 128 0 scenario_mem hv
  have hdb := (builder_image_slices 180 128 0 scenario_mem hv).2.2.2.1
  have hic : to_u64 128 = 128 := to_u64_of_small 128 (by norm_num)
  have hdrs : builder_data_region_start 128 = 7 :=
    (builder_data_region_start_eq 128 (by omega)).trans (by norm_num)
  have hdrb : builder_data_region_blocks 180 128 = 38 :=
    (builder_data_region_blocks_eq 180 128 (by omega) (by omega) (by omega)).trans (by norm_num)
  rw [hic, hdrs, hdrb] at hg hi
  rw [hdrs] at hff
  have hn : blocks_needed scenario_file.content.length = 2 := by
    show blocks_needed scenario_content.length = 2
    rw [scenario_content, List.length_replicate]; rfl
  have hb1 : bit_set (slice (builder_image 180 128 0 scenario_mem) 8192 4096) 1 = false := by
    rw [hdb]
    cases hc : bit_set (1 :: List.replicate 4095 0) 1
    · rfl
    · have := (bit_set_fresh 1).mp hc; omega
  have hex := file_exists_fresh 180 128 0 scenario_mem hv scenario_file.name (by decide)
    (by decide)
  obtain ⟨r, hr⟩ := mkfs_adder_succeeds _ _ _ 0 _ hg hi scenario_file.name
    scenario_file.content scenario_file.now scenario_file.mem hex (by rw [hn]; omega)
    (by omega) (by omega) (Or.inr ⟨1, by omega, hb1⟩)
  obtain ⟨f, -, -, -, hnum, hfb, hf, hinv, hbits, eff⟩ :=
    mkfs_adder_effect _ _ _ 0 _ hg hi scenario_file.name scenario_file.content
      scenario_file.now scenario_file.mem r hr
  obtain ⟨hf1, hf2, hf3, hf4⟩ := hf (by rw [hn]; omega)
  have hf : f = 1 := by
    by_contra hc
    have := hf4 1 (by omega)
    rw [hb1] at this
    exact Bool.noConfusion this
  subst hf
  exact ⟨r, hr, hnum, hinv,
    files_inv_step _ _ _ 0 _ hg hi hff scenario_file.name scenario_file.content
      scenario_file.now scenario_file.mem r hr, eff⟩

/-- C12: in an image reached from a fresh image by successful insertions, no data block
number occurs among the non-zero direct pointers of two different allocated inodes (the
root inode included). -/
theorem no_block_aliasing (size_kib inodes : Int) (now : Nat) (mem : List Nat)
    (img0 : List Nat) (files : List host_file) (out : List Nat) (nums : List Int)
    (h0 : mkfs_builder true size_kib inodes now mem = .ok img0)
    (h : insert_all img0 files = some (out, nums)) (a b x : Nat)
    (ha : inode_allocated out a) (hb : inode_allocated out b) (hab : a ≠ b) (hx : x ≠ 0)
    (hxa : x ∈ (inode_record out a).direct) : x ∉ (inode_record out b).direct := by
  obtain ⟨hg, hi, fi, -⟩ := reachable_inv _ _ _ _ _ _ _ _ h0 h
  rw [inode_allocated_inv _ _ _ _ _ hi] at ha hb
  rw [inode_record_inv _ _ _ _ _ hi] at hxa ⊢
  exact fi.disjoint a b ha.1 ha.2 hb.1 hb.2 hab x hx hxa

/-- Witness of C12 on the scenario: after the 5000-byte file is inserted into the fresh
image, inodes 2 and 1 are allocated, block 8 is a direct pointer of inode 2, and it is not
a direct pointer of inode 1. -/
theorem no_block_aliasing_witness :
    ∃ out nums, insert_all (builder_image 180 128 0 scenario_mem) [scenario_file] =
        some (out, nums) ∧
      inode_allocated out 2 ∧ inode_allocated out 1 ∧ 8 ∈ (inode_record out 2).direct ∧
      8 ∉ (inode_record out 1).direct := by
  obtain ⟨r, hr, -, hinv, -, eff⟩ := scenario_effect
  have hins : insert_all (builder_image 180 128 0 scenario_mem) [scenario_file] =
      some (r.image, [r.new_inode_num]) := insert_all_single _ _ r hr
  have ha2 : inode_allocated r.image 2 :=
    (inode_allocated_inv _ _ _ _ _ hinv 2).mpr ⟨by omega, by omega⟩
  have ha1 : inode_allocated r.image 1 :=
    (inode_allocated_inv _ _ _ _ _ hinv 1).mpr ⟨by omega, by omega⟩
  have hn : blocks_needed scenario_file.content.length = 2 := by
    show blocks_needed scenario_content.length = 2
    rw [scenario_content, List.length_replicate]; rfl
  have h8 : 8 ∈ (inode_record r.image 2).direct := by
    rw [inode_record_inv _ _ _ _ _ hinv]
    have e : 12288 + (2 - 1) * 128 = 12288 + (0 + 1) * 128 := rfl
    rw [e, eff.inode_bytes, new_inode_direct, hn]
    exact mem_fixN_replicate_self 2 8 (by omega) (by norm_num)
  exact ⟨r.image, [r.new_inode_num], hins, ha2, ha1, h8,
    no_block_aliasing 180 128 0 scenario_mem _ [scenario_file] r.image [r.new_inode_num]
      (mkfs_builder_ok 180 128 0 scenario_mem (by decide)) hins 2 1 8 ha2 ha1 (by omega)
      (by omega) h8⟩

/-- C17: in an image reached from a fresh image by successful insertions, bit `i` of the
inode bitmap is set exactly when inode `i + 1` is the inode number of an in-use entry of the
root directory block, and bit `i` of the data bitmap is set exactly when block
`data_region_start + i` is a non-zero direct pointer of an allocated inode. -/
theorem bitmap_consistency (size_kib inodes : Int) (now : Nat) (mem : List Nat)
    (img0 : List Nat) (files : List host_file) (out : List Nat) (nums : List Int)
    (h0 : mkfs_builder true size_kib inodes now mem = .ok img0)
    (h : insert_all img0 files = some (out, nums)) :
    (∀ i, inode_bit out i = true ↔
      ∃ j, j < 64 ∧ (root_entry out j).inode_no ≠ 0 ∧ (root_entry out j).inode_no = i + 1) ∧
    (∀ i, data_bit out i = true ↔
      ∃ a, inode_allocated out a ∧ (image_sb out).data_region_start + i ≠ 0 ∧
        (image_sb out).data_region_start + i ∈ (inode_record out a).direct) := by
  obtain ⟨hg, hi, fi, hk⟩ := reachable_inv _ _ _ _ _ _ _ _ h0 h
  obtain ⟨g1, g2, g3, g4, g5, g6⟩ := hg
  have hdrs : (image_sb out).data_region_start = builder_data_region_start inodes :=
    hi.superblock.2.2.2.2.2.1
  constructor
  · intro i
    rw [inode_bit_inv _ _ _ _ _ hi, hi.inode_bits]
    constructor
    · intro hik
      by_cases h0 : i = 0
      · subst h0
        refine ⟨0, by omega, ?_, ?_⟩ <;>
          rw [root_entry_inode_no _ _ _ _ _ hi fi 0 (by omega), if_pos (by omega)]
        omega
      · have hne : files ≠ [] := by
          intro hc
          rw [hc] at hik
          simp only [List.length_nil] at hik
          omega
        have := hk hne
        refine ⟨i + 1, by omega, ?_, ?_⟩ <;>
          rw [root_entry_inode_no _ _ _ _ _ hi fi (i + 1) (by omega), if_neg (by omega),
            if_pos (by omega)]
        omega
    · rintro ⟨j, hj, hne, hv⟩
      rw [root_entry_inode_no _ _ _ _ _ hi fi j hj] at hne hv
      split_ifs at hne hv <;> omega
  · intro i
    rw [data_bit_inv _ _ _ _ _ hi, hdrs]
    constructor
    · intro hbit
      obtain ⟨a, ha1, ha2, ha3⟩ := fi.bit_ptrs i hbit
      refine ⟨a, (inode_allocated_inv _ _ _ _ _ hi a).mpr ⟨ha1, ha2⟩, by omega, ?_⟩
      rw [inode_record_inv _ _ _ _ _ hi]
      exact ha3
    · rintro ⟨a, ha, hne, hmem⟩
      rw [inode_allocated_inv _ _ _ _ _ hi] at ha
      rw [inode_record_inv _ _ _ _ _ hi] at hmem
      have := (fi.ptr_bits a ha.1 ha.2 _ hmem hne).2
      rw [show builder_data_region_start inodes + i - builder_data_region_start inodes = i by
        omega] at this
      exact this

/-- Witness of C17 on the scenario: the image after the 5000-byte file is inserted into the
fresh image. -/
theorem bitmap_consistency_witness :
    ∃ out nums, insert_all (builder_image 180 128 0 scenario_mem) [scenario_file] =
        some (out, nums) ∧
      (∀ i, inode_bit out i = true ↔
        ∃ j, j < 64 ∧ (root_entry out j).inode_no ≠ 0 ∧
          (root_entry out j).inode_no = i + 1) ∧
      (∀ i, data_bit out i = true ↔
        ∃ a, inode_allocated out a ∧ (image_sb out).data_region_start + i ≠ 0 ∧
          (image_sb out).data_region_start + i ∈ (inode_record out a).direct) := by
  obtain ⟨r, hr, -, -, -, -⟩ := scenario_effect
  have hins : insert_all (builder_image 180 128 0 scenario_mem) [scenario_file] =
      some (r.image, [r.new_inode_num]) := insert_all_single _ _ r hr
  exact ⟨r.image, [r.new_inode_num], hins,
    bitmap_consistency 180 128 0 scenario_mem _ [scenario_file] r.image [r.new_inode_num]
      (mkfs_builder_ok 180 128 0 scenario_mem (by decide)) hins⟩

/-! ## Names in the root directory and the lookup `file_exists` -/

theorem c_str_append_of_mem (a b : List Nat) (h : 0 ∈ a) : c_str (a ++ b) = c_str a := by
  induction a with
  | nil => simp at h
  | cons x a ih =>
    unfold c_str at ih ⊢
    by_cases hx : x = 0
    · subst hx
      simp
    · have h2 : 0 ∈ a := by
        rcases List.mem_cons.mp h with h | h
        · exact absurd h.symm hx
        · exact h
      rw [List.cons_append, List.takeWhile_cons, List.takeWhile_cons]
      simp only [ne_eq, hx, not_false_eq_true, decide_True, if_true]
      rw [ih h2]

theorem c_str_drop_field (blk : List Nat) (o n : Nat) (h : 0 ∈ slice blk o n) :
    c_str (blk.drop o) = c_str (slice blk o n) := by
  have e : blk.drop o = slice blk o n ++ (blk.drop o).drop n := by
    unfold slice
    rw [List.take_append_drop]
  conv_lhs => rw [e]
  exact c_str_append_of_mem _ _ h

/-- The lookup on an image in the state `image_inv`: it scans the one directory block. -/
theorem file_exists_inv (ic drs drb k : Nat) (img : List Nat)
    (hg : geometry_ok ic drs drb) (hi : image_inv ic drs drb k img) (name : List Nat) :
    file_exists img (superblock_parse (slice img 0 116)) name =
      if (List.range 64).any (entry_matches (slice img (drs * 4096) 4096) name) then 1
      else 0 := by
  obtain ⟨g1, g2, g3, g4, g5, g6⟩ := hg
  have hlen := hi.length_eq
  unfold file_exists
  rw [root_inode_offset_inv _ _ _ _ hi.superblock, if_pos (by norm_num),
    read_at_eq_some _ _ _ (by rw [hlen]; omega)]
  simp only
  rw [hi.root_direct]
  unfold file_exists_blocks
  rw [if_neg (by omega), read_block_eq _ _ (by omega) (by rw [hlen]; nlinarith)]
  simp only
  have h64 : BS / 64 = 64 := rfl
  rw [h64]
  by_cases hany : (List.range 64).any (entry_matches (slice img (drs * 4096) 4096) name) = true
  · rw [if_pos hany, if_pos hany]
  · rw [if_neg hany, if_neg hany]
    rw [show List.replicate 11 (0 : Nat) = 0 :: List.replicate 10 0 by rfl]
    unfold file_exists_blocks
    rw [if_pos rfl]

theorem entry_matches_inv (ic drs drb k : Nat) (img : List Nat)
    (hi : image_inv ic drs drb k img)
    (names : List (List Nat)) (hn : names_inv drs k img names) (name : List Nat)
    (j : Nat) (hj : j < 64) :
    entry_matches (slice img (drs * 4096) 4096) name j = true ↔
      j < k + 2 ∧ names.getD j [] = c_str name := by
  unfold entry_matches
  rw [decide_eq_true_eq, slice_slice _ _ _ _ _ (by omega)]
  have he := hi.entries j hj
  by_cases hjk : j < k + 2
  · have hs : slice (slice img (drs * 4096) 4096) (j * 64 + 5) 58 =
        slice img (drs * 4096 + (j * 64 + 5)) 58 := slice_slice _ _ _ _ _ (by omega)
    rw [c_str_drop_field _ _ 58 (by rw [hs]; exact hn.terminated j hjk), hs, hn.stored j hjk]
    constructor
    · rintro ⟨_, h2⟩
      exact ⟨hjk, h2⟩
    · rintro ⟨_, h2⟩
      exact ⟨fun hc => by have := he.mp hc; omega, h2⟩
  · constructor
    · rintro ⟨h1, _⟩
      exact absurd (he.mpr (by omega)) h1
    · rintro ⟨h1, _⟩
      exact absurd h1 hjk

/-- The lookup on an image whose directory names are `names`: it finds exactly the names of
the list. -/
theorem file_exists_names (ic drs drb k : Nat) (img : List Nat)
    (hg : geometry_ok ic drs drb) (hi : image_inv ic drs drb k img)
    (names : List (List Nat)) (hn : names_inv drs k img names) (hk : k + 2 ≤ 64)
    (name : List Nat) :
    file_exists img (superblock_parse (slice img 0 116)) name =
      if c_str name ∈ names then 1 else 0 := by
  rw [file_exists_inv ic drs drb k img hg hi name]
  have hiff : (List.range 64).any (entry_matches (slice img (drs * 4096) 4096) name) = true ↔
      c_str name ∈ names := by
    rw [List.any_eq_true]
    constructor
    · rintro ⟨j, hj, hm⟩
      rw [List.mem_range] at hj
      obtain ⟨hjk, hv⟩ := (entry_matches_inv ic drs drb k img hi names hn name j hj).mp hm
      have hjl : j < names.length := by rw [hn.count]; exact hjk
      rw [← hv, List.getD_eq_getElem _ _ hjl]
      exact List.getElem_mem _
    · intro hmem
      obtain ⟨j, hjl, hv⟩ := List.getElem_of_mem hmem
      have hjk : j < k + 2 := by rw [← hn.count]; exact hjl
      refine ⟨j, List.mem_range.mpr (by omega), ?_⟩
      rw [entry_matches_inv ic drs drb k img hi names hn name j (by omega)]
      exact ⟨hjk, by rw [List.getD_eq_getElem _ _ hjl]; exact hv⟩
  by_cases hc : c_str name ∈ names
  · rw [if_pos (hiff.mpr hc), if_pos hc]
  · rw [if_neg (fun h => hc (hiff.mp h)), if_neg hc]
theorem fill_entry_name_field (entry : dirent64_t) (n : Int) (name : List Nat) :
    slice (fill_entry entry n name).bytes 5 58 =
      (fixN 58 (strncpy name 57 ++ [0])).map (· % 256) := by
  unfold fill_entry
  rw [dirent_finalize_bytes, dirent_bytes_take]
  simp only
  rw [slice_append_left _ _ _ _ (by
    simp only [List.length_append, le_bytes_length, List.length_map, fixN_length]
    omega)]
  have := slice_append_right (le_bytes 4 (to_u32 n) ++ le_bytes 1 1)
    ((fixN 58 (strncpy name 57 ++ [0])).map (· % 256)) 5 0 58
    (by simp only [List.length_append, le_bytes_length])
  rw [Nat.add_zero 5] at this
  rw [this]
  exact slice_all _ _ (by rw [List.length_map, fixN_length])

theorem name_field_terminated (name : List Nat) :
    0 ∈ (fixN 58 (strncpy name 57 ++ [0])).map (· % 256) := by
  have e : fixN 58 (strncpy name 57 ++ [0]) = strncpy name 57 ++ [0] := by
    unfold fixN
    rw [List.take_append_of_le_length (by
      rw [List.length_append, strncpy, fixN_length]
      exact le_refl _)]
    exact List.take_of_length_le (by
      rw [List.length_append, strncpy, fixN_length]
      exact le_refl _)
  rw [e, List.map_append, List.mem_append]
  right
  exact List.mem_singleton.mpr rfl

/-- The directory of a fresh image holds the names "." and "..". -/
theorem fresh_names_inv (size_kib inodes : Int) (now : Nat) (mem : List Nat)
    (hv : valid_params size_kib inodes) :
    names_inv (builder_data_region_start inodes) 0 (builder_image size_kib inodes now mem)
      [[0x2E], [0x2E, 0x2E]] := by
  have hblk := (builder_image_slices size_kib inodes now mem hv).2.2.2.2.2
  have hz : (List.replicate BS 0).length = 4096 := List.length_replicate _ _
  have hw1 : 0 + dot_entry.bytes.length ≤ (List.replicate BS 0).length := by
    rw [dirent_bytes_length, hz]; omega
  have h1 : (write_at (List.replicate BS 0) 0 dot_entry.bytes).length = 4096 := by
    rw [write_at_length _ _ _ hw1, hz]
  have hw2 : 64 + dotdot_entry.bytes.length ≤
      (write_at (List.replicate BS 0) 0 dot_entry.bytes).length := by
    rw [dirent_bytes_length, h1]; omega
  have hs : ∀ o, o + 58 ≤ 4096 →
      slice (builder_image size_kib inodes now mem)
        (builder_data_region_start inodes * 4096 + o) 58 = slice root_dir_block o 58 := by
    intro o ho
    rw [← slice_slice _ _ 4096 _ _ ho, hblk]
  have f0 : slice root_dir_block (0 * 64 + 5) 58 = slice dot_entry.bytes 5 58 := by
    unfold root_dir_block
    rw [slice_write_at_disjoint _ _ _ hw2 _ _ (Or.inl (by omega))]
    have := slice_write_at_inside _ 0 dot_entry.bytes hw1 5 58
      (by rw [dirent_bytes_length]; omega)
    rw [Nat.zero_add 5] at this
    exact this
  have f1 : slice root_dir_block (1 * 64 + 5) 58 = slice dotdot_entry.bytes 5 58 := by
    unfold root_dir_block
    exact slice_write_at_inside _ 64 dotdot_entry.bytes hw2 5 58
      (by rw [dirent_bytes_length]; omega)
  have d0 : slice dot_entry.bytes 5 58 = 0x2E :: List.replicate 57 0 := by decide
  have d1 : slice dotdot_entry.bytes 5 58 = 0x2E :: 0x2E :: List.replicate 56 0 := by decide
  refine ⟨rfl, ?_, ?_⟩
  · intro j hj
    have : j = 0 ∨ j = 1 := by omega
    rcases this with rfl | rfl
    · rw [hs _ (by omega), f0, d0]
      decide
    · rw [hs _ (by omega), f1, d1]
      decide
  · intro j hj
    have : j = 0 ∨ j = 1 := by omega
    rcases this with rfl | rfl
    · rw [hs _ (by omega), f0, d0]
      rfl
    · rw [hs _ (by omega), f1, d1]
      rfl

/-- A successful insertion appends the stored name of the file to the names of the
directory. -/
theorem names_inv_step (ic drs drb k : Nat) (img : List Nat)
    (hg : geometry_ok ic drs drb) (hi : image_inv ic drs drb k img)
    (names : List (List Nat)) (hn : names_inv drs k img names)
    (name content : List Nat) (now : Nat) (mem : List Nat) (r : AddSuccess)
    (h : mkfs_adder img name content now mem = .ok r) :
    names_inv drs (k + 1) r.image (names ++ [stored_name name]) := by
  obtain ⟨f, p1, p2, p3, p4, p5, p6, p7, p8, eff⟩ :=
    mkfs_adder_effect ic drs drb k img hg hi name content now mem r h
  have hnew : slice r.image (drs * 4096 + ((k + 2) * 64 + 5)) 58 =
      (fixN 58 (strncpy name 57 ++ [0])).map (· % 256) := by
    rw [← Nat.add_assoc, ← slice_slice _ _ 64 _ _ (by omega), eff.entry_bytes,
      fill_entry_name_field]
  have hold : ∀ j, j < k + 2 → slice r.image (drs * 4096 + (j * 64 + 5)) 58 =
      slice img (drs * 4096 + (j * 64 + 5)) 58 := by
    intro j hj
    exact eff.dir_rest (j * 64 + 5) 58 (Or.inl (by omega)) (by omega)
  refine ⟨?_, ?_, ?_⟩
  · rw [List.length_append, hn.count]
    rfl
  · intro j hj
    by_cases hjk : j = k + 2
    · subst hjk
      rw [hnew]
      exact name_field_terminated name
    · rw [hold j (by omega)]
      exact hn.terminated j (by omega)
  · intro j hj
    by_cases hjk : j = k + 2
    · subst hjk
      rw [hnew, List.getD_eq_getElem?_getD,
        List.getElem?_append_right (by rw [hn.count]), hn.count, Nat.sub_self]
      rfl
    · rw [hold j (by omega), hn.stored j (by omega), List.getD_eq_getElem?_getD,
        List.getD_eq_getElem?_getD, List.getElem?_append_left (by rw [hn.count]; omega)]

/-- A successful insertion on an image whose set data-bitmap bits are the bits `0 .. d`
leaves the bits `0 .. d` set, and bit `d + 1` too when the file is not empty. -/
theorem data_prefix_step (ic drs drb k d : Nat) (img : List Nat)
    (hg : geometry_ok ic drs drb) (hi : image_inv ic drs drb k img)
    (hd : ∀ i, bit_set (slice img 8192 4096) i = true ↔ i ≤ d)
    (name content : List Nat) (now : Nat) (mem : List Nat) (r : AddSuccess)
    (h : mkfs_adder img name content now mem = .ok r) :
    (∀ i, bit_set (slice r.image 8192 4096) i = true ↔
        i ≤ d + (if 0 < blocks_needed content.length then 1 else 0)) ∧
      r.file_blocks = List.replicate (blocks_needed content.length) (drs + (d + 1)) := by
  obtain ⟨f, p1, p2, p3, p4, p5, p6, p7, p8⟩ :=
    mkfs_adder_inv ic drs drb k img hg hi name content now mem r h
  by_cases hn : 0 < blocks_needed content.length
  · obtain ⟨hf1, hf2, hf3, hf4⟩ := p6 hn
    have hfd : f = d + 1 := by
      have h1 : ¬ f ≤ d := fun hc => by
        rw [(hd f).mpr hc] at hf3
        exact Bool.noConfusion hf3
      have h2 : ¬ d + 1 < f := fun hc => by
        have := (hd (d + 1)).mp (hf4 (d + 1) hc)
        omega
      omega
    subst hfd
    refine ⟨?_, p5⟩
    intro i
    rw [p8 i, Bool.or_eq_true, hd i, decide_eq_true_eq, if_pos hn]
    omega
  · refine ⟨?_, ?_⟩
    · intro i
      rw [p8 i, Bool.or_eq_true, hd i, decide_eq_true_eq, if_neg hn]
      omega
    · have e : blocks_needed content.length = 0 := by omega
      rw [p5, e]
      rfl
theorem nonempty_count_cons (f : host_file) (fs : List host_file) :
    nonempty_count (f :: fs) =
      nonempty_count fs + (if 0 < blocks_needed f.content.length then 1 else 0) := by
  unfold nonempty_count
  rw [List.countP_cons]
  simp only [decide_eq_true_eq]

/-- A list of files is inserted successfully, one file after another, when no name is in
the directory at its turn, every file needs at most 12 blocks, and inodes, directory entries
and data blocks suffice, where every nonempty file takes one data block.  The image reached
has the stored names appended to the directory and the next data-bitmap bits set. -/
theorem insert_all_succeeds (ic drs drb : Nat) (hg : geometry_ok ic drs drb)
    (files : List host_file) (k d : Nat) (img : List Nat) (names : List (List Nat))
    (hi : image_inv ic drs drb k img) (hn : names_inv drs k img names)
    (hd : ∀ i, bit_set (slice img 8192 4096) i = true ↔ i ≤ d)
    (hfresh : names_fresh names files = true)
    (hsize : ∀ f ∈ files, blocks_needed f.content.length ≤ 12)
    (hk : k + files.length < ic) (hk2 : k + files.length + 1 < 64)
    (hroom : d + nonempty_count files < drb) :
    ∃ out nums, insert_all img files = some (out, nums) ∧
      image_inv ic drs drb (k + files.length) out ∧
      names_inv drs (k + files.length) out (names ++ files.map fun f => stored_name f.name) ∧
      (∀ i, bit_set (slice out 8192 4096) i = true ↔ i ≤ d + nonempty_count files) := by
  induction files generalizing k d img names with
  | nil =>
    refine ⟨img, [], rfl, hi, ?_, ?_⟩
    · rw [List.map_nil, List.append_nil]
      exact hn
    · intro i
      rw [hd i]
      rfl
  | cons f fs ih =>
    rw [List.length_cons] at hk hk2
    rw [nonempty_count_cons] at hroom
    unfold names_fresh at hfresh
    rw [Bool.and_eq_true, Bool.not_eq_true', decide_eq_false_iff_not] at hfresh
    obtain ⟨hnot, hrest⟩ := hfresh
    have hex : file_exists img (superblock_parse (slice img 0 116)) f.name = 0 := by
      rw [file_exists_names ic drs drb k img hg hi names hn (by omega) f.name, if_neg hnot]
    have hfree : blocks_needed f.content.length = 0 ∨
        ∃ j, j < drb ∧ bit_set (slice img 8192 4096) j = false := by
      by_cases h0 : 0 < blocks_needed f.content.length
      · right
        rw [if_pos h0] at hroom
        refine ⟨d + 1, by omega, ?_⟩
        cases hb : bit_set (slice img 8192 4096) (d + 1)
        · rfl
        · have := (hd (d + 1)).mp hb
          omega
      · left
        omega
    obtain ⟨r, hr⟩ := mkfs_adder_succeeds ic drs drb k img hg hi f.name f.content f.now f.mem
      hex (hsize f (List.mem_cons_self _ _)) (by omega) (by omega) hfree
    obtain ⟨_, _, _, _, _, _, _, hinv, _⟩ :=
      mkfs_adder_inv ic drs drb k img hg hi f.name f.content f.now f.mem r hr
    have hn2 := names_inv_step ic drs drb k img hg hi names hn f.name f.content f.now f.mem r hr
    have hd2 := (data_prefix_step ic drs drb k d img hg hi hd f.name f.content f.now f.mem r
      hr).1
    obtain ⟨out, nums, h1, h2, h3, h4⟩ := ih (k + 1)
      (d + (if 0 < blocks_needed f.content.length then 1 else 0)) r.image
      (names ++ [stored_name f.name]) hinv hn2 hd2 hrest
      (fun g hg2 => hsize g (List.mem_cons_of_mem _ hg2)) (by omega) (by omega) (by omega)
    refine ⟨out, r.new_inode_num :: nums, ?_, ?_, ?_, ?_⟩
    · unfold insert_all
      rw [hr]
      simp only
      rw [h1]
    · rw [List.length_cons, show k + (fs.length + 1) = k + 1 + fs.length by omega]
      exact h2
    · rw [List.length_cons, show k + (fs.length + 1) = k + 1 + fs.length by omega,
        List.map_cons]
      rw [List.append_assoc, List.singleton_append] at h3
      exact h3
    · intro i
      rw [h4 i, nonempty_count_cons]
      omega

/-! ## Runs that show what the insertion does with file data and names -/

theorem fixN_getElem?_pad (n : Nat) (l : List Nat) (i : Nat) (h1 : l.length ≤ i) (h2 : i < n) :
    (fixN n l)[i]? = some 0 := by
  unfold fixN
  rw [List.getElem?_take, if_pos h2, List.getElem?_append_right h1, List.getElem?_replicate,
    if_pos (by omega)]

theorem countP_range_not_le (p : Nat → Bool) (k n : Nat) (hk : k < n)
    (h : ∀ i, p i = true ↔ i ≤ k) :
    (List.range n).countP (fun i => !p i) = n - (k + 1) := by
  obtain ⟨m, rfl⟩ : ∃ m, n = (k + 1) + m := ⟨n - (k + 1), by omega⟩
  rw [List.range_add, List.countP_append]
  have e1 : (List.range (k + 1)).countP (fun i => !p i) = 0 := by
    rw [List.countP_eq_zero]
    intro a ha
    rw [List.mem_range] at ha
    rw [(h a).mpr (by omega)]
    decide
  have e2 : ((List.range m).map (fun x => k + 1 + x)).countP (fun i => !p i) = m := by
    rw [List.countP_eq_length.mpr, List.length_map, List.length_range]
    intro a ha
    rw [List.mem_map] at ha
    obtain ⟨x, _, rfl⟩ := ha
    cases hp : p (k + 1 + x)
    · rfl
    · have := (h _).mp hp
      omega
  rw [e1, e2]
  omega

theorem entry_name_inv (ic drs drb k : Nat) (img : List Nat)
    (hi : image_inv ic drs drb k img) (names : List (List Nat))
    (hn : names_inv drs k img names) (j : Nat) (hj : j < k + 2) :
    entry_name (root_entry img j) = names.getD j [] := by
  rw [root_entry_inv ic drs drb k img hi]
  show c_str (slice (slice img (drs * 4096 + j * 64) 64) 5 58) = _
  rw [slice_slice _ _ _ _ _ (by omega), Nat.add_assoc, hn.stored j hj]

/-- The state after the run of the scenario, names included. -/
theorem scenario_state :
    ∃ r, mkfs_adder (builder_image 180 128 0 scenario_mem) scenario_file.name
        scenario_file.content scenario_file.now scenario_file.mem = .ok r ∧
      image_inv 128 7 38 1 r.image ∧ files_inv 7 1 r.image ∧
      names_inv 7 1 r.image [[0x2E], [0x2E, 0x2E], scenario_name] ∧
      insert_effect 7 0 1 (builder_image 180 128 0 scenario_mem) scenario_file.name
        scenario_file.content scenario_file.now scenario_file.mem r.image := by
  obtain ⟨r, hr, -, hinv, hfi, eff⟩ := scenario_effect
  have hv : valid_params 180 128 := by decide
  have hg := fresh_geometry 180 128 hv
  have hi := fresh_image_inv 180 128 0 scenario_mem hv
  have hn := fresh_names_inv 180 128 0 scenario_mem hv
  have hic : to_u64 128 = 128 := to_u64_of_small 128 (by norm_num)
  have hdrs : builder_data_region_start 128 = 7 :=
    (builder_data_region_start_eq 128 (by omega)).trans (by norm_num)
  have hdrb : builder_data_region_blocks 180 128 = 38 :=
    (builder_data_region_blocks_eq 180 128 (by omega) (by omega) (by omega)).trans (by norm_num)
  rw [hic, hdrs, hdrb] at hg hi
  rw [hdrs] at hn
  have hn2 := names_inv_step _ _ _ 0 _ hg hi _ hn scenario_file.name scenario_file.content
    scenario_file.now scenario_file.mem r hr
  have e : stored_name scenario_file.name = scenario_name := by decide
  rw [e] at hn2
  exact ⟨r, hr, hinv, hfi, hn2, eff⟩

/-- C11 fails on the code: in the scenario (5000-byte file of bytes 0x41 into the fresh
image) the insertion succeeds with inode 2 whose first two direct pointers are both block 8;
block 8 holds the last 904 bytes of the file followed by zeros, so byte 1000 of the
concatenation of the blocks `direct[0], direct[1]` is 0 while byte 1000 of the content is
0x41: the concatenation is not the content followed by zero bytes. -/
theorem scenario_content_lost :
    ∃ r, mkfs_adder (builder_image 180 128 0 scenario_mem) scenario_file.name
        scenario_file.content scenario_file.now scenario_file.mem = .ok r ∧
      r.new_inode_num = 2 ∧ blocks_needed scenario_file.content.length = 2 ∧
      (inode_record r.image 2).direct.take 2 = [8, 8] ∧
      (file_data r.image 2 2)[1000]? = some 0 ∧
      (scenario_file.content ++ List.replicate (2 * 4096 - 5000) 0)[1000]? = some 0x41 ∧
      file_data r.image 2 2 ≠ scenario_file.content ++ List.replicate (2 * 4096 - 5000) 0 := by
  obtain ⟨r, hr, hnum, hinv, -, eff⟩ := scenario_effect
  have hlen : scenario_file.content.length = 5000 := by
    show scenario_content.length = 5000
    rw [scenario_content, List.length_replicate]
  have hn : blocks_needed scenario_file.content.length = 2 := by
    rw [hlen]; rfl
  have hdir : (inode_record r.image 2).direct.take 2 = [8, 8] := by
    rw [inode_record_inv _ _ _ _ _ hinv]
    have e : 12288 + (2 - 1) * 128 = 12288 + (0 + 1) * 128 := rfl
    rw [e, eff.inode_bytes, new_inode_direct, hn]
    rfl
  have hblk := eff.data_block (by rw [hn]; omega)
  rw [hn, hlen] at hblk
  have e8 : (7 + 1) * 4096 = 8 * 4096 := rfl
  rw [e8] at hblk
  have hl8 : (slice r.image (8 * 4096) 4096).length = 4096 :=
    slice_length _ _ _ (by rw [hinv.length_eq]; omega)
  have hfd : file_data r.image 2 2 =
      slice r.image (8 * 4096) 4096 ++ slice r.image (8 * 4096) 4096 := by
    unfold file_data
    rw [hdir]
    simp only [List.map_cons, List.map_nil, List.flatten_cons, List.flatten_nil,
      List.append_nil, BS]
  have h1 : (file_data r.image 2 2)[1000]? = some 0 := by
    rw [hfd, List.getElem?_append_left (by rw [hl8]; omega), hblk]
    apply fixN_getElem?_pad
    · unfold slice
      rw [List.length_take]
      omega
    · omega
  have h2 : (scenario_file.content ++ List.replicate (2 * 4096 - 5000) 0)[1000]? =
      some 0x41 := by
    rw [List.getElem?_append_left (by rw [hlen]; omega)]
    show scenario_content[1000]? = _
    rw [scenario_content, List.getElem?_replicate, if_pos (by omega)]
  refine ⟨r, hr, hnum, hn, hdir, h1, h2, ?_⟩
  intro hc
  rw [hc, h2] at h1
  exact absurd h1 (by decide)
/-- The fresh image for 180 KiB and 128 inodes: 128 inodes, data region of 38 blocks from
block 7, no file, directory names "." and "..", data-bitmap bit 0 set only. -/
theorem fresh_state :
    geometry_ok 128 7 38 ∧ image_inv 128 7 38 0 (builder_image 180 128 0 scenario_mem) ∧
      files_inv 7 0 (builder_image 180 128 0 scenario_mem) ∧
      names_inv 7 0 (builder_image 180 128 0 scenario_mem) [[0x2E], [0x2E, 0x2E]] ∧
      (∀ i, bit_set (slice (builder_image 180 128 0 scenario_mem) 8192 4096) i = true ↔
        i ≤ 0) := by
  have hv : valid_params 180 128 := by decide
  have hg := fresh_geometry 180 128 hv
  have hi := fresh_image_inv 180 128 0 scenario_mem hv
  have hff := fresh_files_inv 180 128 0 scenario_mem hv
  have hn := fresh_names_inv 180 128 0 scenario_mem hv
  have hdb := (builder_image_slices 180 128 0 scenario_mem hv).2.2.2.1
  have hic : to_u64 128 = 128 := to_u64_of_small 128 (by norm_num)
  have hdrs : builder_data_region_start 128 = 7 :=
    (builder_data_region_start_eq 128 (by omega)).trans (by norm_num)
  have hdrb : builder_data_region_blocks 180 128 = 38 :=
    (builder_data_region_blocks_eq 180 128 (by omega) (by omega) (by omega)).trans (by norm_num)
  rw [hic, hdrs, hdrb] at hg hi
  rw [hdrs] at hn hff
  refine ⟨hg, hi, hff, hn, ?_⟩
  intro i
  rw [hdb]
  exact bit_set_fresh i

theorem free_data_blocks_inv (ic drs drb k d : Nat) (img : List Nat)
    (hi : image_inv ic drs drb k img) (hd : d < drb)
    (hp : ∀ i, bit_set (slice img 8192 4096) i = true ↔ i ≤ d) :
    free_data_blocks img = drb - (d + 1) := by
  have hdrb : (image_sb img).data_region_blocks = drb := hi.superblock.2.2.2.2.2.2
  have hf : (fun i => !data_bit img i) = fun i => !bit_set (slice img 8192 4096) i :=
    funext fun i => by rw [data_bit_inv ic drs drb k img hi]
  unfold free_data_blocks
  rw [hdrb, hf]
  exact countP_range_not_le _ d drb hd hp

/-- C15 fails on the code: a file whose name has 58 bytes (57 times "a", then "1") is
inserted successfully into the fresh image; it gets inode 2 and entry 2 of the root
directory, and the name stored there is the name cut to its first 57 bytes. -/
theorem long_name_accepted :
    long_file_a.name.length = 58 ∧
      ∃ r, mkfs_adder (builder_image 180 128 0 scenario_mem) long_file_a.name
          long_file_a.content long_file_a.now long_file_a.mem = .ok r ∧
        r.new_inode_num = 2 ∧ (root_entry r.image 2).inode_no = 2 ∧
        entry_name (root_entry r.image 2) = List.replicate 57 0x61 := by
  obtain ⟨hg, hi, hff, hn, hd⟩ := fresh_state
  have hex : file_exists (builder_image 180 128 0 scenario_mem)
      (superblock_parse (slice (builder_image 180 128 0 scenario_mem) 0 116))
      long_file_a.name = 0 := by
    rw [file_exists_names _ _ _ 0 _ hg hi _ hn (by omega) long_file_a.name,
      if_neg (by decide)]
  have hb1 : bit_set (slice (builder_image 180 128 0 scenario_mem) 8192 4096) 1 = false := by
    cases hc : bit_set (slice (builder_image 180 128 0 scenario_mem) 8192 4096) 1
    · rfl
    · have := (hd 1).mp hc; omega
  obtain ⟨r, hr⟩ := mkfs_adder_succeeds _ _ _ 0 _ hg hi long_file_a.name
    long_file_a.content long_file_a.now long_file_a.mem hex (by decide) (by omega) (by omega)
    (Or.inr ⟨1, by omega, hb1⟩)
  obtain ⟨f, -, -, -, hnum, -, -, hinv, -⟩ :=
    mkfs_adder_inv _ _ _ 0 _ hg hi long_file_a.name long_file_a.content long_file_a.now
      long_file_a.mem r hr
  have hn2 := names_inv_step _ _ _ 0 _ hg hi _ hn long_file_a.name long_file_a.content
    long_file_a.now long_file_a.mem r hr
  have hf2 := files_inv_step _ _ _ 0 _ hg hi hff long_file_a.name long_file_a.content
    long_file_a.now long_file_a.mem r hr
  refine ⟨by decide, r, hr, hnum, ?_, ?_⟩
  · rw [root_entry_inode_no _ _ _ _ _ hinv hf2 2 (by omega)]
    rfl
  · rw [entry_name_inv _ _ _ _ _ hinv _ hn2 2 (by omega)]
    decide

/-- C16 fails on the code: two files whose different 58-byte names share their first 57
bytes are both inserted successfully into the fresh image, one after the other, and the
in-use entries 2 and 3 of the root directory block then hold the same NUL-terminated
name. -/
theorem long_names_collide :
    long_file_a.name ≠ long_file_b.name ∧
      ∃ out nums, insert_all (builder_image 180 128 0 scenario_mem)
          [long_file_a, long_file_b] = some (out, nums) ∧
        (root_entry out 2).inode_no ≠ 0 ∧ (root_entry out 3).inode_no ≠ 0 ∧
        entry_name (root_entry out 2) = entry_name (root_entry out 3) := by
  obtain ⟨hg, hi, hff, hn, hd⟩ := fresh_state
  obtain ⟨out, nums, h1, h2, h3, -⟩ := insert_all_succeeds _ _ _ hg [long_file_a, long_file_b]
    0 0 _ _ hi hn hd (by decide) (by decide) (by decide) (by decide) (by decide)
  have h4 := insert_all_files_inv _ _ _ hg [long_file_a, long_file_b] 0 _ hi hff out nums h1
  have h2' : image_inv 128 7 38 2 out := h2
  have h4' : files_inv 7 2 out := h4
  have h3' : names_inv 7 2 out ([[0x2E], [0x2E, 0x2E]] ++
      [long_file_a, long_file_b].map fun f => stored_name f.name) := h3
  refine ⟨by decide, out, nums, h1, ?_, ?_, ?_⟩
  · rw [root_entry_inode_no _ _ _ _ _ h2' h4' 2 (by omega)]
    decide
  · rw [root_entry_inode_no _ _ _ _ _ h2' h4' 3 (by omega)]
    decide
  · rw [entry_name_inv _ _ _ _ _ h2' _ h3' 2 (by omega),
      entry_name_inv _ _ _ _ _ h2' _ h3' 3 (by omega)]
    decide
/-- C20 fails on the code: after 36 one-byte files are inserted into the fresh image for
180 KiB and 128 inodes, the image has valid magic, a free inode (bit 37) and exactly one
clear data-bitmap bit in `[0, data_region_blocks)`; a file of 5000 bytes with a new name
needs 2 blocks, more than are free, and yet its insertion succeeds, with block 44 as both
of its blocks, instead of failing for want of a free data block. -/
theorem one_free_block_suffices :
    ∃ img nums r, insert_all (builder_image 180 128 0 scenario_mem) fill_files =
        some (img, nums) ∧
      (image_sb img).magic = 0x4D565346 ∧
      (37 < (image_sb img).inode_count ∧ inode_bit img 37 = false) ∧
      free_data_blocks img = 1 ∧ blocks_needed big_file.content.length = 2 ∧
      mkfs_adder img big_file.name big_file.content big_file.now big_file.mem = .ok r ∧
      r.file_blocks = [44, 44] := by
  obtain ⟨hg, hi, hff, hn, hd⟩ := fresh_state
  obtain ⟨img, nums, h1, h2, h3, h4⟩ := insert_all_succeeds _ _ _ hg fill_files
    0 0 _ _ hi hn hd (by decide) (by decide) (by decide) (by decide) (by decide)
  have h2' : image_inv 128 7 38 36 img := h2
  have h3' : names_inv 7 36 img ([[0x2E], [0x2E, 0x2E]] ++
      fill_files.map fun f => stored_name f.name) := h3
  have h4' : ∀ i, bit_set (slice img 8192 4096) i = true ↔ i ≤ 36 := h4
  have hlen : big_file.content.length = 5000 := by
    show scenario_content.length = 5000
    rw [scenario_content, List.length_replicate]
  have hbn : blocks_needed big_file.content.length = 2 := by
    rw [hlen]; rfl
  have hex : file_exists img (superblock_parse (slice img 0 116)) big_file.name = 0 := by
    rw [file_exists_names _ _ _ 36 _ hg h2' _ h3' (by omega) big_file.name,
      if_neg (by decide)]
  have hb37 : bit_set (slice img 8192 4096) 37 = false := by
    cases hc : bit_set (slice img 8192 4096) 37
    · rfl
    · have := (h4' 37).mp hc; omega
  obtain ⟨r, hr⟩ := mkfs_adder_succeeds _ _ _ 36 _ hg h2' big_file.name
    big_file.content big_file.now big_file.mem hex (by rw [hbn]; omega) (by omega) (by omega)
    (Or.inr ⟨37, by omega, hb37⟩)
  have hfb := (data_prefix_step _ _ _ 36 36 img hg h2' h4' big_file.name big_file.content
    big_file.now big_file.mem r hr).2
  refine ⟨img, nums, r, h1, h2'.superblock.1, ⟨?_, ?_⟩, ?_, hbn, hr, ?_⟩
  · have : (image_sb img).inode_count = 128 := h2'.superblock.2.1
    rw [this]
    omega
  · rw [inode_bit_inv _ _ _ _ _ h2']
    cases hc : bit_set (slice img 4096 4096) 37
    · rfl
    · have := (h2'.inode_bits 37).mp hc; omega
  · rw [free_data_blocks_inv _ _ _ _ 36 img h2' (by omega) h4']
  · rw [hfb, hbn]
    rfl

/-- C14: a file of exactly 49152 bytes with a name that is not in the directory, inserted
into an image in the state after `k` insertions with a free inode, a free entry of the root
directory block and at least 12 free data blocks, is inserted successfully and all 12
direct pointers of its inode are non-zero; a file of 49153 bytes or more, with a name not in
the directory of an image with valid magic, fails with the size error, and the output image
is the input image byte for byte. -/
theorem capacity_boundary (img name content : List Nat) (now : Nat) (mem : List Nat)
    (hl : 116 ≤ img.length) (hmagic : (image_sb img).magic = 0x4D565346)
    (hex : file_exists img (image_sb img) name = 0) :
    (∀ ic drs drb k, geometry_ok ic drs drb → image_inv ic drs drb k img →
      k + 1 < ic → k + 2 < 64 → 12 ≤ free_data_blocks img → content.length = 49152 →
      ∃ r, mkfs_adder img name content now mem = .ok r ∧
        (inode_record r.image r.new_inode_num.toNat).direct.length = 12 ∧
        ∀ x ∈ (inode_record r.image r.new_inode_num.toNat).direct, x ≠ 0) ∧
    (49153 ≤ content.length →
      mkfs_adder img name content now mem = .error (.too_many_blocks, some img)) := by
  unfold image_sb at hmagic hex
  constructor
  · intro ic drs drb k hg hi hk hk2 hfree hlen
    have hbn : blocks_needed content.length = 12 := by
      rw [hlen]; rfl
    have hpos : 0 < free_data_blocks img := by omega
    unfold free_data_blocks at hpos
    rw [List.countP_pos_iff] at hpos
    obtain ⟨j, hj1, hj2⟩ := hpos
    rw [List.mem_range, show (image_sb img).data_region_blocks = drb from
      hi.superblock.2.2.2.2.2.2] at hj1
    rw [data_bit_inv ic drs drb k img hi, Bool.not_eq_true'] at hj2
    obtain ⟨r, hr⟩ := mkfs_adder_succeeds ic drs drb k img hg hi name content now mem hex
      (by rw [hbn]) hk hk2 (Or.inr ⟨j, hj1, hj2⟩)
    obtain ⟨f, -, -, -, hnum, -, hf, hinv, -, eff⟩ :=
      mkfs_adder_effect ic drs drb k img hg hi name content now mem r hr
    obtain ⟨g1, g2, g3, g4, g5, g6⟩ := hg
    have hdir : (inode_record r.image r.new_inode_num.toNat).direct =
        List.replicate 12 (drs + f) := by
      rw [hnum, Int.toNat_ofNat, inode_record_inv _ _ _ _ _ hinv,
        show 12288 + (k + 2 - 1) * 128 = 12288 + (k + 1) * 128 by omega, eff.inode_bytes,
        new_inode_direct, hbn]
      have e : fixN 12 (List.replicate 12 (drs + f)) = List.replicate 12 (drs + f) := by
        unfold fixN
        exact List.take_left' (List.length_replicate _ _)
      have := hf (by rw [hbn]; omega)
      rw [e, List.map_replicate, Nat.mod_eq_of_lt (by norm_num at g6 ⊢; omega)]
    refine ⟨r, hr, ?_, ?_⟩
    · rw [hdir]
      exact List.length_replicate _ _
    intro x hx
    rw [hdir] at hx
    rw [List.eq_of_mem_replicate hx]
    omega
  · intro hlen
    have hbn : blocks_needed content.length > DIRECT_MAX := by
      unfold blocks_needed
      simp only [BS, DIRECT_MAX]
      omega
    have hu : adder_update img name content now mem = .error (.too_many_blocks, img) := by
      unfold adder_update
      rw [read_at_eq_some _ _ _ (by omega)]
      simp only
      rw [if_pos hbn]
    unfold mkfs_adder
    rw [read_at_eq_some _ _ _ (by omega)]
    simp only
    rw [if_neg (fun hc => hc hmagic), hex, if_neg (by decide), if_neg (by decide), hu]

/-- Witness of C14 on the fresh image for 180 KiB and 128 inodes: a file of 49152 bytes
named "a.txt" is inserted successfully and its 12 direct pointers are non-zero. -/
theorem capacity_boundary_witness :
    ∃ r, mkfs_adder (builder_image 180 128 0 scenario_mem) scenario_name full_content 1
        scenario_mem = .ok r ∧
      (inode_record r.image r.new_inode_num.toNat).direct.length = 12 ∧
      ∀ x ∈ (inode_record r.image r.new_inode_num.toNat).direct, x ≠ 0 := by
  obtain ⟨hg, hi, hff, hn, hd⟩ := fresh_state
  have hex : file_exists (builder_image 180 128 0 scenario_mem)
      (image_sb (builder_image 180 128 0 scenario_mem)) scenario_name = 0 := by
    unfold image_sb
    rw [file_exists_names _ _ _ 0 _ hg hi _ hn (by omega) scenario_name, if_neg (by decide)]
  exact (capacity_boundary (builder_image 180 128 0 scenario_mem) scenario_name full_content 1
    scenario_mem (by rw [hi.length_eq]; omega) hi.superblock.1 hex).1 128 7 38 0 hg hi
    (by omega) (by omega)
    (by rw [free_data_blocks_inv _ _ _ _ 0 _ hi (by omega) hd]; omega)
    (by rw [full_content, List.length_replicate])
/-! ## Rejection of a name that is in the directory -/

theorem read_block_of_le (img : List Nat) (b : Nat) (h : (b + 1) * 4096 ≤ img.length)
    (hmax : img.length < 2 ^ 63) :
    read_block img b = some (slice img (b * 4096) 4096) := by
  unfold read_block
  simp only [BS]
  have e : b * 4096 % 2 ^ 64 = b * 4096 := Nat.mod_eq_of_lt (by omega)
  rw [e, if_pos (by omega), read_at_eq_some _ _ _ (by omega)]

/-- The loop of `file_exists` returns 1 when a block of the list holds a matching entry and
that block and the blocks before it are non-zero block numbers inside the image. -/
theorem file_exists_blocks_found (img name : List Nat) (hmax : img.length < 2 ^ 63)
    (j : Nat) (hj : j < 64) (i : Nat) (l : List Nat)
    (hb : ∀ t, t ≤ i → l.getD t 0 ≠ 0 ∧ (l.getD t 0 + 1) * 4096 ≤ img.length)
    (hm : entry_matches (slice img (l.getD i 0 * 4096) 4096) name j = true) :
    file_exists_blocks img name l = 1 := by
  have h64 : BS / 64 = 64 := rfl
  induction i generalizing l with
  | zero =>
    cases l with
    | nil => exact absurd rfl (hb 0 (le_refl _)).1
    | cons d ds =>
      obtain ⟨hd1, hd2⟩ := hb 0 (le_refl _)
      rw [List.getD_cons_zero] at hd1 hd2 hm
      unfold file_exists_blocks
      rw [if_neg hd1, read_block_of_le img d hd2 hmax]
      simp only
      rw [h64, if_pos (List.any_eq_true.mpr ⟨j, List.mem_range.mpr hj, hm⟩)]
  | succ i ih =>
    cases l with
    | nil => exact absurd rfl (hb 0 (Nat.zero_le _)).1
    | cons d ds =>
      obtain ⟨hd1, hd2⟩ := hb 0 (Nat.zero_le _)
      rw [List.getD_cons_zero] at hd1 hd2
      rw [List.getD_cons_succ] at hm
      unfold file_exists_blocks
      rw [if_neg hd1, read_block_of_le img d hd2 hmax]
      simp only
      rw [h64]
      by_cases hany : (List.range 64).any (entry_matches (slice img (d * 4096) 4096) name) = true
      · rw [if_pos hany]
      · rw [if_neg hany]
        apply ih ds _ hm
        intro t ht
        have := hb (t + 1) (by omega)
        rw [List.getD_cons_succ] at this
        exact this

/-- C13: for an image with valid magic whose root inode is readable, if one of the directory
blocks named by the root inode's direct pointers (all pointers up to it being non-zero
block numbers inside the image) holds an in-use entry whose name field is NUL-terminated
and holds the candidate name, the insertion fails with the collision error before any
output image exists. -/
theorem collision_rejected (img name content : List Nat) (now : Nat) (mem : List Nat)
    (i j : Nat) (hlen : 116 ≤ img.length) (hmax : img.length < 2 ^ 63)
    (hmagic : (image_sb img).magic = 0x4D565346)
    (hroot : (image_sb img).inode_table_start * 4096 + 128 ≤ img.length)
    (hj : j < 64)
    (hblocks : ∀ t, t ≤ i → (inode_record img 1).direct.getD t 0 ≠ 0 ∧
      ((inode_record img 1).direct.getD t 0 + 1) * 4096 ≤ img.length)
    (huse : (dir_entry_at img ((inode_record img 1).direct.getD i 0) j).inode_no ≠ 0)
    (hterm : 0 ∈ (dir_entry_at img ((inode_record img 1).direct.getD i 0) j).name)
    (hname : entry_name (dir_entry_at img ((inode_record img 1).direct.getD i 0) j) =
      c_str name) :
    mkfs_adder img name content now mem = .error (.already_exists, none) := by
  have hrec : inode_record img 1 =
      inode_parse (slice img ((image_sb img).inode_table_start * 4096) 128) := by
    unfold inode_record
    simp only [BS, INODE_SIZE, Nat.sub_self, Nat.zero_mul, Nat.add_zero]
  rw [hrec] at hblocks huse hterm hname
  unfold image_sb at hmagic hroot hblocks huse hterm hname
  have hoff : root_inode_offset (superblock_parse (slice img 0 116)) =
      (superblock_parse (slice img 0 116)).inode_table_start * 4096 := by
    unfold root_inode_offset
    simp only [BS, ROOT_INO, INODE_SIZE]
    omega
  have hm : entry_matches (slice img ((inode_parse (slice img
      ((superblock_parse (slice img 0 116)).inode_table_start * 4096) 128)).direct.getD i 0 *
        4096) 4096) name j = true := by
    generalize (inode_parse (slice img
      ((superblock_parse (slice img 0 116)).inode_table_start * 4096) 128)).direct.getD i 0 = b
      at huse hterm hname
    unfold dir_entry_at at huse hterm hname
    simp only [BS] at huse hterm hname
    have e1 : slice (slice img (b * 4096 + j * 64) 64) 0 4 = slice img (b * 4096 + j * 64) 4 := by
      have := slice_slice img (b * 4096 + j * 64) 64 0 4 (by omega)
      rw [Nat.add_zero (b * 4096 + j * 64)] at this
      exact this
    have e2 : slice (slice img (b * 4096 + j * 64) 64) 5 58 =
        slice img (b * 4096 + (j * 64 + 5)) 58 := by
      rw [slice_slice _ _ _ _ _ (by omega), Nat.add_assoc]
    have e3 : slice (slice img (b * 4096) 4096) (j * 64 + 5) 58 =
        slice img (b * 4096 + (j * 64 + 5)) 58 := slice_slice _ _ _ _ _ (by omega)
    have huse2 : le_val (slice img (b * 4096 + j * 64) 4) ≠ 0 := by
      rw [← e1]; exact huse
    have hterm2 : 0 ∈ slice img (b * 4096 + (j * 64 + 5)) 58 := by
      rw [← e2]; exact hterm
    have hname2 : c_str (slice img (b * 4096 + (j * 64 + 5)) 58) = c_str name := by
      rw [← e2]; exact hname
    unfold entry_matches
    rw [decide_eq_true_eq, slice_slice _ _ _ _ _ (by omega),
      c_str_drop_field _ _ 58 (by rw [e3]; exact hterm2), e3]
    exact ⟨huse2, hname2⟩
  have hfe : file_exists img (superblock_parse (slice img 0 116)) name = 1 := by
    unfold file_exists
    rw [hoff, if_pos (by omega), read_at_eq_some _ _ _ (by omega)]
    simp only
    exact file_exists_blocks_found img name hmax j hj i _ hblocks hm
  unfold mkfs_adder
  rw [read_at_eq_some _ _ _ (by omega)]
  simp only
  rw [if_neg (fun hc => hc hmagic), hfe, if_neg (by decide), if_pos rfl]

/-- Witness of C13 on the scenario: after "a.txt" is inserted into the fresh image, a second
insertion of a file with that name is rejected with the collision error and no output
image. -/
theorem collision_rejected_witness :
    ∃ r, mkfs_adder (builder_image 180 128 0 scenario_mem) scenario_file.name
        scenario_file.content scenario_file.now scenario_file.mem = .ok r ∧
      mkfs_adder r.image scenario_file.name scenario_file.content 2 scenario_mem =
        .error (.already_exists, none) := by
  obtain ⟨r, hr, hinv, hfi, hn, -⟩ := scenario_state
  have hlen := hinv.length_eq
  have hsb := hinv.superblock
  have hdir : (inode_record r.image 1).direct.getD 0 0 = 7 := by
    rw [inode_record_inv _ _ _ _ _ hinv]
    have e : 12288 + (1 - 1) * 128 = 12288 := rfl
    rw [e, hinv.root_direct]
    rfl
  have hent : dir_entry_at r.image ((inode_record r.image 1).direct.getD 0 0) 2 =
      root_entry r.image 2 := rfl
  refine ⟨r, hr, collision_rejected r.image scenario_file.name scenario_file.content 2
    scenario_mem 0 2 (by rw [hlen]; omega) (by rw [hlen]; omega) hsb.1 ?_ (by omega) ?_ ?_ ?_ ?_⟩
  · rw [show (image_sb r.image).inode_table_start = 3 from hsb.2.2.2.2.1, hlen]
    omega
  · intro t ht
    have : t = 0 := by omega
    subst this
    rw [hdir, hlen]
    omega
  · rw [hent, root_entry_inode_no _ _ _ _ _ hinv hfi 2 (by omega)]
    decide
  · rw [hent, root_entry_inv _ _ _ _ _ hinv]
    show 0 ∈ slice (slice r.image (7 * 4096 + 2 * 64) 64) 5 58
    rw [slice_slice _ _ _ _ _ (by omega), Nat.add_assoc]
    exact hn.terminated 2 (by omega)
  · rw [hent, entry_name_inv _ _ _ _ _ hinv _ hn 2 (by omega)]
    decide

/-! ## The regions of a fresh image -/

theorem root_dir_block_rest : slice root_dir_block 128 3968 = List.replicate 3968 0 := by
  have hz : (List.replicate BS 0).length = 4096 := List.length_replicate _ _
  have hw1 : 0 + dot_entry.bytes.length ≤ (List.replicate BS 0).length := by
    rw [dirent_bytes_length, hz]; omega
  have h1 : (write_at (List.replicate BS 0) 0 dot_entry.bytes).length = 4096 := by
    rw [write_at_length _ _ _ hw1, hz]
  have hw2 : 64 + dotdot_entry.bytes.length ≤
      (write_at (List.replicate BS 0) 0 dot_entry.bytes).length := by
    rw [dirent_bytes_length, h1]; omega
  unfold root_dir_block
  rw [slice_write_at_disjoint _ _ _ hw2 _ _ (Or.inr (by rw [dirent_bytes_length])),
    slice_write_at_disjoint _ _ _ hw1 _ _ (Or.inr (by rw [dirent_bytes_length]; omega))]
  unfold slice
  rw [List.drop_replicate, List.take_replicate]
  rfl

theorem root_dir_block_slots :
    slice root_dir_block 0 64 = dot_entry.bytes ∧
      slice root_dir_block 64 64 = dotdot_entry.bytes := by
  have hz : (List.replicate BS 0).length = 4096 := List.length_replicate _ _
  have hw1 : 0 + dot_entry.bytes.length ≤ (List.replicate BS 0).length := by
    rw [dirent_bytes_length, hz]; omega
  have h1 : (write_at (List.replicate BS 0) 0 dot_entry.bytes).length = 4096 := by
    rw [write_at_length _ _ _ hw1, hz]
  have hw2 : 64 + dotdot_entry.bytes.length ≤
      (write_at (List.replicate BS 0) 0 dot_entry.bytes).length := by
    rw [dirent_bytes_length, h1]; omega
  unfold root_dir_block
  constructor
  · rw [slice_write_at_disjoint _ _ _ hw2 _ _ (Or.inl (by omega))]
    have := slice_write_at_same _ 0 dot_entry.bytes hw1
    rw [dirent_bytes_length] at this
    exact this
  · have := slice_write_at_same _ 64 dotdot_entry.bytes hw2
    rw [dirent_bytes_length] at this
    exact this

/-- The zero-filled parts of a fresh image: the inode table behind the root inode and the
data blocks behind the root directory block. -/
theorem builder_image_zeros (size_kib inodes : Int) (now : Nat) (mem : List Nat)
    (hv : valid_params size_kib inodes) :
    slice (builder_image size_kib inodes now mem) 12416
        (builder_inode_table_blocks inodes * 4096 - 128) =
      List.replicate (builder_inode_table_blocks inodes * 4096 - 128) 0 ∧
    slice (builder_image size_kib inodes now mem)
        ((builder_data_region_start inodes + 1) * 4096)
        ((builder_data_region_blocks size_kib inodes - 1) * 4096) =
      List.replicate ((builder_data_region_blocks size_kib inodes - 1) * 4096) 0 := by
  obtain ⟨l1, l2, l3, l4, l5, l6, -⟩ := fresh_layout size_kib inodes hv
  rw [builder_image_eq _ _ _ _ (by omega)]
  have hS := superblock_bytes_length
    (superblock_crc_finalize (builder_superblock size_kib inodes now) mem)
  have hR := inode_bytes_length (builder_root_inode (builder_data_region_start inodes) now)
  have hD := root_dir_block_length
  refine ⟨?_, ?_⟩
  · iterate 2 rw [slice_append_left _ _ _ _ (by
      simp only [List.length_append, List.length_replicate, List.length_cons, hS, hR, hD]
      omega)]
    rw [show (12416 : Nat) = 12288 + 128 by rfl, slice_append_right _ _ 12288 128 _ (by
      simp only [List.length_append, List.length_replicate, List.length_cons, hS]),
      List.append_assoc, show (128 : Nat) = 128 + 0 by rfl, slice_append_right _ _ 128 0 _ hR,
      ← List.replicate_add]
    have e : 3968 + (builder_inode_table_blocks inodes - 1) * 4096 =
        builder_inode_table_blocks inodes * 4096 - (128 + 0) := by omega
    rw [e]
    exact slice_all _ _ (List.length_replicate _ _)
  · rw [← Nat.add_zero ((builder_data_region_start inodes + 1) * 4096),
      slice_append_right _ _ _ 0 _ (by
      simp only [List.length_append, List.length_replicate, List.length_cons, hS, hR, hD]
      omega)]
    exact slice_all _ _ (List.length_replicate _ _)

theorem fresh_image_sb (size_kib inodes : Int) (now : Nat) (mem : List Nat)
    (hv : valid_params size_kib inodes) :
    (image_sb (builder_image size_kib inodes now mem)).inode_bitmap_start = 1 ∧
    (image_sb (builder_image size_kib inodes now mem)).data_bitmap_start = 2 ∧
    (image_sb (builder_image size_kib inodes now mem)).inode_table_start = 3 ∧
    (image_sb (builder_image size_kib inodes now mem)).inode_table_blocks =
      builder_inode_table_blocks inodes ∧
    (image_sb (builder_image size_kib inodes now mem)).data_region_start =
      builder_data_region_start inodes ∧
    (image_sb (builder_image size_kib inodes now mem)).data_region_blocks =
      builder_data_region_blocks size_kib inodes := by
  obtain ⟨l1, l2, l3, l4, l5, l6, -⟩ := fresh_layout size_kib inodes hv
  obtain ⟨-, -, s3, s4, s5, s6, s7⟩ := (fresh_image_inv size_kib inodes now mem hv).superblock
  refine ⟨s3, s4, s5, ?_, s6, s7⟩
  unfold image_sb
  rw [(builder_image_slices size_kib inodes now mem hv).1, superblock_parse_bytes]
  show builder_inode_table_blocks inodes % 256 ^ 8 = _
  exact Nat.mod_eq_of_lt (by omega)

/-- C28: in the image the initializer writes, block 1 (the inode bitmap) and block 2 (the
data bitmap) each hold the byte 0x01 followed by 4095 zero bytes, so exactly bit 0 is set in
each. -/
theorem fresh_bitmaps (size_kib inodes : Int) (now : Nat) (mem img : List Nat)
    (h0 : mkfs_builder true size_kib inodes now mem = .ok img) :
    (image_sb img).inode_bitmap_start = 1 ∧ (image_sb img).data_bitmap_start = 2 ∧
    slice img 4096 4096 = 1 :: List.replicate 4095 0 ∧
    slice img 8192 4096 = 1 :: List.replicate 4095 0 ∧
    (∀ i, inode_bit img i = true ↔ i = 0) ∧ (∀ i, data_bit img i = true ↔ i = 0) := by
  obtain ⟨hv, he⟩ := builder_ok_valid _ _ _ _ _ h0
  have hi := fresh_image_inv size_kib inodes now mem hv
  obtain ⟨-, -, s3, s4, -, -⟩ := builder_image_slices size_kib inodes now mem hv
  obtain ⟨b1, b2, -⟩ := fresh_image_sb size_kib inodes now mem hv
  rw [he]
  refine ⟨b1, b2, s3, s4, ?_, ?_⟩
  · intro i
    rw [inode_bit_inv _ _ _ _ _ hi, s3, bit_set_fresh]
    omega
  · intro i
    rw [data_bit_inv _ _ _ _ _ hi, s4, bit_set_fresh]
    omega

/-- Witness of C28: the image for 180 KiB and 128 inodes. -/
theorem fresh_bitmaps_witness :
    slice (builder_image 180 128 0 []) 4096 4096 = 1 :: List.replicate 4095 0 ∧
      slice (builder_image 180 128 0 []) 8192 4096 = 1 :: List.replicate 4095 0 :=
  have h := fresh_bitmaps 180 128 0 [] _ (mkfs_builder_ok 180 128 0 [] (by decide))
  ⟨h.2.2.1, h.2.2.2.1⟩
/-- C29: slot 0 of the inode table of the image the initializer writes at time `now` decodes
to a directory inode (`mode & 0170000 == 040000`) with `links = 2`, `size_bytes = 128`,
`atime = mtime = ctime = now`, `direct[0] = data_region_start`, `direct[1..11] = 0`,
reserved words and `xattr_ptr` 0; every other byte of the inode table is zero; and
`data_region_start` is 7 for `size_kib = 180`, `inodes = 128`. -/
theorem fresh_root_inode (size_kib inodes : Int) (now : Nat) (mem img : List Nat)
    (hnow : now < 2 ^ 64)
    (h0 : mkfs_builder true size_kib inodes now mem = .ok img) :
    (inode_record img 1).mode &&& 0o170000 = 0o040000 ∧
    (inode_record img 1).links = 2 ∧ (inode_record img 1).size_bytes = 128 ∧
    (inode_record img 1).atime = now ∧ (inode_record img 1).mtime = now ∧
    (inode_record img 1).ctime = now ∧
    (inode_record img 1).direct = (image_sb img).data_region_start :: List.replicate 11 0 ∧
    (inode_record img 1).reserved_0 = 0 ∧ (inode_record img 1).reserved_1 = 0 ∧
    (inode_record img 1).reserved_2 = 0 ∧ (inode_record img 1).xattr_ptr = 0 ∧
    slice img ((image_sb img).inode_table_start * 4096 + 128)
        ((image_sb img).inode_table_blocks * 4096 - 128) =
      List.replicate ((image_sb img).inode_table_blocks * 4096 - 128) 0 ∧
    (size_kib = 180 → inodes = 128 → (image_sb img).data_region_start = 7) := by
  obtain ⟨hv, he⟩ := builder_ok_valid _ _ _ _ _ h0
  have hi := fresh_image_inv size_kib inodes now mem hv
  obtain ⟨-, -, b3, b4, b5, -⟩ := fresh_image_sb size_kib inodes now mem hv
  have hz := (builder_image_zeros size_kib inodes now mem hv).1
  have hs := (builder_image_slices size_kib inodes now mem hv).2.2.2.2.1
  have hrec : inode_record (builder_image size_kib inodes now mem) 1 =
      inode_parse (builder_root_inode (builder_data_region_start inodes) now).bytes := by
    rw [inode_record_inv _ _ _ _ _ hi]
    have e : 12288 + (1 - 1) * 128 = 12288 := rfl
    rw [e, hs]
  have hdir : (inode_record (builder_image size_kib inodes now mem) 1).direct =
      builder_data_region_start inodes :: List.replicate 11 0 := by
    rw [inode_record_inv _ _ _ _ _ hi]
    exact hi.root_direct
  have h64 : now % 256 ^ 8 = now := Nat.mod_eq_of_lt (by norm_num at hnow ⊢; exact hnow)
  rw [he, b3, b4, b5]
  refine ⟨?_, ?_, ?_, ?_, ?_, ?_, hdir, ?_, ?_, ?_, ?_, hz, ?_⟩
  · rw [hrec, inode_parse_bytes]
    show (0o40755 % 256 ^ 2) &&& 0o170000 = 0o040000
    decide
  · rw [hrec, inode_parse_bytes]
    show 2 % 256 ^ 2 = 2
    decide
  · rw [hrec, inode_parse_bytes]
    show (2 * 64) % 256 ^ 8 = 128
    decide
  · rw [hrec, inode_parse_bytes]; exact h64
  · rw [hrec, inode_parse_bytes]; exact h64
  · rw [hrec, inode_parse_bytes]; exact h64
  · rw [hrec, inode_parse_bytes]
    show 0 % 256 ^ 4 = 0
    decide
  · rw [hrec, inode_parse_bytes]
    show 0 % 256 ^ 4 = 0
    decide
  · rw [hrec, inode_parse_bytes]
    show 0 % 256 ^ 4 = 0
    decide
  · rw [hrec, inode_parse_bytes]
    show 0 % 256 ^ 8 = 0
    decide
  · intro h1 h2
    subst h1 h2
    exact (builder_data_region_start_eq 128 (by omega)).trans (by norm_num)

/-- Witness of C29: the image for 180 KiB and 128 inodes written at time 1700000000. -/
theorem fresh_root_inode_witness :
    (inode_record (builder_image 180 128 1700000000 []) 1).links = 2 ∧
      (inode_record (builder_image 180 128 1700000000 []) 1).atime = 1700000000 ∧
      (inode_record (builder_image 180 128 1700000000 []) 1).direct =
        (image_sb (builder_image 180 128 1700000000 [])).data_region_start ::
          List.replicate 11 0 ∧
      (image_sb (builder_image 180 128 1700000000 [])).data_region_start = 7 :=
  have h := fresh_root_inode 180 128 1700000000 [] _ (by norm_num)
    (mkfs_builder_ok 180 128 1700000000 [] (by decide))
  ⟨h.2.1, h.2.2.2.1, h.2.2.2.2.2.2.1, h.2.2.2.2.2.2.2.2.2.2.2.2 rfl rfl⟩

/-- C30: in the image the initializer writes, slot 0 of the first data block holds the
entry (inode 1, type 2, name "." padded with NUL bytes) and slot 1 the entry (inode 1,
type 2, name ".." padded with NUL bytes), each with the XOR of its first 63 bytes as
checksum; the other 62 slots of that block and all later data blocks, up to the end of the
image, are zero. -/
theorem fresh_data_region (size_kib inodes : Int) (now : Nat) (mem img : List Nat)
    (h0 : mkfs_builder true size_kib inodes now mem = .ok img) :
    root_entry img 0 =
      { inode_no := 1, typ := 2, name := 0x2E :: List.replicate 57 0, checksum := 0x2D } ∧
    root_entry img 1 =
      { inode_no := 1, typ := 2, name := 0x2E :: 0x2E :: List.replicate 56 0,
        checksum := 0x03 } ∧
    (root_entry img 0).checksum =
      (slice img ((image_sb img).data_region_start * 4096) 63).foldl (fun x b => x ^^^ b) 0 ∧
    (root_entry img 1).checksum =
      (slice img ((image_sb img).data_region_start * 4096 + 64) 63).foldl
        (fun x b => x ^^^ b) 0 ∧
    slice img ((image_sb img).data_region_start * 4096 + 128) 3968 = List.replicate 3968 0 ∧
    slice img (((image_sb img).data_region_start + 1) * 4096)
        (((image_sb img).data_region_blocks - 1) * 4096) =
      List.replicate (((image_sb img).data_region_blocks - 1) * 4096) 0 ∧
    img.length = ((image_sb img).data_region_start + (image_sb img).data_region_blocks) * 4096 := by
  obtain ⟨hv, he⟩ := builder_ok_valid _ _ _ _ _ h0
  have hi := fresh_image_inv size_kib inodes now mem hv
  obtain ⟨-, -, -, -, b5, b6⟩ := fresh_image_sb size_kib inodes now mem hv
  have hz := (builder_image_zeros size_kib inodes now mem hv).2
  have hblk := (builder_image_slices size_kib inodes now mem hv).2.2.2.2.2
  have hs : ∀ o n, o + n ≤ 4096 →
      slice (builder_image size_kib inodes now mem)
        (builder_data_region_start inodes * 4096 + o) n = slice root_dir_block o n := by
    intro o n ho
    rw [← slice_slice _ _ 4096 _ _ ho, hblk]
  have e0 : root_entry (builder_image size_kib inodes now mem) 0 =
      dirent_parse dot_entry.bytes := by
    rw [root_entry_inv _ _ _ _ _ hi, hs _ _ (by omega)]
    exact congrArg dirent_parse root_dir_block_slots.1
  have e1 : root_entry (builder_image size_kib inodes now mem) 1 =
      dirent_parse dotdot_entry.bytes := by
    rw [root_entry_inv _ _ _ _ _ hi, hs _ _ (by omega)]
    exact congrArg dirent_parse root_dir_block_slots.2
  have x0 : slice (builder_image size_kib inodes now mem)
      (builder_data_region_start inodes * 4096) 63 = slice dot_entry.bytes 0 63 := by
    have := hs 0 63 (by omega)
    rw [Nat.add_zero (builder_data_region_start inodes * 4096)] at this
    rw [this, ← root_dir_block_slots.1, slice_slice _ _ _ _ _ (by omega)]
  have x1 : slice (builder_image size_kib inodes now mem)
      (builder_data_region_start inodes * 4096 + 64) 63 = slice dotdot_entry.bytes 0 63 := by
    rw [hs 64 63 (by omega), ← root_dir_block_slots.2, slice_slice _ _ _ _ _ (by omega)]
  rw [he, b5, b6]
  refine ⟨?_, ?_, ?_, ?_, ?_, hz, hi.length_eq⟩
  · rw [e0]; decide
  · rw [e1]; decide
  · rw [e0, x0]; decide
  · rw [e1, x1]; decide
  · rw [hs 128 3968 (by omega)]
    exact root_dir_block_rest

/-- Witness of C30: the image for 180 KiB and 128 inodes. -/
theorem fresh_data_region_witness :
    (root_entry (builder_image 180 128 0 []) 0).inode_no = 1 ∧
      (root_entry (builder_image 180 128 0 []) 1).name =
        0x2E :: 0x2E :: List.replicate 56 0 :=
  have h := fresh_data_region 180 128 0 [] _ (mkfs_builder_ok 180 128 0 [] (by decide))
  ⟨by rw [h.1], by rw [h.2.1]⟩

/-! ## The magic check of the insertion -/

theorem parsed_magic (img : List Nat) :
    (superblock_parse (slice img 0 116)).magic = le_val (slice img 0 4) := by
  have := slice_slice img 0 116 0 4 (by omega)
  rw [Nat.add_zero 0] at this
  show le_val (slice (slice img 0 116) 0 4) = _
  rw [this]

theorem fresh_magic_bytes (size_kib inodes : Int) (now : Nat) (mem : List Nat)
    (hv : valid_params size_kib inodes) :
    slice (builder_image size_kib inodes now mem) 0 4 = [0x46, 0x53, 0x56, 0x4D] := by
  have hs := (builder_image_slices size_kib inodes now mem hv).1
  have := slice_slice (builder_image size_kib inodes now mem) 0 116 0 4 (by omega)
  rw [Nat.add_zero 0, hs, superblock_bytes_chain, slice_le_bytes_hit] at this
  rw [← this]
  show le_bytes 4 0x4D565346 = _
  decide

/-- C21 (amended with the length a superblock record needs): for an input image of at least
116 bytes whose first four bytes do not decode (little-endian) to 0x4D565346, the insertion
fails with the invalid-magic error before any output image exists; for every input image
shorter than 116 bytes, whatever its bytes, the insertion fails earlier, with the
cannot-read-superblock error, also before any output image exists; and the first four bytes
of an image the initializer wrote are 46 53 56 4D, which decode to 0x4D565346, so that no
insertion into it fails with the invalid-magic error. -/
theorem magic_validation (img name content : List Nat) (now : Nat) (mem : List Nat) :
    (116 ≤ img.length → le_val (slice img 0 4) ≠ 0x4D565346 →
      mkfs_adder img name content now mem = .error (.invalid_magic, none)) ∧
    (img.length < 116 →
      mkfs_adder img name content now mem = .error (.cannot_read_superblock, none)) ∧
    (∀ (size_kib inodes : Int) (t : Nat) (mem0 img0 : List Nat),
      mkfs_builder true size_kib inodes t mem0 = .ok img0 →
      slice img0 0 4 = [0x46, 0x53, 0x56, 0x4D] ∧ le_val (slice img0 0 4) = 0x4D565346 ∧
      mkfs_adder img0 name content now mem ≠ .error (.invalid_magic, none)) := by
  refine ⟨?_, ?_, ?_⟩
  · intro hl hm
    unfold mkfs_adder
    rw [read_at_eq_some _ _ _ (by omega)]
    simp only
    rw [parsed_magic, if_pos hm]
  · intro hs
    have e : read_at img 0 116 = none := by
      unfold read_at
      rw [if_neg (by omega)]
    unfold mkfs_adder
    rw [e]
  · intro size_kib inodes t mem0 img0 h0
    obtain ⟨hv, he⟩ := builder_ok_valid _ _ _ _ _ h0
    have hb := fresh_magic_bytes size_kib inodes t mem0 hv
    have hlen := (fresh_image_inv size_kib inodes t mem0 hv).length_eq
    obtain ⟨l1, l2, l3, l4, l5, l6, -⟩ := fresh_layout size_kib inodes hv
    rw [he]
    have hmv : le_val (slice (builder_image size_kib inodes t mem0) 0 4) = 0x4D565346 := by
      rw [hb]; rfl
    refine ⟨hb, hmv, ?_⟩
    unfold mkfs_adder
    rw [read_at_eq_some _ _ _ (by rw [hlen]; omega)]
    simp only
    rw [parsed_magic, hmv, if_neg (fun hc => hc rfl)]
    intro hc
    split_ifs at hc
    · cases hc
    · cases hc
    · cases hu : adder_update (builder_image size_kib inodes t mem0) name content now mem with
      | ok r2 =>
        rw [hu] at hc
        cases hc
      | error e =>
        obtain ⟨e1, e2⟩ := e
        rw [hu] at hc
        cases hc

/-- Witness of C21 (amended): an image of 116 zero bytes is rejected with the invalid-magic
error, and an image of 115 bytes that starts with the magic bytes 46 53 56 4D is rejected
with the cannot-read-superblock error. -/
theorem magic_validation_witness :
    mkfs_adder (List.replicate 116 0) scenario_name scenario_content 1 scenario_mem =
        .error (.invalid_magic, none) ∧
      mkfs_adder ([0x46, 0x53, 0x56, 0x4D] ++ List.replicate 111 0) scenario_name
          scenario_content 1 scenario_mem = .error (.cannot_read_superblock, none) :=
  ⟨(magic_validation (List.replicate 116 0) scenario_name scenario_content 1 scenario_mem).1
      (by rw [List.length_replicate])
      (by
        have e : slice (List.replicate 116 0) 0 4 = [0, 0, 0, 0] := by decide
        rw [e]
        decide),
    (magic_validation ([0x46, 0x53, 0x56, 0x4D] ++ List.replicate 111 0) scenario_name
      scenario_content 1 scenario_mem).2.1
      (by rw [List.length_append, List.length_replicate]; decide)⟩

/-- C21 as stated fails: the first four bytes of the 4-byte image 00 00 00 00 do not decode
to 0x4D565346, and the insertion fails with the cannot-read-superblock error, not with the
invalid-magic error. -/
theorem short_image_read_error :
    le_val (slice [0, 0, 0, 0] 0 4) ≠ 0x4D565346 ∧
      mkfs_adder [0, 0, 0, 0] scenario_name scenario_content 1 scenario_mem =
        .error (.cannot_read_superblock, none) ∧
      mkfs_adder [0, 0, 0, 0] scenario_name scenario_content 1 scenario_mem ≠
        .error (.invalid_magic, none) := by
  have h : mkfs_adder [0, 0, 0, 0] scenario_name scenario_content 1 scenario_mem =
      .error (.cannot_read_superblock, none) := by
    unfold mkfs_adder
    have e : read_at [0, 0, 0, 0] 0 116 = none := by decide
    rw [e]
  refine ⟨by decide, h, ?_⟩
  rw [h]
  intro hc
  cases hc

/-- C22 fails on the code: in the scenario (5000-byte file into the fresh image) blocks 8
and 9 are the two lowest free data blocks (bits 1 and 2 of the data bitmap are clear, bit 0
is set), the insertion succeeds needing 2 blocks, and the new inode's `direct[0..2)` is
`[8, 8]`: not pairwise distinct, not the two lowest free blocks, and bit 2 is still clear
afterwards. -/
theorem scenario_blocks_repeat :
    ∃ r, mkfs_adder (builder_image 180 128 0 scenario_mem) scenario_file.name
        scenario_file.content scenario_file.now scenario_file.mem = .ok r ∧
      blocks_needed scenario_file.content.length = 2 ∧
      (image_sb (builder_image 180 128 0 scenario_mem)).data_region_start = 7 ∧
      data_bit (builder_image 180 128 0 scenario_mem) 0 = true ∧
      data_bit (builder_image 180 128 0 scenario_mem) 1 = false ∧
      data_bit (builder_image 180 128 0 scenario_mem) 2 = false ∧
      (inode_record r.image r.new_inode_num.toNat).direct.take 2 = [8, 8] ∧
      data_bit r.image 1 = true ∧ data_bit r.image 2 = false := by
  obtain ⟨hg, hi, -, -, hd⟩ := fresh_state
  obtain ⟨r, hr, hnum, hinv, -, eff⟩ := scenario_effect
  have hlen : scenario_file.content.length = 5000 := by
    show scenario_content.length = 5000
    rw [scenario_content, List.length_replicate]
  have hn : blocks_needed scenario_file.content.length = 2 := by
    rw [hlen]; rfl
  have hd2 := (data_prefix_step _ _ _ 0 0 _ hg hi hd scenario_file.name scenario_file.content
    scenario_file.now scenario_file.mem r hr).1
  rw [if_pos (by rw [hn]; omega)] at hd2
  have hclear : ∀ (im : List Nat) (d i : Nat),
      (∀ j, bit_set (slice im 8192 4096) j = true ↔ j ≤ d) → d < i →
      bit_set (slice im 8192 4096) i = false := by
    intro im d i hp hdi
    cases hc : bit_set (slice im 8192 4096) i
    · rfl
    · have := (hp i).mp hc; omega
  have hdir : (inode_record r.image r.new_inode_num.toNat).direct.take 2 = [8, 8] := by
    rw [hnum]
    show (inode_record r.image 2).direct.take 2 = [8, 8]
    rw [inode_record_inv _ _ _ _ _ hinv]
    have e : 12288 + (2 - 1) * 128 = 12288 + (0 + 1) * 128 := rfl
    rw [e, eff.inode_bytes, new_inode_direct, hn]
    rfl
  refine ⟨r, hr, hn, hi.superblock.2.2.2.2.2.1, ?_, ?_, ?_, hdir, ?_, ?_⟩
  · rw [data_bit_inv _ _ _ _ _ hi]; exact (hd 0).mpr (le_refl _)
  · rw [data_bit_inv _ _ _ _ _ hi]; exact hclear _ 0 1 hd (by omega)
  · rw [data_bit_inv _ _ _ _ _ hi]; exact hclear _ 0 2 hd (by omega)
  · rw [data_bit_inv _ _ _ _ _ hinv]; exact (hd2 1).mpr (by omega)
  · rw [data_bit_inv _ _ _ _ _ hinv]; exact hclear _ 1 2 hd2 (by omega)
/-! ## The records a successful insertion writes -/

theorem le_val_lt (l : List Nat) (h : ∀ b ∈ l, b < 256) : le_val l < 256 ^ l.length := by
  induction l with
  | nil => simp [le_val]
  | cons b bs ih =>
    have hb := h b (List.mem_cons_self _ _)
    have hv := ih (fun c hc => h c (List.mem_cons_of_mem _ hc))
    rw [le_val, List.length_cons, pow_succ]
    generalize 256 ^ bs.length = P at hv ⊢
    omega

theorem le_val_slice_lt (b : List Nat) (o w : Nat) (h : ∀ x ∈ b, x < 256) :
    le_val (slice b o w) < 256 ^ w := by
  have h1 := le_val_lt (slice b o w) (fun x hx =>
    h x (List.mem_of_mem_drop (List.mem_of_mem_take hx)))
  have h2 : (slice b o w).length ≤ w := List.length_take_le _ _
  exact lt_of_lt_of_le h1 (Nat.pow_le_pow_right (by norm_num) h2)

theorem new_inode_pad (n v i : Nat) (h1 : n ≤ i) (h2 : i < 12) :
    ((fixN 12 (List.replicate n v)).map (· % 256 ^ 4))[i]? = some 0 := by
  rw [List.getElem?_map, fixN_getElem?_pad 12 _ i (by rw [List.length_replicate]; exact h1) h2]
  rfl

theorem to_nat_num (k : Nat) : (((k + 2 : Nat) : Int)).toNat = k + 2 :=
  Int.toNat_ofNat _

/-- C23: after a successful insertion, at time `now`, of a file of `content.length` bytes
into an image in the state after `k` insertions, the 128 bytes of the inode table slot of
the inode number the file got decode to `mode = 0100000`, `links = 1`, `uid = gid = 0`,
`size_bytes = content.length`, `atime = mtime = ctime = now`, `direct[i] = 0` for every
`i >= ceil(content.length / 4096)`, reserved words and `xattr_ptr` 0, and bytes 120..123
hold the CRC-32 of the bytes 0..119. -/
theorem new_inode_record (ic drs drb k : Nat) (img : List Nat)
    (hg : geometry_ok ic drs drb) (hi : image_inv ic drs drb k img)
    (name content : List Nat) (now : Nat) (mem : List Nat) (r : AddSuccess)
    (hnow : now < 2 ^ 64) (h : mkfs_adder img name content now mem = .ok r) :
    (inode_record r.image r.new_inode_num.toNat).mode = 0o100000 ∧
    (inode_record r.image r.new_inode_num.toNat).links = 1 ∧
    (inode_record r.image r.new_inode_num.toNat).uid = 0 ∧
    (inode_record r.image r.new_inode_num.toNat).gid = 0 ∧
    (inode_record r.image r.new_inode_num.toNat).size_bytes = content.length ∧
    (inode_record r.image r.new_inode_num.toNat).atime = now ∧
    (inode_record r.image r.new_inode_num.toNat).mtime = now ∧
    (inode_record r.image r.new_inode_num.toNat).ctime = now ∧
    (∀ i, blocks_needed content.length ≤ i → i < 12 →
      (inode_record r.image r.new_inode_num.toNat).direct[i]? = some 0) ∧
    (inode_record r.image r.new_inode_num.toNat).reserved_0 = 0 ∧
    (inode_record r.image r.new_inode_num.toNat).reserved_1 = 0 ∧
    (inode_record r.image r.new_inode_num.toNat).reserved_2 = 0 ∧
    (inode_record r.image r.new_inode_num.toNat).xattr_ptr = 0 ∧
    le_val (slice (slice r.image ((image_sb r.image).inode_table_start * 4096 +
        (r.new_inode_num.toNat - 1) * 128) 128) 120 4) =
      crc32 (slice (slice r.image ((image_sb r.image).inode_table_start * 4096 +
        (r.new_inode_num.toNat - 1) * 128) 128) 0 120) := by
  obtain ⟨f, p1, p2, p3, p4, p5, p6, p7, p8, eff⟩ :=
    mkfs_adder_effect ic drs drb k img hg hi name content now mem r h
  have hsz : content.length < 2 ^ 64 := by
    unfold blocks_needed at p1
    simp only [BS] at p1
    omega
  have h64 : now % 256 ^ 8 = now := Nat.mod_eq_of_lt (by norm_num at hnow ⊢; exact hnow)
  have hs64 : content.length % 256 ^ 8 = content.length :=
    Nat.mod_eq_of_lt (by norm_num at hsz ⊢; exact hsz)
  have e2 : 12288 + (k + 2 - 1) * 128 = 12288 + (k + 1) * 128 := by omega
  have hrec : inode_record r.image r.new_inode_num.toNat =
      inode_parse (new_inode content.length now
        (List.replicate (blocks_needed content.length) (drs + f))).bytes := by
    rw [p4, to_nat_num, inode_record_inv _ _ _ _ _ p7, e2, eff.inode_bytes]
  have hraw : slice r.image ((image_sb r.image).inode_table_start * 4096 +
      (r.new_inode_num.toNat - 1) * 128) 128 = (new_inode content.length now
        (List.replicate (blocks_needed content.length) (drs + f))).bytes := by
    rw [p4, to_nat_num, show (image_sb r.image).inode_table_start = 3 from
      p7.superblock.2.2.2.2.1, show 3 * 4096 + (k + 2 - 1) * 128 = 12288 + (k + 1) * 128 by
      omega, eff.inode_bytes]
  rw [hrec, hraw, inode_parse_bytes]
  refine ⟨?_, ?_, ?_, ?_, hs64, h64, h64, h64, ?_, ?_, ?_, ?_, ?_, ?_⟩
  · show 0o100000 % 256 ^ 2 = 0o100000
    decide
  · show 1 % 256 ^ 2 = 1
    decide
  · show 0 % 256 ^ 4 = 0
    decide
  · show 0 % 256 ^ 4 = 0
    decide
  · intro i hi1 hi2
    exact new_inode_pad _ _ i hi1 hi2
  · show 0 % 256 ^ 4 = 0
    decide
  · show 0 % 256 ^ 4 = 0
    decide
  · show 0 % 256 ^ 4 = 0
    decide
  · show 0 % 256 ^ 8 = 0
    decide
  · rw [slice_zero_eq_take]
    exact (inode_record_verifies _).1

/-- Witness of C23: the 5000-byte file of the scenario, inserted into the fresh image at
time 1, gets an inode record with `size_bytes = 5000` and `mtime = 1`. -/
theorem new_inode_record_witness :
    ∃ r, mkfs_adder (builder_image 180 128 0 scenario_mem) scenario_file.name
        scenario_file.content scenario_file.now scenario_file.mem = .ok r ∧
      (inode_record r.image r.new_inode_num.toNat).mode = 0o100000 ∧
      (inode_record r.image r.new_inode_num.toNat).size_bytes = 5000 ∧
      (inode_record r.image r.new_inode_num.toNat).mtime = 1 := by
  obtain ⟨hg, hi, -, -, -⟩ := fresh_state
  obtain ⟨r, hr, -, -, -, -⟩ := scenario_effect
  have hw := new_inode_record _ _ _ 0 _ hg hi scenario_file.name scenario_file.content
    scenario_file.now scenario_file.mem r (by decide) hr
  have hlen : scenario_file.content.length = 5000 := by
    show scenario_content.length = 5000
    rw [scenario_content, List.length_replicate]
  refine ⟨r, hr, hw.1, ?_, hw.2.2.2.2.2.2.1⟩
  rw [hw.2.2.2.2.1, hlen]
theorem c_str_self (name : List Nat) (hb : ∀ b ∈ name, b ≠ 0) : c_str name = name := by
  unfold c_str
  rw [List.takeWhile_eq_self_iff]
  intro b hbm
  simpa using hb b hbm

/-- The name field stored for a name of at most 57 non-zero bytes: the name followed by NUL
bytes. -/
theorem stored_field_short (name : List Nat) (hlen : name.length ≤ 57)
    (hb : ∀ b ∈ name, b ≠ 0 ∧ b < 256) :
    (fixN 58 (strncpy name 57 ++ [0])).map (· % 256) =
      name ++ List.replicate (58 - name.length) 0 := by
  have h1 : strncpy name 57 = name ++ List.replicate (57 - name.length) 0 := by
    unfold strncpy fixN
    rw [c_str_self name (fun b hbm => (hb b hbm).1), List.take_append_eq_append_take,
      List.take_of_length_le hlen, List.take_replicate]
    congr 2
    omega
  have h2 : strncpy name 57 ++ [0] = name ++ List.replicate (58 - name.length) 0 := by
    rw [h1, List.append_assoc, show [0] = List.replicate 1 0 from rfl, ← List.replicate_add]
    congr 2
    omega
  have h3 : fixN 58 (name ++ List.replicate (58 - name.length) 0) =
      name ++ List.replicate (58 - name.length) 0 := by
    unfold fixN
    exact List.take_left' (by rw [List.length_append, List.length_replicate]; omega)
  rw [h2, h3, List.map_append, List.map_replicate]
  congr 1
  conv_rhs => rw [← List.map_id name]
  apply List.map_congr_left
  intro b hbm
  exact Nat.mod_eq_of_lt (hb b hbm).2

/-- The entry an insertion writes, read back from its 64 bytes. -/
theorem fill_entry_parse (entry : dirent64_t) (n : Int) (name : List Nat) :
    dirent_parse (fill_entry entry n name).bytes =
      { inode_no := to_u32 n % 256 ^ 4, typ := 1,
        name := (fixN 58 (strncpy name 57 ++ [0])).map (· % 256),
        checksum := (slice (fill_entry entry n name).bytes 0 63).foldl (fun x b => x ^^^ b) 0 } := by
  have hn := fill_entry_name_field entry n name
  have hi := dirent_parse_inode_no (fill_entry entry n name)
  have hb : (fill_entry entry n name).bytes =
      (le_bytes 4 (to_u32 n) ++ le_bytes 1 1 ++
        (fixN 58 (strncpy name 57 ++ [0])).map (· % 256)) ++
      [(le_bytes 4 (to_u32 n) ++ le_bytes 1 1 ++
        (fixN 58 (strncpy name 57 ++ [0])).map (· % 256)).foldl (fun x b => x ^^^ b) 0] := by
    unfold fill_entry
    rw [dirent_finalize_bytes, dirent_bytes_take]
  have hl63 : (le_bytes 4 (to_u32 n) ++ le_bytes 1 1 ++
      (fixN 58 (strncpy name 57 ++ [0])).map (· % 256)).length = 63 := by
    simp only [List.length_append, le_bytes_length, List.length_map, fixN_length]
  have ht : slice (fill_entry entry n name).bytes 4 1 = [1] := by
    rw [hb, slice_append_left _ _ _ _ (by rw [hl63]; omega), List.append_assoc,
      show (4 : Nat) = 4 + 0 from rfl, slice_le_bytes_skip, slice_le_bytes_hit]
    rfl
  have h63 : slice (fill_entry entry n name).bytes 0 63 =
      le_bytes 4 (to_u32 n) ++ le_bytes 1 1 ++
        (fixN 58 (strncpy name 57 ++ [0])).map (· % 256) := by
    rw [hb, slice_append_left _ _ _ _ (by rw [hl63]), slice_all _ _ hl63]
  have hc : slice (fill_entry entry n name).bytes 63 1 =
      [(slice (fill_entry entry n name).bytes 0 63).foldl (fun x b => x ^^^ b) 0] := by
    rw [h63]
    conv_lhs => rw [hb]
    have := slice_append_right (le_bytes 4 (to_u32 n) ++ le_bytes 1 1 ++
      (fixN 58 (strncpy name 57 ++ [0])).map (· % 256))
      [(le_bytes 4 (to_u32 n) ++ le_bytes 1 1 ++
        (fixN 58 (strncpy name 57 ++ [0])).map (· % 256)).foldl (fun x b => x ^^^ b) 0]
      63 0 1 hl63
    rw [Nat.add_zero 63] at this
    rw [this]
    rfl
  unfold dirent_parse
  rw [hi, hn, ht, hc]
  simp only [le_val, Nat.mul_zero, Nat.add_zero]
  rfl

theorem root_entry_raw (ic drs drb k : Nat) (img : List Nat)
    (hi : image_inv ic drs drb k img) (j : Nat) :
    (root_entry img j).inode_no = le_val (slice img (drs * 4096 + j * 64) 4) := by
  rw [root_entry_inv ic drs drb k img hi]
  have := slice_slice img (drs * 4096 + j * 64) 64 0 4 (by omega)
  rw [Nat.add_zero (drs * 4096 + j * 64)] at this
  show le_val (slice (slice img (drs * 4096 + j * 64) 64) 0 4) = _
  rw [this]

theorem root_block_inv (ic drs drb k : Nat) (img : List Nat)
    (hi : image_inv ic drs drb k img) : (inode_record img 1).direct.getD 0 0 = drs := by
  rw [inode_record_inv _ _ _ _ _ hi]
  have e : 12288 + (1 - 1) * 128 = 12288 := rfl
  rw [e, hi.root_direct]
  rfl

/-- C24: after a successful insertion, into an image in the state after `k` insertions, of
a file whose name has at most 57 bytes (none of them NUL), the entry is in the lowest slot
of the root directory block whose `inode_no` was 0; it holds the inode number the file got,
type 1, the name followed only by NUL bytes in the 58-byte name field, and the XOR of the
slot's first 63 bytes as checksum; every other slot of the block is unchanged. -/
theorem new_dir_entry (ic drs drb k : Nat) (img : List Nat)
    (hg : geometry_ok ic drs drb) (hi : image_inv ic drs drb k img)
    (name content : List Nat) (now : Nat) (mem : List Nat) (r : AddSuccess)
    (hlen : name.length ≤ 57) (hb : ∀ b ∈ name, b ≠ 0 ∧ b < 256)
    (h : mkfs_adder img name content now mem = .ok r) :
    ∃ slot, slot < 64 ∧ (root_entry img slot).inode_no = 0 ∧
      (∀ j, j < slot → (root_entry img j).inode_no ≠ 0) ∧
      (root_entry r.image slot).inode_no = r.new_inode_num.toNat ∧
      (root_entry r.image slot).typ = 1 ∧
      (root_entry r.image slot).name = name ++ List.replicate (58 - name.length) 0 ∧
      (root_entry r.image slot).checksum =
        (slice r.image ((inode_record img 1).direct.getD 0 0 * 4096 + slot * 64) 63).foldl
          (fun x b => x ^^^ b) 0 ∧
      ∀ j, j < 64 → j ≠ slot →
        slice r.image ((inode_record img 1).direct.getD 0 0 * 4096 + j * 64) 64 =
          slice img ((inode_record img 1).direct.getD 0 0 * 4096 + j * 64) 64 := by
  obtain ⟨f, p1, p2, p3, p4, p5, p6, p7, p8, eff⟩ :=
    mkfs_adder_effect ic drs drb k img hg hi name content now mem r h
  have hnew : root_entry r.image (k + 2) = dirent_parse
      (fill_entry (dirent_parse (slice img (drs * 4096 + (k + 2) * 64) 64))
        ((k + 2 : Nat) : Int) name).bytes := by
    rw [root_entry_inv _ _ _ _ _ p7, eff.entry_bytes]
  have h63 : slice r.image (drs * 4096 + (k + 2) * 64) 63 =
      slice (fill_entry (dirent_parse (slice img (drs * 4096 + (k + 2) * 64) 64))
        ((k + 2 : Nat) : Int) name).bytes 0 63 := by
    have := slice_slice r.image (drs * 4096 + (k + 2) * 64) 64 0 63 (by omega)
    rw [Nat.add_zero (drs * 4096 + (k + 2) * 64), eff.entry_bytes] at this
    exact this.symm
  rw [root_block_inv _ _ _ _ _ hi]
  refine ⟨k + 2, p3, ?_, ?_, ?_, ?_, ?_, ?_, ?_⟩
  · rw [root_entry_raw _ _ _ _ _ hi]
    exact (hi.entries (k + 2) p3).mpr (le_refl _)
  · intro j hj hc
    rw [root_entry_raw _ _ _ _ _ hi] at hc
    have := (hi.entries j (by omega)).mp hc
    omega
  · rw [hnew, fill_entry_parse, p4, to_nat_num]
    show to_u32 ((k + 2 : Nat) : Int) % 256 ^ 4 = k + 2
    rw [to_u32_num k (by omega)]
    exact Nat.mod_eq_of_lt (by omega)
  · rw [hnew, fill_entry_parse]
  · rw [hnew, fill_entry_parse]
    exact stored_field_short name hlen hb
  · rw [hnew, fill_entry_parse, h63]
  · intro j hj hne
    exact eff.dir_rest (j * 64) 64 (by omega) (by omega)

/-- Witness of C24: "a.txt" inserted into the fresh image goes to slot 2 with inode 2. -/
theorem new_dir_entry_witness :
    ∃ r slot, mkfs_adder (builder_image 180 128 0 scenario_mem) scenario_file.name
        scenario_file.content scenario_file.now scenario_file.mem = .ok r ∧
      slot < 64 ∧ (root_entry r.image slot).inode_no = r.new_inode_num.toNat ∧
      (root_entry r.image slot).typ = 1 ∧
      (root_entry r.image slot).name =
        scenario_file.name ++ List.replicate (58 - scenario_file.name.length) 0 := by
  obtain ⟨hg, hi, -, -, -⟩ := fresh_state
  obtain ⟨r, hr, -, -, -, -⟩ := scenario_effect
  obtain ⟨slot, h1, -, -, h4, h5, h6, -⟩ := new_dir_entry _ _ _ 0 _ hg hi scenario_file.name
    scenario_file.content scenario_file.now scenario_file.mem r (by decide) (by decide) hr
  exact ⟨r, slot, hr, h1, h4, h5, h6⟩
/-- C27: after a successful insertion at time `now` into an image (of bytes) in the state
after `k` insertions, the root inode in slot 0 of the inode table has `mtime = ctime = now`,
bytes 120..123 of its record hold the CRC-32 of the bytes 0..119, and its mode, links, uid,
gid, size_bytes, atime and its 12 direct pointers are those of the input image. -/
theorem root_inode_after (ic drs drb k : Nat) (img : List Nat)
    (hg : geometry_ok ic drs drb) (hi : image_inv ic drs drb k img)
    (name content : List Nat) (now : Nat) (mem : List Nat) (r : AddSuccess)
    (hbytes : ∀ b ∈ img, b < 256) (hnow : now < 2 ^ 64)
    (h : mkfs_adder img name content now mem = .ok r) :
    (inode_record r.image 1).mtime = now ∧ (inode_record r.image 1).ctime = now ∧
    le_val (slice (slice r.image ((image_sb r.image).inode_table_start * 4096) 128) 120 4) =
      crc32 (slice (slice r.image ((image_sb r.image).inode_table_start * 4096) 128) 0 120) ∧
    (inode_record r.image 1).mode = (inode_record img 1).mode ∧
    (inode_record r.image 1).links = (inode_record img 1).links ∧
    (inode_record r.image 1).uid = (inode_record img 1).uid ∧
    (inode_record r.image 1).gid = (inode_record img 1).gid ∧
    (inode_record r.image 1).size_bytes = (inode_record img 1).size_bytes ∧
    (inode_record r.image 1).atime = (inode_record img 1).atime ∧
    (inode_record r.image 1).direct = (inode_record img 1).direct ∧
    (inode_record r.image 1).direct.length = 12 := by
  obtain ⟨f, p1, p2, p3, p4, p5, p6, p7, p8, eff⟩ :=
    mkfs_adder_effect ic drs drb k img hg hi name content now mem r h
  have h64 : now % 256 ^ 8 = now := Nat.mod_eq_of_lt (by norm_num at hnow ⊢; exact hnow)
  have e1 : 12288 + (1 - 1) * 128 = 12288 := rfl
  have hb : ∀ x ∈ slice img 12288 128, x < 256 := fun x hx =>
    hbytes x (List.mem_of_mem_drop (List.mem_of_mem_take hx))
  have hold : inode_record img 1 = inode_parse (slice img 12288 128) := by
    rw [inode_record_inv _ _ _ _ _ hi, e1]
  have hrec : inode_record r.image 1 = inode_parse (inode_crc_finalize
      { inode_parse (slice img 12288 128) with mtime := now, ctime := now }).bytes := by
    rw [inode_record_inv _ _ _ _ _ p7, e1, eff.root_bytes]
  have hraw : slice r.image ((image_sb r.image).inode_table_start * 4096) 128 =
      (inode_crc_finalize
        { inode_parse (slice img 12288 128) with mtime := now, ctime := now }).bytes := by
    rw [show (image_sb r.image).inode_table_start = 3 from p7.superblock.2.2.2.2.1]
    exact eff.root_bytes
  have hdir : (inode_record r.image 1).direct = (inode_record img 1).direct := by
    rw [inode_record_inv _ _ _ _ _ p7, inode_record_inv _ _ _ _ _ hi, e1, p7.root_direct,
      hi.root_direct]
  refine ⟨?_, ?_, ?_, ?_, ?_, ?_, ?_, ?_, ?_, hdir, ?_⟩
  · rw [hrec, inode_parse_bytes]; exact h64
  · rw [hrec, inode_parse_bytes]; exact h64
  · rw [hraw, slice_zero_eq_take]
    exact (inode_record_verifies _).1
  · rw [hrec, hold, inode_parse_bytes]
    exact Nat.mod_eq_of_lt (le_val_slice_lt _ 0 2 hb)
  · rw [hrec, hold, inode_parse_bytes]
    exact Nat.mod_eq_of_lt (le_val_slice_lt _ 2 2 hb)
  · rw [hrec, hold, inode_parse_bytes]
    exact Nat.mod_eq_of_lt (le_val_slice_lt _ 4 4 hb)
  · rw [hrec, hold, inode_parse_bytes]
    exact Nat.mod_eq_of_lt (le_val_slice_lt _ 8 4 hb)
  · rw [hrec, hold, inode_parse_bytes]
    exact Nat.mod_eq_of_lt (le_val_slice_lt _ 12 8 hb)
  · rw [hrec, hold, inode_parse_bytes]
    exact Nat.mod_eq_of_lt (le_val_slice_lt _ 20 8 hb)
  · rw [hdir, hold, hi.root_direct]
    rfl
/-! ## A fresh image is a string of bytes -/

theorem superblock_bytes_lt (sb : superblock_t) : ∀ b ∈ sb.bytes, b < 256 := by
  intro b hb
  simp only [superblock_t.bytes, List.mem_append] at hb
  casesm* _ ∨ _ <;> exact le_bytes_lt _ _ b ‹_›

theorem inode_bytes_lt (ino : inode_t) : ∀ b ∈ ino.bytes, b < 256 := by
  intro b hb
  simp only [inode_t.bytes, List.mem_append, List.mem_flatten, List.mem_map] at hb
  casesm* _ ∨ _
  all_goals first
    | exact le_bytes_lt _ _ b ‹_›
    | (obtain ⟨l, ⟨x, _, rfl⟩, hl⟩ := ‹∃ l, _›
       exact le_bytes_lt _ _ b hl)

theorem write_at_lt (img : List Nat) (off : Nat) (data : List Nat)
    (h1 : ∀ b ∈ img, b < 256) (h2 : ∀ b ∈ data, b < 256) :
    ∀ b ∈ write_at img off data, b < 256 := by
  intro b hb
  simp only [write_at, List.mem_append, List.mem_replicate] at hb
  rcases hb with ((hb | hb) | hb) | hb
  · exact h1 b (List.mem_of_mem_take hb)
  · rw [hb.2]; norm_num
  · exact h2 b hb
  · exact h1 b (List.mem_of_mem_drop hb)

theorem append_lt (a c : List Nat) (h1 : ∀ b ∈ a, b < 256) (h2 : ∀ b ∈ c, b < 256) :
    ∀ b ∈ a ++ c, b < 256 := by
  intro b hb
  rcases List.mem_append.mp hb with hb | hb
  · exact h1 b hb
  · exact h2 b hb

theorem zeros_lt (n : Nat) : ∀ b ∈ List.replicate n 0, b < 256 := by
  intro b hb
  rw [(List.mem_replicate.mp hb).2]
  norm_num

theorem bitmap_init_lt : ∀ b ∈ 1 :: List.replicate 4095 0, b < 256 := by
  intro b hb
  rcases List.mem_cons.mp hb with hb | hb
  · rw [hb]; norm_num
  · exact zeros_lt _ b hb

theorem dirent_finalize_lt (de : dirent64_t) :
    ∀ b ∈ (dirent_checksum_finalize de).bytes, b < 256 := by
  rw [dirent_finalize_bytes]
  apply append_lt _ _ (dirent_bytes_take_lt de)
  intro b hb
  rw [List.mem_singleton.mp hb]
  exact xor_fold_lt _ 0 (by norm_num) (dirent_bytes_take_lt de)

theorem root_dir_block_lt : ∀ b ∈ root_dir_block, b < 256 := by
  unfold root_dir_block
  apply write_at_lt
  · apply write_at_lt
    · exact zeros_lt _
    · exact dirent_finalize_lt _
  · exact dirent_finalize_lt _

/-- Every element of a fresh image is a byte. -/
theorem builder_image_lt (size_kib inodes : Int) (now : Nat) (mem : List Nat)
    (hv : valid_params size_kib inodes) :
    ∀ b ∈ builder_image size_kib inodes now mem, b < 256 := by
  obtain ⟨l1, -⟩ := fresh_layout size_kib inodes hv
  rw [builder_image_eq _ _ _ _ (by omega)]
  apply append_lt _ _ _ (zeros_lt _)
  apply append_lt _ _ _ root_dir_block_lt
  apply append_lt
  · apply append_lt _ _ _ bitmap_init_lt
    apply append_lt _ _ _ bitmap_init_lt
    exact append_lt _ _ (superblock_bytes_lt _) (zeros_lt _)
  · apply append_lt _ _ _ (zeros_lt _)
    exact append_lt _ _ (inode_bytes_lt _) (zeros_lt _)

/-- Witness of C27 on the scenario: after the insertion at time 1 the root inode has
`mtime = ctime = 1` and keeps its links and direct pointers. -/
theorem root_inode_after_witness :
    ∃ r, mkfs_adder (builder_image 180 128 0 scenario_mem) scenario_file.name
        scenario_file.content scenario_file.now scenario_file.mem = .ok r ∧
      (inode_record r.image 1).mtime = 1 ∧ (inode_record r.image 1).ctime = 1 ∧
      (inode_record r.image 1).links =
        (inode_record (builder_image 180 128 0 scenario_mem) 1).links ∧
      (inode_record r.image 1).direct =
        (inode_record (builder_image 180 128 0 scenario_mem) 1).direct := by
  obtain ⟨hg, hi, -, -, -⟩ := fresh_state
  obtain ⟨r, hr, -, -, -, -⟩ := scenario_effect
  have hw := root_inode_after _ _ _ 0 _ hg hi scenario_file.name scenario_file.content
    scenario_file.now scenario_file.mem r
    (builder_image_lt 180 128 0 scenario_mem (by decide)) (by decide) hr
  exact ⟨r, hr, hw.1, hw.2.1, hw.2.2.2.2.1, hw.2.2.2.2.2.2.2.2.2.1⟩

/-! ## An insertion into a full directory -/

/-- The writes of an insertion in the state `image_inv` when all 64 directory entries are
in use: bitmaps, inode and file data are written, then the insertion stops with the
directory-full error. -/
theorem adder_write_full (ic drs drb k : Nat) (img : List Nat) (sb : superblock_t)
    (hg : geometry_ok ic drs drb) (hi : image_inv ic drs drb k img)
    (hsb : superblock_ok sb ic drs drb) (hk : k + 1 < ic) (hk2 : 64 ≤ k + 2) (fb : List Nat)
    (hfb : ∀ b ∈ fb, drs + 1 ≤ b ∧ b < drs + drb)
    (name content : List Nat) (now : Nat) (mem : List Nat) :
    ∃ out, adder_write img sb ((k + 2 : Nat) : Int) fb name content now mem =
        .error (.directory_full, out) ∧
      out.length = img.length ∧
      (∀ o m, (o + m ≤ 4096 ∨ 12288 ≤ o) →
        (o + m ≤ 12288 + (k + 1) * 128 ∨ 12288 + (k + 2) * 128 ≤ o) →
        o + m ≤ (drs + 1) * 4096 → slice out o m = slice img o m) ∧
      (∀ i, bit_set (slice out 4096 4096) i =
        (bit_set (slice img 4096 4096) i || decide (i = k + 1))) ∧
      (∀ i, bit_set (slice out 8192 4096) i =
        (bit_set (slice img 8192 4096) i || decide (drs + i ∈ fb))) := by
  have g := hg
  obtain ⟨g1, g2, g3, g4, g5, g6⟩ := g
  have hlen := hi.length_eq
  obtain ⟨out1, h1, l1, f1, ib1, db1⟩ := adder_mark_bitmaps_inv ic drs drb k img sb hg hi hsb hk
    fb (fun b hb => by have := hfb b hb; omega)
  have h2 := adder_write_inode_inv ic drs drb k out1 sb hsb (by omega)
    (new_inode content.length now fb)
  have hIl := inode_bytes_length (new_inode content.length now fb)
  have hslot : 12288 + (k + 2) * 128 ≤ drs * 4096 := by
    have : (k + 2) * 128 ≤ ic * 128 := Nat.mul_le_mul_right _ (by omega)
    omega
  have hw2 : 12288 + (k + 1) * 128 + (new_inode content.length now fb).bytes.length ≤
      out1.length := by
    rw [hIl, l1, hlen]; omega
  have l2 := write_at_length _ _ _ hw2
  obtain ⟨out3, h3, l3, f3⟩ := copy_file_data_spec content (drs + 1) (drs + drb) g6 fb
    (write_at out1 (12288 + (k + 1) * 128) (new_inode content.length now fb).bytes) 0 hfb
    (by rw [l2, l1, hlen])
  have hlen3 : out3.length = (drs + drb) * 4096 := by rw [l3, l2, l1, hlen]
  have fr : ∀ o m, (o + m ≤ 4096 ∨ 12288 ≤ o) →
      (o + m ≤ 12288 + (k + 1) * 128 ∨ 12288 + (k + 2) * 128 ≤ o) →
      o + m ≤ (drs + 1) * 4096 → slice out3 o m = slice img o m := by
    intro o m c1 c2 c3
    rw [f3 o m c3, slice_write_at_disjoint _ _ _ hw2 _ _ (by rw [hIl]; omega), f1 o m c1]
  have hroot3 : (inode_parse (slice out3 12288 128)).direct = drs :: List.replicate 11 0 := by
    rw [fr 12288 128 (Or.inr (le_refl _)) (Or.inl (by omega)) (by omega)]
    exact hi.root_direct
  have hent3 : ∀ j, j < 64 →
      (le_val (slice out3 (drs * 4096 + j * 64) 4) = 0 ↔ k + 2 ≤ j) := by
    intro j hj
    rw [fr _ 4 (Or.inr (by omega)) (Or.inr (by omega)) (by omega)]
    exact hi.entries j hj
  have hb1 : slice out3 4096 4096 = slice out1 4096 4096 := by
    rw [f3 _ _ (by omega), slice_write_at_disjoint _ _ _ hw2 _ _ (Or.inl (by omega))]
  have hb2 : slice out3 8192 4096 = slice out1 8192 4096 := by
    rw [f3 _ _ (by omega), slice_write_at_disjoint _ _ _ hw2 _ _ (Or.inl (by omega))]
  rcases adder_link_inv ic drs drb k out3 sb hg hsb hlen3 hroot3 hent3 name now mem with
    ⟨hlt, -⟩ | ⟨-, h4⟩
  · omega
  · refine ⟨out3, ?_, by rw [hlen3, hlen], fr, ?_, ?_⟩
    · unfold adder_write
      rw [h1]
      simp only
      rw [h2]
      simp only
      rw [h3]
      simp only
      exact h4
    · intro i
      rw [hb1, ib1 i]
    · intro i
      rw [hb2, db1 i]

/-- An insertion in the state `image_inv` with all 64 directory entries in use, otherwise
ready to succeed: it fails with the directory-full error and leaves an image in which the
inode bit `k + 1` and the data bit of the chosen block are set and the directory block is
as before. -/
theorem mkfs_adder_full (ic drs drb k : Nat) (img : List Nat)
    (hg : geometry_ok ic drs drb) (hi : image_inv ic drs drb k img)
    (name content : List Nat) (now : Nat) (mem : List Nat)
    (hex : file_exists img (superblock_parse (slice img 0 116)) name = 0)
    (hn : blocks_needed content.length ≤ 12) (hk : k + 1 < ic) (hk2 : 64 ≤ k + 2)
    (hfree : blocks_needed content.length = 0 ∨
      ∃ j, j < drb ∧ bit_set (slice img 8192 4096) j = false) :
    ∃ out f, mkfs_adder img name content now mem = .error (.directory_full, some out) ∧
      image_inv ic drs drb (k + 1) out ∧
      (0 < blocks_needed content.length → 1 ≤ f ∧ f < drb ∧
        bit_set (slice img 8192 4096) f = false ∧
        ∀ j, j < f → bit_set (slice img 8192 4096) j = true) ∧
      (∀ i, bit_set (slice out 8192 4096) i =
        (bit_set (slice img 8192 4096) i ||
          decide (0 < blocks_needed content.length ∧ i = f))) ∧
      (∀ o m, o + m ≤ 4096 → slice out (drs * 4096 + o) m = slice img (drs * 4096 + o) m) := by
  have g := hg
  obtain ⟨g1, g2, g3, g4, g5, g6⟩ := g
  have hlen := hi.length_eq
  have hsb := hi.superblock
  have hrd : read_at img 0 116 = some (slice img 0 116) :=
    read_at_eq_some _ _ _ (by rw [hlen]; omega)
  have hslot : 12288 + (k + 2) * 128 ≤ drs * 4096 := by
    have : (k + 2) * 128 ≤ ic * 128 := Nat.mul_le_mul_right _ (by omega)
    omega
  have key : ∀ (fb : List Nat) (f : Nat),
      (∀ b ∈ fb, drs + 1 ≤ b ∧ b < drs + drb) →
      (∀ i, decide (drs + i ∈ fb) = decide (0 < blocks_needed content.length ∧ i = f)) →
      adder_allocate img (superblock_parse (slice img 0 116)) (blocks_needed content.length) =
        .ok (((k + 2 : Nat) : Int), fb) →
      ∃ out, mkfs_adder img name content now mem = .error (.directory_full, some out) ∧
        image_inv ic drs drb (k + 1) out ∧
        (∀ i, bit_set (slice out 8192 4096) i =
          (bit_set (slice img 8192 4096) i ||
            decide (0 < blocks_needed content.length ∧ i = f))) ∧
        (∀ o m, o + m ≤ 4096 →
          slice out (drs * 4096 + o) m = slice img (drs * 4096 + o) m) := by
    intro fb f hfb hdec ha
    obtain ⟨out, hw, l, fr, ib, db⟩ := adder_write_full ic drs drb k img _ hg hi hsb hk hk2 fb
      hfb name content now mem
    refine ⟨out, ?_, ⟨by rw [l, hlen], ?_, ?_, ?_, ?_, ?_⟩, ?_, ?_⟩
    · unfold mkfs_adder
      rw [hrd]
      simp only
      rw [if_neg (by rw [hsb.1]; decide), hex, if_neg (by decide), if_neg (by decide)]
      unfold adder_update
      rw [hrd]
      simp only [DIRECT_MAX]
      rw [if_neg (by omega), ha]
      simp only
      rw [hw]
    · rw [fr 0 116 (Or.inl (by omega)) (Or.inl (by omega)) (by omega)]
      exact hsb
    · intro i
      rw [ib i, Bool.or_eq_true, hi.inode_bits i, decide_eq_true_eq]
      omega
    · rw [db 0, hi.root_block_bit]
      rfl
    · rw [fr 12288 128 (Or.inr (le_refl _)) (Or.inl (by omega)) (by omega)]
      exact hi.root_direct
    · intro j hj
      rw [fr _ 4 (Or.inr (by omega)) (Or.inr (by omega)) (by omega), hi.entries j hj]
      omega
    · intro i
      rw [db i, hdec i]
    · intro o m hom
      exact fr _ _ (Or.inr (by omega)) (Or.inr (by omega)) (by omega)
  rcases adder_allocate_inv ic drs drb k img _ hg hi hsb (blocks_needed content.length) with
    ⟨-, hn0, ha⟩ | ⟨-, hn0, f, hf1, hf2, hf3, hf4, ha⟩ | ⟨hr, e, ha⟩
  · obtain ⟨out, q1, q2, q3, q4⟩ := key [] 0 (fun b hb => by simp at hb)
      (fun i => by simp [hn0]) ha
    exact ⟨out, 0, q1, q2, fun h => by omega, q3, q4⟩
  · obtain ⟨out, q1, q2, q3, q4⟩ := key (List.replicate (blocks_needed content.length) (drs + f))
      f (fun b hb => by
        have := List.eq_of_mem_replicate hb
        omega)
      (fun i => by
        rw [decide_eq_decide, List.mem_replicate]
        constructor
        · rintro ⟨h1, h2⟩; exact ⟨hn0, by omega⟩
        · rintro ⟨h1, h2⟩; exact ⟨by omega, by omega⟩) ha
    exact ⟨out, f, q1, q2, fun _ => ⟨hf1, hf2, hf3, hf4⟩, q3, q4⟩
  · exfalso
    rcases hr with h | ⟨h1, h2⟩
    · omega
    · rcases hfree with h0 | ⟨j, hj1, hj2⟩
      · omega
      · rw [h2 j hj1] at hj2
        exact Bool.noConfusion hj2
/-- C25: on an image in the state after `k` insertions in which every entry of the root
directory block is in use, with a free inode, a free data block and a file of at most 12
blocks whose name is not in the directory, the insertion fails with the directory-full
error; in the image it leaves, the bit of the inode it chose (the lowest free one, number
`a`) is set in the inode bitmap and, for a nonempty file, the bit of the block it chose (the
lowest free one) is set in the data bitmap, although no entry of the directory holds the
inode number `a`. -/
theorem directory_full_leak (ic drs drb k : Nat) (img : List Nat)
    (hg : geometry_ok ic drs drb) (hi : image_inv ic drs drb k img)
    (fi : files_inv drs k img) (name content : List Nat) (now : Nat) (mem : List Nat)
    (hfull : ∀ j, j < 64 → (root_entry img j).inode_no ≠ 0)
    (hino : ∃ i, i < (image_sb img).inode_count ∧ inode_bit img i = false)
    (hex : file_exists img (image_sb img) name = 0)
    (hn : blocks_needed content.length ≤ 12)
    (hfree : ∃ j, j < (image_sb img).data_region_blocks ∧ data_bit img j = false) :
    ∃ out a, mkfs_adder img name content now mem = .error (.directory_full, some out) ∧
      1 ≤ a ∧ inode_bit img (a - 1) = false ∧ (∀ i, i < a - 1 → inode_bit img i = true) ∧
      inode_bit out (a - 1) = true ∧
      (0 < blocks_needed content.length → ∃ f, f < (image_sb img).data_region_blocks ∧
        data_bit img f = false ∧ (∀ i, i < f → data_bit img i = true) ∧
        data_bit out f = true) ∧
      (∀ j, j < 64 → (root_entry out j).inode_no ≠ a) := by
  have hk2 : 64 ≤ k + 2 := by
    by_contra hc
    have h63 := hfull 63 (by omega)
    rw [root_entry_raw _ _ _ _ _ hi] at h63
    exact h63 ((hi.entries 63 (by omega)).mpr (by omega))
  have hic : (image_sb img).inode_count = ic := hi.superblock.2.1
  have hdrb : (image_sb img).data_region_blocks = drb := hi.superblock.2.2.2.2.2.2
  have hclr : ∀ i, k < i → bit_set (slice img 4096 4096) i = false := by
    intro i hki
    cases hc : bit_set (slice img 4096 4096) i
    · rfl
    · have := (hi.inode_bits i).mp hc; omega
  have hk : k + 1 < ic := by
    obtain ⟨i, hi1, hi2⟩ := hino
    rw [hic] at hi1
    rw [inode_bit_inv _ _ _ _ _ hi] at hi2
    by_contra hc
    have := (hi.inode_bits i).mpr
    cases hle : decide (i ≤ k)
    · have hle2 : ¬ i ≤ k := by simpa using hle
      omega
    · have hle2 : i ≤ k := by simpa using hle
      rw [this hle2] at hi2
      exact Bool.noConfusion hi2
  obtain ⟨j, hj1, hj2⟩ := hfree
  rw [hdrb] at hj1
  rw [data_bit_inv _ _ _ _ _ hi] at hj2
  unfold image_sb at hex
  obtain ⟨out, f, q1, q2, q3, q4, q5⟩ := mkfs_adder_full ic drs drb k img hg hi name content
    now mem hex hn hk hk2 (Or.inr ⟨j, hj1, hj2⟩)
  refine ⟨out, k + 2, q1, by omega, ?_, ?_, ?_, ?_, ?_⟩
  · rw [inode_bit_inv _ _ _ _ _ hi]
    exact hclr _ (by omega)
  · intro i hik
    rw [inode_bit_inv _ _ _ _ _ hi]
    exact (hi.inode_bits i).mpr (by omega)
  · rw [inode_bit_inv _ _ _ _ _ q2]
    exact (q2.inode_bits _).mpr (by omega)
  · intro hpos
    obtain ⟨hf1, hf2, hf3, hf4⟩ := q3 hpos
    refine ⟨f, by rw [hdrb]; exact hf2, ?_, ?_, ?_⟩
    · rw [data_bit_inv _ _ _ _ _ hi]; exact hf3
    · intro i hif
      rw [data_bit_inv _ _ _ _ _ hi]; exact hf4 i hif
    · rw [data_bit_inv _ _ _ _ _ q2, q4 f]
      simp [hpos]
  · intro j hj
    rw [root_entry_raw _ _ _ _ _ q2, q5 (j * 64) 4 (by omega), fi.entry_inodes j hj]
    split_ifs <;> omega

/-- Witness of C25: after 62 empty files are inserted into the fresh image for 180 KiB and
128 inodes all 64 directory entries are in use; the insertion of a 5000-byte file then
fails with the directory-full error and leaves bit 63 of the inode bitmap and bit 1 of the
data bitmap set, while no directory entry holds inode number 64. -/
theorem directory_full_leak_witness :
    ∃ img nums out, insert_all (builder_image 180 128 0 scenario_mem) dir_fill_files =
        some (img, nums) ∧
      mkfs_adder img big_file.name big_file.content big_file.now big_file.mem =
        .error (.directory_full, some out) ∧
      inode_bit img 63 = false ∧ inode_bit out 63 = true ∧
      data_bit img 1 = false ∧ data_bit out 1 = true ∧
      (∀ j, j < 64 → (root_entry out j).inode_no ≠ 64) := by
  obtain ⟨hg, hi, hff, hn, hd⟩ := fresh_state
  obtain ⟨img, nums, h1, h2, h3, h4⟩ := insert_all_succeeds _ _ _ hg dir_fill_files
    0 0 _ _ hi hn hd (by decide) (by decide) (by decide) (by decide) (by decide)
  have h5 := insert_all_files_inv _ _ _ hg dir_fill_files 0 _ hi hff img nums h1
  have h2' : image_inv 128 7 38 62 img := h2
  have h5' : files_inv 7 62 img := h5
  have h3' : names_inv 7 62 img ([[0x2E], [0x2E, 0x2E]] ++
      dir_fill_files.map fun f => stored_name f.name) := h3
  have h4' : ∀ i, bit_set (slice img 8192 4096) i = true ↔ i ≤ 0 := h4
  have hlen : big_file.content.length = 5000 := by
    show scenario_content.length = 5000
    rw [scenario_content, List.length_replicate]
  have hbn : blocks_needed big_file.content.length = 2 := by
    rw [hlen]; rfl
  have hex : file_exists img (image_sb img) big_file.name = 0 := by
    unfold image_sb
    rw [file_exists_names _ _ _ 62 _ hg h2' _ h3' (by omega) big_file.name,
      if_neg (by decide)]
  have hb63 : inode_bit img 63 = false := by
    rw [inode_bit_inv _ _ _ _ _ h2']
    cases hc : bit_set (slice img 4096 4096) 63
    · rfl
    · have := (h2'.inode_bits 63).mp hc; omega
  have hd1 : data_bit img 1 = false := by
    rw [data_bit_inv _ _ _ _ _ h2']
    cases hc : bit_set (slice img 8192 4096) 1
    · rfl
    · have := (h4' 1).mp hc; omega
  obtain ⟨out, a, w1, w2, w3, w4, w5, w6, w7⟩ := directory_full_leak _ _ _ 62 img hg h2' h5'
    big_file.name big_file.content big_file.now big_file.mem
    (fun j hj => by
      rw [root_entry_inode_no _ _ _ _ _ h2' h5' j hj]
      split_ifs <;> omega)
    ⟨63, by rw [show (image_sb img).inode_count = 128 from h2'.superblock.2.1]; omega, hb63⟩
    hex (by rw [hbn]; omega)
    ⟨1, by rw [show (image_sb img).data_region_blocks = 38 from
      h2'.superblock.2.2.2.2.2.2]; omega, hd1⟩
  have ha : a = 64 := by
    have hle : ¬ a - 1 ≤ 62 := by
      intro hc
      rw [inode_bit_inv _ _ _ _ _ h2', (h2'.inode_bits (a - 1)).mpr hc] at w3
      exact Bool.noConfusion w3
    have hge : ¬ 63 < a - 1 := by
      intro hc
      have := w4 63 hc
      rw [hb63] at this
      exact Bool.noConfusion this
    omega
  subst ha
  obtain ⟨f, f1, f2, f3, f4⟩ := w6 (by rw [hbn]; omega)
  have hf : f = 1 := by
    have hle : ¬ f ≤ 0 := by
      intro hc
      rw [data_bit_inv _ _ _ _ _ h2', (h4' f).mpr hc] at f2
      exact Bool.noConfusion f2
    have hge : ¬ 1 < f := by
      intro hc
      have := f3 1 hc
      rw [hd1] at this
      exact Bool.noConfusion this
    omega
  subst hf
  exact ⟨img, nums, out, h1, w1, hb63, w5, hd1, f4, w7⟩
/-! ## The superblock checksum an insertion stores -/

theorem checksum_stored_of (img : List Nat) (sb : superblock_t) (mem : List Nat)
    (hs : slice img 0 116 = (superblock_crc_finalize sb mem).bytes) :
    le_val (slice img 112 4) = crc32 ((sb.head ++ [0, 0, 0, 0] ++ mem).take 4092) := by
  have e1 := slice_slice img 0 116 112 4 (by omega)
  rw [hs, Nat.zero_add] at e1
  rw [← e1, superblock_bytes_eq, show (112 : Nat) = 112 + 0 by rfl,
    slice_append_right _ _ 112 0 4 (superblock_head_length _),
    slice_all _ 4 (le_bytes_length _ _)]
  rw [superblock_finalize_checksum, le_val_le_bytes_of_lt]
  have := crc32_lt ((sb.head ++ [0, 0, 0, 0] ++ mem).take 4092)
  norm_num at this ⊢
  exact this

theorem block0_zeroed_of (img : List Nat) (sb : superblock_t) (mem : List Nat)
    (hlen : 4096 ≤ img.length)
    (hs : slice img 0 116 = (superblock_crc_finalize sb mem).bytes)
    (hp : slice img 116 3980 = List.replicate 3980 0) :
    slice (write_at img 112 [0, 0, 0, 0]) 0 4092 =
      sb.head ++ [0, 0, 0, 0] ++ List.replicate 3976 0 := by
  have hb : 112 + ([0, 0, 0, 0] : List Nat).length ≤ img.length := by
    simp only [List.length_cons, List.length_nil]; omega
  rw [show (4092 : Nat) = 112 + 4 + 3976 by rfl, slice_add, slice_add]
  rw [slice_write_at_disjoint _ _ _ hb 0 112 (Or.inl (by omega)),
    slice_write_at_disjoint _ _ _ hb (0 + (112 + 4)) 3976 (Or.inr (by
      simp only [List.length_cons, List.length_nil]; omega))]
  have e0 : slice (write_at img 112 [0, 0, 0, 0]) (0 + 112) 4 = [0, 0, 0, 0] :=
    slice_write_at_same _ 112 [0, 0, 0, 0] hb
  rw [e0]
  have e1 := slice_slice img 0 116 0 112 (by omega)
  rw [hs, superblock_bytes_eq, slice_append_left _ _ 0 112 (by
    rw [superblock_head_length]), slice_all _ 112 (superblock_head_length _)] at e1
  have e2 := slice_slice img 116 3980 0 3976 (by omega)
  rw [hp] at e2
  rw [← e1, show 0 + (112 + 4) = 116 + 0 by rfl, ← e2, slice_zero_eq_take,
    List.take_replicate]
  rfl

/-- C26 fails on the code: the file of the scenario is inserted at time 1 into the fresh
image, with a nonzero byte in the memory behind the local `sb` (the last of the 3976 bytes
`crc32` reads behind the record). The insertion succeeds and the stored superblock has
`mtime_epoch = 1`, but its checksum field differs from the CRC-32 of the first 4092 bytes of
block 0 of the output image taken with the checksum field zeroed. -/
theorem adder_checksum_mismatch :
    ∃ r, mkfs_adder (builder_image 180 128 0 scenario_mem) scenario_name scenario_content 1
        (List.replicate 3975 0 ++ [1]) = .ok r ∧
      (image_sb r.image).mtime_epoch = 1 ∧
      le_val (slice r.image 112 4) ≠
        crc32 (slice (write_at r.image 112 [0, 0, 0, 0]) 0 4092) := by
  obtain ⟨hg, hi, -, hn, hd⟩ := fresh_state
  have hex : file_exists (builder_image 180 128 0 scenario_mem)
      (superblock_parse (slice (builder_image 180 128 0 scenario_mem) 0 116))
      scenario_name = 0 := by
    rw [file_exists_names _ _ _ 0 _ hg hi _ hn (by omega) scenario_name, if_neg (by decide)]
  have hb1 : bit_set (slice (builder_image 180 128 0 scenario_mem) 8192 4096) 1 = false := by
    cases hc : bit_set (slice (builder_image 180 128 0 scenario_mem) 8192 4096) 1
    · rfl
    · have := (hd 1).mp hc; omega
  have hbn : blocks_needed scenario_content.length = 2 := by
    rw [scenario_content, List.length_replicate]; rfl
  obtain ⟨r, hr⟩ := mkfs_adder_succeeds _ _ _ 0 _ hg hi scenario_name scenario_content 1
    (List.replicate 3975 0 ++ [1]) hex (by rw [hbn]; omega) (by omega) (by omega)
    (Or.inr ⟨1, by omega, hb1⟩)
  obtain ⟨f, -, -, -, -, -, -, hinv, -, eff⟩ :=
    mkfs_adder_effect _ _ _ 0 _ hg hi scenario_name scenario_content 1
      (List.replicate 3975 0 ++ [1]) r hr
  have hp : slice r.image 116 3980 = List.replicate 3980 0 := by
    rw [eff.block0_rest 116 3980 (by omega) (by omega)]
    exact (builder_image_slices 180 128 0 scenario_mem (by decide)).2.1
  have hlen : 4096 ≤ r.image.length := by
    rw [hinv.length_eq]; omega
  refine ⟨r, hr, ?_, ?_⟩
  · unfold image_sb
    rw [eff.sb_bytes, superblock_parse_bytes]
    show 1 % 256 ^ 8 = 1
    decide
  · rw [checksum_stored_of _ _ _ eff.sb_bytes, block0_zeroed_of _ _ _ hlen eff.sb_bytes hp,
      List.take_of_length_le (by
        simp only [List.length_append, superblock_head_length, List.length_replicate,
          List.length_cons, List.length_nil]
        omega)]
    generalize ({ image_sb (builder_image 180 128 0 scenario_mem) with
      mtime_epoch := 1 } : superblock_t).head = H
    have eL : H ++ [0, 0, 0, 0] ++ (List.replicate 3975 0 ++ [1]) =
        (H ++ [0, 0, 0, 0] ++ List.replicate 3975 0) ++ [1] := (List.append_assoc _ _ _).symm
    have eR : H ++ [0, 0, 0, 0] ++ List.replicate 3976 0 =
        (H ++ [0, 0, 0, 0] ++ List.replicate 3975 0) ++ [0] := by
      rw [List.append_assoc _ _ [0], ← List.replicate_succ']
    rw [eL, eR]
    exact crc32_last_byte_ne _

/-! ## The checksum finalizers applied twice -/

theorem inode_head_crc (ino : inode_t) (c : Nat) :
    ({ ino with inode_crc := c } : inode_t).head = ino.head := rfl

theorem dirent_take_checksum (de : dirent64_t) (c : Nat) :
    ({ de with checksum := c } : dirent64_t).bytes.take 63 = de.bytes.take 63 := by
  rw [dirent_bytes_take, dirent_bytes_take]

/-- C31: each of the three finalizers gives the same record when it is applied a second time,
and gives the same record for two records that differ only in the checksum field (the
superblock finalizer for any fixed content `mem` of the memory behind the record, which
the finalizer reads and does not write). -/
theorem finalizers_idempotent (sb : superblock_t) (ino : inode_t) (de : dirent64_t)
    (mem : List Nat) (c : Nat) :
    superblock_crc_finalize (superblock_crc_finalize sb mem) mem =
        superblock_crc_finalize sb mem ∧
      superblock_crc_finalize { sb with checksum := c } mem = superblock_crc_finalize sb mem ∧
      inode_crc_finalize (inode_crc_finalize ino) = inode_crc_finalize ino ∧
      inode_crc_finalize { ino with inode_crc := c } = inode_crc_finalize ino ∧
      dirent_checksum_finalize (dirent_checksum_finalize de) = dirent_checksum_finalize de ∧
      dirent_checksum_finalize { de with checksum := c } = dirent_checksum_finalize de := by
  refine ⟨rfl, rfl, ?_, ?_, ?_, ?_⟩
  · unfold inode_crc_finalize
    simp only [inode_bytes_take]
    rfl
  · unfold inode_crc_finalize
    simp only [inode_bytes_take]
    rfl
  · unfold dirent_checksum_finalize
    simp only [dirent_take_checksum]
  · unfold dirent_checksum_finalize
    simp only [dirent_take_checksum]

/-! ## Size and regions of a fresh image -/

theorem fresh_image_counts (size_kib inodes : Int) (now : Nat) (mem : List Nat)
    (hv : valid_params size_kib inodes) :
    (image_sb (builder_image size_kib inodes now mem)).total_blocks =
      builder_total_blocks size_kib ∧
    (image_sb (builder_image size_kib inodes now mem)).inode_count = to_u64 inodes := by
  obtain ⟨l1, l2, l3, l4, l5, l6, -⟩ := fresh_layout size_kib inodes hv
  obtain ⟨-, s2, -⟩ := (fresh_image_inv size_kib inodes now mem hv).superblock
  refine ⟨?_, s2⟩
  unfold image_sb
  rw [(builder_image_slices size_kib inodes now mem hv).1, superblock_parse_bytes]
  show builder_total_blocks size_kib % 256 ^ 8 = _
  exact Nat.mod_eq_of_lt (by omega)

theorem builder_total_bytes (size_kib inodes : Int) (hv : valid_params size_kib inodes) :
    ((builder_total_blocks size_kib * 4096 : Nat) : Int) = size_kib * 1024 := by
  obtain ⟨h1, h2, h3, h4, h5⟩ := hv
  lift size_kib to ℕ using (by omega)
  rw [builder_total_blocks_eq size_kib (by omega)]
  omega

/-- C35: for accepted parameters the initializer writes an image, and that image has
`total_blocks` blocks, where
`total_blocks = 1 + 2 + inode_table_blocks + data_region_blocks`, so it is
`size_kib * 1024` bytes long; the superblock block is at byte 0, and the inode bitmap, the
data bitmap, the inode table and the data region as written start at the byte offsets
`inode_bitmap_start * 4096`, `data_bitmap_start * 4096`, `inode_table_start * 4096` and
`data_region_start * 4096`, one region behind the other. -/
theorem image_size (size_kib inodes : Int) (now : Nat) (mem : List Nat)
    (hv : valid_params size_kib inodes) :
    ∃ img, mkfs_builder true size_kib inodes now mem = .ok img ∧
      (image_sb img).total_blocks =
        1 + 2 + (image_sb img).inode_table_blocks + (image_sb img).data_region_blocks ∧
      img.length = (image_sb img).total_blocks * 4096 ∧
      (img.length : Int) = size_kib * 1024 ∧
      (image_sb img).inode_bitmap_start = 1 ∧
      (image_sb img).data_bitmap_start = (image_sb img).inode_bitmap_start + 1 ∧
      (image_sb img).inode_table_start = (image_sb img).data_bitmap_start + 1 ∧
      (image_sb img).data_region_start =
        (image_sb img).inode_table_start + (image_sb img).inode_table_blocks ∧
      slice img 0 4096 =
        (superblock_crc_finalize (builder_superblock size_kib inodes now) mem).bytes ++
          List.replicate 3980 0 ∧
      slice img ((image_sb img).inode_bitmap_start * 4096) 4096 = 1 :: List.replicate 4095 0 ∧
      slice img ((image_sb img).data_bitmap_start * 4096) 4096 = 1 :: List.replicate 4095 0 ∧
      slice img ((image_sb img).inode_table_start * 4096)
          ((image_sb img).inode_table_blocks * 4096) =
        (builder_root_inode (image_sb img).data_region_start now).bytes ++
          List.replicate ((image_sb img).inode_table_blocks * 4096 - 128) 0 ∧
      slice img ((image_sb img).data_region_start * 4096)
          ((image_sb img).data_region_blocks * 4096) =
        root_dir_block ++ List.replicate (((image_sb img).data_region_blocks - 1) * 4096) 0 := by
  obtain ⟨l1, l2, l3, l4, l5, l6, -⟩ := fresh_layout size_kib inodes hv
  obtain ⟨b1, b2, b3, b4, b5, b6⟩ := fresh_image_sb size_kib inodes now mem hv
  obtain ⟨c1, -⟩ := fresh_image_counts size_kib inodes now mem hv
  obtain ⟨s1, s2, s3, s4, s5, s6⟩ := builder_image_slices size_kib inodes now mem hv
  obtain ⟨z1, z2⟩ := builder_image_zeros size_kib inodes now mem hv
  have hlen := builder_image_length size_kib inodes now mem hv
  refine ⟨builder_image size_kib inodes now mem, mkfs_builder_ok size_kib inodes now mem hv,
    ?_⟩
  rw [b1, b2, b3, b4, b5, b6, c1, hlen]
  refine ⟨by omega, rfl, builder_total_bytes size_kib inodes hv, rfl, rfl, rfl, by omega,
    ?_, s3, s4, ?_, ?_⟩
  · have := slice_add (builder_image size_kib inodes now mem) 0 116 3980
    rw [Nat.zero_add] at this
    rw [show 4096 = 116 + 3980 from rfl, this, s1, s2]
  · have e : builder_inode_table_blocks inodes * 4096 =
        128 + (builder_inode_table_blocks inodes * 4096 - 128) := by omega
    have := slice_add (builder_image size_kib inodes now mem) (3 * 4096) 128
      (builder_inode_table_blocks inodes * 4096 - 128)
    rw [← e] at this
    rw [this, s5, z1]
  · have e : builder_data_region_blocks size_kib inodes * 4096 =
        4096 + (builder_data_region_blocks size_kib inodes - 1) * 4096 := by omega
    have e2 : builder_data_region_start inodes * 4096 + 4096 =
        (builder_data_region_start inodes + 1) * 4096 := by omega
    have := slice_add (builder_image size_kib inodes now mem)
      (builder_data_region_start inodes * 4096) 4096
      ((builder_data_region_blocks size_kib inodes - 1) * 4096)
    rw [← e, e2] at this
    rw [this, s6, z2]

/-- Witness of C35: the image for 180 KiB and 128 inodes has 184320 bytes. -/
theorem image_size_witness :
    ∃ img, mkfs_builder true 180 128 0 [] = .ok img ∧
      (image_sb img).total_blocks =
        1 + 2 + (image_sb img).inode_table_blocks + (image_sb img).data_region_blocks ∧
      (img.length : Int) = 180 * 1024 := by
  obtain ⟨img, h1, h2, -, h3, -⟩ := image_size 180 128 0 [] (by decide)
  exact ⟨img, h1, h2, h3⟩

/-! ## Bounds of the regions -/

/-- C38: for accepted parameters the initializer writes an image in which `inode_count`
and `data_region_blocks` are at most 32768, so every bit index below them lies in the 4096 bytes of a bitmap block: on any
block of 4096 bytes the scans of `find_free_inode` and `find_free_data_block` stay inside
the block and `set_bit` of such an index is inside the block; and the 128-byte slot of
every inode number `n` with `1 <= n <= inode_count` lies inside the inode table, from
`inode_table_start * 4096` to `data_region_start * 4096`. -/
theorem region_bounds (size_kib inodes : Int) (now : Nat) (mem : List Nat)
    (hv : valid_params size_kib inodes) :
    ∃ img, mkfs_builder true size_kib inodes now mem = .ok img ∧
      (image_sb img).inode_count ≤ 32768 ∧ (image_sb img).data_region_blocks ≤ 32768 ∧
      (∀ i, i < (image_sb img).inode_count → i / 8 < 4096) ∧
      (∀ i, i < (image_sb img).data_region_blocks → i / 8 < 4096) ∧
      (∀ bitmap : List Nat, bitmap.length = 4096 →
        first_clear_bit bitmap (image_sb img).inode_count 0 ≠ none ∧
        first_clear_bit bitmap (image_sb img).data_region_blocks 0 ≠ none ∧
        (∀ i, i < (image_sb img).inode_count → set_bit bitmap i ≠ none) ∧
        (∀ i, i < (image_sb img).data_region_blocks → set_bit bitmap i ≠ none)) ∧
      (∀ n, 1 ≤ n → n ≤ (image_sb img).inode_count →
        (image_sb img).inode_table_start * 4096 ≤
          (image_sb img).inode_table_start * 4096 + (n - 1) * 128 ∧
        (image_sb img).inode_table_start * 4096 + (n - 1) * 128 + 128 ≤
          ((image_sb img).inode_table_start + (image_sb img).inode_table_blocks) * 4096 ∧
        (image_sb img).inode_table_start * 4096 + (n - 1) * 128 + 128 ≤
          (image_sb img).data_region_start * 4096) ∧
      root_inode_offset (image_sb img) = (image_sb img).inode_table_start * 4096 ∧
      (∀ n, 2 ≤ n → n ≤ (image_sb img).inode_count →
        inode_offset (image_sb img) (n : Int) =
          (image_sb img).inode_table_start * 4096 + (n - 1) * 128) := by
  obtain ⟨l1, l2, l3, l4, l5, l6, l7, l8, l9⟩ := fresh_layout size_kib inodes hv
  obtain ⟨b1, b2, b3, b4, b5, b6⟩ := fresh_image_sb size_kib inodes now mem hv
  obtain ⟨-, c2⟩ := fresh_image_counts size_kib inodes now mem hv
  have hsb := (fresh_image_inv size_kib inodes now mem hv).superblock
  refine ⟨builder_image size_kib inodes now mem, mkfs_builder_ok size_kib inodes now mem hv,
    ?_⟩
  rw [b3, b4, b5, b6, c2]
  have hscan : ∀ (bitmap : List Nat) (n : Nat), bitmap.length = 4096 → n ≤ 32768 →
      first_clear_bit bitmap n 0 ≠ none := by
    intro bitmap n hl hn
    rcases first_clear_bit_cases bitmap n (by rw [hl]; omega) with ⟨f, -, -, -, h⟩ | ⟨-, h⟩
    · rw [h]; simp
    · rw [h]; simp
  have hset : ∀ (bitmap : List Nat) (i : Nat), bitmap.length = 4096 → i < 32768 →
      set_bit bitmap i ≠ none := by
    intro bitmap i hl hi
    obtain ⟨bm2, h, -⟩ := set_bit_spec bitmap i (by rw [hl]; omega)
    rw [h]; simp
  refine ⟨by omega, by omega, fun i hi => by omega, fun i hi => by omega, ?_, ?_, ?_, ?_⟩
  · intro bitmap hl
    exact ⟨hscan bitmap _ hl (by omega), hscan bitmap _ hl (by omega),
      fun i hi => hset bitmap i hl (by omega), fun i hi => hset bitmap i hl (by omega)⟩
  · intro n h1 h2
    refine ⟨by omega, by omega, by omega⟩
  · unfold root_inode_offset
    rw [b3]
    rfl
  · intro n h1 h2
    obtain ⟨k, rfl⟩ : ∃ k, n = k + 2 := ⟨n - 2, by omega⟩
    have := inode_offset_inv _ _ _ k _ hsb (by omega)
    unfold image_sb
    rw [this]
    omega

/-- Witness of C38: the image for 180 KiB and 128 inodes. -/
theorem region_bounds_witness :
    ∃ img, mkfs_builder true 180 128 0 [] = .ok img ∧
      (image_sb img).inode_count ≤ 32768 ∧ (image_sb img).data_region_blocks ≤ 32768 := by
  obtain ⟨img, h1, h2, h3, -⟩ := region_bounds 180 128 0 [] (by decide)
  exact ⟨img, h1, h2, h3⟩

/-! ## The bytes of the two bitmap blocks after an insertion -/

/-- The bitmap update in the state `image_inv`, byte for byte: the inode bitmap block becomes
`set_bit` of bit `k + 1`, the data bitmap block becomes `set_data_bits` of the chosen
blocks. -/
theorem adder_mark_bitmaps_bytes (ic drs drb k : Nat) (img : List Nat) (sb : superblock_t)
    (hg : geometry_ok ic drs drb) (hi : image_inv ic drs drb k img)
    (hsb : superblock_ok sb ic drs drb) (hk : k + 1 < ic) (fb : List Nat)
    (hfb : ∀ b ∈ fb, drs ≤ b ∧ b < drs + drb) :
    ∃ out ibm2 dbm2, adder_mark_bitmaps img sb ((k + 2 : Nat) : Int) fb = .ok out ∧
      set_bit (slice img 4096 4096) (k + 1) = some ibm2 ∧
      set_data_bits drs (slice img 8192 4096) fb = some dbm2 ∧
      slice out 4096 4096 = ibm2 ∧ slice out 8192 4096 = dbm2 := by
  obtain ⟨g1, g2, g3, g4, g5, g6⟩ := hg
  obtain ⟨-, -, s3, s4, -, s6, -⟩ := hsb
  have hlen := hi.length_eq
  have hl1 : (slice img 4096 4096).length = 4096 := slice_length _ _ _ (by omega)
  have hl2 : (slice img 8192 4096).length = 4096 := slice_length _ _ _ (by omega)
  obtain ⟨ibm2, hs1, hl3, hp1⟩ := set_bit_spec (slice img 4096 4096) (k + 1)
    (by rw [hl1]; omega)
  have hw1 : 4096 + ibm2.length ≤ img.length := by rw [hl3, hl1]; omega
  have hlo1 : (write_at img 4096 ibm2).length = img.length := write_at_length _ _ _ hw1
  have hd1 : slice (write_at img 4096 ibm2) 8192 4096 = slice img 8192 4096 :=
    slice_write_at_disjoint _ _ _ hw1 _ _ (Or.inr (by rw [hl3, hl1]))
  obtain ⟨dbm2, hs2, hl4, hp2⟩ := set_data_bits_spec drs fb (slice img 8192 4096) (fun b hb => by
    have := hfb b hb
    rw [hl2]; omega)
  have hw2 : 8192 + dbm2.length ≤ (write_at img 4096 ibm2).length := by
    rw [hl4, hl2, hlo1]; omega
  refine ⟨write_at (write_at img 4096 ibm2) 8192 dbm2, ibm2, dbm2, ?_, hs1, hs2, ?_, ?_⟩
  · unfold adder_mark_bitmaps
    rw [s3, s4, s6, read_block_eq img 1 (by norm_num) (by omega)]
    simp only
    rw [to_u64_pred k (by omega), hs1]
    simp only
    rw [write_block_eq _ 1 _ (by norm_num)]
    simp only
    rw [read_block_eq _ 2 (by norm_num) (by rw [hlo1]; omega), hd1]
    simp only
    rw [hs2]
    simp only
    rw [write_block_eq _ 2 _ (by norm_num)]
  · rw [slice_write_at_disjoint _ _ _ hw2 _ _ (Or.inl (by omega))]
    have := slice_write_at_same img 4096 ibm2 hw1
    rw [hl3, hl1] at this
    exact this
  · have := slice_write_at_same (write_at img 4096 ibm2) 8192 dbm2 hw2
    rw [hl4, hl2] at this
    exact this

/-- The two bitmap blocks after a successful insertion in the state `image_inv`, byte for
byte. -/
theorem mkfs_adder_bitmaps (ic drs drb k : Nat) (img : List Nat)
    (hg : geometry_ok ic drs drb) (hi : image_inv ic drs drb k img)
    (name content : List Nat) (now : Nat) (mem : List Nat) (r : AddSuccess)
    (h : mkfs_adder img name content now mem = .ok r) :
    ∃ ibm2 dbm2, set_bit (slice img 4096 4096) (k + 1) = some ibm2 ∧
      set_data_bits drs (slice img 8192 4096) r.file_blocks = some dbm2 ∧
      slice r.image 4096 4096 = ibm2 ∧ slice r.image 8192 4096 = dbm2 := by
  obtain ⟨f, p1, p2, p3, p4, p5, p6, p7, p8⟩ :=
    mkfs_adder_inv ic drs drb k img hg hi name content now mem r h
  obtain ⟨hl, hu⟩ := mkfs_adder_ok img name content now mem r h
  have hw := adder_update_ok img name content now mem r hl hu
  rw [p4] at hw
  have g := hg
  obtain ⟨g1, g2, g3, g4, g5, g6⟩ := g
  have hlen := hi.length_eq
  have hsb := hi.superblock
  have hfb : ∀ b ∈ r.file_blocks, drs + 1 ≤ b ∧ b < drs + drb := by
    intro b hb
    rw [p5, List.mem_replicate] at hb
    have := p6 (by omega)
    omega
  obtain ⟨out1, ibm2, dbm2, h1, hs1, hs2, e1, e2⟩ := adder_mark_bitmaps_bytes ic drs drb k img _
    hg hi hsb p2 r.file_blocks (fun b hb => by have := hfb b hb; omega)
  obtain ⟨out1', h1', l1, f1, -, -⟩ := adder_mark_bitmaps_inv ic drs drb k img _ hg hi hsb p2
    r.file_blocks (fun b hb => by have := hfb b hb; omega)
  rw [h1] at h1'
  simp only [Except.ok.injEq] at h1'
  subst h1'
  have h2 := adder_write_inode_inv ic drs drb k out1 _ hsb (by omega)
    (new_inode content.length now r.file_blocks)
  have hIl := inode_bytes_length (new_inode content.length now r.file_blocks)
  have hslot : 12288 + (k + 2) * 128 ≤ drs * 4096 := by
    have : (k + 2) * 128 ≤ ic * 128 := Nat.mul_le_mul_right _ (by omega)
    omega
  have hw2 : 12288 + (k + 1) * 128 + (new_inode content.length now
      r.file_blocks).bytes.length ≤ out1.length := by
    rw [hIl, l1, hlen]; omega
  have l2 := write_at_length _ _ _ hw2
  obtain ⟨out3, h3, l3, p3'⟩ := copy_file_data_spec content (drs + 1) (drs + drb) (by omega)
    r.file_blocks (write_at out1 (12288 + (k + 1) * 128)
      (new_inode content.length now r.file_blocks).bytes) 0 hfb (by rw [l2, l1, hlen])
  have hlen3 : out3.length = (drs + drb) * 4096 := by rw [l3, l2, l1, hlen]
  unfold adder_write at hw
  rw [h1] at hw
  simp only at hw
  rw [h2] at hw
  simp only at hw
  rw [h3] at hw
  simp only at hw
  have hroot3 : (inode_parse (slice out3 12288 128)).direct = drs :: List.replicate 11 0 := by
    rw [p3' _ _ (by omega), slice_write_at_disjoint _ _ _ hw2 _ _ (Or.inl (by omega)),
      f1 _ _ (Or.inr (le_refl _))]
    exact hi.root_direct
  have hent3 : ∀ j, j < 64 →
      (le_val (slice out3 (drs * 4096 + j * 64) 4) = 0 ↔ k + 2 ≤ j) := by
    intro j hj
    rw [p3' _ _ (by omega), slice_write_at_disjoint _ _ _ hw2 _ _ (Or.inr (by rw [hIl]; omega)),
      f1 _ _ (Or.inr (by omega))]
    exact hi.entries j hj
  obtain ⟨out4, h4, l4, f4, -⟩ :=
    adder_link_frame ic drs drb k out3 _ hg hsb hlen3 hroot3 hent3 p3 name now mem
  rw [h4] at hw
  simp only [Except.ok.injEq] at hw
  refine ⟨ibm2, dbm2, hs1, hs2, ?_, ?_⟩
  · rw [← hw, f4 _ _ (Or.inl ⟨by omega, by omega⟩), p3' _ _ (by omega),
      slice_write_at_disjoint _ _ _ hw2 _ _ (Or.inl (by omega)), e1]
  · rw [← hw, f4 _ _ (Or.inl ⟨by omega, by omega⟩), p3' _ _ (by omega),
      slice_write_at_disjoint _ _ _ hw2 _ _ (Or.inl (by omega)), e2]
/-! ## A file of size 0 -/

/-- C32: a file of size 0 with a name that is not in the directory, inserted into an image
in the state after `k` insertions with a free inode and a free entry of the root directory
block, is inserted successfully with `blocks_needed = 0` and no block chosen; the data
bitmap block is unchanged byte for byte, as is every block of the data region other than
the root directory block; the bit of the new inode was clear and is the only bit of the
inode bitmap that changes (one more bit is set); and the record of the new inode has
`size_bytes = 0` and 12 direct pointers that are all 0. -/
theorem zero_byte_file (ic drs drb k : Nat) (img : List Nat)
    (hg : geometry_ok ic drs drb) (hi : image_inv ic drs drb k img)
    (name : List Nat) (now : Nat) (mem : List Nat)
    (hex : file_exists img (image_sb img) name = 0) (hk : k + 1 < ic) (hk2 : k + 2 < 64) :
    ∃ r, mkfs_adder img name [] now mem = .ok r ∧
      blocks_needed ([] : List Nat).length = 0 ∧ r.file_blocks = [] ∧
      slice r.image ((image_sb img).data_bitmap_start * 4096) 4096 =
        slice img ((image_sb img).data_bitmap_start * 4096) 4096 ∧
      (∀ i, data_bit r.image i = data_bit img i) ∧
      (∀ b, (image_sb img).data_region_start ≤ b →
        b < (image_sb img).data_region_start + (image_sb img).data_region_blocks →
        b ≠ (inode_record img 1).direct.getD 0 0 →
        slice r.image (b * 4096) 4096 = slice img (b * 4096) 4096) ∧
      inode_bit img (r.new_inode_num.toNat - 1) = false ∧
      (∀ i, inode_bit r.image i =
        (inode_bit img i || decide (i = r.new_inode_num.toNat - 1))) ∧
      popcount (slice r.image ((image_sb img).inode_bitmap_start * 4096) 4096) =
        popcount (slice img ((image_sb img).inode_bitmap_start * 4096) 4096) + 1 ∧
      (inode_record r.image r.new_inode_num.toNat).size_bytes = 0 ∧
      (inode_record r.image r.new_inode_num.toNat).direct = List.replicate 12 0 := by
  have hn0 : blocks_needed ([] : List Nat).length = 0 := rfl
  obtain ⟨r, hr⟩ := mkfs_adder_succeeds ic drs drb k img hg hi name [] now mem hex
    (by rw [hn0]; omega) hk hk2 (Or.inl hn0)
  obtain ⟨f, p1, p2, p3, p4, p5, p6, p7, p8, eff⟩ :=
    mkfs_adder_effect ic drs drb k img hg hi name [] now mem r hr
  have hroot := root_block_inv _ _ _ _ _ hi
  obtain ⟨ibm2, dbm2, hs1, hs2, e1, e2⟩ :=
    mkfs_adder_bitmaps ic drs drb k img hg hi name [] now mem r hr
  obtain ⟨g1, g2, g3, g4, g5, g6⟩ := hg
  obtain ⟨-, -, s3, s4, s5, s6, s7⟩ := hi.superblock
  have hlen := hi.length_eq
  have hlen2 := p7.length_eq
  rw [hn0] at p5
  have hfb : r.file_blocks = [] := p5
  rw [hfb] at hs2
  have hd : dbm2 = slice img 8192 4096 := by
    have : set_data_bits drs (slice img 8192 4096) [] = some (slice img 8192 4096) := rfl
    rw [this] at hs2
    exact (Option.some.inj hs2).symm
  have i1 : ∀ i, inode_bit img i = decide (i ≤ k) := by
    intro i
    rw [inode_bit_inv _ _ _ _ _ hi, Bool.eq_iff_iff, hi.inode_bits i]
    simp
  have i2 : ∀ i, inode_bit r.image i = decide (i ≤ k + 1) := by
    intro i
    rw [inode_bit_inv _ _ _ _ _ p7, Bool.eq_iff_iff, p7.inode_bits i]
    simp
  have hnum : r.new_inode_num.toNat = k + 2 := by rw [p4, to_nat_num]
  have hrec : inode_record r.image r.new_inode_num.toNat =
      inode_parse (new_inode 0 now []).bytes := by
    rw [hnum, inode_record_inv _ _ _ _ _ p7,
      show 12288 + (k + 2 - 1) * 128 = 12288 + (k + 1) * 128 by omega, eff.inode_bytes]
    rfl
  have b1 : (image_sb img).inode_bitmap_start = 1 := s3
  have b2 : (image_sb img).data_bitmap_start = 2 := s4
  have b3 : (image_sb img).data_region_start = drs := s6
  have b4 : (image_sb img).data_region_blocks = drb := s7
  refine ⟨r, hr, hn0, hfb, ?_⟩
  rw [b1, b2, b3, b4, hroot]
  refine ⟨?_, ?_, ?_, ?_, ?_, ?_, ?_, ?_⟩
  · rw [e2, hd]
  · intro i
    rw [data_bit_inv _ _ _ _ _ p7, data_bit_inv _ _ _ _ _ hi, p8 i, hn0]
    simp
  · intro b hb1 hb2 hb3
    have := eff.data_rest b (by omega) (Or.inl hn0) 0 4096 (by omega)
    rw [Nat.add_zero (b * 4096)] at this
    exact this
  · rw [hnum, i1]
    simp
  · intro i
    rw [hnum, i1, i2, Bool.eq_iff_iff]
    simp only [decide_eq_true_eq, Bool.or_eq_true]
    omega
  · have c1 := popcount_prefix _ (k + 1) (by rw [slice_length _ _ _ (by omega)]; omega)
      p7.inode_bits
    have c0 := popcount_prefix _ k (by rw [slice_length _ _ _ (by omega)]; omega)
      hi.inode_bits
    rw [c1, c0]
  · rw [hrec, inode_parse_bytes]
    show 0 % 256 ^ 8 = 0
    decide
  · rw [hrec, new_inode_direct]
    decide

/-- Witness of C32: an empty file "a.txt" inserted into the fresh image for 180 KiB and 128
inodes. -/
theorem zero_byte_file_witness :
    ∃ r, mkfs_adder (builder_image 180 128 0 scenario_mem) scenario_name [] 1 scenario_mem =
        .ok r ∧
      r.file_blocks = [] ∧
      (inode_record r.image r.new_inode_num.toNat).size_bytes = 0 ∧
      (inode_record r.image r.new_inode_num.toNat).direct = List.replicate 12 0 := by
  obtain ⟨hg, hi, -, hn, -⟩ := fresh_state
  have hex : file_exists (builder_image 180 128 0 scenario_mem)
      (image_sb (builder_image 180 128 0 scenario_mem)) scenario_name = 0 := by
    show file_exists _ (superblock_parse (slice _ 0 116)) _ = 0
    rw [file_exists_names _ _ _ _ _ hg hi _ hn (by omega)]
    decide
  obtain ⟨r, h1, -, h3, -, -, -, -, -, -, h10, h11⟩ :=
    zero_byte_file 128 7 38 0 _ hg hi scenario_name 1 scenario_mem hex (by omega) (by omega)
  exact ⟨r, h1, h3, h10, h11⟩
/-! ## The bytes an insertion leaves as they were -/

theorem getElem?_of_slice (a b : List Nat) (o m p : Nat) (h : slice a o m = slice b o m)
    (h1 : o ≤ p) (h2 : p < o + m) : a[p]? = b[p]? := by
  have e := congrArg (fun l => l[p - o]?) h
  simp only [slice_getElem?] at e
  rw [if_pos (by omega), if_pos (by omega), show o + (p - o) = p by omega] at e
  exact e

/-- C36: a successful insertion into an image in the state after `k` insertions leaves the
length of the image as it is, and a byte of the output differs from the input only in the
first 116 bytes, in the inode bitmap block, in the data bitmap block, in the 128-byte slot
of the root inode or of the new inode, in the root directory block, or in a block of the
data region whose bit of the data bitmap was clear in the input; for every file inserted
before (an allocated inode from number 2 on) the inode record and every data block it
points to are unchanged. -/
theorem insertion_frame (ic drs drb k : Nat) (img : List Nat)
    (hg : geometry_ok ic drs drb) (hi : image_inv ic drs drb k img)
    (fi : files_inv drs k img)
    (name content : List Nat) (now : Nat) (mem : List Nat) (r : AddSuccess)
    (h : mkfs_adder img name content now mem = .ok r) :
    r.image.length = img.length ∧
      (∀ p, r.image[p]? ≠ img[p]? →
        p < 116 ∨
        ((image_sb img).inode_bitmap_start * 4096 ≤ p ∧
          p < ((image_sb img).inode_bitmap_start + 1) * 4096) ∨
        ((image_sb img).data_bitmap_start * 4096 ≤ p ∧
          p < ((image_sb img).data_bitmap_start + 1) * 4096) ∨
        ((image_sb img).inode_table_start * 4096 ≤ p ∧
          p < (image_sb img).inode_table_start * 4096 + 128) ∨
        ((image_sb img).inode_table_start * 4096 + (r.new_inode_num.toNat - 1) * 128 ≤ p ∧
          p < (image_sb img).inode_table_start * 4096 +
            (r.new_inode_num.toNat - 1) * 128 + 128) ∨
        ((inode_record img 1).direct.getD 0 0 * 4096 ≤ p ∧
          p < ((inode_record img 1).direct.getD 0 0 + 1) * 4096) ∨
        ∃ i, i < (image_sb img).data_region_blocks ∧ data_bit img i = false ∧
          ((image_sb img).data_region_start + i) * 4096 ≤ p ∧
          p < ((image_sb img).data_region_start + i + 1) * 4096) ∧
      (∀ a, 2 ≤ a → inode_allocated img a →
        slice r.image ((image_sb img).inode_table_start * 4096 + (a - 1) * 128) 128 =
          slice img ((image_sb img).inode_table_start * 4096 + (a - 1) * 128) 128 ∧
        inode_record r.image a = inode_record img a ∧
        ∀ x ∈ (inode_record img a).direct, x ≠ 0 →
          slice r.image (x * 4096) 4096 = slice img (x * 4096) 4096) := by
  obtain ⟨f, p1, p2, p3, p4, p5, p6, p7, p8, eff⟩ :=
    mkfs_adder_effect ic drs drb k img hg hi name content now mem r h
  have hroot := root_block_inv _ _ _ _ _ hi
  obtain ⟨g1, g2, g3, g4, g5, g6⟩ := hg
  obtain ⟨-, -, s3, s4, s5, s6, s7⟩ := hi.superblock
  have hlen := hi.length_eq
  have hlen2 := p7.length_eq
  have b1 : (image_sb img).inode_bitmap_start = 1 := s3
  have b2 : (image_sb img).data_bitmap_start = 2 := s4
  have b3 : (image_sb img).data_region_start = drs := s6
  have b4 : (image_sb img).data_region_blocks = drb := s7
  have b5 : (image_sb img).inode_table_start = 3 := s5
  have hnum : r.new_inode_num.toNat = k + 2 := by rw [p4, to_nat_num]
  have hslot : 12288 + (k + 2) * 128 ≤ drs * 4096 := by
    have : (k + 2) * 128 ≤ ic * 128 := Nat.mul_le_mul_right _ (by omega)
    omega
  rw [b1, b2, b3, b4, b5, hroot, hnum]
  refine ⟨by rw [hlen, hlen2], ?_, ?_⟩
  · intro p hne
    by_contra hcon
    push_neg at hcon
    obtain ⟨c1, c2, c3, c4, c5, c6, c7⟩ := hcon
    apply hne
    by_cases q1 : p < 4096
    · exact getElem?_of_slice _ _ p 1 p (eff.block0_rest p 1 c1 (by omega)) (le_refl _)
        (by omega)
    by_cases q2 : p < 12416
    · omega
    by_cases q3 : p < drs * 4096
    · exact getElem?_of_slice _ _ p 1 p (eff.table_rest p 1 (by omega) (by omega) (by omega))
        (le_refl _) (by omega)
    by_cases q4 : p < (drs + 1) * 4096
    · omega
    by_cases q5 : p < (drs + drb) * 4096
    · have hdm := Nat.div_add_mod p 4096
      have hml := Nat.mod_lt p (show 0 < 4096 by norm_num)
      have hb : drs + 1 ≤ p / 4096 := by omega
      by_cases q6 : blocks_needed content.length = 0 ∨ p / 4096 ≠ drs + f
      · have := eff.data_rest (p / 4096) hb q6 (p % 4096) 1 (by omega)
        rw [show p / 4096 * 4096 + p % 4096 = p by omega] at this
        exact getElem?_of_slice _ _ p 1 p this (le_refl _) (by omega)
      · exfalso
        push_neg at q6
        obtain ⟨q7, q8⟩ := q6
        obtain ⟨-, hf2, hf3, -⟩ := p6 (by omega)
        have := c7 f hf2 (by rw [data_bit_inv _ _ _ _ _ hi]; exact hf3) (by omega)
        omega
    · rw [List.getElem?_eq_none (by omega), List.getElem?_eq_none (by omega)]
  · intro a ha hal
    obtain ⟨-, ha2⟩ := (inode_allocated_inv _ _ _ _ _ hi a).mp hal
    have hsl : slice r.image (3 * 4096 + (a - 1) * 128) 128 =
        slice img (3 * 4096 + (a - 1) * 128) 128 := by
      have : (a - 1) * 128 + 128 ≤ (k + 1) * 128 := by
        have := Nat.mul_le_mul_right 128 (show a ≤ k + 1 from ha2)
        omega
      exact eff.table_rest _ 128 (by omega) (by omega) (Or.inl (by omega))
    have hrec : inode_record r.image a = inode_record img a := by
      rw [inode_record_inv _ _ _ _ _ p7, inode_record_inv _ _ _ _ _ hi,
        show 12288 + (a - 1) * 128 = 3 * 4096 + (a - 1) * 128 by omega, hsl]
    refine ⟨hsl, hrec, ?_⟩
    intro x hx hx0
    rw [inode_record_inv _ _ _ _ _ hi] at hx
    obtain ⟨hx1, hx2⟩ := fi.ptr_bits a (by omega) ha2 x hx hx0
    have hx3 : x ≠ drs := by
      intro hc
      have := fi.disjoint a 1 (by omega) ha2 (by omega) (by omega) (by omega) x hx0 hx
      apply this
      rw [show 12288 + (1 - 1) * 128 = 12288 from rfl, hi.root_direct, hc]
      exact List.mem_cons_self _ _
    have hx4 : blocks_needed content.length = 0 ∨ x ≠ drs + f := by
      by_cases hn : blocks_needed content.length = 0
      · exact Or.inl hn
      · right
        intro hc
        obtain ⟨-, -, hf3, -⟩ := p6 (by omega)
        rw [hc, Nat.add_sub_cancel_left, hf3] at hx2
        cases hx2
    have := eff.data_rest x (by omega) hx4 0 4096 (by omega)
    rw [Nat.add_zero (x * 4096)] at this
    exact this

/-- Witness of C36: the 5000-byte file of the scenario inserted into the fresh image. -/
theorem insertion_frame_witness :
    ∃ r, mkfs_adder (builder_image 180 128 0 scenario_mem) scenario_file.name
        scenario_file.content scenario_file.now scenario_file.mem = .ok r ∧
      r.image.length = (builder_image 180 128 0 scenario_mem).length := by
  obtain ⟨hg, hi, fi, -, -⟩ := fresh_state
  obtain ⟨r, hr, -⟩ := scenario_run
  exact ⟨r, hr, (insertion_frame 128 7 38 0 _ hg hi fi scenario_file.name
    scenario_file.content scenario_file.now scenario_file.mem r hr).1⟩
/-! ## Lookup of a name after its insertion -/

/-- In the state `image_inv` a name the lookup finds is rejected with the collision error
before an output image is created. -/
theorem mkfs_adder_exists (ic drs drb k : Nat) (img : List Nat)
    (hi : image_inv ic drs drb k img) (name content : List Nat) (now : Nat) (mem : List Nat)
    (hfe : file_exists img (superblock_parse (slice img 0 116)) name = 1) :
    mkfs_adder img name content now mem = .error (.already_exists, none) := by
  have hlen := hi.length_eq
  have hm := hi.superblock.1
  have hr : read_at img 0 116 = some (slice img 0 116) := by
    by_cases hl : 116 ≤ img.length
    · exact read_at_eq_some _ _ _ (by omega)
    · exfalso
      apply absurd hm
      have e : slice img 0 116 = img := by
        unfold slice
        rw [List.drop_zero, List.take_of_length_le (by omega)]
      intro hc
      have h0 : read_at img 0 116 = none := by
        unfold read_at
        rw [if_neg (by omega)]
      unfold file_exists at hfe
      have hs5 := hi.superblock.2.2.2.2.1
      have hoff : root_inode_offset (superblock_parse (slice img 0 116)) = 12288 := by
        unfold root_inode_offset
        rw [hs5]
        rfl
      rw [hoff, if_pos (by norm_num)] at hfe
      have h1 : read_at img 12288 128 = none := by
        unfold read_at
        rw [if_neg (by omega)]
      rw [h1] at hfe
      cases hfe
  unfold mkfs_adder
  rw [hr]
  simp only
  rw [if_neg (by rw [hm]; simp), hfe, if_neg (by decide), if_pos rfl]

theorem c_str_padded (name : List Nat) (n : Nat) (hn : 0 < n) (hb : ∀ b ∈ name, b ≠ 0) :
    c_str (name ++ List.replicate n 0) = name := by
  apply c_str_of_take _ name hb
  obtain ⟨m, rfl⟩ : ∃ m, n = m + 1 := ⟨n - 1, by omega⟩
  rw [List.take_append_eq_append_take, List.take_of_length_le (by omega),
    show name.length + 1 - name.length = 1 by omega, List.replicate_succ, List.take_succ_cons,
    List.take_zero]

/-- C37: after a successful insertion of a file whose name has at most 57 bytes (none of
them NUL) into an image in the state after `k` insertions, the lookup of that name on the
output image returns 1, and an insertion of a file with that name (any content, time and
memory) into the output image is rejected with the collision error before an output image
is created. -/
theorem insert_then_lookup (ic drs drb k : Nat) (img : List Nat)
    (hg : geometry_ok ic drs drb) (hi : image_inv ic drs drb k img)
    (name content : List Nat) (now : Nat) (mem : List Nat) (r : AddSuccess)
    (hlen : name.length ≤ 57) (hb : ∀ b ∈ name, b ≠ 0 ∧ b < 256)
    (h : mkfs_adder img name content now mem = .ok r) :
    file_exists r.image (image_sb r.image) name = 1 ∧
      ∀ content2 now2 mem2,
        mkfs_adder r.image name content2 now2 mem2 = .error (.already_exists, none) := by
  obtain ⟨f, p1, p2, p3, p4, p5, p6, p7, p8, eff⟩ :=
    mkfs_adder_effect ic drs drb k img hg hi name content now mem r h
  have hnew : slice r.image (drs * 4096 + ((k + 2) * 64 + 5)) 58 =
      name ++ List.replicate (58 - name.length) 0 := by
    rw [← Nat.add_assoc, ← slice_slice _ _ 64 _ _ (by omega), eff.entry_bytes,
      fill_entry_name_field, stored_field_short name hlen hb]
  have hs : slice (slice r.image (drs * 4096) 4096) ((k + 2) * 64 + 5) 58 =
      slice r.image (drs * 4096 + ((k + 2) * 64 + 5)) 58 := slice_slice _ _ _ _ _ (by omega)
  have hm : entry_matches (slice r.image (drs * 4096) 4096) name (k + 2) = true := by
    unfold entry_matches
    rw [decide_eq_true_eq, slice_slice _ _ _ _ _ (by omega)]
    refine ⟨fun hc => ?_, ?_⟩
    · have := (p7.entries (k + 2) (by omega)).mp hc
      omega
    · rw [c_str_drop_field _ _ 58 (by
        rw [hs, hnew]
        exact List.mem_append_right _ (List.mem_replicate.mpr ⟨by omega, rfl⟩)), hs, hnew,
        c_str_padded name _ (by omega) (fun b hbm => (hb b hbm).1),
        c_str_self name (fun b hbm => (hb b hbm).1)]
  have hfe : file_exists r.image (superblock_parse (slice r.image 0 116)) name = 1 := by
    rw [file_exists_inv _ _ _ _ _ hg p7, if_pos]
    rw [List.any_eq_true]
    exact ⟨k + 2, List.mem_range.mpr (by omega), hm⟩
  exact ⟨hfe, fun content2 now2 mem2 =>
    mkfs_adder_exists _ _ _ _ _ p7 name content2 now2 mem2 hfe⟩

/-- Witness of C37: after "a.txt" is inserted into the fresh image, the lookup finds it and
a second insertion under that name is rejected. -/
theorem insert_then_lookup_witness :
    ∃ r, mkfs_adder (builder_image 180 128 0 scenario_mem) scenario_file.name
        scenario_file.content scenario_file.now scenario_file.mem = .ok r ∧
      file_exists r.image (image_sb r.image) scenario_file.name = 1 ∧
      mkfs_adder r.image scenario_file.name [0x42] 2 scenario_mem =
        .error (.already_exists, none) := by
  obtain ⟨hg, hi, -, -, -⟩ := fresh_state
  obtain ⟨r, hr, -⟩ := scenario_run
  have hw := insert_then_lookup 128 7 38 0 _ hg hi scenario_file.name scenario_file.content
    scenario_file.now scenario_file.mem r (by decide) (by decide) hr
  exact ⟨r, hr, hw.1, hw.2 [0x42] 2 scenario_mem⟩

/-! ## Size and direct pointers of the inodes of a reachable image -/

/-- An induction over the successful insertions of a list of files: a property of the state
after `k` insertions that every successful insertion carries over holds at the end. -/
theorem insert_all_induct (ic drs drb : Nat) (hg : geometry_ok ic drs drb)
    (P : Nat → List Nat → Prop)
    (hstep : ∀ k img name content now mem r, image_inv ic drs drb k img → P k img →
      mkfs_adder img name content now mem = .ok r → P (k + 1) r.image)
    (files : List host_file) (k : Nat) (img : List Nat) (hi : image_inv ic drs drb k img)
    (hp : P k img) (out : List Nat) (nums : List Int)
    (h : insert_all img files = some (out, nums)) : P (k + files.length) out := by
  induction files generalizing k img nums with
  | nil =>
    simp only [insert_all, Option.some.injEq, Prod.mk.injEq] at h
    obtain ⟨rfl, rfl⟩ := h
    exact hp
  | cons f fs ih =>
    unfold insert_all at h
    cases hm : mkfs_adder img f.name f.content f.now f.mem with
    | error e => rw [hm] at h; cases h
    | ok r =>
      rw [hm] at h
      simp only at h
      obtain ⟨_, _, _, _, _, _, _, hinv, _⟩ :=
        mkfs_adder_inv ic drs drb k img hg hi f.name f.content f.now f.mem r hm
      have hp2 := hstep k img f.name f.content f.now f.mem r hi hp hm
      cases hr : insert_all r.image fs with
      | none => rw [hr] at h; cases h
      | some p =>
        obtain ⟨out2, nums2⟩ := p
        rw [hr] at h
        simp only [Option.some.injEq, Prod.mk.injEq] at h
        obtain ⟨rfl, rfl⟩ := h
        have := ih (k + 1) r.image hinv hp2 nums2 hr
        rw [List.length_cons, show k + (fs.length + 1) = k + 1 + fs.length by omega]
        exact this

theorem fixN_replicate_eq (n v : Nat) (hn : n ≤ 12) (hv : v < 2 ^ 32) :
    (fixN 12 (List.replicate n v)).map (· % 256 ^ 4) =
      List.replicate n v ++ List.replicate (12 - n) 0 := by
  unfold fixN
  rw [List.take_append_eq_append_take, List.take_replicate, List.take_replicate,
    List.length_replicate, List.map_append, List.map_replicate, List.map_replicate,
    Nat.min_eq_right hn, Nat.min_eq_left (by omega),
    Nat.mod_eq_of_lt (show v < 256 ^ 4 by norm_num at hv ⊢; exact hv)]
  rfl

/-- The shape of a direct array whose first `n` pointers are a non-zero `x` and whose other
pointers are 0. -/
theorem prefix_shape (n x : Nat) (hn : n ≤ 12) (hx : x ≠ 0) :
    (List.replicate n x ++ List.replicate (12 - n) 0).length = 12 ∧
      (List.replicate n x ++ List.replicate (12 - n) 0).countP (· ≠ 0) = n ∧
      ∀ i, i < 12 →
        ((List.replicate n x ++ List.replicate (12 - n) 0).getD i 0 ≠ 0 ↔ i < n) := by
  refine ⟨?_, ?_, ?_⟩
  · rw [List.length_append, List.length_replicate, List.length_replicate]
    omega
  · rw [List.countP_append, List.countP_replicate, List.countP_replicate]
    simp [hx]
  · intro i hi
    rw [List.getD_eq_getElem?_getD]
    by_cases hin : i < n
    · rw [List.getElem?_append_left (by rw [List.length_replicate]; exact hin),
        List.getElem?_replicate, if_pos hin]
      simp [hx, hin]
    · rw [List.getElem?_append_right (by rw [List.length_replicate]; omega),
        List.getElem?_replicate]
      simp only [List.length_replicate]
      rw [if_pos (by omega)]
      simp [hin]

theorem fresh_sizes_ok (size_kib inodes : Int) (now : Nat) (mem : List Nat)
    (hv : valid_params size_kib inodes) :
    sizes_ok 0 (builder_image size_kib inodes now mem) := by
  refine ⟨?_, fun a h1 h2 => by omega⟩
  rw [(builder_image_slices size_kib inodes now mem hv).2.2.2.2.1, inode_parse_bytes]
  show (2 * 64) % 256 ^ 8 = 128
  decide

theorem sizes_ok_step (ic drs drb k : Nat) (img : List Nat)
    (hg : geometry_ok ic drs drb) (hi : image_inv ic drs drb k img) (hs : sizes_ok k img)
    (name content : List Nat) (now : Nat) (mem : List Nat) (r : AddSuccess)
    (h : mkfs_adder img name content now mem = .ok r) : sizes_ok (k + 1) r.image := by
  obtain ⟨f, p1, p2, p3, p4, p5, p6, p7, p8, eff⟩ :=
    mkfs_adder_effect ic drs drb k img hg hi name content now mem r h
  obtain ⟨g1, g2, g3, g4, g5, g6⟩ := hg
  obtain ⟨hroot, hfiles⟩ := hs
  have hslot : 12288 + (k + 2) * 128 ≤ drs * 4096 := by
    have : (k + 2) * 128 ≤ ic * 128 := Nat.mul_le_mul_right _ (by omega)
    omega
  have hsz : content.length ≤ 12 * 4096 := by
    unfold blocks_needed at p1
    simp only [BS] at p1
    omega
  refine ⟨?_, ?_⟩
  · rw [eff.root_bytes, inode_parse_bytes]
    show (inode_parse (slice img 12288 128)).size_bytes % 256 ^ 8 = 128
    rw [hroot]
    decide
  · intro a ha1 ha2
    by_cases hak : a ≤ k + 1
    · have : (a - 1) * 128 + 128 ≤ (k + 1) * 128 := by
        have := Nat.mul_le_mul_right 128 hak
        omega
      rw [eff.table_rest (12288 + (a - 1) * 128) 128 (by omega) (by omega) (Or.inl (by omega))]
      exact hfiles a ha1 hak
    · have ha : a = k + 2 := by omega
      subst ha
      rw [show 12288 + (k + 2 - 1) * 128 = 12288 + (k + 1) * 128 by omega, eff.inode_bytes]
      have hsize : (inode_parse (new_inode content.length now
          (List.replicate (blocks_needed content.length) (drs + f))).bytes).size_bytes =
          content.length := by
        rw [inode_parse_bytes]
        show content.length % 256 ^ 8 = content.length
        exact Nat.mod_eq_of_lt (by norm_num; omega)
      have hbn : blocks_needed content.length = (content.length + 4095) / 4096 := by
        unfold blocks_needed
        simp only [BS]
        rw [show content.length + 4096 - 1 = content.length + 4095 by omega]
      rw [hsize, new_inode_direct]
      by_cases hn : blocks_needed content.length = 0
      · refine ⟨0, 1, by omega, by omega, hsz, by omega, ?_⟩
        rw [hn]
        rfl
      · obtain ⟨hf1, hf2, -⟩ := p6 (by omega)
        refine ⟨blocks_needed content.length, drs + f, by omega, p1, hsz, hbn, ?_⟩
        exact fixN_replicate_eq _ _ p1 (by omega)

/-- C33: in an image reached from a fresh image by successful insertions, every allocated
inode (the root inode included) has `size_bytes <= 12 * 4096`; the number of its non-zero
direct pointers is `ceil(size_bytes / 4096)`, and these are the first pointers of the array
of 12: pointer `i` is non-zero exactly for `i < ceil(size_bytes / 4096)`. -/
theorem inode_size_pointers (size_kib inodes : Int) (now : Nat) (mem : List Nat)
    (img0 : List Nat) (files : List host_file) (out : List Nat) (nums : List Int)
    (h0 : mkfs_builder true size_kib inodes now mem = .ok img0)
    (h : insert_all img0 files = some (out, nums)) (a : Nat) (ha : inode_allocated out a) :
    (inode_record out a).size_bytes ≤ 12 * 4096 ∧
      (inode_record out a).direct.length = 12 ∧
      (inode_record out a).direct.countP (· ≠ 0) =
        ((inode_record out a).size_bytes + 4095) / 4096 ∧
      ∀ i, i < 12 → ((inode_record out a).direct.getD i 0 ≠ 0 ↔
        i < ((inode_record out a).size_bytes + 4095) / 4096) := by
  obtain ⟨hv, he⟩ := builder_ok_valid _ _ _ _ _ h0
  obtain ⟨hg, hi, -, -⟩ := reachable_inv _ _ _ _ _ _ _ _ h0 h
  have hfi := fresh_image_inv size_kib inodes now mem hv
  have hfs := fresh_sizes_ok size_kib inodes now mem hv
  rw [← he] at hfi hfs
  have hs := insert_all_induct _ _ _ hg (fun k img => sizes_ok k img)
    (fun k img name content now mem r hi hp hm =>
      sizes_ok_step _ _ _ k img hg hi hp name content now mem r hm)
    files 0 img0 hfi hfs out nums h
  rw [Nat.zero_add] at hs
  obtain ⟨hroot, hfiles⟩ := hs
  obtain ⟨ha1, ha2⟩ := (inode_allocated_inv _ _ _ _ _ hi a).mp ha
  rw [inode_record_inv _ _ _ _ _ hi]
  by_cases h1 : a = 1
  · subst h1
    obtain ⟨g1, g2, g3, g4, g5, g6⟩ := hg
    obtain ⟨q1, q2, q3⟩ := prefix_shape 1 (builder_data_region_start inodes) (by omega)
      (by omega)
    rw [show 12288 + (1 - 1) * 128 = 12288 from rfl, hroot, hi.root_direct]
    exact ⟨by omega, q1, q2, q3⟩
  · obtain ⟨n, x, hx, hn, hsz, hn2, hd⟩ := hfiles a (by omega) ha2
    obtain ⟨q1, q2, q3⟩ := prefix_shape n x hn hx
    rw [hd, ← hn2]
    exact ⟨hsz, q1, q2, q3⟩

/-- Witness of C33 on the scenario: after the 5000-byte file is inserted into the fresh
image, inode 2 is allocated and has the stated shape. -/
theorem inode_size_pointers_witness :
    ∃ out nums, insert_all (builder_image 180 128 0 scenario_mem) [scenario_file] =
        some (out, nums) ∧
      inode_allocated out 2 ∧ (inode_record out 2).size_bytes ≤ 12 * 4096 ∧
      (inode_record out 2).direct.countP (· ≠ 0) =
        ((inode_record out 2).size_bytes + 4095) / 4096 := by
  obtain ⟨r, hr, -, hinv, -, -⟩ := scenario_effect
  have hins : insert_all (builder_image 180 128 0 scenario_mem) [scenario_file] =
      some (r.image, [r.new_inode_num]) := insert_all_single _ _ r hr
  have ha2 : inode_allocated r.image 2 :=
    (inode_allocated_inv _ _ _ _ _ hinv 2).mpr ⟨by omega, by omega⟩
  have hw := inode_size_pointers 180 128 0 scenario_mem _ [scenario_file] r.image
    [r.new_inode_num] (mkfs_builder_ok 180 128 0 scenario_mem (by decide)) hins 2 ha2
  exact ⟨r.image, [r.new_inode_num], hins, ha2, hw.1, hw.2.2.1⟩

/-! ## The outcomes of a run in the state `image_inv` -/

theorem adder_allocate_err (out : List Nat) (sb : superblock_t) (n : Nat)
    (e : AddErr × List Nat) (h : adder_allocate out sb n = .error e) : e.2 = out := by
  unfold adder_allocate at h
  cases h1 : find_free_inode out sb with
  | none =>
    rw [h1] at h
    simp only [Except.error.injEq] at h
    rw [← h]
  | some num =>
    rw [h1] at h
    simp only at h
    split_ifs at h
    · simp only [Except.error.injEq] at h
      rw [← h]
    · cases h2 : alloc_file_blocks out sb n with
      | none =>
        rw [h2] at h
        simp only [Except.error.injEq] at h
        rw [← h]
      | some o =>
        cases o with
        | none =>
          rw [h2] at h
          simp only [Except.error.injEq] at h
          rw [← h]
        | some fb =>
          rw [h2] at h
          cases h

/-- In the state `image_inv` a run of the insertion ends in one of four ways: it succeeds;
it fails before an output image is created; it fails with the output image equal to the
input image; or the directory is full, and the output image is in the state for one more
inode with the root directory block as it was. -/
theorem mkfs_adder_cases (ic drs drb k : Nat) (img : List Nat)
    (hg : geometry_ok ic drs drb) (hi : image_inv ic drs drb k img)
    (name content : List Nat) (now : Nat) (mem : List Nat) :
    (∃ r, mkfs_adder img name content now mem = .ok r) ∨
    (∃ e, mkfs_adder img name content now mem = .error (e, none)) ∨
    (∃ e, mkfs_adder img name content now mem = .error (e, some img)) ∨
    (∃ out, mkfs_adder img name content now mem = .error (.directory_full, some out) ∧
      image_inv ic drs drb (k + 1) out ∧
      ∀ o m, o + m ≤ 4096 → slice out (drs * 4096 + o) m = slice img (drs * 4096 + o) m) := by
  have hfe := file_exists_inv ic drs drb k img hg hi name
  by_cases hany : (List.range 64).any (entry_matches (slice img (drs * 4096) 4096) name) = true
  · rw [if_pos hany] at hfe
    exact Or.inr (Or.inl ⟨_, mkfs_adder_exists _ _ _ _ _ hi name content now mem hfe⟩)
  rw [if_neg hany] at hfe
  have g := hg
  obtain ⟨g1, g2, g3, g4, g5, g6⟩ := g
  have hlen := hi.length_eq
  have hr : read_at img 0 116 = some (slice img 0 116) := read_at_eq_some _ _ _ (by omega)
  have hstart : mkfs_adder img name content now mem =
      match adder_update img name content now mem with
      | .ok r => .ok r
      | .error (e, out) => .error (e, some out) := by
    unfold mkfs_adder
    rw [hr]
    simp only
    rw [if_neg (by rw [hi.superblock.1]; simp), hfe, if_neg (by decide), if_neg (by decide)]
  by_cases hn : blocks_needed content.length ≤ 12
  · by_cases hfree : k + 1 < ic ∧ (blocks_needed content.length = 0 ∨
        ∃ j, j < drb ∧ bit_set (slice img 8192 4096) j = false)
    · obtain ⟨hk, hfree⟩ := hfree
      by_cases hk2 : k + 2 < 64
      · exact Or.inl (mkfs_adder_succeeds ic drs drb k img hg hi name content now mem hfe hn
          hk hk2 hfree)
      · obtain ⟨out, f, h1, h2, -, -, h5⟩ := mkfs_adder_full ic drs drb k img hg hi name content
          now mem hfe hn hk (by omega) hfree
        exact Or.inr (Or.inr (Or.inr ⟨out, h1, h2, h5⟩))
    · refine Or.inr (Or.inr (Or.inl ?_))
      have hal : ∃ e, adder_allocate img (superblock_parse (slice img 0 116))
          (blocks_needed content.length) = .error e := by
        rcases adder_allocate_inv ic drs drb k img _ hg hi hi.superblock
          (blocks_needed content.length) with ⟨c1, c2, -⟩ | ⟨c1, c2, f, -, c3, c4, -⟩ | ⟨-, c⟩
        · exact absurd ⟨c1, Or.inl c2⟩ hfree
        · exact absurd ⟨c1, Or.inr ⟨f, c3, c4⟩⟩ hfree
        · exact c
      obtain ⟨e, he⟩ := hal
      have he2 := adder_allocate_err _ _ _ e he
      obtain ⟨e1, e2⟩ := e
      simp only at he2
      subst he2
      refine ⟨e1, ?_⟩
      rw [hstart]
      unfold adder_update
      rw [hr]
      simp only
      rw [if_neg (by simp only [DIRECT_MAX]; omega), he]
  · refine Or.inr (Or.inr (Or.inl ⟨.too_many_blocks, ?_⟩))
    rw [hstart]
    unfold adder_update
    rw [hr]
    simp only
    rw [if_pos (by simp only [DIRECT_MAX]; omega)]

/-- A run of the insertion, successful or not, on an image in a state `image_inv` leaves
an image in such a state, with the first two entries of the root directory block as they
were. -/
theorem run_image_inv (ic drs drb k : Nat) (img : List Nat)
    (hg : geometry_ok ic drs drb) (hi : image_inv ic drs drb k img) (f : host_file) :
    (∃ k2, image_inv ic drs drb k2 (run_image img f)) ∧
      slice (run_image img f) (drs * 4096) 128 = slice img (drs * 4096) 128 := by
  unfold run_image
  rcases mkfs_adder_cases ic drs drb k img hg hi f.name f.content f.now f.mem with
    ⟨r, h⟩ | ⟨e, h⟩ | ⟨e, h⟩ | ⟨out, h, h2, h3⟩
  · obtain ⟨_, _, _, _, _, _, _, p7, _, eff⟩ :=
      mkfs_adder_effect ic drs drb k img hg hi f.name f.content f.now f.mem r h
    rw [h]
    refine ⟨⟨k + 1, p7⟩, ?_⟩
    have := eff.dir_rest 0 128 (Or.inl (by omega)) (by omega)
    rw [Nat.add_zero (drs * 4096)] at this
    exact this
  · rw [h]
    exact ⟨⟨k, hi⟩, rfl⟩
  · rw [h]
    exact ⟨⟨k, hi⟩, rfl⟩
  · rw [h]
    refine ⟨⟨k + 1, h2⟩, ?_⟩
    have := h3 0 128 (by omega)
    rw [Nat.add_zero (drs * 4096)] at this
    exact this

theorem run_all_inv (ic drs drb : Nat) (hg : geometry_ok ic drs drb) (files : List host_file)
    (k : Nat) (img : List Nat) (hi : image_inv ic drs drb k img) :
    (∃ k2, image_inv ic drs drb k2 (run_all img files)) ∧
      slice (run_all img files) (drs * 4096) 128 = slice img (drs * 4096) 128 := by
  induction files generalizing k img with
  | nil => exact ⟨⟨k, hi⟩, rfl⟩
  | cons f fs ih =>
    obtain ⟨⟨k2, h2⟩, h3⟩ := run_image_inv ic drs drb k img hg hi f
    obtain ⟨h4, h5⟩ := ih k2 (run_image img f) h2
    show (∃ k2, image_inv ic drs drb k2 (run_all (run_image img f) fs)) ∧
      slice (run_all (run_image img f) fs) (drs * 4096) 128 = slice img (drs * 4096) 128
    exact ⟨h4, h5.trans h3⟩

/-- The image the successful insertions of a list of files end with is the image their runs
one after another leave. -/
theorem run_all_of_insert_all (files : List host_file) (img out : List Nat) (nums : List Int)
    (h : insert_all img files = some (out, nums)) : run_all img files = out := by
  induction files generalizing img nums with
  | nil =>
    simp only [insert_all, Option.some.injEq, Prod.mk.injEq] at h
    exact h.1
  | cons f fs ih =>
    unfold insert_all at h
    cases hm : mkfs_adder img f.name f.content f.now f.mem with
    | error e => rw [hm] at h; cases h
    | ok r =>
      rw [hm] at h
      simp only at h
      cases hr : insert_all r.image fs with
      | none => rw [hr] at h; cases h
      | some p =>
        obtain ⟨out2, nums2⟩ := p
        rw [hr] at h
        simp only [Option.some.injEq, Prod.mk.injEq] at h
        obtain ⟨rfl, rfl⟩ := h
        have e : run_image img f = r.image := by
          unfold run_image
          rw [hm]
        show run_all (run_image img f) fs = out2
        rw [e]
        exact ih r.image nums2 hr

/-- C34: in the image left by any sequence of runs of the insertion program (successful or
failed) on a fresh image, slots 0 and 1 of the root directory block hold, byte for byte,
the entries "." and ".." for inode 1 that the initializer wrote; so the search for a free
entry in that block never returns slot 0 or 1. -/
theorem reserved_slots (size_kib inodes : Int) (now : Nat) (mem : List Nat)
    (img0 : List Nat) (files : List host_file)
    (h0 : mkfs_builder true size_kib inodes now mem = .ok img0) :
    slice (run_all img0 files)
        ((inode_record (run_all img0 files) 1).direct.getD 0 0 * 4096) 64 = dot_entry.bytes ∧
      slice (run_all img0 files)
        ((inode_record (run_all img0 files) 1).direct.getD 0 0 * 4096 + 64) 64 =
        dotdot_entry.bytes ∧
      slice (run_all img0 files)
          ((inode_record (run_all img0 files) 1).direct.getD 0 0 * 4096) 128 =
        slice img0 ((inode_record img0 1).direct.getD 0 0 * 4096) 128 ∧
      root_entry (run_all img0 files) 0 =
        { inode_no := 1, typ := 2, name := 0x2E :: List.replicate 57 0, checksum := 0x2D } ∧
      root_entry (run_all img0 files) 1 =
        { inode_no := 1, typ := 2, name := 0x2E :: 0x2E :: List.replicate 56 0,
          checksum := 0x03 } ∧
      ∀ j, find_free_entry (slice (run_all img0 files)
        ((inode_record (run_all img0 files) 1).direct.getD 0 0 * 4096) 4096) = some j →
        2 ≤ j := by
  obtain ⟨hv, he⟩ := builder_ok_valid _ _ _ _ _ h0
  have hg := fresh_geometry size_kib inodes hv
  have hfi := fresh_image_inv size_kib inodes now mem hv
  have hblk := (builder_image_slices size_kib inodes now mem hv).2.2.2.2.2
  rw [← he] at hfi hblk
  obtain ⟨⟨k2, hi2⟩, hsl⟩ := run_all_inv _ _ _ hg files 0 img0 hfi
  rw [root_block_inv _ _ _ _ _ hi2, root_block_inv _ _ _ _ _ hfi]
  have hs : ∀ o n, o + n ≤ 128 →
      slice (run_all img0 files) (builder_data_region_start inodes * 4096 + o) n =
        slice root_dir_block o n := by
    intro o n ho
    rw [← slice_slice _ _ 128 _ _ ho, hsl, slice_slice _ _ 128 _ _ ho,
      ← slice_slice _ _ 4096 _ _ (by omega), hblk]
  have s0 : slice (run_all img0 files) (builder_data_region_start inodes * 4096) 64 =
      dot_entry.bytes := by
    have := hs 0 64 (by omega)
    rw [Nat.add_zero (builder_data_region_start inodes * 4096)] at this
    rw [this]
    exact root_dir_block_slots.1
  have s1 : slice (run_all img0 files) (builder_data_region_start inodes * 4096 + 64) 64 =
      dotdot_entry.bytes := by
    rw [hs 64 64 (by omega)]
    exact root_dir_block_slots.2
  refine ⟨s0, s1, hsl, ?_, ?_, ?_⟩
  · rw [root_entry_inv _ _ _ _ _ hi2, show 0 * 64 = 0 from rfl,
      Nat.add_zero (builder_data_region_start inodes * 4096), s0]
    decide
  · rw [root_entry_inv _ _ _ _ _ hi2, show 1 * 64 = 64 from rfl, s1]
    decide
  · intro j hj
    by_cases hj64 : j < 64
    · unfold find_free_entry at hj
      have hp := List.find?_some hj
      rw [decide_eq_true_eq, slice_slice _ _ _ _ _ (by omega)] at hp
      have := (hi2.entries j hj64).mp hp
      omega
    · omega

/-- Witness of C34: the fresh image for 180 KiB and 128 inodes after the run that inserts
the 5000-byte file of the scenario. -/
theorem reserved_slots_witness :
    slice (run_all (builder_image 180 128 0 scenario_mem) [scenario_file])
        ((inode_record (run_all (builder_image 180 128 0 scenario_mem) [scenario_file])
          1).direct.getD 0 0 * 4096) 64 = dot_entry.bytes ∧
      slice (run_all (builder_image 180 128 0 scenario_mem) [scenario_file])
        ((inode_record (run_all (builder_image 180 128 0 scenario_mem) [scenario_file])
          1).direct.getD 0 0 * 4096 + 64) 64 = dotdot_entry.bytes :=
  have h := reserved_slots 180 128 0 scenario_mem _ [scenario_file]
    (mkfs_builder_ok 180 128 0 scenario_mem (by decide))
  ⟨h.1, h.2.1⟩

end MiniVSFS
